import Mathlib

/-!
# Fast matrix multiplication: a verification development

A shallow embedding of the dense matrix class (`matrix.hpp`), the classic
product (`multiply_classic.hpp`), dynamic peeling (`dynamic_peeling.hpp`),
the truncated polynomials in epsilon (`polynomial.hpp`) and the recursive
algorithms of Strassen, Laderman, Bini and Schonhage.

Conventions of the embedding.

* `unsigned int` values are natural numbers; every arithmetic operation the
  source performs on `unsigned int` is reduced with `u32` (modulo `2 ^ 32`).
* A `std::vector` is a `List`; a read or write through an index or iterator
  outside the vector has no defined behaviour in the source and yields `none`.
* A failed `assert` yields `none`.
* Loops are `forLoop`s over an explicit state (`forPure` where no step can fail).
* Recursive algorithms carry a fuel argument that bounds the recursion depth.
* The division of the scalar type is a parameter `sdiv` of `multiply_bini` and
  `multiply_schonhage`, and may fail.
-/

namespace FMM

/-- Reduction modulo `2 ^ 32`: the value of an `unsigned int` expression. -/
def u32 (n : Nat) : Nat := n % 4294967296

/-- The loop `for (unsigned int i = start; i < start + count; ++i) body`, threading a
state; `count` iterations are left and `i` is the current index. -/
def forLoop {σ : Type} (body : Nat → σ → Option σ) : Nat → Nat → σ → Option σ
  | 0, _, s => some s
  | count + 1, i, s => (body i s).bind (forLoop body count (i + 1))

/-- One step through two iterators: `dst[d] = f(dst[d], src[s])`. -/
def stepAt {α : Type} (f : α → α → α) (src : List α) (d s : Nat) (dst : List α) :
    Option (List α) :=
  match dst[d]?, src[s]? with
  | some x, some y => some (dst.set d (f x y))
  | _, _ => none

/-- The inner loop shared by the block operations and the classic product: for `j` in
`0 .. n`, `dst[d + j] = f(dst[d + j], src[s + j])`. -/
def zipRange {α : Type} (f : α → α → α) (src : List α) (n d s : Nat) (dst : List α) :
    Option (List α) :=
  forLoop (fun j acc => stepAt f src (d + j) (s + j) acc) n 0 dst

/-- The class `Matrix<Scalar>`: dimensions and a row-major buffer. -/
structure Matrix (α : Type) where
  rows : Nat
  cols : Nat
  data : List α
deriving DecidableEq, Repr

namespace Matrix

variable {α : Type}

/-- The default constructor: the empty matrix. -/
def empty : Matrix α := ⟨0, 0, []⟩

/-- The constructor `Matrix(rows, cols, initial_value)`; the buffer size `_rows * _cols`
is an `unsigned int` product. -/
def filled (rows cols : Nat) (initial_value : α) : Matrix α :=
  ⟨rows, cols, List.replicate (u32 (rows * cols)) initial_value⟩

/-- The static member `zeros`. -/
def zeros [Zero α] (rows cols : Nat) : Matrix α := filled rows cols 0

/-- The constructor from a flat buffer; no dimension check is performed. -/
def ofData (data : List α) (rows cols : Nat) : Matrix α := ⟨rows, cols, data⟩

/-- The cast constructor `Matrix(const Matrix<OtherScalar> A)`. -/
def cast {β : Type} (conv : β → α) (A : Matrix β) : Matrix α :=
  ⟨A.rows, A.cols, A.data.map conv⟩

/-- The element access `operator[]`: the offset `i * cols + j` is an `unsigned int`. -/
def get? (M : Matrix α) (i j : Nat) : Option α := M.data[u32 (i * M.cols + j)]?

/-- The member `transposed`. -/
def transposed [Zero α] (M : Matrix α) : Option (Matrix α) :=
  (forLoop (fun i nd => forLoop (fun j nd =>
      match M.data[u32 (i * M.cols + j)]? with
      | some x => if u32 (j * M.rows + i) < nd.length
          then some (nd.set (u32 (j * M.rows + i)) x) else none
      | none => none) M.cols 0 nd) M.rows 0
    (List.replicate (u32 (M.rows * M.cols)) (0 : α))).map
    (fun nd => ofData nd M.cols M.rows)

/-- The member `subblock(top_left, block_size)`: a fresh matrix that receives the
requested rectangle. -/
def subblock [Zero α] [Add α] (M : Matrix α) (top_left block_size : Nat × Nat) :
    Option (Matrix α) :=
  let start_row := top_left.1
  let start_col := top_left.2
  let block_rows := block_size.1
  let block_cols := block_size.2
  if u32 (start_row + block_rows) ≤ M.rows ∧ u32 (start_col + block_cols) ≤ M.cols then
    (forLoop (fun i out =>
        zipRange (fun o x => o + x) M.data block_cols (i * block_cols)
          (u32 (u32 (start_row + i) * M.cols + start_col)) out)
      block_rows 0 (List.replicate (u32 (block_rows * block_cols)) (0 : α))).map
      (fun out => ofData out block_rows block_cols)
  else none

/-- The common body of `block_add` and `block_subtract`. -/
def blockUpdate (f : α → α → α) (M : Matrix α) (top_left : Nat × Nat) (block : Matrix α) :
    Option (Matrix α) :=
  let start_row := top_left.1
  let start_col := top_left.2
  if u32 (start_row + block.rows) ≤ M.rows ∧ u32 (start_col + block.cols) ≤ M.cols then
    (forLoop (fun i dat =>
        zipRange f block.data block.cols
          (u32 (u32 (start_row + i) * M.cols + start_col)) (i * block.cols) dat)
      block.rows 0 M.data).map
      (fun dat => ⟨M.rows, M.cols, dat⟩)
  else none

/-- The member `block_add(top_left, block)`. -/
def block_add [Add α] (M : Matrix α) (top_left : Nat × Nat) (block : Matrix α) :
    Option (Matrix α) :=
  blockUpdate (fun x y => x + y) M top_left block

/-- The member `block_subtract(top_left, block)`. -/
def block_subtract [Sub α] (M : Matrix α) (top_left : Nat × Nat) (block : Matrix α) :
    Option (Matrix α) :=
  blockUpdate (fun x y => x - y) M top_left block

/-- The range-for of `operator+=` and `operator-=`: every element of `data` is combined
with the next element read through the iterator of `other`. -/
def zipAll (f : α → α → α) : List α → List α → Option (List α)
  | [], _ => some []
  | _ :: _, [] => none
  | x :: xs, y :: ys => (zipAll f xs ys).map (fun r => f x y :: r)

/-- The common body of `operator+=` and `operator-=`. -/
def elementwise (f : α → α → α) (M other : Matrix α) : Option (Matrix α) :=
  if M.rows = other.rows ∧ M.cols = other.cols then
    (zipAll f M.data other.data).map (fun dat => ⟨M.rows, M.cols, dat⟩)
  else none

/-- The operator `A + B` (a copy of `A`, then `+=`). -/
def add [Add α] (A B : Matrix α) : Option (Matrix α) := elementwise (fun x y => x + y) A B

/-- The operator `A - B` (a copy of `A`, then `-=`). -/
def sub [Sub α] (A B : Matrix α) : Option (Matrix α) := elementwise (fun x y => x - y) A B

/-- The operator `s * A` (a copy of `A`, then `*= s`, which multiplies every element by
`s` on the right). -/
def smul [Mul α] (s : α) (A : Matrix α) : Matrix α :=
  ⟨A.rows, A.cols, A.data.map (fun x => x * s)⟩

/-- The operator `/=` by a scalar, for a scalar type whose division may fail. -/
def divScalar (sdiv : α → α → Option α) (A : Matrix α) (s : α) : Option (Matrix α) :=
  (A.data.mapM (fun x => sdiv x s)).map (fun dat => ⟨A.rows, A.cols, dat⟩)

end Matrix

open Matrix

variable {α : Type}

/-- The function `multiply_classic`. -/
def multiply_classic [Zero α] [Add α] [Mul α] (A B : Matrix α) : Option (Matrix α) :=
  if A.cols = B.rows then
    (forLoop (fun i cd => forLoop (fun k cd =>
        match A.get? i k with
        | some Aik =>
            zipRange (fun c b => c + Aik * b) B.data B.cols
              (u32 (i * B.cols)) (u32 (k * B.cols)) cd
        | none => none) A.cols 0 cd) A.rows 0
      (zeros A.rows B.cols : Matrix α).data).map
      (fun cd => ⟨A.rows, B.cols, cd⟩)
  else none

/-! ## Specification vocabulary -/

/-- The list `[g 0, g 1, ..., g (n - 1)]`. -/
def tab (n : Nat) (g : Nat → α) : List α := (List.range n).map g

/-- The `r x c` matrix whose entry `(i, j)` is `f i j`, in row-major order. -/
def ofFn (r c : Nat) (f : Nat → Nat → α) : Matrix α :=
  ⟨r, c, tab (r * c) (fun p => f (p / c) (p % c))⟩

/-- The entry `(i, j)` of a matrix, read at the true offset `i * cols + j`. -/
def entry [Zero α] (M : Matrix α) (i j : Nat) : α := M.data.getD (i * M.cols + j) 0

/-- An `r x c` shape whose dimensions and number of entries are `unsigned int` values. -/
def Fits (r c : Nat) : Prop := r < 4294967296 ∧ c < 4294967296 ∧ r * c < 4294967296

/-- The matrix invariant: the buffer holds `rows * cols` scalars, and the shape fits the
`unsigned int` size type. -/
def WF (M : Matrix α) : Prop := Fits M.rows M.cols ∧ M.data.length = M.rows * M.cols

/-- The accumulation `((0 + f 0 * g 0) + f 1 * g 1) + ...` over `n` terms, in the order
in which the classic product adds them. -/
def dotAcc [Zero α] [Add α] [Mul α] (f g : Nat → α) : Nat → α
  | 0 => 0
  | n + 1 => dotAcc f g n + f n * g n

/-- The 65536 x 1 column of ones. -/
def colOnes : Matrix Int := ofData (List.replicate 65536 1) 65536 1

/-- The 1 x 65536 row of ones. -/
def rowOnes : Matrix Int := ofData (List.replicate 65536 1) 1 65536

/-- The identity matrix as the test `Classic.Idenity` builds it: a zero buffer of
`size * size` entries, then `data[i * size + i] = 1` for every `i < size`. -/
def identity (size : Nat) : Option (Matrix Int) :=
  (forLoop (fun i d =>
      if u32 (i * size + i) < d.length then some (d.set (u32 (i * size + i)) 1) else none)
    size 0 (List.replicate (u32 (size * size)) (0 : Int))).map
    (fun d => ofData d size size)

/-- The `unsigned int` difference `a - b`. -/
def usub (a b : Nat) : Nat := u32 (a + 4294967296 - b)

/-- The function `dynamic_peeling(A, B, C, n, k, m)`; the updated `C` is returned. A
division by a zero block factor has no defined result. -/
def dynamic_peeling [Zero α] [Add α] [Mul α] (A B C : Matrix α) (n k m : Nat) :
    Option (Matrix α) :=
  if A.rows = C.rows ∧ A.cols = B.rows ∧ B.cols = C.cols then
    if n = 0 ∨ k = 0 ∨ m = 0 then none else
    let included_rows_A := u32 (A.rows / n * n)
    let included_cols_A := u32 (A.cols / k * k)
    let included_rows_B := u32 (B.rows / k * k)
    let included_cols_B := u32 (B.cols / m * m)
    let need_peeling_rows_A := usub A.rows included_rows_A
    let need_peeling_cols_A := usub A.cols included_cols_A
    let need_peeling_rows_B := usub B.rows included_rows_B
    let need_peeling_cols_B := usub B.cols included_cols_B
    (if need_peeling_cols_A > 0 then
      (A.subblock (0, included_cols_A) (included_rows_A, need_peeling_cols_A)).bind
        (fun A_extra =>
      (B.subblock (included_rows_B, 0) (need_peeling_rows_B, included_cols_B)).bind
        (fun B_extra =>
      (multiply_classic A_extra B_extra).bind (fun product =>
      C.block_add (0, 0) product)))
    else some C).bind (fun C =>
    (if need_peeling_cols_B > 0 then
      (B.subblock (0, included_cols_B) (B.rows, need_peeling_cols_B)).bind (fun B_extra =>
      (multiply_classic A B_extra).bind (fun product =>
      C.block_add (0, included_cols_B) product))
    else some C).bind (fun C =>
    (if need_peeling_rows_A > 0 then
      (A.subblock (included_rows_A, 0) (need_peeling_rows_A, A.cols)).bind (fun A_extra =>
      (B.subblock (0, 0) (B.rows, included_cols_B)).bind (fun B_extra =>
      (multiply_classic A_extra B_extra).bind (fun product =>
      C.block_add (included_rows_A, 0) product)))
    else some C)))
  else none

/-- A reading of the scalars of the program in a ring: the scalar operations the
algorithms use are carried to the ring operations. -/
structure Sem (α : Type) (R : Type) [Zero α] [Add α] [Sub α] [Mul α] [Ring R] where
  den : α → R
  den_zero : den 0 = 0
  den_add : ∀ x y, den (x + y) = den x + den y
  den_sub : ∀ x y, den (x - y) = den x - den y
  den_mul : ∀ x y, den (x * y) = den x * den y

/-- The scalars of a ring read as themselves. -/
def Sem.self (α : Type) [Ring α] : Sem α α :=
  ⟨fun x => x, rfl, fun _ _ => rfl, fun _ _ => rfl, fun _ _ => rfl⟩

/-- Sequencing of two steps of which either may have no result. -/
@[noinline] def andThen {β γ : Type} (x : Option β) (f : β → Option γ) : Option γ :=
  match x with
  | none => none
  | some a => f a

/-- The constant `strassen_threshold`. -/
def strassen_threshold : Nat := 200

/-- The body of `multiply_strassen_dynamic`; `recurse` stands for the recursive calls. -/
def strassen_dynamic_body [Zero α] [Add α] [Sub α] [Mul α]
    (recurse : Matrix α → Matrix α → Option (Matrix α)) (A B : Matrix α) :
    Option (Matrix α) :=
    if A.cols = B.rows then
      if min A.rows (min A.cols B.cols) ≤ strassen_threshold then multiply_classic A B
      else
        let block_A := (A.rows / 2, A.cols / 2)
        let block_B := (B.rows / 2, B.cols / 2)
        let product_block := (A.rows / 2, B.cols / 2)
        andThen (A.subblock (0, 0) block_A) (fun A11 =>
        andThen (A.subblock (0, A.cols / 2) block_A) (fun A12 =>
        andThen (A.subblock (A.rows / 2, 0) block_A) (fun A21 =>
        andThen (A.subblock (A.rows / 2, A.cols / 2) block_A) (fun A22 =>
        andThen (B.subblock (0, 0) block_B) (fun B11 =>
        andThen (B.subblock (0, B.cols / 2) block_B) (fun B12 =>
        andThen (B.subblock (B.rows / 2, 0) block_B) (fun B21 =>
        andThen (B.subblock (B.rows / 2, B.cols / 2) block_B) (fun B22 =>
        -- P1 = (A11 + A22) (B11 + B22), added to C11 and C22
        andThen (A11.add A22) (fun X => andThen (B11.add B22) (fun Y =>
        andThen (recurse X Y) (fun P =>
        andThen ((zeros A.rows B.cols : Matrix α).block_add (0, 0) P) (fun C =>
        andThen (C.block_add product_block P) (fun C =>
        -- P2 = (A21 + A22) B11, added to C21 and subtracted from C22
        andThen (A21.add A22) (fun X =>
        andThen (recurse X B11) (fun P =>
        andThen (C.block_add (product_block.1, 0) P) (fun C =>
        andThen (C.block_subtract product_block P) (fun C =>
        -- P3 = A11 (B12 - B22), added to C12 and C22
        andThen (B12.sub B22) (fun Y =>
        andThen (recurse A11 Y) (fun P =>
        andThen (C.block_add (0, product_block.2) P) (fun C =>
        andThen (C.block_add product_block P) (fun C =>
        -- P4 = A22 (B21 - B11), added to C11 and C21
        andThen (B21.sub B11) (fun Y =>
        andThen (recurse A22 Y) (fun P =>
        andThen (C.block_add (0, 0) P) (fun C =>
        andThen (C.block_add (product_block.1, 0) P) (fun C =>
        -- P5 = (A11 + A12) B22, subtracted from C11 and added to C12
        andThen (A11.add A12) (fun X =>
        andThen (recurse X B22) (fun P =>
        andThen (C.block_subtract (0, 0) P) (fun C =>
        andThen (C.block_add (0, product_block.2) P) (fun C =>
        -- P6 = (A21 - A11) (B11 + B12), added to C22
        andThen (A21.sub A11) (fun X => andThen (B11.add B12) (fun Y =>
        andThen (recurse X Y) (fun P =>
        andThen (C.block_add product_block P) (fun C =>
        -- P7 = (A12 - A22) (B21 + B22), added to C11
        andThen (A12.sub A22) (fun X => andThen (B21.add B22) (fun Y =>
        andThen (recurse X Y) (fun P =>
        andThen (C.block_add (0, 0) P) (fun C =>
        dynamic_peeling A B C 2 2 2)))))))))))))))))))))))))))))))))))))
    else none

/-- The function `multiply_strassen_dynamic`, with a bound on the recursion depth. -/
def multiply_strassen_dynamic_fuel [Zero α] [Add α] [Sub α] [Mul α] :
    Nat → Matrix α → Matrix α → Option (Matrix α)
  | 0 => fun _ _ => none
  | fuel + 1 => strassen_dynamic_body (multiply_strassen_dynamic_fuel fuel)

/-- The function `multiply_strassen_dynamic`: the recursion halves the number of rows at
every level, so `A.rows + 1` levels are enough. -/
def multiply_strassen_dynamic [Zero α] [Add α] [Sub α] [Mul α] (A B : Matrix α) :
    Option (Matrix α) :=
  multiply_strassen_dynamic_fuel (A.rows + 1) A B

/-- The loop of `next_power_of_2`: while `n < value`, `power++`, `n *= 2` and
`assert(power < 32)`. The counter bounds the number of iterations. -/
def next_power_of_2_loop (value : Nat) : Nat → Nat → Nat → Option Nat
  | 0, _, _ => none
  | fuel + 1, power, n =>
    if n < value then
      if u32 (power + 1) < 32 then next_power_of_2_loop value fuel (u32 (power + 1)) (u32 (n * 2))
      else none
    else some n

/-- The function `next_power_of_2`: the assertion stops the loop within 31 iterations. -/
def next_power_of_2 (value : Nat) : Option Nat := next_power_of_2_loop value 32 1 2

/-- The body of `strassen` (static padding); `recurse` stands for the recursive calls. -/
def strassen_body [Zero α] [Add α] [Sub α] [Mul α]
    (recurse : Matrix α → Matrix α → Option (Matrix α)) (A B : Matrix α) :
    Option (Matrix α) :=
  if A.rows = A.cols ∧ A.cols = B.rows ∧ B.rows = B.cols then
    let size := A.rows
    if size ≤ strassen_threshold then multiply_classic A B
    else
      let new_size := size / 2
      let block := (new_size, new_size)
      andThen (A.subblock (0, 0) block) (fun A11 =>
      andThen (A.subblock (0, new_size) block) (fun A12 =>
      andThen (A.subblock (new_size, 0) block) (fun A21 =>
      andThen (A.subblock (new_size, new_size) block) (fun A22 =>
      andThen (B.subblock (0, 0) block) (fun B11 =>
      andThen (B.subblock (0, new_size) block) (fun B12 =>
      andThen (B.subblock (new_size, 0) block) (fun B21 =>
      andThen (B.subblock (new_size, new_size) block) (fun B22 =>
      -- P1 = (A11 + A22) (B11 + B22), added to C11 and C22
      andThen (A11.add A22) (fun X => andThen (B11.add B22) (fun Y =>
      andThen (recurse X Y) (fun P =>
      andThen ((zeros size size : Matrix α).block_add (0, 0) P) (fun C =>
      andThen (C.block_add (new_size, new_size) P) (fun C =>
      -- P2 = (A21 + A22) B11, added to C21 and subtracted from C22
      andThen (A21.add A22) (fun X =>
      andThen (recurse X B11) (fun P =>
      andThen (C.block_add (new_size, 0) P) (fun C =>
      andThen (C.block_subtract (new_size, new_size) P) (fun C =>
      -- P3 = A11 (B12 - B22), added to C12 and C22
      andThen (B12.sub B22) (fun Y =>
      andThen (recurse A11 Y) (fun P =>
      andThen (C.block_add (0, new_size) P) (fun C =>
      andThen (C.block_add (new_size, new_size) P) (fun C =>
      -- P4 = A22 (B21 - B11), added to C11 and C21
      andThen (B21.sub B11) (fun Y =>
      andThen (recurse A22 Y) (fun P =>
      andThen (C.block_add (0, 0) P) (fun C =>
      andThen (C.block_add (new_size, 0) P) (fun C =>
      -- P5 = (A11 + A12) B22, subtracted from C11 and added to C12
      andThen (A11.add A12) (fun X =>
      andThen (recurse X B22) (fun P =>
      andThen (C.block_subtract (0, 0) P) (fun C =>
      andThen (C.block_add (0, new_size) P) (fun C =>
      -- P6 = (A21 - A11) (B11 + B12), added to C22
      andThen (A21.sub A11) (fun X => andThen (B11.add B12) (fun Y =>
      andThen (recurse X Y) (fun P =>
      andThen (C.block_add (new_size, new_size) P) (fun C =>
      -- P7 = (A12 - A22) (B21 + B22), added to C11
      andThen (A12.sub A22) (fun X => andThen (B21.add B22) (fun Y =>
      andThen (recurse X Y) (fun P =>
      C.block_add (0, 0) P))))))))))))))))))))))))))))))))))))
  else none

/-- The function `strassen`, with a bound on the recursion depth. -/
def strassen_fuel [Zero α] [Add α] [Sub α] [Mul α] :
    Nat → Matrix α → Matrix α → Option (Matrix α)
  | 0 => fun _ _ => none
  | fuel + 1 => strassen_body (strassen_fuel fuel)

/-- The function `strassen`: the size halves at every level. -/
def strassen [Zero α] [Add α] [Sub α] [Mul α] (A B : Matrix α) : Option (Matrix α) :=
  strassen_fuel (A.rows + 1) A B

/-- The function `multiply_strassen_static`. -/
def multiply_strassen_static [Zero α] [Add α] [Sub α] [Mul α] (A B : Matrix α) :
    Option (Matrix α) :=
  if A.cols = B.rows then
    andThen (next_power_of_2 (max A.rows (max B.cols B.rows))) (fun n =>
    andThen ((zeros n n : Matrix α).block_add (0, 0) A) (fun new_A =>
    andThen ((zeros n n : Matrix α).block_add (0, 0) B) (fun new_B =>
    andThen (strassen new_A new_B) (fun product =>
    product.subblock (0, 0) (A.rows, B.cols)))))
  else none

/-- The 1 x 1 matrix with entry 1. -/
def unitOne : Matrix Int := ofData [1] 1 1

/-- The constant `laderman_threshold`. -/
def laderman_threshold : Nat := 200

/-- The operator `X + B` whose left operand is the result of an earlier operator. -/
def Matrix.addTo [Add α] (x : Option (Matrix α)) (B : Matrix α) : Option (Matrix α) :=
  andThen x (fun X => X.add B)

/-- The operator `X - B` whose left operand is the result of an earlier operator. -/
def Matrix.subFrom [Sub α] (x : Option (Matrix α)) (B : Matrix α) : Option (Matrix α) :=
  andThen x (fun X => X.sub B)

/-- The body of `multiply_laderman`; `recurse` stands for the recursive calls. The
offsets `2 * block` never exceed the dimension they index. -/
def laderman_body [Zero α] [Add α] [Sub α] [Mul α]
    (recurse : Matrix α → Matrix α → Option (Matrix α)) (A B : Matrix α) :
    Option (Matrix α) :=
  if A.cols = B.rows then
    if min A.rows (min A.cols B.cols) ≤ laderman_threshold then multiply_classic A B
    else
      let block_A := (A.rows / 3, A.cols / 3)
      let block_B := (B.rows / 3, B.cols / 3)
      andThen (A.subblock (0, 0) block_A) (fun A11 =>
      andThen (A.subblock (0, A.cols / 3) block_A) (fun A12 =>
      andThen (A.subblock (0, 2 * (A.cols / 3)) block_A) (fun A13 =>
      andThen (A.subblock (A.rows / 3, 0) block_A) (fun A21 =>
      andThen (A.subblock (A.rows / 3, A.cols / 3) block_A) (fun A22 =>
      andThen (A.subblock (A.rows / 3, 2 * (A.cols / 3)) block_A) (fun A23 =>
      andThen (A.subblock (2 * (A.rows / 3), 0) block_A) (fun A31 =>
      andThen (A.subblock (2 * (A.rows / 3), A.cols / 3) block_A) (fun A32 =>
      andThen (A.subblock (2 * (A.rows / 3), 2 * (A.cols / 3)) block_A) (fun A33 =>
      andThen (B.subblock (0, 0) block_B) (fun B11 =>
      andThen (B.subblock (0, B.cols / 3) block_B) (fun B12 =>
      andThen (B.subblock (0, 2 * (B.cols / 3)) block_B) (fun B13 =>
      andThen (B.subblock (B.rows / 3, 0) block_B) (fun B21 =>
      andThen (B.subblock (B.rows / 3, B.cols / 3) block_B) (fun B22 =>
      andThen (B.subblock (B.rows / 3, 2 * (B.cols / 3)) block_B) (fun B23 =>
      andThen (B.subblock (2 * (B.rows / 3), 0) block_B) (fun B31 =>
      andThen (B.subblock (2 * (B.rows / 3), B.cols / 3) block_B) (fun B32 =>
      andThen (B.subblock (2 * (B.rows / 3), 2 * (B.cols / 3)) block_B) (fun B33 =>
      -- P1 = (A11 + A12 + A13 - A21 - A22 - A32 - A33) (B22)
      andThen (Matrix.subFrom (Matrix.subFrom (Matrix.subFrom (Matrix.subFrom (Matrix.addTo (A11.add A12) A13) A21) A22) A32) A33) (fun X =>
      andThen (recurse X B22) (fun P =>
      andThen ((zeros A.rows B.cols : Matrix α).block_add (0, B.cols / 3) P) (fun C =>
      -- P2 = (A11 - A21) (B22 - B12)
      andThen (A11.sub A21) (fun X => andThen (B22.sub B12) (fun Y =>
      andThen (recurse X Y) (fun P =>
      andThen (C.block_add (A.rows / 3, 0) P) (fun C =>
      andThen (C.block_add (A.rows / 3, B.cols / 3) P) (fun C =>
      -- P3 = (A22) (B12 - B11 + B21 - B22 - B23 - B31 + B33)
      andThen (Matrix.addTo (Matrix.subFrom (Matrix.subFrom (Matrix.subFrom (Matrix.addTo (B12.sub B11) B21) B22) B23) B31) B33) (fun Y =>
      andThen (recurse A22 Y) (fun P =>
      andThen (C.block_add (A.rows / 3, 0) P) (fun C =>
      -- P4 = (A21 - A11 + A22) (B11 - B12 + B22)
      andThen (Matrix.addTo (A21.sub A11) A22) (fun X => andThen (Matrix.addTo (B11.sub B12) B22) (fun Y =>
      andThen (recurse X Y) (fun P =>
      andThen (C.block_add (0, B.cols / 3) P) (fun C =>
      andThen (C.block_add (A.rows / 3, 0) P) (fun C =>
      andThen (C.block_add (A.rows / 3, B.cols / 3) P) (fun C =>
      -- P5 = (A21 + A22) (B12 - B11)
      andThen (A21.add A22) (fun X => andThen (B12.sub B11) (fun Y =>
      andThen (recurse X Y) (fun P =>
      andThen (C.block_add (0, B.cols / 3) P) (fun C =>
      andThen (C.block_add (A.rows / 3, B.cols / 3) P) (fun C =>
      -- P6 = (A11) (B11)
      andThen (recurse A11 B11) (fun P =>
      andThen (C.block_add (0, 0) P) (fun C =>
      andThen (C.block_add (0, B.cols / 3) P) (fun C =>
      andThen (C.block_add (0, 2 * (B.cols / 3)) P) (fun C =>
      andThen (C.block_add (A.rows / 3, 0) P) (fun C =>
      andThen (C.block_add (A.rows / 3, B.cols / 3) P) (fun C =>
      andThen (C.block_add (2 * (A.rows / 3), 0) P) (fun C =>
      andThen (C.block_add (2 * (A.rows / 3), 2 * (B.cols / 3)) P) (fun C =>
      -- P7 = (A31 - A11 + A32) (B11 - B13 + B23)
      andThen (Matrix.addTo (A31.sub A11) A32) (fun X => andThen (Matrix.addTo (B11.sub B13) B23) (fun Y =>
      andThen (recurse X Y) (fun P =>
      andThen (C.block_add (0, 2 * (B.cols / 3)) P) (fun C =>
      andThen (C.block_add (2 * (A.rows / 3), 0) P) (fun C =>
      andThen (C.block_add (2 * (A.rows / 3), 2 * (B.cols / 3)) P) (fun C =>
      -- P8 = (A31 - A11) (B13 - B23)
      andThen (A31.sub A11) (fun X => andThen (B13.sub B23) (fun Y =>
      andThen (recurse X Y) (fun P =>
      andThen (C.block_add (2 * (A.rows / 3), 0) P) (fun C =>
      andThen (C.block_add (2 * (A.rows / 3), 2 * (B.cols / 3)) P) (fun C =>
      -- P9 = (A31 + A32) (B13 - B11)
      andThen (A31.add A32) (fun X => andThen (B13.sub B11) (fun Y =>
      andThen (recurse X Y) (fun P =>
      andThen (C.block_add (0, 2 * (B.cols / 3)) P) (fun C =>
      andThen (C.block_add (2 * (A.rows / 3), 2 * (B.cols / 3)) P) (fun C =>
      -- P10 = (A11 + A12 + A13 - A22 - A23 - A31 - A32) (B23)
      andThen (Matrix.subFrom (Matrix.subFrom (Matrix.subFrom (Matrix.subFrom (Matrix.addTo (A11.add A12) A13) A22) A23) A31) A32) (fun X =>
      andThen (recurse X B23) (fun P =>
      andThen (C.block_add (0, 2 * (B.cols / 3)) P) (fun C =>
      -- P11 = (A32) (B13 - B11 + B21 - B22 - B23 - B31 + B32)
      andThen (Matrix.addTo (Matrix.subFrom (Matrix.subFrom (Matrix.subFrom (Matrix.addTo (B13.sub B11) B21) B22) B23) B31) B32) (fun Y =>
      andThen (recurse A32 Y) (fun P =>
      andThen (C.block_add (2 * (A.rows / 3), 0) P) (fun C =>
      -- P12 = (A32 - A13 + A33) (B22 + B31 - B32)
      andThen (Matrix.addTo (A32.sub A13) A33) (fun X => andThen (Matrix.subFrom (B22.add B31) B32) (fun Y =>
      andThen (recurse X Y) (fun P =>
      andThen (C.block_add (0, B.cols / 3) P) (fun C =>
      andThen (C.block_add (2 * (A.rows / 3), 0) P) (fun C =>
      andThen (C.block_add (2 * (A.rows / 3), B.cols / 3) P) (fun C =>
      -- P13 = (A13 - A33) (B22 - B32)
      andThen (A13.sub A33) (fun X => andThen (B22.sub B32) (fun Y =>
      andThen (recurse X Y) (fun P =>
      andThen (C.block_add (2 * (A.rows / 3), 0) P) (fun C =>
      andThen (C.block_add (2 * (A.rows / 3), B.cols / 3) P) (fun C =>
      -- P14 = (A13) (B31)
      andThen (recurse A13 B31) (fun P =>
      andThen (C.block_add (0, 0) P) (fun C =>
      andThen (C.block_add (0, B.cols / 3) P) (fun C =>
      andThen (C.block_add (0, 2 * (B.cols / 3)) P) (fun C =>
      andThen (C.block_add (A.rows / 3, 0) P) (fun C =>
      andThen (C.block_add (A.rows / 3, 2 * (B.cols / 3)) P) (fun C =>
      andThen (C.block_add (2 * (A.rows / 3), 0) P) (fun C =>
      andThen (C.block_add (2 * (A.rows / 3), B.cols / 3) P) (fun C =>
      -- P15 = (A32 + A33) (B32 - B31)
      andThen (A32.add A33) (fun X => andThen (B32.sub B31) (fun Y =>
      andThen (recurse X Y) (fun P =>
      andThen (C.block_add (0, B.cols / 3) P) (fun C =>
      andThen (C.block_add (2 * (A.rows / 3), B.cols / 3) P) (fun C =>
      -- P16 = (A22 - A13 + A23) (B23 + B31 - B33)
      andThen (Matrix.addTo (A22.sub A13) A23) (fun X => andThen (Matrix.subFrom (B23.add B31) B33) (fun Y =>
      andThen (recurse X Y) (fun P =>
      andThen (C.block_add (0, 2 * (B.cols / 3)) P) (fun C =>
      andThen (C.block_add (A.rows / 3, 0) P) (fun C =>
      andThen (C.block_add (A.rows / 3, 2 * (B.cols / 3)) P) (fun C =>
      -- P17 = (A13 - A23) (B23 - B33)
      andThen (A13.sub A23) (fun X => andThen (B23.sub B33) (fun Y =>
      andThen (recurse X Y) (fun P =>
      andThen (C.block_add (A.rows / 3, 0) P) (fun C =>
      andThen (C.block_add (A.rows / 3, 2 * (B.cols / 3)) P) (fun C =>
      -- P18 = (A22 + A23) (B33 - B31)
      andThen (A22.add A23) (fun X => andThen (B33.sub B31) (fun Y =>
      andThen (recurse X Y) (fun P =>
      andThen (C.block_add (0, 2 * (B.cols / 3)) P) (fun C =>
      andThen (C.block_add (A.rows / 3, 2 * (B.cols / 3)) P) (fun C =>
      -- P19 = (A12) (B21)
      andThen (recurse A12 B21) (fun P =>
      andThen (C.block_add (0, 0) P) (fun C =>
      -- P20 = (A23) (B32)
      andThen (recurse A23 B32) (fun P =>
      andThen (C.block_add (A.rows / 3, B.cols / 3) P) (fun C =>
      -- P21 = (A21) (B13)
      andThen (recurse A21 B13) (fun P =>
      andThen (C.block_add (A.rows / 3, 2 * (B.cols / 3)) P) (fun C =>
      -- P22 = (A31) (B12)
      andThen (recurse A31 B12) (fun P =>
      andThen (C.block_add (2 * (A.rows / 3), B.cols / 3) P) (fun C =>
      -- P23 = (A33) (B33)
      andThen (recurse A33 B33) (fun P =>
      andThen (C.block_add (2 * (A.rows / 3), 2 * (B.cols / 3)) P) (fun C =>
      dynamic_peeling A B C 3 3 3))))))))))))))))))))))))))))))))))))))))))))))))))))))))))))))))))))))))))))))))))))))))))))))))))))))))))))))))))))))))
  else none

/-- The function `multiply_laderman`, with a bound on the recursion depth. -/
def multiply_laderman_fuel [Zero α] [Add α] [Sub α] [Mul α] :
    Nat → Matrix α → Matrix α → Option (Matrix α)
  | 0 => fun _ _ => none
  | fuel + 1 => laderman_body (multiply_laderman_fuel fuel)

/-- The function `multiply_laderman`: the number of rows shrinks at every level. -/
def multiply_laderman [Zero α] [Add α] [Sub α] [Mul α] (A B : Matrix α) :
    Option (Matrix α) :=
  multiply_laderman_fuel (A.rows + 1) A B

/-- A loop `for (i = start; i < start + count; ++i) body` whose body cannot fail. -/
def forPure {σ : Type} (body : Nat → σ → σ) : Nat → Nat → σ → σ
  | 0, _, s => s
  | count + 1, i, s => forPure body count (i + 1) (body i s)

/-- The class `Polynomial<Scalar>`: the vector `a` of coefficients, `a[t]` at `epsilon^t`.
Every constructor makes at least one coefficient. -/
structure Polynomial (α : Type) where
  a : List α
deriving DecidableEq, Repr

namespace Polynomial

/-- The constructor `Polynomial(a0, a1)`. -/
def linear (a0 a1 : α) : Polynomial α := ⟨[a0, a1]⟩

/-- The constructor `Polynomial(a0)`. -/
def const (a0 : α) : Polynomial α := ⟨[a0]⟩

/-- The default constructor, the zero polynomial. -/
def zero [Zero α] : Polynomial α := ⟨[0]⟩

/-- The static member `epsilon`. -/
def epsilon [Zero α] [One α] : Polynomial α := linear 0 1

/-- The coefficient at `epsilon^t`, zero past the end of the vector. -/
def coeff [Zero α] (p : Polynomial α) (t : Nat) : α := p.a.getD t 0

/-- The operator `*=` (and `*`, a copy followed by `*=`): the buffer `product` of
`a.size() + other.a.size() - 1` zeros, then `product[i + j] += a[j] * other.a[i]` for
every `i` over `other` and `j` over `a`. Every index is inside `product`. -/
def mul [Zero α] [Add α] [Mul α] (p other : Polynomial α) : Polynomial α :=
  ⟨forPure (fun i product =>
      forPure (fun j product =>
        product.set (i + j) (product.getD (i + j) 0 + p.a.getD j 0 * other.a.getD i 0))
        p.a.length 0 product)
    other.a.length 0 (List.replicate (p.a.length + other.a.length - 1) 0)⟩

/-- The loop `while (a.size() < n) a.push_back(Scalar(0))`. -/
def padTo [Zero α] (a : List α) (n : Nat) : List α := a ++ List.replicate (n - a.length) 0

/-- The common body of `+=` and `-=`: pad `a` with zeros to the length of `other`, then
`a[i] = f(a[i], other.a[i])` for `i` below the smaller of the two lengths. -/
def zipAssign [Zero α] (f : α → α → α) (p other : Polynomial α) : Polynomial α :=
  ⟨forPure (fun i a => a.set i (f (a.getD i 0) (other.a.getD i 0)))
    (min (padTo p.a other.a.length).length other.a.length) 0 (padTo p.a other.a.length)⟩

/-- The operator `+=` (and `+`). -/
def add [Zero α] [Add α] (p other : Polynomial α) : Polynomial α :=
  zipAssign (fun x y => x + y) p other

/-- The operator `-=` (and `-`). -/
def sub [Zero α] [Sub α] (p other : Polynomial α) : Polynomial α :=
  zipAssign (fun x y => x - y) p other

/-- The loop `for (i = 0; i < a.size() - k; i++) a[i] = a[i + k];` of `/=`. -/
def shiftDown [Zero α] (k : Nat) (a : List α) : List α :=
  forPure (fun i a => a.set i (a.getD (i + k) 0)) (a.length - k) 0 a

/-- The operator `/=` (and `/`): the assertion admits the divisors `epsilon` and
`epsilon^2` only; the quotient drops the lowest one or two coefficients. On an empty
`a` the bound `a.size() - 1` of the first loop wraps and the loop leaves the vector. -/
def div [Zero α] [One α] [DecidableEq α] (p other : Polynomial α) : Option (Polynomial α) :=
  if (other.a.length = 2 ∧ other.a[0]? = some 0 ∧ other.a[1]? = some 1) ∨
      (other.a.length = 3 ∧ other.a[0]? = some 0 ∧ other.a[1]? = some 0 ∧
        other.a[2]? = some 1) then
    if other.a.length = 2 then
      if p.a.length = 1 then some ⟨[0]⟩
      else if p.a.length = 0 then none
      else some ⟨(shiftDown 1 p.a).dropLast⟩
    else if other.a.length = 3 then
      if p.a.length ≤ 2 then some ⟨[0]⟩
      else some ⟨(shiftDown 2 p.a).dropLast.dropLast⟩
    else some p
  else none

instance [Zero α] : Zero (Polynomial α) := ⟨zero⟩
instance [Zero α] [Add α] : Add (Polynomial α) := ⟨add⟩
instance [Zero α] [Sub α] : Sub (Polynomial α) := ⟨sub⟩
instance [Zero α] [Add α] [Mul α] : Mul (Polynomial α) := ⟨mul⟩

end Polynomial

/-! ## Bini's algorithm (`multiply_bini.hpp`) -/

/-- The function `polynomial_to_scalar`: the constant coefficient `a[0]` of every entry. -/
def polynomial_to_scalar (A : Matrix (Polynomial α)) : Option (Matrix α) :=
  (A.data.mapM (fun p => p.a[0]?)).map (fun data => ofData data A.rows A.cols)

/-- The constant `bini_threshold`. -/
def bini_threshold : Nat := 200

/-- The recursive branch of `multiply_bini` up to, and without, the statement
`C /= epsilon`: the ten products and their accumulation in `C`; `recurse` stands for the
recursive calls (with the same `epsilon`). -/
def bini_accumulate [Zero α] [Add α] [Sub α] [Mul α]
    (recurse : Matrix α → Matrix α → Option (Matrix α)) (A B : Matrix α) (epsilon : α) :
    Option (Matrix α) :=
  let block_rows_A := A.rows / 2
  let block_cols_A := A.cols / 2
  let block_rows_B := B.rows / 2
  let block_cols_B := B.cols / 3
  let block_A := (block_rows_A, block_cols_A)
  let block_B := (block_rows_B, block_cols_B)
  andThen (A.subblock (0, 0) block_A) (fun A11 =>
  andThen (A.subblock (0, block_cols_A) block_A) (fun A12 =>
  andThen (A.subblock (block_rows_A, 0) block_A) (fun A21 =>
  andThen (A.subblock (block_rows_A, block_cols_A) block_A) (fun A22 =>
  andThen (B.subblock (0, 0) block_B) (fun B11 =>
  andThen (B.subblock (0, block_cols_B) block_B) (fun B12 =>
  andThen (B.subblock (0, u32 (2 * block_cols_B)) block_B) (fun B13 =>
  andThen (B.subblock (block_rows_B, 0) block_B) (fun B21 =>
  andThen (B.subblock (block_rows_B, block_cols_B) block_B) (fun B22 =>
  andThen (B.subblock (block_rows_B, u32 (2 * block_cols_B)) block_B) (fun B23 =>
  let block_rows_C := block_rows_A
  let block_cols_C := block_cols_B
  -- P1 = (A12 + e A22) B21; e P1 is added to C11 and P1 to C21
  andThen (A12.add (smul epsilon A22)) (fun X =>
  andThen (recurse X B21) (fun P =>
  andThen ((zeros A.rows B.cols : Matrix α).block_add (0, 0) (smul epsilon P)) (fun C =>
  andThen (C.block_add (block_rows_C, 0) P) (fun C =>
  -- P2 = A11 (B11 + e B12); e P2 is added to C11 and P2 to C12
  andThen (B11.add (smul epsilon B12)) (fun Y =>
  andThen (recurse A11 Y) (fun P =>
  andThen (C.block_add (0, 0) (smul epsilon P)) (fun C =>
  andThen (C.block_add (0, block_cols_C) P) (fun C =>
  -- P3 = A12 (B11 + B21 + e B22), subtracted from C21
  andThen (B11.add B21) (fun Y =>
  andThen (Y.add (smul epsilon B22)) (fun Y =>
  andThen (recurse A12 Y) (fun P =>
  andThen (C.block_subtract (block_rows_C, 0) P) (fun C =>
  -- P4 = (A11 + A12 + e A21) B11, subtracted from C12
  andThen (A11.add A12) (fun X =>
  andThen (X.add (smul epsilon A21)) (fun X =>
  andThen (recurse X B11) (fun P =>
  andThen (C.block_subtract (0, block_cols_C) P) (fun C =>
  -- P5 = (A12 + e A21) (B11 + e B22), added to C12 and C21
  andThen (A12.add (smul epsilon A21)) (fun X =>
  andThen (B11.add (smul epsilon B22)) (fun Y =>
  andThen (recurse X Y) (fun P =>
  andThen (C.block_add (0, block_cols_C) P) (fun C =>
  andThen (C.block_add (block_rows_C, 0) P) (fun C =>
  -- the blocks are transposed for the second half
  andThen A11.transposed (fun A11 =>
  andThen A12.transposed (fun A12 =>
  andThen A21.transposed (fun A21 =>
  andThen A22.transposed (fun A22 =>
  andThen B12.transposed (fun B12 =>
  andThen B22.transposed (fun B22 =>
  andThen B13.transposed (fun B13 =>
  andThen B23.transposed (fun B23 =>
  -- P1 = (B13 + e B12) A21, transposed back; e P1 is added to C23 and P1 to C22
  andThen (B13.add (smul epsilon B12)) (fun X =>
  andThen (recurse X A21) (fun P =>
  andThen P.transposed (fun P =>
  andThen (C.block_add (block_rows_C, u32 (2 * block_cols_C)) (smul epsilon P)) (fun C =>
  andThen (C.block_add (block_rows_C, block_cols_C) P) (fun C =>
  -- P2 = B23 (A22 + e A12); e P2 is added to C23 and P2 to C13
  andThen (A22.add (smul epsilon A12)) (fun Y =>
  andThen (recurse B23 Y) (fun P =>
  andThen P.transposed (fun P =>
  andThen (C.block_add (block_rows_C, u32 (2 * block_cols_C)) (smul epsilon P)) (fun C =>
  andThen (C.block_add (0, u32 (2 * block_cols_C)) P) (fun C =>
  -- P3 = B13 (A22 + A21 + e A11), subtracted from C22
  andThen (A22.add A21) (fun Y =>
  andThen (Y.add (smul epsilon A11)) (fun Y =>
  andThen (recurse B13 Y) (fun P =>
  andThen P.transposed (fun P =>
  andThen (C.block_subtract (block_rows_C, block_cols_C) P) (fun C =>
  -- P4 = (B23 + B13 + e B22) A22, subtracted from C13
  andThen (B23.add B13) (fun X =>
  andThen (X.add (smul epsilon B22)) (fun X =>
  andThen (recurse X A22) (fun P =>
  andThen P.transposed (fun P =>
  andThen (C.block_subtract (0, u32 (2 * block_cols_C)) P) (fun C =>
  -- P5 = (B13 + e B22) (A22 + e A11), added to C13 and C22
  andThen (B13.add (smul epsilon B22)) (fun X =>
  andThen (A22.add (smul epsilon A11)) (fun Y =>
  andThen (recurse X Y) (fun P =>
  andThen P.transposed (fun P =>
  andThen (C.block_add (0, u32 (2 * block_cols_C)) P) (fun C =>
  C.block_add (block_rows_C, block_cols_C) P
  ))))))))))))))))))))))))))))))))))))))))))))))))))))))))))))))))

/-- The body of `multiply_bini`; `sdiv` is the division of the scalar type. -/
def bini_body [Zero α] [Add α] [Sub α] [Mul α] (sdiv : α → α → Option α)
    (recurse : Matrix α → Matrix α → Option (Matrix α)) (A B : Matrix α) (epsilon : α) :
    Option (Matrix α) :=
  if A.cols = B.rows then
    if A.rows < 2 ∨ A.cols < 2 ∨ B.cols < 3 then multiply_classic A B
    else if A.rows ≤ bini_threshold ∨ A.cols ≤ bini_threshold ∨ B.cols ≤ bini_threshold then
      multiply_classic A B
    else
      andThen (bini_accumulate recurse A B epsilon) (fun C =>
      andThen (divScalar sdiv C epsilon) (fun C =>
      dynamic_peeling A B C 2 2 3))
  else none

/-- The function `multiply_bini`, with a bound on the recursion depth. -/
def multiply_bini_fuel [Zero α] [Add α] [Sub α] [Mul α] (sdiv : α → α → Option α) :
    Nat → Matrix α → Matrix α → α → Option (Matrix α)
  | 0 => fun _ _ _ => none
  | fuel + 1 => fun A B epsilon =>
    bini_body sdiv (fun X Y => multiply_bini_fuel sdiv fuel X Y epsilon) A B epsilon

/-- The function `multiply_bini`: every recursive call halves the inner dimension, so
`A.cols + 1` levels are enough. -/
def multiply_bini [Zero α] [Add α] [Sub α] [Mul α] (sdiv : α → α → Option α)
    (A B : Matrix α) (epsilon : α) : Option (Matrix α) :=
  multiply_bini_fuel sdiv (A.cols + 1) A B epsilon

/-- The function `multiply_bini_exact`: lift to polynomials, multiply with the polynomial
`epsilon`, take the constant coefficients. -/
def multiply_bini_exact [Zero α] [One α] [Add α] [Sub α] [Mul α] [DecidableEq α]
    (A B : Matrix α) : Option (Matrix α) :=
  andThen (multiply_bini Polynomial.div (cast Polynomial.const A) (cast Polynomial.const B)
    Polynomial.epsilon) polynomial_to_scalar

/-! ## Readings of matrices in a commutative ring

A matrix is read as the function from positions to the readings of its entries. The
functions below are the block operations of the algorithms on such readings. -/

/-- The block of `x` with top left corner `(sr, sc)`. -/
def sblk {R : Type} (sr sc : Nat) (x : Nat → Nat → R) : Nat → Nat → R :=
  fun i j => x (sr + i) (sc + j)

/-- The `br x bc` block `P` placed at `(sr, sc)`, zero elsewhere. -/
def place {R : Type} [Zero R] (sr sc br bc : Nat) (P : Nat → Nat → R) : Nat → Nat → R :=
  fun i j => if sr ≤ i ∧ i < sr + br ∧ sc ≤ j ∧ j < sc + bc then P (i - sr) (j - sc) else 0

/-- Transposition. -/
def str {R : Type} (P : Nat → Nat → R) : Nat → Nat → R := fun i j => P j i

/-- The product of `x` and `y` with inner dimension `c`. -/
def sdot {R : Type} [Semiring R] (c : Nat) (x y : Nat → Nat → R) : Nat → Nat → R :=
  fun i j => Finset.sum (Finset.range c) (fun l => x i l * y l j)

/-- What `dynamic_peeling` with factors `n, k, m` adds to an `r x q` result. -/
def speel {R : Type} [Semiring R] (n k m r c q : Nat) (x y : Nat → Nat → R) :
    Nat → Nat → R :=
  fun i j => if i < r / n * n ∧ j < q / m * m then
      Finset.sum (Finset.range (c - c / k * k))
        (fun l => x i (c / k * k + l) * y (c / k * k + l) j)
    else Finset.sum (Finset.range c) (fun l => x i l * y l j)

/-- A map of two matrices that is linear in each of them. -/
structure Bilin {R : Type} [CommRing R]
    (F : (Nat → Nat → R) → (Nat → Nat → R) → Nat → Nat → R) : Prop where
  add_left : ∀ x x' y, F (x + x') y = F x y + F x' y
  smul_left : ∀ (s : R) x y, F (s • x) y = s • F x y
  add_right : ∀ x y y', F x (y + y') = F x y + F x y'
  smul_right : ∀ (s : R) x y, F x (s • y) = s • F x y

/-- The six blocks of one level of Bini's algorithm on readings, after the division by
`e`: `F` and `G` are the maps computed by the recursive calls of the first and of the
second half. -/
def biniBlocks {R : Type} [CommRing R] (e : R)
    (F G : (Nat → Nat → R) → (Nat → Nat → R) → Nat → Nat → R) (r c q : Nat)
    (x y : Nat → Nat → R) : Nat → Nat → R :=
  let h := r / 2
  let hc := c / 2
  let t := q / 3
  let A11 := sblk 0 0 x
  let A12 := sblk 0 hc x
  let A21 := sblk h 0 x
  let A22 := sblk h hc x
  let B11 := sblk 0 0 y
  let B12 := sblk 0 t y
  let B13 := sblk 0 (2 * t) y
  let B21 := sblk hc 0 y
  let B22 := sblk hc t y
  let B23 := sblk hc (2 * t) y
  place 0 0 h t (F A11 B11 + F A12 B21 + e • (F A22 B21 + F A11 B12))
  + place 0 t h t (F A11 B12 + F A12 B22 + e • F A21 B22)
  + place h 0 h t (F A21 B11 + F A22 B21 + e • F A21 B22)
  + place h (2 * t) h t (str (G (str B13) (str A21) + G (str B23) (str A22)
      + e • (G (str B12) (str A21) + G (str B23) (str A12))))
  + place 0 (2 * t) h t (str (G (str B13) (str A11) + G (str B23) (str A12)
      + e • G (str B22) (str A11)))
  + place h t h t (str (G (str B12) (str A21) + G (str B22) (str A22)
      + e • G (str B22) (str A11)))

/-- One level of Bini's algorithm on readings: the six blocks and the peeling. -/
def biniLevel {R : Type} [CommRing R] (e : R)
    (F G : (Nat → Nat → R) → (Nat → Nat → R) → Nat → Nat → R) (r c q : Nat)
    (x y : Nat → Nat → R) : Nat → Nat → R :=
  biniBlocks e F G r c q x y + speel 2 2 3 r c q x y

/-- The map computed by `multiply_bini` on readings, by recursion depth and shape. -/
def biniSem {R : Type} [CommRing R] (e : R) :
    Nat → Nat → Nat → Nat → (Nat → Nat → R) → (Nat → Nat → R) → Nat → Nat → R
  | 0, _, _, _ => fun _ _ _ _ => 0
  | fuel + 1, r, c, q => fun x y =>
    if (r < 2 ∨ c < 2 ∨ q < 3) ∨ (r ≤ bini_threshold ∨ c ≤ bini_threshold ∨
        q ≤ bini_threshold) then sdot c x y
    else biniLevel e (biniSem e fuel (r / 2) (c / 2) (q / 3))
      (biniSem e fuel (q / 3) (c / 2) (r / 2)) r c q x y

/-- A reading of a scalar type with a division by `eps`: `Q` holds of the scalars that can
be divided, the quotient is read as `D` of the reading, and `D` undoes the multiplication
by the reading `e` of `eps`. -/
structure EpsDiv {R : Type} [Zero α] [Add α] [Sub α] [Mul α] [CommRing R] (S : Sem α R)
    (Q : α → Prop) (sdiv : α → α → Option α) (eps : α) (e : R) (D : R → R) : Prop where
  den_eps : S.den eps = e
  Q_zero : Q 0
  Q_add : ∀ a b, Q a → Q (a + b)
  Q_sub : ∀ a b, Q a → Q (a - b)
  div_ok : ∀ p, Q p → ∃ p', sdiv p eps = some p' ∧ Q p' ∧ S.den p' = D (S.den p)
  D_eps : ∀ t, D (e * t) = t
  D_add : ∀ u v, D (u + v) = D u + D v
  D_sub : ∀ u v, D (u - v) = D u - D v

/-! ## Schonhage's algorithm (`multiply_schonhage.hpp`) -/

/-- The constant `schonhage_threshold`. -/
def schonhage_threshold : Nat := 200

/-- A 3 x 3 vector of vectors of matrices with the entry `[j][k]` replaced. -/
def setGrid (C : Nat → Nat → Matrix α) (j k : Nat) (M : Matrix α) : Nat → Nat → Matrix α :=
  fun a b => if a = j ∧ b = k then M else C a b

/-- The 3 x 3 vector of vectors holding the nine given blocks. -/
def grid9 (M11 M12 M13 M21 M22 M23 M31 M32 M33 : Matrix α) : Nat → Nat → Matrix α :=
  fun i j =>
    match i, j with
    | 0, 0 => M11 | 0, 1 => M12 | 0, 2 => M13
    | 1, 0 => M21 | 1, 1 => M22 | 1, 2 => M23
    | 2, 0 => M31 | 2, 1 => M32 | 2, 2 => M33
    | _, _ => Matrix.empty

/-- The body of the loop over `j` of `multiply_schonhage`, for given `i` and `W`. -/
def schonhage_step [Zero α] [Add α] [Sub α] [Mul α] (sdiv : α → α → Option α)
    (recurse : Matrix α → Matrix α → Option (Matrix α)) (epsilon epsilon2 : α)
    (A B : Nat → Nat → Matrix α) (i : Nat) (W : Matrix α) (j : Nat)
    (C : Nat → Nat → Matrix α) : Option (Nat → Nat → Matrix α) :=
  andThen
    (if j = i then
      -- Uii
      andThen ((A i 0).add (smul epsilon2 (A i 1))) (fun X =>
      andThen ((smul epsilon2 (B 0 i)).add (B 1 i)) (fun Y =>
      andThen (recurse X Y) (fun U =>
      -- Vii
      andThen ((A i 0).add (smul epsilon2 (A i 2))) (fun X =>
      andThen (recurse X (B 2 i)) (fun V =>
      andThen (divScalar sdiv V epsilon) (fun to_subtract =>
      -- subtract Vjj from all Cjk with k != j
      andThen (forLoop (fun k C =>
          if k ≠ j then andThen ((C j k).sub to_subtract) (fun M => some (setGrid C j k M))
          else some C) 3 0 C) (fun C =>
      some (U, V, C))))))))
    else
      -- Uij
      andThen ((A i 0).add (smul epsilon2 (A j 1))) (fun X =>
      andThen ((B 1 i).sub (smul epsilon (B 0 j))) (fun Y =>
      andThen (recurse X Y) (fun U =>
      -- Vij
      andThen ((A i 0).add (smul epsilon2 (A j 2))) (fun X =>
      andThen ((B 2 i).add (smul epsilon (B 0 j))) (fun Y =>
      andThen (recurse X Y) (fun V =>
      andThen (divScalar sdiv V epsilon) (fun to_add =>
      andThen ((C i j).add to_add) (fun M =>
      some (U, V, setGrid C i j M))))))))))
    (fun UVC =>
      -- 1/epsilon^2 (Uij + Vij - Wi)
      andThen (UVC.1.add UVC.2.1) (fun T =>
      andThen (T.sub W) (fun to_add =>
      andThen (divScalar sdiv to_add epsilon2) (fun to_add =>
      andThen ((UVC.2.2 j i).add to_add) (fun M =>
      some (setGrid UVC.2.2 j i M))))))

/-- The recursive branch of `multiply_schonhage` up to the nine blocks `C[i][j]`: the
subblocks, the zero blocks, and the loops over `i` and `j`. -/
def schonhage_products [Zero α] [Add α] [Sub α] [Mul α] (sdiv : α → α → Option α)
    (recurse : Matrix α → Matrix α → Option (Matrix α)) (A_ B_ : Matrix α) (epsilon : α) :
    Option (Nat → Nat → Matrix α) :=
  let block_rows_A := A_.rows / 3
  let block_cols_A := A_.cols / 3
  let block_rows_B := B_.rows / 3
  let block_cols_B := B_.cols / 3
  let block_A := (block_rows_A, block_cols_A)
  let block_B := (block_rows_B, block_cols_B)
  andThen (A_.subblock (0, 0) block_A) (fun A11 =>
  andThen (A_.subblock (0, block_cols_A) block_A) (fun A12 =>
  andThen (A_.subblock (0, u32 (2 * block_cols_A)) block_A) (fun A13 =>
  andThen (A_.subblock (block_rows_A, 0) block_A) (fun A21 =>
  andThen (A_.subblock (block_rows_A, block_cols_A) block_A) (fun A22 =>
  andThen (A_.subblock (block_rows_A, u32 (2 * block_cols_A)) block_A) (fun A23 =>
  andThen (A_.subblock (u32 (2 * block_rows_A), 0) block_A) (fun A31 =>
  andThen (A_.subblock (u32 (2 * block_rows_A), block_cols_A) block_A) (fun A32 =>
  andThen (A_.subblock (u32 (2 * block_rows_A), u32 (2 * block_cols_A)) block_A) (fun A33 =>
  andThen (B_.subblock (0, 0) block_B) (fun B11 =>
  andThen (B_.subblock (0, block_cols_B) block_B) (fun B12 =>
  andThen (B_.subblock (0, u32 (2 * block_cols_B)) block_B) (fun B13 =>
  andThen (B_.subblock (block_rows_B, 0) block_B) (fun B21 =>
  andThen (B_.subblock (block_rows_B, block_cols_B) block_B) (fun B22 =>
  andThen (B_.subblock (block_rows_B, u32 (2 * block_cols_B)) block_B) (fun B23 =>
  andThen (B_.subblock (u32 (2 * block_rows_B), 0) block_B) (fun B31 =>
  andThen (B_.subblock (u32 (2 * block_rows_B), block_cols_B) block_B) (fun B32 =>
  andThen (B_.subblock (u32 (2 * block_rows_B), u32 (2 * block_cols_B)) block_B) (fun B33 =>
  let A := grid9 A11 A12 A13 A21 A22 A23 A31 A32 A33
  let B := grid9 B11 B12 B13 B21 B22 B23 B31 B32 B33
  let C : Nat → Nat → Matrix α := fun _ _ => zeros block_rows_A block_cols_B
  let epsilon2 := epsilon * epsilon
  forLoop (fun i C =>
    -- Wi
    andThen ((B 1 i).add (B 2 i)) (fun Y =>
    andThen (recurse (A i 0) Y) (fun W =>
    forLoop (fun j C => schonhage_step sdiv recurse epsilon epsilon2 A B i W j C) 3 0 C)))
    3 0 C))))))))))))))))))

/-- The body of `multiply_schonhage`. -/
def schonhage_body [Zero α] [Add α] [Sub α] [Mul α] (sdiv : α → α → Option α)
    (recurse : Matrix α → Matrix α → Option (Matrix α)) (A_ B_ : Matrix α) (epsilon : α) :
    Option (Matrix α) :=
  if A_.cols = B_.rows then
    if A_.rows < 3 ∨ A_.cols < 3 ∨ B_.cols < 3 then multiply_classic A_ B_
    else if A_.rows ≤ schonhage_threshold ∨ A_.cols ≤ schonhage_threshold ∨
        B_.cols ≤ schonhage_threshold then multiply_classic A_ B_
    else
      andThen (schonhage_products sdiv recurse A_ B_ epsilon) (fun C =>
      -- join the blocks of C into a single matrix
      andThen (forLoop (fun i C_ => forLoop (fun j C_ =>
          C_.block_add (u32 (A_.rows / 3 * i), u32 (B_.cols / 3 * j)) (C i j)) 3 0 C_)
        3 0 (zeros A_.rows B_.cols)) (fun C_ =>
      dynamic_peeling A_ B_ C_ 3 3 3))
  else none

/-- The function `multiply_schonhage`, with a bound on the recursion depth. -/
def multiply_schonhage_fuel [Zero α] [Add α] [Sub α] [Mul α] (sdiv : α → α → Option α) :
    Nat → Matrix α → Matrix α → α → Option (Matrix α)
  | 0 => fun _ _ _ => none
  | fuel + 1 => fun A B epsilon =>
    schonhage_body sdiv (fun X Y => multiply_schonhage_fuel sdiv fuel X Y epsilon) A B epsilon

/-- The function `multiply_schonhage`: the number of rows shrinks at every level. -/
def multiply_schonhage [Zero α] [Add α] [Sub α] [Mul α] (sdiv : α → α → Option α)
    (A B : Matrix α) (epsilon : α) : Option (Matrix α) :=
  multiply_schonhage_fuel sdiv (A.rows + 1) A B epsilon

/-- The function `multiply_schonhage_exact`. -/
def multiply_schonhage_exact [Zero α] [One α] [Add α] [Sub α] [Mul α] [DecidableEq α]
    (A B : Matrix α) : Option (Matrix α) :=
  andThen (multiply_schonhage Polynomial.div (Matrix.cast Polynomial.const A)
    (Matrix.cast Polynomial.const B) Polynomial.epsilon) polynomial_to_scalar

/-- The offset of the block with index `i` among three blocks of size `h`. -/
def off3 (h : Nat) (i : Nat) : Nat :=
  match i with
  | 0 => 0
  | 1 => h
  | _ => 2 * h

/-- The diagonal block `C[a][a]` of one level of Schonhage's algorithm on readings, after
the divisions; `F` is the map computed by the recursive calls. -/
def schonDiag {R : Type} [CommRing R] (e : R)
    (F : (Nat → Nat → R) → (Nat → Nat → R) → Nat → Nat → R) (r c q : Nat)
    (x y : Nat → Nat → R) (a : Nat) : Nat → Nat → R :=
  let A := fun i j => sblk (off3 (r / 3) i) (off3 (c / 3) j) x
  let B := fun i j => sblk (off3 (c / 3) i) (off3 (q / 3) j) y
  F (A a 0) (B 0 a) + F (A a 1) (B 1 a) + F (A a 2) (B 2 a) + (e * e) • F (A a 1) (B 0 a)

/-- The block `C[a][b]` off the diagonal of one level of Schonhage's algorithm on
readings, after the divisions. -/
def schonOff {R : Type} [CommRing R] (e : R)
    (F : (Nat → Nat → R) → (Nat → Nat → R) → Nat → Nat → R) (r c q : Nat)
    (x y : Nat → Nat → R) (a b : Nat) : Nat → Nat → R :=
  let A := fun i j => sblk (off3 (r / 3) i) (off3 (c / 3) j) x
  let B := fun i j => sblk (off3 (c / 3) i) (off3 (q / 3) j) y
  F (A a 0) (B 0 b) + F (A a 1) (B 1 b) + F (A a 2) (B 2 b)
    + e • (F (A a 2) (B 0 a) - F (A a 1) (B 0 a) + F (A b 2) (B 2 a) - F (A a 2) (B 2 a))
    + (e * e) • F (A b 2) (B 0 b)

/-- The block `C[a][b]` of one level of Schonhage's algorithm on readings. -/
def schonCell {R : Type} [CommRing R] (e : R)
    (F : (Nat → Nat → R) → (Nat → Nat → R) → Nat → Nat → R) (r c q : Nat)
    (x y : Nat → Nat → R) (a b : Nat) : Nat → Nat → R :=
  if a = b then schonDiag e F r c q x y a else schonOff e F r c q x y a b

/-- The nine blocks of one level of Schonhage's algorithm on readings, joined. -/
def schonBlocks {R : Type} [CommRing R] (e : R)
    (F : (Nat → Nat → R) → (Nat → Nat → R) → Nat → Nat → R) (r c q : Nat)
    (x y : Nat → Nat → R) : Nat → Nat → R :=
  let P := fun a b => place (off3 (r / 3) a) (off3 (q / 3) b) (r / 3) (q / 3)
    (schonCell e F r c q x y a b)
  P 0 0 + P 0 1 + P 0 2 + P 1 0 + P 1 1 + P 1 2 + P 2 0 + P 2 1 + P 2 2

/-- One level of Schonhage's algorithm on readings: the nine blocks and the peeling. -/
def schonLevel {R : Type} [CommRing R] (e : R)
    (F : (Nat → Nat → R) → (Nat → Nat → R) → Nat → Nat → R) (r c q : Nat)
    (x y : Nat → Nat → R) : Nat → Nat → R :=
  schonBlocks e F r c q x y + speel 3 3 3 r c q x y

/-- The map computed by `multiply_schonhage` on readings, by recursion depth and shape. -/
def schonSem {R : Type} [CommRing R] (e : R) :
    Nat → Nat → Nat → Nat → (Nat → Nat → R) → (Nat → Nat → R) → Nat → Nat → R
  | 0, _, _, _ => fun _ _ _ _ => 0
  | fuel + 1, r, c, q => fun x y =>
    if (r < 3 ∨ c < 3 ∨ q < 3) ∨ (r ≤ schonhage_threshold ∨ c ≤ schonhage_threshold ∨
        q ≤ schonhage_threshold) then sdot c x y
    else schonLevel e (schonSem e fuel (r / 3) (c / 3) (q / 3)) r c q x y

/-- A reading of a scalar type with a division by `eps * eps`: the quotient of a scalar of
which `Q` holds is read as `D2` of the reading, and `D2` undoes the multiplication by
`e * e`. -/
structure Eps2Div {R : Type} [Zero α] [Add α] [Sub α] [Mul α] [CommRing R] (S : Sem α R)
    (Q : α → Prop) (sdiv : α → α → Option α) (eps : α) (e : R) (D2 : R → R) : Prop where
  div2_ok : ∀ p, Q p → ∃ p', sdiv p (eps * eps) = some p' ∧ Q p' ∧ S.den p' = D2 (S.den p)
  D2_eps : ∀ t, D2 (e * (e * t)) = t
  D2_add : ∀ u v, D2 (u + v) = D2 u + D2 v
  D2_sub : ∀ u v, D2 (u - v) = D2 u - D2 v

/-- Every result that the call returns satisfies `P`. -/
def Returns {β : Type} (P : β → Prop) (o : Option β) : Prop := ∀ x, o = some x → P x

/-- The 2 x 2 integer matrix with rows `1 2` and `3 4`. -/
def sample : Matrix Int := ofData [1, 2, 3, 4] 2 2

/-! ## Statements about the inside of a run

A statement about every call inside a run is made with a watched variant of the callee,
which fails on the arguments that the statement excludes; a statement about every division
is made for every division function that agrees with the division of the program on the
divisors in question; the intermediate matrices of one iteration of `multiply_schonhage`
are named by definitions that follow the text of the loop body. -/

/-- Whether `n` is one of the powers of two `2 ^ 0, ..., 2 ^ 31` of the size type. -/
def isPow2 (n : Nat) : Bool := (List.range 32).any (fun t => n == 2 ^ t)

/-- What `strassen` assumes of its arguments: two square matrices of the same size, and
that size a power of two. -/
def squarePow2 (X Y : Matrix α) : Bool :=
  decide (X.rows = X.cols ∧ X.cols = Y.rows ∧ Y.rows = Y.cols) && isPow2 X.rows

/-- The function `strassen` with a watch on the arguments of every call, the recursive
ones included: a call on arguments that are not `squarePow2` fails. -/
def strassen_watched_fuel [Zero α] [Add α] [Sub α] [Mul α] :
    Nat → Matrix α → Matrix α → Option (Matrix α)
  | 0 => fun _ _ => none
  | fuel + 1 => fun A B =>
    if squarePow2 A B then strassen_body (strassen_watched_fuel fuel) A B else none

/-- The watched `strassen` with the recursion depth of `strassen`. -/
def strassen_watched [Zero α] [Add α] [Sub α] [Mul α] (A B : Matrix α) : Option (Matrix α) :=
  strassen_watched_fuel (A.rows + 1) A B

/-- The 201 x 201 matrix of polynomials whose every entry is the constant `1`. -/
def ones201 : Matrix (Polynomial Int) := filled 201 201 (Polynomial.const 1)

/-- The reading `x` carried along a map `f` of the scalars. -/
def smap {R R0 : Type} (f : R → R0) (x : Nat → Nat → R) : Nat → Nat → R0 :=
  fun i j => f (x i j)

/-- The 2 x 2 rational matrix with rows `1 2` and `3 4`. -/
def sampleQ : Matrix ℚ := ofData [1, 2, 3, 4] 2 2

/-- The product `W` of the iteration `i` of `multiply_schonhage`; `A` and `B` are the
vectors of blocks. -/
def schonhage_W [Add α] (recurse : Matrix α → Matrix α → Option (Matrix α))
    (A B : Nat → Nat → Matrix α) (i : Nat) : Option (Matrix α) :=
  andThen ((B 1 i).add (B 2 i)) (fun Y => recurse (A i 0) Y)

/-- The product `U` of the iteration `(i, j)` of `multiply_schonhage`: `Uii` when `j = i`,
`Uij` otherwise. -/
def schonhage_U [Add α] [Sub α] [Mul α] (recurse : Matrix α → Matrix α → Option (Matrix α))
    (epsilon epsilon2 : α) (A B : Nat → Nat → Matrix α) (i j : Nat) : Option (Matrix α) :=
  if j = i then
    andThen ((A i 0).add (smul epsilon2 (A i 1))) (fun X =>
    andThen ((smul epsilon2 (B 0 i)).add (B 1 i)) (fun Y =>
    recurse X Y))
  else
    andThen ((A i 0).add (smul epsilon2 (A j 1))) (fun X =>
    andThen ((B 1 i).sub (smul epsilon (B 0 j))) (fun Y =>
    recurse X Y))

/-- The product `V` of the iteration `(i, j)` of `multiply_schonhage`, `Vii` when `j = i`
and `Vij` otherwise: the matrix that is copied and divided by `epsilon`. -/
def schonhage_V [Add α] [Sub α] [Mul α] (recurse : Matrix α → Matrix α → Option (Matrix α))
    (epsilon epsilon2 : α) (A B : Nat → Nat → Matrix α) (i j : Nat) : Option (Matrix α) :=
  if j = i then
    andThen ((A i 0).add (smul epsilon2 (A i 2))) (fun X =>
    recurse X (B 2 i))
  else
    andThen ((A i 0).add (smul epsilon2 (A j 2))) (fun X =>
    andThen ((B 2 i).add (smul epsilon (B 0 j))) (fun Y =>
    recurse X Y))

/-- The matrix `to_add = U + V - W` of `multiply_schonhage`, which is divided by
`epsilon2`. -/
def schonhage_UVW [Add α] [Sub α] (U V W : Matrix α) : Option (Matrix α) :=
  andThen (U.add V) (fun T => T.sub W)

/-- The 67 x 67 matrix of polynomials whose every entry is the constant `1`: each of the
nine blocks of `ones201`. -/
def ones67 : Matrix (Polynomial Int) := filled 67 67 (Polynomial.const 1)

/-- The value of a polynomial at `epsilon = t`: the sum of `a[n] * t ^ n`, by Horner's
rule. -/
def Polynomial.evalAt [Zero α] [Add α] [Mul α] (p : Polynomial α) (t : α) : α :=
  p.a.foldr (fun c acc => c + t * acc) 0

/-- A matrix with at most `r` rows and at most `c` columns. -/
def Within (r c : Nat) (M : Matrix α) : Prop := M.rows ≤ r ∧ M.cols ≤ c

/-- A call that, if it returns, returns a matrix with at most `r` rows and `c` columns. -/
def OWithin (r c : Nat) (x : Option (Matrix α)) : Prop := ∀ M, x = some M → Within r c M

/-- The 201 x 201 matrix of integer ones. -/
def intOnes201 : Matrix Int := filled 201 201 1

/-- A callee that is run only on operands whose largest dimension (rows of the left
operand, shared inner dimension, columns of the right operand) is strictly smaller than the
largest dimension of the calling frame `A`, `B`; any other call has no result. -/
def smallerOnly (A B : Matrix α) (recurse : Matrix α → Matrix α → Option (Matrix α)) :
    Matrix α → Matrix α → Option (Matrix α) :=
  fun X Y =>
    if max X.rows (max X.cols Y.cols) < max A.rows (max A.cols B.cols) then recurse X Y
    else none

/-- The left operand of the first recursive call of `multiply_laderman`, as executed:
`A11 + A12 + A13 - A21 - A22 - A32 - A33`. -/
def laderman_P1_operand [Add α] [Sub α] (A11 A12 A13 A21 A22 A32 A33 : Matrix α) :
    Option (Matrix α) :=
  Matrix.subFrom (Matrix.subFrom (Matrix.subFrom (Matrix.subFrom
    (Matrix.addTo (A11.add A12) A13) A21) A22) A32) A33

/-- The left operand of the first product as the inline documentation of
`multiply_laderman` words it: `A11 + A12 + A13 - A21 - A22 - A32`. -/
def laderman_P1_documented [Add α] [Sub α] (A11 A12 A13 A21 A22 A32 : Matrix α) :
    Option (Matrix α) :=
  Matrix.subFrom (Matrix.subFrom (Matrix.subFrom
    (Matrix.addTo (A11.add A12) A13) A21) A22) A32

/-- How a run of the loop of `next_power_of_2` stands after a number of iterations: the
function has returned `n`, the assertion `power < 32` has failed, or the loop is still
running. -/
inductive LoopEnd where
  | returned (n : Nat)
  | assertion_failed
  | still_running
deriving DecidableEq, Repr

/-- The result of a run that has ended by `return n`; a failed assertion and a loop that
is still running give no result. -/
def LoopEnd.result : LoopEnd → Option Nat
  | LoopEnd.returned n => some n
  | LoopEnd.assertion_failed => none
  | LoopEnd.still_running => none

/-- The loop of `next_power_of_2`, `while (n < value) { power++; n *= 2;
assert(power < 32); } return n;`, run for at most `count` iterations, with the way it
ends. -/
def next_power_of_2_run (value : Nat) : Nat → Nat → Nat → LoopEnd
  | 0, _, n => if n < value then LoopEnd.still_running else LoopEnd.returned n
  | count + 1, power, n =>
    if n < value then
      if u32 (power + 1) < 32 then
        next_power_of_2_run value count (u32 (power + 1)) (u32 (n * 2))
      else LoopEnd.assertion_failed
    else LoopEnd.returned n

/-- The body of `multiply_laderman` with its recursive calls numbered in the order of the
source: `recurse k` stands for the call that computes the product `Pk`, so that a
statement can tell the 23 products apart. With the same callee at every number it is
`laderman_body`. -/
def laderman_calls [Zero α] [Add α] [Sub α] [Mul α]
    (recurse : Nat → Matrix α → Matrix α → Option (Matrix α)) (A B : Matrix α) :
    Option (Matrix α) :=
  if A.cols = B.rows then
    if min A.rows (min A.cols B.cols) ≤ laderman_threshold then multiply_classic A B
    else
      let block_A := (A.rows / 3, A.cols / 3)
      let block_B := (B.rows / 3, B.cols / 3)
      andThen (A.subblock (0, 0) block_A) (fun A11 =>
      andThen (A.subblock (0, A.cols / 3) block_A) (fun A12 =>
      andThen (A.subblock (0, 2 * (A.cols / 3)) block_A) (fun A13 =>
      andThen (A.subblock (A.rows / 3, 0) block_A) (fun A21 =>
      andThen (A.subblock (A.rows / 3, A.cols / 3) block_A) (fun A22 =>
      andThen (A.subblock (A.rows / 3, 2 * (A.cols / 3)) block_A) (fun A23 =>
      andThen (A.subblock (2 * (A.rows / 3), 0) block_A) (fun A31 =>
      andThen (A.subblock (2 * (A.rows / 3), A.cols / 3) block_A) (fun A32 =>
      andThen (A.subblock (2 * (A.rows / 3), 2 * (A.cols / 3)) block_A) (fun A33 =>
      andThen (B.subblock (0, 0) block_B) (fun B11 =>
      andThen (B.subblock (0, B.cols / 3) block_B) (fun B12 =>
      andThen (B.subblock (0, 2 * (B.cols / 3)) block_B) (fun B13 =>
      andThen (B.subblock (B.rows / 3, 0) block_B) (fun B21 =>
      andThen (B.subblock (B.rows / 3, B.cols / 3) block_B) (fun B22 =>
      andThen (B.subblock (B.rows / 3, 2 * (B.cols / 3)) block_B) (fun B23 =>
      andThen (B.subblock (2 * (B.rows / 3), 0) block_B) (fun B31 =>
      andThen (B.subblock (2 * (B.rows / 3), B.cols / 3) block_B) (fun B32 =>
      andThen (B.subblock (2 * (B.rows / 3), 2 * (B.cols / 3)) block_B) (fun B33 =>
      -- P1 = (A11 + A12 + A13 - A21 - A22 - A32 - A33) (B22)
      andThen (Matrix.subFrom (Matrix.subFrom (Matrix.subFrom (Matrix.subFrom (Matrix.addTo (A11.add A12) A13) A21) A22) A32) A33) (fun X =>
      andThen (recurse 1 X B22) (fun P =>
      andThen ((zeros A.rows B.cols : Matrix α).block_add (0, B.cols / 3) P) (fun C =>
      -- P2 = (A11 - A21) (B22 - B12)
      andThen (A11.sub A21) (fun X => andThen (B22.sub B12) (fun Y =>
      andThen (recurse 2 X Y) (fun P =>
      andThen (C.block_add (A.rows / 3, 0) P) (fun C =>
      andThen (C.block_add (A.rows / 3, B.cols / 3) P) (fun C =>
      -- P3 = (A22) (B12 - B11 + B21 - B22 - B23 - B31 + B33)
      andThen (Matrix.addTo (Matrix.subFrom (Matrix.subFrom (Matrix.subFrom (Matrix.addTo (B12.sub B11) B21) B22) B23) B31) B33) (fun Y =>
      andThen (recurse 3 A22 Y) (fun P =>
      andThen (C.block_add (A.rows / 3, 0) P) (fun C =>
      -- P4 = (A21 - A11 + A22) (B11 - B12 + B22)
      andThen (Matrix.addTo (A21.sub A11) A22) (fun X => andThen (Matrix.addTo (B11.sub B12) B22) (fun Y =>
      andThen (recurse 4 X Y) (fun P =>
      andThen (C.block_add (0, B.cols / 3) P) (fun C =>
      andThen (C.block_add (A.rows / 3, 0) P) (fun C =>
      andThen (C.block_add (A.rows / 3, B.cols / 3) P) (fun C =>
      -- P5 = (A21 + A22) (B12 - B11)
      andThen (A21.add A22) (fun X => andThen (B12.sub B11) (fun Y =>
      andThen (recurse 5 X Y) (fun P =>
      andThen (C.block_add (0, B.cols / 3) P) (fun C =>
      andThen (C.block_add (A.rows / 3, B.cols / 3) P) (fun C =>
      -- P6 = (A11) (B11)
      andThen (recurse 6 A11 B11) (fun P =>
      andThen (C.block_add (0, 0) P) (fun C =>
      andThen (C.block_add (0, B.cols / 3) P) (fun C =>
      andThen (C.block_add (0, 2 * (B.cols / 3)) P) (fun C =>
      andThen (C.block_add (A.rows / 3, 0) P) (fun C =>
      andThen (C.block_add (A.rows / 3, B.cols / 3) P) (fun C =>
      andThen (C.block_add (2 * (A.rows / 3), 0) P) (fun C =>
      andThen (C.block_add (2 * (A.rows / 3), 2 * (B.cols / 3)) P) (fun C =>
      -- P7 = (A31 - A11 + A32) (B11 - B13 + B23)
      andThen (Matrix.addTo (A31.sub A11) A32) (fun X => andThen (Matrix.addTo (B11.sub B13) B23) (fun Y =>
      andThen (recurse 7 X Y) (fun P =>
      andThen (C.block_add (0, 2 * (B.cols / 3)) P) (fun C =>
      andThen (C.block_add (2 * (A.rows / 3), 0) P) (fun C =>
      andThen (C.block_add (2 * (A.rows / 3), 2 * (B.cols / 3)) P) (fun C =>
      -- P8 = (A31 - A11) (B13 - B23)
      andThen (A31.sub A11) (fun X => andThen (B13.sub B23) (fun Y =>
      andThen (recurse 8 X Y) (fun P =>
      andThen (C.block_add (2 * (A.rows / 3), 0) P) (fun C =>
      andThen (C.block_add (2 * (A.rows / 3), 2 * (B.cols / 3)) P) (fun C =>
      -- P9 = (A31 + A32) (B13 - B11)
      andThen (A31.add A32) (fun X => andThen (B13.sub B11) (fun Y =>
      andThen (recurse 9 X Y) (fun P =>
      andThen (C.block_add (0, 2 * (B.cols / 3)) P) (fun C =>
      andThen (C.block_add (2 * (A.rows / 3), 2 * (B.cols / 3)) P) (fun C =>
      -- P10 = (A11 + A12 + A13 - A22 - A23 - A31 - A32) (B23)
      andThen (Matrix.subFrom (Matrix.subFrom (Matrix.subFrom (Matrix.subFrom (Matrix.addTo (A11.add A12) A13) A22) A23) A31) A32) (fun X =>
      andThen (recurse 10 X B23) (fun P =>
      andThen (C.block_add (0, 2 * (B.cols / 3)) P) (fun C =>
      -- P11 = (A32) (B13 - B11 + B21 - B22 - B23 - B31 + B32)
      andThen (Matrix.addTo (Matrix.subFrom (Matrix.subFrom (Matrix.subFrom (Matrix.addTo (B13.sub B11) B21) B22) B23) B31) B32) (fun Y =>
      andThen (recurse 11 A32 Y) (fun P =>
      andThen (C.block_add (2 * (A.rows / 3), 0) P) (fun C =>
      -- P12 = (A32 - A13 + A33) (B22 + B31 - B32)
      andThen (Matrix.addTo (A32.sub A13) A33) (fun X => andThen (Matrix.subFrom (B22.add B31) B32) (fun Y =>
      andThen (recurse 12 X Y) (fun P =>
      andThen (C.block_add (0, B.cols / 3) P) (fun C =>
      andThen (C.block_add (2 * (A.rows / 3), 0) P) (fun C =>
      andThen (C.block_add (2 * (A.rows / 3), B.cols / 3) P) (fun C =>
      -- P13 = (A13 - A33) (B22 - B32)
      andThen (A13.sub A33) (fun X => andThen (B22.sub B32) (fun Y =>
      andThen (recurse 13 X Y) (fun P =>
      andThen (C.block_add (2 * (A.rows / 3), 0) P) (fun C =>
      andThen (C.block_add (2 * (A.rows / 3), B.cols / 3) P) (fun C =>
      -- P14 = (A13) (B31)
      andThen (recurse 14 A13 B31) (fun P =>
      andThen (C.block_add (0, 0) P) (fun C =>
      andThen (C.block_add (0, B.cols / 3) P) (fun C =>
      andThen (C.block_add (0, 2 * (B.cols / 3)) P) (fun C =>
      andThen (C.block_add (A.rows / 3, 0) P) (fun C =>
      andThen (C.block_add (A.rows / 3, 2 * (B.cols / 3)) P) (fun C =>
      andThen (C.block_add (2 * (A.rows / 3), 0) P) (fun C =>
      andThen (C.block_add (2 * (A.rows / 3), B.cols / 3) P) (fun C =>
      -- P15 = (A32 + A33) (B32 - B31)
      andThen (A32.add A33) (fun X => andThen (B32.sub B31) (fun Y =>
      andThen (recurse 15 X Y) (fun P =>
      andThen (C.block_add (0, B.cols / 3) P) (fun C =>
      andThen (C.block_add (2 * (A.rows / 3), B.cols / 3) P) (fun C =>
      -- P16 = (A22 - A13 + A23) (B23 + B31 - B33)
      andThen (Matrix.addTo (A22.sub A13) A23) (fun X => andThen (Matrix.subFrom (B23.add B31) B33) (fun Y =>
      andThen (recurse 16 X Y) (fun P =>
      andThen (C.block_add (0, 2 * (B.cols / 3)) P) (fun C =>
      andThen (C.block_add (A.rows / 3, 0) P) (fun C =>
      andThen (C.block_add (A.rows / 3, 2 * (B.cols / 3)) P) (fun C =>
      -- P17 = (A13 - A23) (B23 - B33)
      andThen (A13.sub A23) (fun X => andThen (B23.sub B33) (fun Y =>
      andThen (recurse 17 X Y) (fun P =>
      andThen (C.block_add (A.rows / 3, 0) P) (fun C =>
      andThen (C.block_add (A.rows / 3, 2 * (B.cols / 3)) P) (fun C =>
      -- P18 = (A22 + A23) (B33 - B31)
      andThen (A22.add A23) (fun X => andThen (B33.sub B31) (fun Y =>
      andThen (recurse 18 X Y) (fun P =>
      andThen (C.block_add (0, 2 * (B.cols / 3)) P) (fun C =>
      andThen (C.block_add (A.rows / 3, 2 * (B.cols / 3)) P) (fun C =>
      -- P19 = (A12) (B21)
      andThen (recurse 19 A12 B21) (fun P =>
      andThen (C.block_add (0, 0) P) (fun C =>
      -- P20 = (A23) (B32)
      andThen (recurse 20 A23 B32) (fun P =>
      andThen (C.block_add (A.rows / 3, B.cols / 3) P) (fun C =>
      -- P21 = (A21) (B13)
      andThen (recurse 21 A21 B13) (fun P =>
      andThen (C.block_add (A.rows / 3, 2 * (B.cols / 3)) P) (fun C =>
      -- P22 = (A31) (B12)
      andThen (recurse 22 A31 B12) (fun P =>
      andThen (C.block_add (2 * (A.rows / 3), B.cols / 3) P) (fun C =>
      -- P23 = (A33) (B33)
      andThen (recurse 23 A33 B33) (fun P =>
      andThen (C.block_add (2 * (A.rows / 3), 2 * (B.cols / 3)) P) (fun C =>
      dynamic_peeling A B C 3 3 3))))))))))))))))))))))))))))))))))))))))))))))))))))))))))))))))))))))))))))))))))))))))))))))))))))))))))))))))))))))))
  else none

/-- The matrix `C'` is the matrix `C` with `e i j` added to every entry `(i, j)`; both are
`r x c` matrices whose buffer holds `r * c` entries. -/
def ShiftedBy [Add α] (r c : Nat) (e : Nat → Nat → α) (C C' : Matrix α) : Prop :=
  ∃ f : Nat → Nat → α, C = ofFn r c f ∧ C' = ofFn r c (fun i j => f i j + e i j)

/-- Two runs of which both have no result, or both have one and the second result is the
first with `e i j` added to every entry. -/
def OShiftedBy [Add α] (r c : Nat) (e : Nat → Nat → α) (x x' : Option (Matrix α)) : Prop :=
  (x = none ∧ x' = none) ∨ ∃ C C', x = some C ∧ x' = some C' ∧ ShiftedBy r c e C C'

/-- A well-formed matrix of the shape `h x k`. -/
def Shaped (h k : Nat) (M : Matrix α) : Prop := WF M ∧ M.rows = h ∧ M.cols = k

/-- A call that, if it returns, returns a well-formed matrix of the shape `h x k`. -/
def OShaped (h k : Nat) (x : Option (Matrix α)) : Prop := ∀ M, x = some M → Shaped h k M

/-- A numbered callee for `laderman_calls`: the classic product at every call. -/
def classic_calls : Nat → Matrix Int → Matrix Int → Option (Matrix Int) :=
  fun _ X Y => multiply_classic X Y

/-- The callee `classic_calls`, except that the first call returns the product multiplied
by two. -/
def classic_calls_doubled : Nat → Matrix Int → Matrix Int → Option (Matrix Int) :=
  fun k X Y =>
    if k = 1 then andThen (multiply_classic X Y) (fun M => some (smul 2 M))
    else multiply_classic X Y

/-! ## Theorems -/

theorem u32_of_lt {n : Nat} (h : n < 4294967296) : u32 n = n := Nat.mod_eq_of_lt h

theorem forLoop_succ {σ : Type} (body : Nat → σ → Option σ) (n i : Nat) (s : σ) :
    forLoop body (n + 1) i s = (body i s).bind (forLoop body n (i + 1)) := rfl

/-- A loop whose states follow a known sequence `S` ends in `S (i0 + n)`. -/
theorem forLoop_eq {σ : Type} (body : Nat → σ → Option σ) (S : Nat → σ) :
    ∀ (n i0 : Nat), (∀ i, i0 ≤ i → i < i0 + n → body i (S i) = some (S (i + 1))) →
      forLoop body n i0 (S i0) = some (S (i0 + n))
  | 0, i0, _ => by simp [forLoop]
  | n + 1, i0, h => by
    rw [forLoop_succ, h i0 (Nat.le_refl _) (by omega)]
    simp only [Option.some_bind]
    rw [forLoop_eq body S n (i0 + 1) (fun i h1 h2 => h i (by omega) (by omega))]
    congr 2; omega

theorem tab_length (n : Nat) (g : Nat → α) : (tab n g).length = n := by simp [tab]

theorem tab_getElem? (n : Nat) (g : Nat → α) (p : Nat) :
    (tab n g)[p]? = if p < n then some (g p) else none := by
  unfold tab
  rw [List.getElem?_map]
  by_cases h : p < n
  · simp [h, List.getElem?_range h]
  · simp [h, List.getElem?_eq_none (l := List.range n) (by simpa using h)]

theorem tab_congr {n : Nat} {g h : Nat → α} (H : ∀ p, p < n → g p = h p) : tab n g = tab n h := by
  apply List.ext_getElem?
  intro p
  rw [tab_getElem?, tab_getElem?]
  by_cases hp : p < n
  · simp [hp, H p hp]
  · simp [hp]

theorem tab_set (n : Nat) (g : Nat → α) (p : Nat) (v : α) :
    (tab n g).set p v = tab n (fun q => if q = p then v else g q) := by
  apply List.ext_getElem?
  intro q
  rw [List.getElem?_set, tab_getElem?, tab_getElem?, tab_length]
  by_cases h1 : p = q
  · subst h1; simp
  · have : ¬ q = p := fun h => h1 h.symm
    simp [h1, this]

theorem replicate_eq_tab (n : Nat) (a : α) : List.replicate n a = tab n (fun _ => a) := by
  apply List.ext_getElem?
  intro q
  rw [List.getElem?_replicate, tab_getElem?]

theorem eq_tab_of_length [Zero α] (l : List α) : l = tab l.length (fun p => l.getD p 0) := by
  apply List.ext_getElem?
  intro q
  rw [tab_getElem?]
  by_cases h : q < l.length
  · simp [h, List.getD_eq_getElem?_getD, List.getElem?_eq_getElem h]
  · have h2 : l.length ≤ q := Nat.le_of_not_lt h
    simp [h, List.getElem?_eq_none h2]

theorem stepAt_tab (f : α → α → α) (m N : Nat) (h g : Nat → α) (d s : Nat)
    (hd : d < N) (hs : s < m) :
    stepAt f (tab m h) d s (tab N g) =
      some (tab N (fun q => if q = d then f (g d) (h s) else g q)) := by
  unfold stepAt
  rw [tab_getElem?, tab_getElem?]
  simp [hd, hs, tab_set]

theorem zipRange_tab (f : α → α → α) (m N : Nat) (h g : Nat → α) (n d s : Nat)
    (hd : d + n ≤ N) (hs : s + n ≤ m) :
    zipRange f (tab m h) n d s (tab N g) =
      some (tab N (fun q => if d ≤ q ∧ q < d + n then f (g q) (h (s + (q - d))) else g q)) := by
  unfold zipRange
  have key := forLoop_eq (fun j acc => stepAt f (tab m h) (d + j) (s + j) acc)
    (fun j => tab N (fun q => if d ≤ q ∧ q < d + j then f (g q) (h (s + (q - d))) else g q))
    n 0 (by
      intro i _ hi
      simp only []
      rw [stepAt_tab f m N h _ (d + i) (s + i) (by omega) (by omega)]
      congr 1
      apply tab_congr
      intro p _
      by_cases h1 : p = d + i
      · subst h1; simp
      · by_cases h2 : d ≤ p ∧ p < d + i
        · have : d ≤ p ∧ p < d + (i + 1) := ⟨h2.1, by omega⟩
          simp [h1, h2, this]
        · have : ¬ (d ≤ p ∧ p < d + (i + 1)) := by omega
          simp [h1, h2, this])
  simp only [Nat.zero_add] at key
  rw [← key]
  congr 1
  apply tab_congr
  intro p _
  have : ¬ (d ≤ p ∧ p < d + 0) := by omega
  rw [if_neg this]

theorem idx_div {c i j : Nat} (hj : j < c) : (i * c + j) / c = i := by
  have hc : 0 < c := by omega
  rw [Nat.add_comm, Nat.mul_comm, Nat.add_mul_div_left _ _ hc, Nat.div_eq_of_lt hj, Nat.zero_add]

theorem idx_mod {c i j : Nat} (hj : j < c) : (i * c + j) % c = j := by
  rw [Nat.add_comm, Nat.mul_comm, Nat.add_mul_mod_self_left, Nat.mod_eq_of_lt hj]

theorem idx_le {r c i j : Nat} (hi : i < r) (hj : j ≤ c) : i * c + j ≤ r * c := by
  have h1 : (i + 1) * c ≤ r * c := Nat.mul_le_mul_right c hi
  have h2 : (i + 1) * c = i * c + c := by ring
  omega

theorem idx_split (c p : Nat) : p = (p / c) * c + p % c := by
  have := Nat.div_add_mod p c
  rw [Nat.mul_comm] at this
  omega

theorem zipRange_ofFn (f : α → α → α) (r c r' c' : Nat) (G H : Nat → Nat → α)
    (n i dc i' sc : Nat) (hi : i < r) (hdc : dc + n ≤ c) (hi' : i' < r') (hsc : sc + n ≤ c') :
    zipRange f (ofFn r' c' H).data n (i * c + dc) (i' * c' + sc) (ofFn r c G).data =
      some (ofFn r c (fun a b =>
        if a = i ∧ dc ≤ b ∧ b < dc + n then f (G a b) (H i' (sc + (b - dc))) else G a b)).data := by
  unfold ofFn
  simp only []
  rw [zipRange_tab f _ _ _ _ n (i * c + dc) (i' * c' + sc)
    (by have := idx_le hi hdc; omega) (by have := idx_le hi' hsc; omega)]
  congr 1
  apply tab_congr
  intro p hp
  have hsplit := idx_split c p
  by_cases hcond : i * c + dc ≤ p ∧ p < i * c + dc + n
  · have hc : 0 < c := by omega
    have hpi : p / c = i := by
      have e : p = i * c + (p - i * c) := by omega
      rw [e]; exact idx_div (by omega)
    have hpm : p % c = p - i * c := by
      have e : p = i * c + (p - i * c) := by omega
      rw [e, idx_mod (by omega)]; omega
    have h2 : p / c = i ∧ dc ≤ p % c ∧ p % c < dc + n := ⟨hpi, by omega, by omega⟩
    rw [if_pos hcond, if_pos h2]
    have e2 : i' * c' + sc + (p - (i * c + dc)) = i' * c' + (sc + (p % c - dc)) := by omega
    rw [e2, idx_div (by omega), idx_mod (by omega)]
  · have h2 : ¬ (p / c = i ∧ dc ≤ p % c ∧ p % c < dc + n) := by
      rintro ⟨h3, h4, h5⟩
      apply hcond
      rw [h3] at hsplit
      omega
    rw [if_neg hcond, if_neg h2]

theorem ofFn_congr {r c : Nat} {f g : Nat → Nat → α}
    (H : ∀ i j, i < r → j < c → f i j = g i j) : ofFn r c f = ofFn r c g := by
  unfold ofFn
  congr 1
  apply tab_congr
  intro p hp
  have hc : 0 < c := by
    rcases Nat.eq_zero_or_pos c with h | h
    · subst h; simp at hp
    · exact h
  exact H _ _ ((Nat.div_lt_iff_lt_mul hc).2 hp) (Nat.mod_lt _ hc)

theorem WF.eq_ofFn [Zero α] {M : Matrix α} (h : WF M) : M = ofFn M.rows M.cols (entry M) := by
  obtain ⟨r, c, d⟩ := M
  obtain ⟨_, hlen⟩ := h
  simp only [] at hlen
  unfold ofFn entry
  simp only []
  congr 1
  conv_lhs => rw [eq_tab_of_length d]
  rw [hlen]
  apply tab_congr
  intro p _
  rw [← idx_split]

theorem entry_ofFn [Zero α] {r c : Nat} (f : Nat → Nat → α) {i j : Nat} (hi : i < r) (hj : j < c) :
    entry (ofFn r c f) i j = f i j := by
  unfold entry ofFn
  simp only []
  rw [List.getD_eq_getElem?_getD, tab_getElem?, if_pos (by have := idx_le hi (Nat.succ_le_of_lt hj); omega),
    idx_div hj, idx_mod hj]
  rfl

theorem WF_ofFn {r c : Nat} (f : Nat → Nat → α) (h : Fits r c) : WF (ofFn r c f) :=
  ⟨h, by simp [ofFn, tab_length]⟩

theorem zeros_eq [Zero α] {r c : Nat} (h : Fits r c) :
    (zeros r c : Matrix α) = ofFn r c (fun _ _ => 0) := by
  unfold zeros filled ofFn
  rw [u32_of_lt h.2.2, replicate_eq_tab]

theorem mul_le_of_le {a b r c : Nat} (ha : a ≤ r) (hb : b ≤ c) (h : r * c < 4294967296) :
    a * b < 4294967296 := Nat.lt_of_le_of_lt (Nat.mul_le_mul ha hb) h

theorem get?_ofFn {r c : Nat} (f : Nat → Nat → α) (hF : Fits r c) {i j : Nat}
    (hi : i < r) (hj : j < c) : (ofFn r c f).get? i j = some (f i j) := by
  have hb : i * c + j < r * c := by have := idx_le hi (Nat.succ_le_of_lt hj); omega
  unfold Matrix.get? ofFn
  simp only []
  rw [u32_of_lt (by have := hF.2.2; omega), tab_getElem?, if_pos hb, idx_div hj, idx_mod hj]

theorem ofFn_data_eq {r c : Nat} {f g : Nat → Nat → α}
    (H : ∀ i j, i < r → j < c → f i j = g i j) : (ofFn r c f).data = (ofFn r c g).data :=
  congrArg Matrix.data (ofFn_congr H)

theorem mk_ofFn_data (r c : Nat) (f : Nat → Nat → α) :
    (⟨r, c, (ofFn r c f).data⟩ : Matrix α) = ofFn r c f := rfl

theorem subblock_ofFn [Zero α] [Add α] {r c : Nat} (f : Nat → Nat → α) (hF : Fits r c)
    {sr sc br bc : Nat} (hr : sr + br ≤ r) (hc : sc + bc ≤ c) :
    (ofFn r c f).subblock (sr, sc) (br, bc) =
      some (ofFn br bc (fun i j => 0 + f (sr + i) (sc + j))) := by
  obtain ⟨hr32, hc32, hrc⟩ := hF
  unfold subblock
  simp only []
  have e0 : (ofFn r c f).rows = r := rfl
  have e1 : (ofFn r c f).cols = c := rfl
  rw [e0, e1, u32_of_lt (by omega), u32_of_lt (by omega), if_pos ⟨hr, hc⟩,
    u32_of_lt (mul_le_of_le (by omega) (by omega) hrc), replicate_eq_tab]
  have key := forLoop_eq (fun i out =>
        zipRange (fun o x => o + x) (ofFn r c f).data bc (i * bc)
          (u32 (u32 (sr + i) * c + sc)) out)
    (fun i => (ofFn br bc (fun a b => if a < i then 0 + f (sr + a) (sc + b) else 0)).data)
    br 0 (by
      intro i _ hi
      simp only []
      have hbd : (sr + i) * c + sc ≤ r * c := idx_le (by omega) (by omega)
      rw [u32_of_lt (show sr + i < 4294967296 by omega),
        u32_of_lt (show (sr + i) * c + sc < 4294967296 by omega)]
      have := zipRange_ofFn (fun o x => o + x) br bc r c
        (fun a b => if a < i then 0 + f (sr + a) (sc + b) else 0) f bc i 0 (sr + i) sc
        (by omega) (by omega) (by omega) (by omega)
      rw [Nat.add_zero] at this
      rw [this]
      congr 1
      apply ofFn_data_eq
      intro a b ha hb
      dsimp only
      by_cases h1 : a = i
      · subst h1
        rw [if_pos ⟨rfl, Nat.zero_le _, by omega⟩, if_neg (by omega), if_pos (by omega),
          Nat.sub_zero]
      · have h2 : ¬ (a = i ∧ 0 ≤ b ∧ b < 0 + bc) := fun h => h1 h.1
        rw [if_neg h2]
        by_cases h3 : a < i
        · rw [if_pos h3, if_pos (by omega)]
        · rw [if_neg h3, if_neg (by omega)])
  have e2 : tab (br * bc) (fun _ => (0 : α)) =
      (ofFn br bc (fun a b => if a < 0 then 0 + f (sr + a) (sc + b) else 0)).data := by
    unfold ofFn
    simp
  rw [e2, key]
  simp only [Option.map_some', Nat.zero_add, ofData]
  congr 1
  rw [mk_ofFn_data]
  apply ofFn_congr
  intro a b ha _
  rw [if_pos ha]

theorem blockUpdate_ofFn (f : α → α → α) {r c : Nat} (g : Nat → Nat → α) (hF : Fits r c)
    {sr sc br bc : Nat} (h : Nat → Nat → α) (hr : sr + br ≤ r) (hc : sc + bc ≤ c) :
    blockUpdate f (ofFn r c g) (sr, sc) (ofFn br bc h) =
      some (ofFn r c (fun i j =>
        if sr ≤ i ∧ i < sr + br ∧ sc ≤ j ∧ j < sc + bc
        then f (g i j) (h (i - sr) (j - sc)) else g i j)) := by
  obtain ⟨hr32, hc32, hrc⟩ := hF
  unfold blockUpdate
  simp only []
  have e0 : (ofFn r c g).rows = r := rfl
  have e1 : (ofFn r c g).cols = c := rfl
  have e2 : (ofFn br bc h).rows = br := rfl
  have e3 : (ofFn br bc h).cols = bc := rfl
  rw [e0, e1, e2, e3, u32_of_lt (by omega), u32_of_lt (by omega), if_pos ⟨hr, hc⟩]
  have key := forLoop_eq (fun i dat =>
        zipRange f (ofFn br bc h).data bc (u32 (u32 (sr + i) * c + sc)) (i * bc) dat)
    (fun i => (ofFn r c (fun a b =>
        if sr ≤ a ∧ a < sr + i ∧ sc ≤ b ∧ b < sc + bc
        then f (g a b) (h (a - sr) (b - sc)) else g a b)).data)
    br 0 (by
      intro i _ hi
      simp only []
      have hbd : (sr + i) * c + sc ≤ r * c := idx_le (by omega) (by omega)
      rw [u32_of_lt (show sr + i < 4294967296 by omega),
        u32_of_lt (show (sr + i) * c + sc < 4294967296 by omega)]
      have := zipRange_ofFn f r c br bc
        (fun a b => if sr ≤ a ∧ a < sr + i ∧ sc ≤ b ∧ b < sc + bc
          then f (g a b) (h (a - sr) (b - sc)) else g a b) h bc (sr + i) sc i 0
        (by omega) (by omega) (by omega) (by omega)
      rw [Nat.add_zero] at this
      rw [this]
      congr 1
      apply ofFn_data_eq
      intro a b _ _
      dsimp only
      by_cases h1 : a = sr + i ∧ sc ≤ b ∧ b < sc + bc
      · obtain ⟨h1a, h1b, h1c⟩ := h1
        subst h1a
        rw [if_pos ⟨rfl, h1b, h1c⟩, if_neg (by omega), if_pos (by omega)]
        simp
      · rw [if_neg h1]
        by_cases h3 : sr ≤ a ∧ a < sr + i ∧ sc ≤ b ∧ b < sc + bc
        · rw [if_pos h3, if_pos (by omega)]
        · rw [if_neg h3, if_neg (by omega)])
  have e4 : (ofFn r c g).data = (ofFn r c (fun a b =>
        if sr ≤ a ∧ a < sr + 0 ∧ sc ≤ b ∧ b < sc + bc
        then f (g a b) (h (a - sr) (b - sc)) else g a b)).data := by
    apply ofFn_data_eq
    intro a b _ _
    rw [if_neg (by omega)]
  rw [e4, key]
  simp only [Option.map_some', Nat.zero_add]
  rfl

theorem block_add_ofFn [Add α] {r c : Nat} (g : Nat → Nat → α) (hF : Fits r c)
    {sr sc br bc : Nat} (h : Nat → Nat → α) (hr : sr + br ≤ r) (hc : sc + bc ≤ c) :
    (ofFn r c g).block_add (sr, sc) (ofFn br bc h) =
      some (ofFn r c (fun i j =>
        if sr ≤ i ∧ i < sr + br ∧ sc ≤ j ∧ j < sc + bc
        then g i j + h (i - sr) (j - sc) else g i j)) :=
  blockUpdate_ofFn _ g hF h hr hc

theorem block_subtract_ofFn [Sub α] {r c : Nat} (g : Nat → Nat → α) (hF : Fits r c)
    {sr sc br bc : Nat} (h : Nat → Nat → α) (hr : sr + br ≤ r) (hc : sc + bc ≤ c) :
    (ofFn r c g).block_subtract (sr, sc) (ofFn br bc h) =
      some (ofFn r c (fun i j =>
        if sr ≤ i ∧ i < sr + br ∧ sc ≤ j ∧ j < sc + bc
        then g i j - h (i - sr) (j - sc) else g i j)) :=
  blockUpdate_ofFn _ g hF h hr hc

theorem zipAll_tab (f : α → α → α) (n : Nat) :
    ∀ (g h : Nat → α), zipAll f (tab n g) (tab n h) = some (tab n (fun p => f (g p) (h p))) := by
  induction n with
  | zero => intro g h; simp [tab, zipAll]
  | succ n ih =>
    intro g h
    have e : ∀ (k : Nat → α), tab (n + 1) k = k 0 :: tab n (fun p => k (p + 1)) := by
      intro k
      unfold tab
      rw [List.range_succ_eq_map]
      simp [Function.comp_def]
    rw [e g, e h, e (fun p => f (g p) (h p))]
    simp only [zipAll]
    rw [ih]
    rfl

theorem elementwise_ofFn (f : α → α → α) {r c : Nat} (g h : Nat → Nat → α) :
    elementwise f (ofFn r c g) (ofFn r c h) = some (ofFn r c (fun i j => f (g i j) (h i j))) := by
  unfold elementwise ofFn
  simp only [and_self, if_true]
  rw [zipAll_tab]
  rfl

theorem add_ofFn [Add α] {r c : Nat} (g h : Nat → Nat → α) :
    (ofFn r c g).add (ofFn r c h) = some (ofFn r c (fun i j => g i j + h i j)) :=
  elementwise_ofFn _ g h

theorem sub_ofFn [Sub α] {r c : Nat} (g h : Nat → Nat → α) :
    (ofFn r c g).sub (ofFn r c h) = some (ofFn r c (fun i j => g i j - h i j)) :=
  elementwise_ofFn _ g h

theorem smul_ofFn [Mul α] {r c : Nat} (s : α) (g : Nat → Nat → α) :
    smul s (ofFn r c g) = ofFn r c (fun i j => g i j * s) := by
  unfold smul ofFn tab
  simp [Function.comp_def]

theorem multiply_classic_ofFn [Zero α] [Add α] [Mul α] {r k q : Nat} (a b : Nat → Nat → α)
    (hA : Fits r k) (hB : Fits k q) (hC : Fits r q) :
    multiply_classic (ofFn r k a) (ofFn k q b) =
      some (ofFn r q (fun i j => dotAcc (a i) (fun l => b l j) k)) := by
  unfold multiply_classic
  have e0 : (ofFn r k a).rows = r := rfl
  have e1 : (ofFn r k a).cols = k := rfl
  have e2 : (ofFn k q b).rows = k := rfl
  have e3 : (ofFn k q b).cols = q := rfl
  rw [e0, e1, e2, e3, if_pos rfl, zeros_eq hC]
  have inner : ∀ i, i < r →
      forLoop (fun l cd =>
        match (ofFn r k a).get? i l with
        | some Aik => zipRange (fun c b => c + Aik * b) (ofFn k q b).data q
              (u32 (i * q)) (u32 (l * q)) cd
        | none => none) k 0
        (ofFn r q (fun x y => if x < i then dotAcc (a x) (fun l => b l y) k else 0)).data =
      some (ofFn r q (fun x y => if x < i + 1 then dotAcc (a x) (fun l => b l y) k else 0)).data := by
    intro i hi
    have key := forLoop_eq (fun l cd =>
        match (ofFn r k a).get? i l with
        | some Aik => zipRange (fun c b => c + Aik * b) (ofFn k q b).data q
              (u32 (i * q)) (u32 (l * q)) cd
        | none => none)
      (fun l => (ofFn r q (fun x y => if x < i then dotAcc (a x) (fun l => b l y) k
          else if x = i then dotAcc (a x) (fun l => b l y) l else 0)).data)
      k 0 (by
        intro l _ hl
        dsimp only
        rw [get?_ofFn a hA hi (by omega)]
        dsimp only
        have h1 : i * q ≤ r * q := Nat.mul_le_mul_right q (Nat.le_of_lt hi)
        have h2 : l * q ≤ k * q := Nat.mul_le_mul_right q (by omega)
        rw [u32_of_lt (show i * q < 4294967296 by have := hC.2.2; omega),
          u32_of_lt (show l * q < 4294967296 by have := hB.2.2; omega)]
        have := zipRange_ofFn (fun c b => c + a i l * b) r q k q
          (fun x y => if x < i then dotAcc (a x) (fun l => b l y) k
            else if x = i then dotAcc (a x) (fun l => b l y) l else 0) b q i 0 l 0
          hi (by omega) (by omega) (by omega)
        rw [Nat.add_zero, Nat.add_zero] at this
        rw [this]
        congr 1
        apply ofFn_data_eq
        intro x y _ hy
        dsimp only
        by_cases h1 : x = i
        · subst h1
          rw [if_pos ⟨rfl, Nat.zero_le _, by omega⟩, if_neg (Nat.lt_irrefl _), if_pos rfl,
            if_neg (Nat.lt_irrefl _), if_pos rfl, Nat.sub_zero, Nat.zero_add]
          rfl
        · have h2 : ¬ (x = i ∧ 0 ≤ y ∧ y < 0 + q) := fun h => h1 h.1
          rw [if_neg h2, if_neg h1, if_neg h1])
    have e4 : (ofFn r q (fun x y => if x < i then dotAcc (a x) (fun l => b l y) k else 0)).data =
        (ofFn r q (fun x y => if x < i then dotAcc (a x) (fun l => b l y) k
          else if x = i then dotAcc (a x) (fun l => b l y) 0 else 0)).data := by
      apply ofFn_data_eq
      intro x y _ _
      by_cases h1 : x < i
      · rw [if_pos h1, if_pos h1]
      · rw [if_neg h1, if_neg h1]
        by_cases h2 : x = i
        · rw [if_pos h2]; rfl
        · rw [if_neg h2]
    rw [e4, key, Nat.zero_add]
    congr 1
    apply ofFn_data_eq
    intro x y _ _
    dsimp only
    by_cases h1 : x < i
    · rw [if_pos h1, if_pos (by omega)]
    · rw [if_neg h1]
      by_cases h2 : x = i
      · rw [if_pos h2, if_pos (by omega)]
      · rw [if_neg h2, if_neg (by omega)]
  have key := forLoop_eq (fun i cd => forLoop (fun l cd =>
        match (ofFn r k a).get? i l with
        | some Aik => zipRange (fun c b => c + Aik * b) (ofFn k q b).data q
              (u32 (i * q)) (u32 (l * q)) cd
        | none => none) k 0 cd)
    (fun i => (ofFn r q (fun x y => if x < i then dotAcc (a x) (fun l => b l y) k else 0)).data)
    r 0 (by
      intro i _ hi
      exact inner i (by omega))
  have e5 : (ofFn r q (fun _ _ => (0 : α))).data =
      (ofFn r q (fun x y => if x < 0 then dotAcc (a x) (fun l => b l y) k else 0)).data := by
    apply ofFn_data_eq
    intro x y _ _
    rw [if_neg (Nat.not_lt_zero _)]
  dsimp only at key
  rw [e5]; erw [key]
  simp only [Option.map_some', Nat.zero_add]
  rw [mk_ofFn_data]
  congr 1
  apply ofFn_congr
  intro x y hx _
  rw [if_pos hx]

theorem ofFn_set {R C : Nat} (G : Nat → Nat → α) {x y : Nat} (hy : y < C) (v : α) :
    (ofFn R C G).data.set (x * C + y) v =
      (ofFn R C (fun a b => if a = x ∧ b = y then v else G a b)).data := by
  unfold ofFn
  dsimp only
  rw [tab_set]
  apply tab_congr
  intro p _
  by_cases h : p = x * C + y
  · subst h
    rw [if_pos rfl, idx_div hy, idx_mod hy, if_pos ⟨rfl, rfl⟩]
  · rw [if_neg h]
    have : ¬ (p / C = x ∧ p % C = y) := by
      rintro ⟨h1, h2⟩
      apply h
      have := idx_split C p
      rw [h1, h2] at this
      exact this
    rw [if_neg this]

theorem transposed_ofFn [Zero α] {r c : Nat} (g : Nat → Nat → α) (hF : Fits r c) :
    (ofFn r c g).transposed = some (ofFn c r (fun i j => g j i)) := by
  obtain ⟨hr32, hc32, hrc⟩ := hF
  unfold transposed
  have e0 : (ofFn r c g).rows = r := rfl
  have e1 : (ofFn r c g).cols = c := rfl
  rw [e0, e1, u32_of_lt hrc, replicate_eq_tab]
  have inner : ∀ i, i < r →
      forLoop (fun j nd =>
        match (ofFn r c g).data[u32 (i * c + j)]? with
        | some x => if u32 (j * r + i) < nd.length
            then some (nd.set (u32 (j * r + i)) x) else none
        | none => none) c 0
        (ofFn c r (fun x y => if y < i then g y x else 0)).data =
      some (ofFn c r (fun x y => if y < i + 1 then g y x else 0)).data := by
    intro i hi
    have key := forLoop_eq (fun j nd =>
        match (ofFn r c g).data[u32 (i * c + j)]? with
        | some x => if u32 (j * r + i) < nd.length
            then some (nd.set (u32 (j * r + i)) x) else none
        | none => none)
      (fun j => (ofFn c r (fun x y => if y < i then g y x
          else if y = i ∧ x < j then g y x else 0)).data)
      c 0 (by
        intro j _ hj
        dsimp only
        have hj' : j < c := by omega
        have h1 : i * c + j < r * c := by have := idx_le hi (Nat.succ_le_of_lt hj'); omega
        have h2 : j * r + i < c * r := by have := idx_le hj' (Nat.succ_le_of_lt hi); omega
        have h3 : c * r = r * c := Nat.mul_comm _ _
        have hget := get?_ofFn g ⟨hr32, hc32, hrc⟩ hi hj'
        unfold Matrix.get? at hget
        rw [e1] at hget
        rw [hget]
        dsimp only
        rw [u32_of_lt (show j * r + i < 4294967296 by omega)]
        have hlen : (ofFn c r (fun x y => if y < i then g y x
          else if y = i ∧ x < j then g y x else 0)).data.length = c * r := by
          simp [ofFn, tab_length]
        rw [hlen, if_pos h2, ofFn_set _ hi]
        congr 1
        apply ofFn_data_eq
        intro x y _ _
        dsimp only
        by_cases h4 : x = j ∧ y = i
        · obtain ⟨h4a, h4b⟩ := h4
          subst h4a; subst h4b
          rw [if_pos ⟨rfl, rfl⟩, if_neg (Nat.lt_irrefl _), if_pos ⟨rfl, by omega⟩]
        · rw [if_neg h4]
          by_cases h5 : y < i
          · rw [if_pos h5, if_pos h5]
          · rw [if_neg h5, if_neg h5]
            by_cases h6 : y = i ∧ x < j
            · rw [if_pos h6, if_pos ⟨h6.1, by omega⟩]
            · rw [if_neg h6, if_neg (by omega)])
    have e4 : (ofFn c r (fun x y => if y < i then g y x else 0)).data =
        (ofFn c r (fun x y => if y < i then g y x
          else if y = i ∧ x < 0 then g y x else 0)).data := by
      apply ofFn_data_eq
      intro x y _ _
      rw [if_neg (show ¬ (y = i ∧ x < 0) by omega)]
    rw [e4, key, Nat.zero_add]
    congr 1
    apply ofFn_data_eq
    intro x y hx _
    dsimp only
    by_cases h1 : y < i
    · rw [if_pos h1, if_pos (by omega)]
    · rw [if_neg h1]
      by_cases h2 : y = i
      · rw [if_pos ⟨h2, hx⟩, if_pos (by omega)]
      · rw [if_neg (fun h => h2 h.1), if_neg (by omega)]
  have key := forLoop_eq (fun i nd => forLoop (fun j nd =>
        match (ofFn r c g).data[u32 (i * c + j)]? with
        | some x => if u32 (j * r + i) < nd.length
            then some (nd.set (u32 (j * r + i)) x) else none
        | none => none) c 0 nd)
    (fun i => (ofFn c r (fun x y => if y < i then g y x else 0)).data)
    r 0 (by
      intro i _ hi
      exact inner i (by omega))
  have e5 : tab (r * c) (fun _ => (0 : α)) =
      (ofFn c r (fun x y => if y < 0 then g y x else 0)).data := by
    unfold ofFn
    rw [Nat.mul_comm]
    simp
  dsimp only at key
  rw [e5]; erw [key]
  simp only [Option.map_some', Nat.zero_add, ofData]
  rw [mk_ofFn_data]
  congr 1
  apply ofFn_congr
  intro x y _ hy
  rw [if_pos hy]

theorem dotAcc_eq_sum [Semiring α] (f g : Nat → α) (n : Nat) :
    dotAcc f g n = Finset.sum (Finset.range n) (fun l => f l * g l) := by
  induction n with
  | zero => simp [dotAcc]
  | succ n ih => rw [dotAcc, ih, Finset.sum_range_succ]

/-- A loop fails as soon as one iteration fails on every state that satisfies a
property the earlier iterations preserve. -/
theorem forLoop_none {σ : Type} (body : Nat → σ → Option σ) (P : σ → Prop)
    (hpres : ∀ i s s', P s → body i s = some s' → P s') (i0 : Nat)
    (hfail : ∀ s, P s → body i0 s = none) :
    ∀ (n start : Nat) (s : σ), P s → start ≤ i0 → i0 < start + n →
      forLoop body n start s = none
  | 0, start, s, _, h1, h2 => by omega
  | n + 1, start, s, hP, h1, h2 => by
    rw [forLoop_succ]
    by_cases h : start = i0
    · subst h; rw [hfail s hP]; rfl
    · cases hb : body start s with
      | none => rfl
      | some s' =>
        rw [Option.some_bind]
        exact forLoop_none body P hpres i0 hfail n (start + 1) s' (hpres _ _ _ hP hb)
          (by omega) (by omega)

theorem forLoop_pres {σ : Type} (body : Nat → σ → Option σ) (P : σ → Prop)
    (hpres : ∀ i s s', P s → body i s = some s' → P s') :
    ∀ (n start : Nat) (s s' : σ), P s → forLoop body n start s = some s' → P s'
  | 0, _, s, s', hP, h => by
    simp only [forLoop, Option.some.injEq] at h
    exact h ▸ hP
  | n + 1, start, s, s', hP, h => by
    rw [forLoop_succ] at h
    cases hb : body start s with
    | none => rw [hb] at h; simp at h
    | some t =>
      rw [hb, Option.some_bind] at h
      exact forLoop_pres body P hpres n (start + 1) t s' (hpres _ _ _ hP hb) h

theorem stepAt_length (f : α → α → α) (src : List α) (d s : Nat) (dst dst' : List α)
    (h : stepAt f src d s dst = some dst') : dst'.length = dst.length := by
  unfold stepAt at h
  split at h
  · simp only [Option.some.injEq] at h
    rw [← h, List.length_set]
  · simp at h

theorem stepAt_none_of_le (f : α → α → α) (src : List α) (d s : Nat) (dst : List α)
    (h : dst.length ≤ d) : stepAt f src d s dst = none := by
  unfold stepAt
  rw [List.getElem?_eq_none h]

theorem zipRange_length (f : α → α → α) (src : List α) (n d s : Nat) (dst dst' : List α)
    (h : zipRange f src n d s dst = some dst') : dst'.length = dst.length := by
  unfold zipRange at h
  exact forLoop_pres _ (fun l => l.length = dst.length)
    (fun i a a' ha hb => (stepAt_length f src _ _ a a' hb).trans ha) n 0 dst dst' rfl h

theorem zipRange_none_of_short (f : α → α → α) (src : List α) (n d s : Nat) (dst : List α)
    (h1 : d ≤ dst.length) (h2 : dst.length < d + n) : zipRange f src n d s dst = none := by
  unfold zipRange
  exact forLoop_none _ (fun l => l.length = dst.length)
    (fun i a a' ha hb => (stepAt_length f src _ _ a a' hb).trans ha)
    (dst.length - d)
    (fun a ha => stepAt_none_of_le f src _ _ a (by
      have : a.length = dst.length := ha
      omega))
    n 0 dst rfl (Nat.zero_le _) (by omega)

/-- The classic product has no result when the product shape has `2 ^ 32` entries or
more: the buffer `zeros(A.rows, B.cols)` is allocated with the wrapped size. -/
theorem multiply_classic_overflow [Zero α] [Add α] [Mul α] (A B : Matrix α)
    (hB : B.cols < 4294967296) (hk : 1 ≤ A.cols) (hbig : 4294967296 ≤ A.rows * B.cols) :
    multiply_classic A B = none := by
  unfold multiply_classic
  by_cases hdim : A.cols = B.rows
  swap
  · rw [if_neg hdim]
  rw [if_pos hdim]
  have hq : 0 < B.cols := by
    rcases Nat.eq_zero_or_pos B.cols with h | h
    · rw [h] at hbig; omega
    · exact h
  have hlen : (zeros A.rows B.cols : Matrix α).data.length = u32 (A.rows * B.cols) := by
    simp [zeros, filled]
  have hs : u32 (A.rows * B.cols) < 4294967296 := Nat.mod_lt _ (by norm_num)
  have hi0 : u32 (A.rows * B.cols) / B.cols < A.rows :=
    (Nat.div_lt_iff_lt_mul hq).2 (by omega)
  have hsplit := idx_split B.cols (u32 (A.rows * B.cols))
  have hmod := Nat.mod_lt (u32 (A.rows * B.cols)) hq
  have inner_pres : ∀ (i l : Nat) (cd cd' : List α),
      cd.length = u32 (A.rows * B.cols) →
      (match A.get? i l with
        | some Aik => zipRange (fun c b => c + Aik * b) B.data B.cols
              (u32 (i * B.cols)) (u32 (l * B.cols)) cd
        | none => none) = some cd' → cd'.length = u32 (A.rows * B.cols) := by
    intro i l cd cd' hcd h
    split at h
    · rw [zipRange_length _ _ _ _ _ _ _ h]; exact hcd
    · simp at h
  have outer := forLoop_none (fun i cd => forLoop (fun k cd =>
        match A.get? i k with
        | some Aik =>
            zipRange (fun c b => c + Aik * b) B.data B.cols
              (u32 (i * B.cols)) (u32 (k * B.cols)) cd
        | none => none) A.cols 0 cd)
    (fun cd => cd.length = u32 (A.rows * B.cols))
    (fun i cd cd' hcd h => forLoop_pres _ (fun cd => cd.length = u32 (A.rows * B.cols))
      (fun l a a' ha hb => inner_pres i l a a' ha hb) _ _ _ _ hcd h)
    (u32 (A.rows * B.cols) / B.cols)
    (fun cd hcd => forLoop_none _ (fun cd => cd.length = u32 (A.rows * B.cols))
      (fun l a a' ha hb => inner_pres _ l a a' ha hb) 0
      (fun a ha => by
        split
        · have ha' : a.length = u32 (A.rows * B.cols) := ha
          have hd : u32 (u32 (A.rows * B.cols) / B.cols * B.cols) =
              u32 (A.rows * B.cols) / B.cols * B.cols := u32_of_lt (by omega)
          apply zipRange_none_of_short
          · rw [hd]; omega
          · rw [hd]; omega
        · rfl)
      A.cols 0 cd hcd (Nat.le_refl _) (by omega))
    A.rows 0 _ hlen (Nat.zero_le _) (by omega)
  erw [outer]
  rfl

@[simp] theorem ofFn_rows (r c : Nat) (f : Nat → Nat → α) : (ofFn r c f).rows = r := rfl

@[simp] theorem ofFn_cols (r c : Nat) (f : Nat → Nat → α) : (ofFn r c f).cols = c := rfl

/-- Every well-formed matrix is the table of its entries. -/
theorem WF.cases [Zero α] {M : Matrix α} (h : WF M) :
    ∃ r c f, Fits r c ∧ M = ofFn r c f :=
  ⟨M.rows, M.cols, entry M, h.1, h.eq_ofFn⟩

/-- C1 (as amended): for well-formed `A` (n x k) and `B` (k x m) over a ring whose product
shape fits the size type (`n * m < 2 ^ 32`), `multiply_classic` returns a well-formed
`n x m` matrix whose entry `(i, j)` is the sum over `l < k` of `A[i,l] * B[l,j]`; for
`k = 0` it is the `n x m` zero matrix. -/
theorem multiply_classic_entries [Ring α] (A B : Matrix α) (hA : WF A) (hB : WF B)
    (hk : A.cols = B.rows) (hC : Fits A.rows B.cols) :
    ∃ C, multiply_classic A B = some C ∧ WF C ∧ C.rows = A.rows ∧ C.cols = B.cols ∧
      (∀ i j, i < A.rows → j < B.cols →
        entry C i j = Finset.sum (Finset.range A.cols) (fun l => entry A i l * entry B l j)) ∧
      (A.cols = 0 → C = zeros A.rows B.cols) := by
  obtain ⟨r, k, a, hFa, rfl⟩ := hA.cases
  obtain ⟨k', q, b, hFb, rfl⟩ := hB.cases
  simp only [ofFn_rows, ofFn_cols] at hk hC ⊢
  subst hk
  refine ⟨_, multiply_classic_ofFn a b hFa hFb hC, WF_ofFn _ hC, rfl, rfl, ?_, ?_⟩
  · intro i j hi hj
    rw [entry_ofFn _ hi hj, dotAcc_eq_sum]
    apply Finset.sum_congr rfl
    intro l hl
    rw [entry_ofFn _ hi (Finset.mem_range.1 hl), entry_ofFn _ (Finset.mem_range.1 hl) hj]
  · intro h0
    subst h0
    rw [zeros_eq hC]
    rfl


theorem colOnes_WF : WF colOnes :=
  ⟨⟨by show (65536 : Nat) < 4294967296; norm_num, by show (1 : Nat) < 4294967296; norm_num,
    by show (65536 : Nat) * 1 < 4294967296; norm_num⟩,
   by show (List.replicate 65536 (1 : Int)).length = 65536 * 1; rw [List.length_replicate]⟩

theorem rowOnes_WF : WF rowOnes :=
  ⟨⟨by show (1 : Nat) < 4294967296; norm_num, by show (65536 : Nat) < 4294967296; norm_num,
    by show (1 : Nat) * 65536 < 4294967296; norm_num⟩,
   by show (List.replicate 65536 (1 : Int)).length = 1 * 65536; rw [List.length_replicate]⟩

/-- C1 fails as stated: the product of a well-formed 65536 x 1 matrix and a well-formed
1 x 65536 matrix is not a 65536 x 65536 matrix; `multiply_classic` has no result, because
the buffer size `65536 * 65536` wraps to zero. -/
theorem multiply_classic_entries_counterexample :
    WF colOnes ∧ WF rowOnes ∧ colOnes.cols = rowOnes.rows ∧
      ¬ ∃ C, multiply_classic colOnes rowOnes = some C ∧ C.rows = 65536 ∧ C.cols = 65536 := by
  refine ⟨colOnes_WF, rowOnes_WF, rfl, ?_⟩
  rintro ⟨C, hC, _⟩
  rw [multiply_classic_overflow colOnes rowOnes
    (by show (65536 : Nat) < 4294967296; norm_num) (by show 1 ≤ 1; norm_num)
    (by show 4294967296 ≤ 65536 * 65536; norm_num)] at hC
  exact Option.noConfusion hC

theorem multiply_classic_entries_witness :
    ∃ C, multiply_classic (ofData [1, 2, 3, 4] 2 2 : Matrix Int) (ofData [4, 3, 2, 1] 2 2) =
        some C ∧ WF C ∧ C.rows = 2 ∧ C.cols = 2 ∧
      (∀ i j, i < 2 → j < 2 → entry C i j = Finset.sum (Finset.range 2)
        (fun l => entry (ofData [1, 2, 3, 4] 2 2 : Matrix Int) i l *
          entry (ofData [4, 3, 2, 1] 2 2 : Matrix Int) l j)) ∧
      ((2 : Nat) = 0 → C = zeros 2 2) :=
  multiply_classic_entries (ofData [1, 2, 3, 4] 2 2) (ofData [4, 3, 2, 1] 2 2)
    (by refine ⟨⟨?_, ?_, ?_⟩, ?_⟩ <;> simp [ofData])
    (by refine ⟨⟨?_, ?_, ?_⟩, ?_⟩ <;> simp [ofData])
    rfl (by refine ⟨?_, ?_, ?_⟩ <;> simp [ofData])


theorem forLoop_zero {σ : Type} (body : Nat → σ → Option σ) (i : Nat) (s : σ) :
    forLoop body 0 i s = some s := rfl

/-- A well-formed product of well-formed factors, when the product shape fits. -/
theorem multiply_classic_wf [Zero α] [Add α] [Mul α] (A B : Matrix α) (hA : WF A) (hB : WF B)
    (hk : A.cols = B.rows) (hC : Fits A.rows B.cols) :
    ∃ C, multiply_classic A B = some C ∧ WF C ∧ C.rows = A.rows ∧ C.cols = B.cols := by
  obtain ⟨r, k, a, hFa, rfl⟩ := hA.cases
  obtain ⟨k', q, b, hFb, rfl⟩ := hB.cases
  simp only [ofFn_rows, ofFn_cols] at hk hC ⊢
  subst hk
  exact ⟨_, multiply_classic_ofFn a b hFa hFb hC, WF_ofFn _ hC, rfl, rfl⟩

/-- With no inner dimension the loops of the classic product touch no buffer. -/
theorem multiply_classic_inner_zero [Zero α] [Add α] [Mul α] (A B : Matrix α)
    (hk : A.cols = B.rows) (h0 : A.cols = 0) :
    multiply_classic A B = some ⟨A.rows, B.cols, (zeros A.rows B.cols : Matrix α).data⟩ := by
  unfold multiply_classic
  rw [if_pos hk, h0]
  have key := forLoop_eq (fun i cd => forLoop (fun k cd =>
        match A.get? i k with
        | some Aik =>
            zipRange (fun c b => c + Aik * b) B.data B.cols
              (u32 (i * B.cols)) (u32 (k * B.cols)) cd
        | none => none) 0 0 cd)
    (fun _ => (zeros A.rows B.cols : Matrix α).data) A.rows 0 (fun i _ _ => rfl)
  erw [key]
  rfl

/-- C8 (as amended): for well-formed `A` and `B`, `multiply_classic` has no result exactly
when `A.cols != B.rows` (the assertion fails) or when `A.cols >= 1` and the product shape
has `2 ^ 32` entries or more (the size of the result buffer wraps); hence it returns a
result for every pair with `A.cols == B.rows` and `A.rows * B.cols < 2 ^ 32`, matrices with
a zero dimension included. -/
theorem multiply_classic_fails_iff [Zero α] [Add α] [Mul α] (A B : Matrix α)
    (hA : WF A) (hB : WF B) :
    multiply_classic A B = none ↔
      (A.cols ≠ B.rows ∨ (1 ≤ A.cols ∧ 4294967296 ≤ A.rows * B.cols)) := by
  constructor
  · intro h
    by_contra hcon
    rw [not_or, not_and, not_not] at hcon
    obtain ⟨hk, h2⟩ := hcon
    by_cases h0 : A.cols = 0
    · rw [multiply_classic_inner_zero A B hk h0] at h
      exact Option.noConfusion h
    · have hfit : Fits A.rows B.cols := ⟨hA.1.1, hB.1.2.1, by have := h2 (by omega); omega⟩
      obtain ⟨C, hC, _⟩ := multiply_classic_wf A B hA hB hk hfit
      rw [hC] at h
      exact Option.noConfusion h
  · rintro (h | ⟨h1, h2⟩)
    · unfold multiply_classic
      rw [if_neg h]
    · exact multiply_classic_overflow A B hB.1.2.1 h1 h2

theorem multiply_classic_fails_iff_witness :
    multiply_classic (ofData [1, 2, 3, 4] 2 2 : Matrix Int) (ofData [4, 3, 2, 1] 2 2) = none ↔
      ((2 : Nat) ≠ 2 ∨ (1 ≤ 2 ∧ 4294967296 ≤ 2 * 2)) :=
  multiply_classic_fails_iff (ofData [1, 2, 3, 4] 2 2) (ofData [4, 3, 2, 1] 2 2)
    (by refine ⟨⟨?_, ?_, ?_⟩, ?_⟩ <;> simp [ofData])
    (by refine ⟨⟨?_, ?_, ?_⟩, ?_⟩ <;> simp [ofData])

/-- C8 fails as stated: `colOnes` (65536 x 1) and `rowOnes` (1 x 65536) are well formed and
their inner dimensions agree, yet `multiply_classic` returns no result. -/
theorem multiply_classic_fails_iff_counterexample :
    WF colOnes ∧ WF rowOnes ∧
      ¬ (multiply_classic colOnes rowOnes = none ↔ colOnes.cols ≠ rowOnes.rows) := by
  refine ⟨colOnes_WF, rowOnes_WF, ?_⟩
  intro h
  exact h.1 (multiply_classic_overflow colOnes rowOnes
    (by show (65536 : Nat) < 4294967296; norm_num) (by show 1 ≤ 1; norm_num)
    (by show 4294967296 ≤ 65536 * 65536; norm_num)) rfl

theorem identity_eq {n : Nat} (hF : Fits n n) :
    identity n = some (ofFn n n (fun i j => if i = j then 1 else 0)) := by
  unfold identity
  rw [u32_of_lt hF.2.2, replicate_eq_tab]
  have key := forLoop_eq (fun i d =>
      if u32 (i * n + i) < d.length then some (d.set (u32 (i * n + i)) (1 : Int)) else none)
    (fun i => (ofFn n n (fun a b => if a = b ∧ a < i then (1 : Int) else 0)).data)
    n 0 (by
      intro i _ hi
      dsimp only
      have hi' : i < n := by omega
      have h1 : i * n + i < n * n := by have := idx_le hi' (Nat.succ_le_of_lt hi'); omega
      have hlen : (ofFn n n (fun a b => if a = b ∧ a < i then (1 : Int) else 0)).data.length
          = n * n := by simp [ofFn, tab_length]
      rw [u32_of_lt (by have := hF.2.2; omega), hlen, if_pos h1, ofFn_set _ hi']
      congr 1
      apply ofFn_data_eq
      intro a b _ _
      dsimp only
      by_cases h2 : a = i ∧ b = i
      · obtain ⟨h2a, h2b⟩ := h2
        subst h2a; subst h2b
        rw [if_pos ⟨rfl, rfl⟩, if_pos ⟨rfl, by omega⟩]
      · rw [if_neg h2]
        by_cases h3 : a = b ∧ a < i
        · rw [if_pos h3, if_pos ⟨h3.1, by omega⟩]
        · rw [if_neg h3, if_neg (by omega)])
  have e : tab (n * n) (fun _ => (0 : Int)) =
      (ofFn n n (fun a b => if a = b ∧ a < 0 then (1 : Int) else 0)).data := by
    unfold ofFn
    simp
  dsimp only at key
  rw [e, key]
  simp only [Option.map_some', Nat.zero_add, ofData]
  rw [mk_ofFn_data]
  congr 1
  apply ofFn_congr
  intro a b ha _
  by_cases h : a = b
  · rw [if_pos ⟨h, ha⟩, if_pos h]
  · rw [if_neg (fun hh => h hh.1), if_neg h]

/-- C9: for every `n` and every well-formed `n x n` integer matrix `A`, the identity matrix
`I_n` exists and `multiply_classic(I_n, A) == A` and `multiply_classic(A, I_n) == A`. -/
theorem multiply_classic_identity (n : Nat) (A : Matrix Int) (hA : WF A)
    (hr : A.rows = n) (hc : A.cols = n) :
    ∃ I, identity n = some I ∧ multiply_classic I A = some A ∧
      multiply_classic A I = some A := by
  obtain ⟨r, c, a, hF, rfl⟩ := hA.cases
  simp only [ofFn_rows, ofFn_cols] at hr hc
  subst hr; subst hc
  refine ⟨_, identity_eq hF, ?_, ?_⟩
  · rw [multiply_classic_ofFn _ _ hF hF hF]
    congr 1
    apply ofFn_congr
    intro i j hi _
    rw [dotAcc_eq_sum]
    simp [Finset.sum_ite_eq, hi]
  · rw [multiply_classic_ofFn _ _ hF hF hF]
    congr 1
    apply ofFn_congr
    intro i j _ hj
    rw [dotAcc_eq_sum]
    simp [Finset.sum_ite_eq', hj]

theorem multiply_classic_identity_witness :
    ∃ I, identity 2 = some I ∧
      multiply_classic I (ofData [1, 2, 3, 4] 2 2) = some (ofData [1, 2, 3, 4] 2 2) ∧
      multiply_classic (ofData [1, 2, 3, 4] 2 2) I = some (ofData [1, 2, 3, 4] 2 2) :=
  multiply_classic_identity 2 (ofData [1, 2, 3, 4] 2 2)
    (by refine ⟨⟨?_, ?_, ?_⟩, ?_⟩ <;> simp [ofData]) rfl rfl

/-- C10 (as amended): for well-formed `A` (n x k), `B` (k x m), `C` (m x p) over a ring
whose three product shapes `n x m`, `k x p` and `n x p` fit the size type, both
`multiply_classic(multiply_classic(A, B), C)` and
`multiply_classic(A, multiply_classic(B, C))` return a result, and the results are equal. -/
theorem multiply_classic_assoc [Ring α] (A B C : Matrix α) (hA : WF A) (hB : WF B)
    (hC : WF C) (h1 : A.cols = B.rows) (h2 : B.cols = C.rows)
    (hAB : Fits A.rows B.cols) (hBC : Fits B.rows C.cols) (hAC : Fits A.rows C.cols) :
    ∃ D, (multiply_classic A B).bind (fun AB => multiply_classic AB C) = some D ∧
      (multiply_classic B C).bind (fun BC => multiply_classic A BC) = some D := by
  obtain ⟨n, k, a, hFa, rfl⟩ := hA.cases
  obtain ⟨k', m, b, hFb, rfl⟩ := hB.cases
  obtain ⟨m', p, c, hFc, rfl⟩ := hC.cases
  simp only [ofFn_rows, ofFn_cols] at h1 h2 hAB hBC hAC
  subst h1; subst h2
  refine ⟨ofFn n p (fun i j => dotAcc (a i) (fun l => dotAcc (b l) (fun t => c t j) m) k),
    ?_, ?_⟩
  · rw [multiply_classic_ofFn a b hFa hFb hAB, Option.some_bind,
      multiply_classic_ofFn _ c hAB hFc hAC]
    congr 1
    apply ofFn_congr
    intro i j _ _
    simp only [dotAcc_eq_sum]
    simp only [Finset.sum_mul, Finset.mul_sum]
    rw [Finset.sum_comm]
    apply Finset.sum_congr rfl
    intro x _
    apply Finset.sum_congr rfl
    intro y _
    rw [mul_assoc]
  · rw [multiply_classic_ofFn b c hFb hFc hBC, Option.some_bind,
      multiply_classic_ofFn a _ hFa hBC hAC]

theorem multiply_classic_assoc_witness :
    ∃ D, (multiply_classic (ofData [1, 2, 3, 4] 2 2 : Matrix Int)
        (ofData [4, 3, 2, 1] 2 2)).bind (fun AB => multiply_classic AB (ofData [5, 6] 2 1))
          = some D ∧
      (multiply_classic (ofData [4, 3, 2, 1] 2 2 : Matrix Int) (ofData [5, 6] 2 1)).bind
        (fun BC => multiply_classic (ofData [1, 2, 3, 4] 2 2) BC) = some D :=
  multiply_classic_assoc (ofData [1, 2, 3, 4] 2 2) (ofData [4, 3, 2, 1] 2 2)
    (ofData [5, 6] 2 1)
    (by refine ⟨⟨?_, ?_, ?_⟩, ?_⟩ <;> simp [ofData])
    (by refine ⟨⟨?_, ?_, ?_⟩, ?_⟩ <;> simp [ofData])
    (by refine ⟨⟨?_, ?_, ?_⟩, ?_⟩ <;> simp [ofData])
    rfl rfl
    (by refine ⟨?_, ?_, ?_⟩ <;> simp [ofData])
    (by refine ⟨?_, ?_, ?_⟩ <;> simp [ofData])
    (by refine ⟨?_, ?_, ?_⟩ <;> simp [ofData])

/-- C10 fails as stated: with `A = colOnes` (65536 x 1), `B = rowOnes` (1 x 65536) and
`C = colOnes`, the right-hand side `A (B C)` returns a matrix while the left-hand side
`(A B) C` has no result, because the shape 65536 x 65536 of `A B` does not fit. -/
theorem multiply_classic_assoc_counterexample :
    (multiply_classic colOnes rowOnes).bind (fun AB => multiply_classic AB colOnes) = none ∧
      ∃ D, (multiply_classic rowOnes colOnes).bind
        (fun BC => multiply_classic colOnes BC) = some D := by
  constructor
  · rw [multiply_classic_overflow colOnes rowOnes
      (by show (65536 : Nat) < 4294967296; norm_num) (by show 1 ≤ 1; norm_num)
      (by show 4294967296 ≤ 65536 * 65536; norm_num)]
    rfl
  · obtain ⟨BC, h1, h2, h3, h4⟩ := multiply_classic_wf rowOnes colOnes rowOnes_WF colOnes_WF rfl
      ⟨by show (1 : Nat) < 4294967296; norm_num, by show (1 : Nat) < 4294967296; norm_num,
       by show (1 : Nat) * 1 < 4294967296; norm_num⟩
    obtain ⟨D, h5, _⟩ := multiply_classic_wf colOnes BC colOnes_WF h2 (by rw [h3]; rfl)
      ⟨by show (65536 : Nat) < 4294967296; norm_num,
       by rw [h4]; show (1 : Nat) < 4294967296; norm_num,
       by rw [h4]; show (65536 : Nat) * 1 < 4294967296; norm_num⟩
    exact ⟨D, by rw [h1, Option.some_bind, h5]⟩


theorem usub_eq {a b : Nat} (ha : a < 4294967296) (hb : b ≤ a) : usub a b = a - b := by
  unfold usub u32
  omega

section den
variable {R : Type} [Zero α] [Add α] [Sub α] [Mul α] [Ring R] (S : Sem α R)

theorem Sem.den_dotAcc (f g : Nat → α) (n : Nat) :
    S.den (dotAcc f g n) = Finset.sum (Finset.range n) (fun l => S.den (f l) * S.den (g l)) := by
  induction n with
  | zero => simp [dotAcc, S.den_zero]
  | succ n ih => rw [dotAcc, S.den_add, S.den_mul, ih, Finset.sum_range_succ]

/-- `block_add` in terms of the reading of the entries. -/
theorem block_add_den {r c : Nat} (g : Nat → Nat → α) (hF : Fits r c)
    {sr sc br bc : Nat} (h : Nat → Nat → α) (hr : sr + br ≤ r) (hc : sc + bc ≤ c) :
    ∃ g', (ofFn r c g).block_add (sr, sc) (ofFn br bc h) = some (ofFn r c g') ∧
      ∀ i j, S.den (g' i j) = S.den (g i j) +
        (if sr ≤ i ∧ i < sr + br ∧ sc ≤ j ∧ j < sc + bc then S.den (h (i - sr) (j - sc))
         else 0) := by
  refine ⟨_, block_add_ofFn g hF h hr hc, ?_⟩
  intro i j
  split
  · rw [S.den_add]
  · rw [add_zero]

/-- `block_subtract` in terms of the reading of the entries. -/
theorem block_subtract_den {r c : Nat} (g : Nat → Nat → α) (hF : Fits r c)
    {sr sc br bc : Nat} (h : Nat → Nat → α) (hr : sr + br ≤ r) (hc : sc + bc ≤ c) :
    ∃ g', (ofFn r c g).block_subtract (sr, sc) (ofFn br bc h) = some (ofFn r c g') ∧
      ∀ i j, S.den (g' i j) = S.den (g i j) -
        (if sr ≤ i ∧ i < sr + br ∧ sc ≤ j ∧ j < sc + bc then S.den (h (i - sr) (j - sc))
         else 0) := by
  refine ⟨_, block_subtract_ofFn g hF h hr hc, ?_⟩
  intro i j
  split
  · rw [S.den_sub]
  · rw [sub_zero]

/-- `subblock` in terms of the reading of the entries. -/
theorem subblock_den {r c : Nat} (f : Nat → Nat → α) (hF : Fits r c)
    {sr sc br bc : Nat} (hr : sr + br ≤ r) (hc : sc + bc ≤ c) :
    ∃ g, (ofFn r c f).subblock (sr, sc) (br, bc) = some (ofFn br bc g) ∧
      ∀ i j, S.den (g i j) = S.den (f (sr + i) (sc + j)) := by
  refine ⟨_, subblock_ofFn f hF hr hc, ?_⟩
  intro i j
  rw [S.den_add, S.den_zero, zero_add]

/-- The classic product in terms of the reading of the entries. -/
theorem multiply_classic_den {r k q : Nat} (a b : Nat → Nat → α)
    (hA : Fits r k) (hB : Fits k q) (hC : Fits r q) :
    ∃ p, multiply_classic (ofFn r k a) (ofFn k q b) = some (ofFn r q p) ∧
      ∀ i j, S.den (p i j) =
        Finset.sum (Finset.range k) (fun l => S.den (a i l) * S.den (b l j)) := by
  refine ⟨_, multiply_classic_ofFn a b hA hB hC, ?_⟩
  intro i j
  rw [S.den_dotAcc]

theorem Fits.sub {r c r' c' : Nat} (h : Fits r c) (hr : r' ≤ r) (hc : c' ≤ c) : Fits r' c' :=
  ⟨by have := h.1; omega, by have := h.2.1; omega, mul_le_of_le hr hc h.2.2⟩

/-- Dynamic peeling in terms of the reading of the entries: inside the rectangle covered
by whole blocks the product of the leftover columns of `A` and rows of `B` is added;
outside it the full inner product is added. -/
theorem dynamic_peeling_den {r c q : Nat} (a b c0 : Nat → Nat → α)
    (hA : Fits r c) (hB : Fits c q) (hC : Fits r q) {n k m : Nat}
    (hn : 1 ≤ n) (hk : 1 ≤ k) (hm : 1 ≤ m) :
    ∃ c1, dynamic_peeling (ofFn r c a) (ofFn c q b) (ofFn r q c0) n k m =
        some (ofFn r q c1) ∧
      ∀ i j, i < r → j < q → S.den (c1 i j) = S.den (c0 i j) +
        (if i < r / n * n ∧ j < q / m * m then
          Finset.sum (Finset.range (c - c / k * k))
            (fun l => S.den (a i (c / k * k + l)) * S.den (b (c / k * k + l) j))
         else Finset.sum (Finset.range c) (fun l => S.den (a i l) * S.den (b l j))) := by
  have hir : r / n * n ≤ r := Nat.div_mul_le_self r n
  have hic : c / k * k ≤ c := Nat.div_mul_le_self c k
  have hjc : q / m * m ≤ q := Nat.div_mul_le_self q m
  obtain ⟨hr32, hc32, hrc⟩ := hA
  obtain ⟨_, hq32, hcq⟩ := hB
  unfold dynamic_peeling
  simp only [ofFn_rows, ofFn_cols, and_self, if_true]
  rw [if_neg (by omega)]
  rw [u32_of_lt (show r / n * n < 4294967296 by omega),
    u32_of_lt (show c / k * k < 4294967296 by omega),
    u32_of_lt (show q / m * m < 4294967296 by omega),
    usub_eq hr32 hir, usub_eq hc32 hic, usub_eq hq32 hjc]
  -- first block
  have step1 : ∃ c1, (if c - c / k * k > 0 then
      ((ofFn r c a).subblock (0, c / k * k) (r / n * n, c - c / k * k)).bind
        (fun A_extra =>
      ((ofFn c q b).subblock (c / k * k, 0) (c - c / k * k, q / m * m)).bind
        (fun B_extra =>
      (multiply_classic A_extra B_extra).bind (fun product =>
      (ofFn r q c0).block_add (0, 0) product)))
    else some (ofFn r q c0)) = some (ofFn r q c1) ∧
      ∀ i j, S.den (c1 i j) = S.den (c0 i j) +
        (if i < r / n * n ∧ j < q / m * m then
          Finset.sum (Finset.range (c - c / k * k))
            (fun l => S.den (a i (c / k * k + l)) * S.den (b (c / k * k + l) j))
         else 0) := by
    by_cases h : c - c / k * k > 0
    · rw [if_pos h]
      obtain ⟨ae, hae, eae⟩ := subblock_den S a ⟨hr32, hc32, hrc⟩
        (show 0 + r / n * n ≤ r by omega) (show c / k * k + (c - c / k * k) ≤ c by omega)
      obtain ⟨be, hbe, ebe⟩ := subblock_den S b ⟨hc32, hq32, hcq⟩
        (show c / k * k + (c - c / k * k) ≤ c by omega) (show 0 + q / m * m ≤ q by omega)
      obtain ⟨p, hp, ep⟩ := multiply_classic_den S ae be
        (Fits.sub ⟨hr32, hc32, hrc⟩ hir (Nat.sub_le _ _))
        (Fits.sub ⟨hc32, hq32, hcq⟩ (Nat.sub_le _ _) hjc) (Fits.sub hC hir hjc)
      obtain ⟨c1, hc1, ec1⟩ := block_add_den S c0 hC p
        (show 0 + r / n * n ≤ r by omega) (show 0 + q / m * m ≤ q by omega)
      refine ⟨c1, ?_, ?_⟩
      · rw [hae, Option.some_bind, hbe, Option.some_bind, hp, Option.some_bind, hc1]
      · intro i j
        rw [ec1]
        congr 1
        by_cases h2 : i < r / n * n ∧ j < q / m * m
        · rw [if_pos h2, if_pos (by omega), ep]
          apply Finset.sum_congr rfl
          intro l _
          rw [eae, ebe]
          simp only [Nat.zero_add, Nat.sub_zero]
        · rw [if_neg h2, if_neg (by omega)]
    · rw [if_neg h]
      refine ⟨c0, rfl, ?_⟩
      intro i j
      have h0 : c - c / k * k = 0 := by omega
      rw [h0]
      simp
  obtain ⟨c1, hc1, ec1⟩ := step1
  rw [hc1, Option.some_bind]
  -- second block
  have step2 : ∃ c2, (if q - q / m * m > 0 then
      ((ofFn c q b).subblock (0, q / m * m) (c, q - q / m * m)).bind (fun B_extra =>
      (multiply_classic (ofFn r c a) B_extra).bind (fun product =>
      (ofFn r q c1).block_add (0, q / m * m) product))
    else some (ofFn r q c1)) = some (ofFn r q c2) ∧
      ∀ i j, i < r → j < q → S.den (c2 i j) = S.den (c1 i j) +
        (if q / m * m ≤ j then
          Finset.sum (Finset.range c) (fun l => S.den (a i l) * S.den (b l j))
         else 0) := by
    by_cases h : q - q / m * m > 0
    · rw [if_pos h]
      obtain ⟨be, hbe, ebe⟩ := subblock_den S b ⟨hc32, hq32, hcq⟩
        (show 0 + c ≤ c by omega) (show q / m * m + (q - q / m * m) ≤ q by omega)
      obtain ⟨p, hp, ep⟩ := multiply_classic_den S a be ⟨hr32, hc32, hrc⟩
        (Fits.sub ⟨hc32, hq32, hcq⟩ (Nat.le_refl _) (Nat.sub_le _ _))
        (Fits.sub hC (Nat.le_refl _) (Nat.sub_le _ _))
      obtain ⟨c2, hc2, ec2⟩ := block_add_den S c1 hC p
        (show 0 + r ≤ r by omega) (show q / m * m + (q - q / m * m) ≤ q by omega)
      refine ⟨c2, ?_, ?_⟩
      · rw [hbe, Option.some_bind, hp, Option.some_bind, hc2]
      · intro i j hi hj
        rw [ec2]
        congr 1
        by_cases h2 : q / m * m ≤ j
        · rw [if_pos h2, if_pos (by omega), ep]
          apply Finset.sum_congr rfl
          intro l _
          rw [ebe]
          have e1 : q / m * m + (j - q / m * m) = j := by omega
          simp only [Nat.zero_add, Nat.sub_zero, e1]
        · rw [if_neg h2, if_neg (by omega)]
    · rw [if_neg h]
      refine ⟨c1, rfl, ?_⟩
      intro i j _ hj
      rw [if_neg (by omega), add_zero]
  obtain ⟨c2, hc2, ec2⟩ := step2
  rw [hc2, Option.some_bind]
  -- third block
  have step3 : ∃ c3, (if r - r / n * n > 0 then
      ((ofFn r c a).subblock (r / n * n, 0) (r - r / n * n, c)).bind (fun A_extra =>
      ((ofFn c q b).subblock (0, 0) (c, q / m * m)).bind (fun B_extra =>
      (multiply_classic A_extra B_extra).bind (fun product =>
      (ofFn r q c2).block_add (r / n * n, 0) product)))
    else some (ofFn r q c2)) = some (ofFn r q c3) ∧
      ∀ i j, i < r → j < q → S.den (c3 i j) = S.den (c2 i j) +
        (if r / n * n ≤ i ∧ j < q / m * m then
          Finset.sum (Finset.range c) (fun l => S.den (a i l) * S.den (b l j))
         else 0) := by
    by_cases h : r - r / n * n > 0
    · rw [if_pos h]
      obtain ⟨ae, hae, eae⟩ := subblock_den S a ⟨hr32, hc32, hrc⟩
        (show r / n * n + (r - r / n * n) ≤ r by omega) (show 0 + c ≤ c by omega)
      obtain ⟨be, hbe, ebe⟩ := subblock_den S b ⟨hc32, hq32, hcq⟩
        (show 0 + c ≤ c by omega) (show 0 + q / m * m ≤ q by omega)
      obtain ⟨p, hp, ep⟩ := multiply_classic_den S ae be
        (Fits.sub ⟨hr32, hc32, hrc⟩ (Nat.sub_le _ _) (Nat.le_refl _))
        (Fits.sub ⟨hc32, hq32, hcq⟩ (Nat.le_refl _) hjc)
        (Fits.sub hC (Nat.sub_le _ _) hjc)
      obtain ⟨c3, hc3, ec3⟩ := block_add_den S c2 hC p
        (show r / n * n + (r - r / n * n) ≤ r by omega) (show 0 + q / m * m ≤ q by omega)
      refine ⟨c3, ?_, ?_⟩
      · rw [hae, Option.some_bind, hbe, Option.some_bind, hp, Option.some_bind, hc3]
      · intro i j hi hj
        rw [ec3]
        congr 1
        by_cases h2 : r / n * n ≤ i ∧ j < q / m * m
        · rw [if_pos h2, if_pos (by omega), ep]
          apply Finset.sum_congr rfl
          intro l _
          rw [eae, ebe]
          have e1 : r / n * n + (i - r / n * n) = i := by omega
          simp only [Nat.zero_add, Nat.sub_zero, e1]
        · rw [if_neg h2, if_neg (by omega)]
    · rw [if_neg h]
      refine ⟨c2, rfl, ?_⟩
      intro i j hi _
      rw [if_neg (by omega), add_zero]
  obtain ⟨c3, hc3, ec3⟩ := step3
  refine ⟨c3, hc3, ?_⟩
  intro i j hi hj
  rw [ec3 i j hi hj, ec2 i j hi hj, ec1]
  by_cases h1 : i < r / n * n ∧ j < q / m * m
  · rw [if_pos h1, if_pos h1, if_neg (by omega), if_neg (by omega), add_zero, add_zero]
  · rw [if_neg h1, if_neg h1, add_zero]
    by_cases h2 : q / m * m ≤ j
    · rw [if_pos h2, if_neg (by omega), add_zero]
    · rw [if_neg h2, if_pos (by omega), add_zero]

end den

theorem sum_split {R : Type} [AddCommMonoid R] (f : Nat → R) {n c : Nat} (h : n ≤ c) :
    Finset.sum (Finset.range c) f =
      Finset.sum (Finset.range n) f + Finset.sum (Finset.range (c - n)) (fun l => f (n + l)) := by
  have e : c = n + (c - n) := by omega
  conv_lhs => rw [e]
  exact Finset.sum_range_add f n (c - n)

/-- C7: for well-formed `A` (r x c), `B` (c x q), `C` (r x q) over a ring and block
factors `n, k, m >= 1`: if the entries `(i, j)` of `C` with `i < ir` and `j < jc` are the
products of the covered parts of `A` and `B` (the sum over `l < ic`) and the other entries
are zero, then `dynamic_peeling` returns the matrix `multiply_classic(A, B)`. -/
theorem dynamic_peeling_correct [Ring α] (A B C : Matrix α) (n k m : Nat)
    (hA : WF A) (hB : WF B) (hC : WF C)
    (h1 : A.rows = C.rows) (h2 : A.cols = B.rows) (h3 : B.cols = C.cols)
    (hn : 1 ≤ n) (hk : 1 ≤ k) (hm : 1 ≤ m)
    (hent : ∀ i j, i < A.rows → j < B.cols → entry C i j =
      if i < A.rows / n * n ∧ j < B.cols / m * m then
        Finset.sum (Finset.range (A.cols / k * k)) (fun l => entry A i l * entry B l j)
      else 0) :
    ∃ D, dynamic_peeling A B C n k m = some D ∧ multiply_classic A B = some D := by
  obtain ⟨r, c, a, hFa, rfl⟩ := hA.cases
  obtain ⟨c', q, b, hFb, rfl⟩ := hB.cases
  obtain ⟨r', q', c0, hFc, rfl⟩ := hC.cases
  simp only [ofFn_rows, ofFn_cols] at h1 h2 h3 hent
  subst h1; subst h2; subst h3
  obtain ⟨c1, hc1, ec1⟩ := dynamic_peeling_den (Sem.self α) a b c0 hFa hFb hFc hn hk hm
  refine ⟨_, hc1, ?_⟩
  rw [multiply_classic_ofFn a b hFa hFb hFc]
  congr 1
  apply ofFn_congr
  intro i j hi hj
  have e := ec1 i j hi hj
  have h0 := hent i j hi hj
  rw [entry_ofFn _ hi hj] at h0
  change c1 i j = c0 i j + _ at e
  rw [dotAcc_eq_sum, e, h0]
  have hic : c / k * k ≤ c := Nat.div_mul_le_self c k
  by_cases hcase : i < r / n * n ∧ j < q / m * m
  · rw [if_pos hcase, if_pos hcase, sum_split _ hic]
    congr 1
    · apply Finset.sum_congr rfl
      intro l hl
      have hl' : l < c := by have := Finset.mem_range.1 hl; omega
      rw [entry_ofFn _ hi hl', entry_ofFn _ hl' hj]
  · rw [if_neg hcase, if_neg hcase, zero_add]
    rfl

theorem dynamic_peeling_correct_witness :
    ∃ D, dynamic_peeling (ofData [1, 2, 3, 4, 5, 6] 2 3 : Matrix Int)
        (ofData [1, 0, 2, 1, 0, 3] 3 2) (ofData [5, 2, 14, 5] 2 2) 2 2 2 = some D ∧
      multiply_classic (ofData [1, 2, 3, 4, 5, 6] 2 3 : Matrix Int)
        (ofData [1, 0, 2, 1, 0, 3] 3 2) = some D :=
  dynamic_peeling_correct (ofData [1, 2, 3, 4, 5, 6] 2 3) (ofData [1, 0, 2, 1, 0, 3] 3 2)
    (ofData [5, 2, 14, 5] 2 2) 2 2 2
    (by refine ⟨⟨?_, ?_, ?_⟩, ?_⟩ <;> simp [ofData])
    (by refine ⟨⟨?_, ?_, ?_⟩, ?_⟩ <;> simp [ofData])
    (by refine ⟨⟨?_, ?_, ?_⟩, ?_⟩ <;> simp [ofData])
    rfl rfl rfl (by norm_num) (by norm_num) (by norm_num)
    (by
      intro i j hi hj
      have hi' : i < 2 := hi
      have hj' : j < 2 := hj
      interval_cases i <;> interval_cases j <;>
        simp [entry, ofData, Finset.sum_range_succ])

@[simp] theorem andThen_some {β γ : Type} (x : β) (f : β → Option γ) :
    andThen (some x) f = f x := rfl

@[simp] theorem andThen_none {β γ : Type} (f : β → Option γ) :
    andThen (none : Option β) f = none := rfl

theorem sum_split2 {R : Type} [AddCommMonoid R] (f : Nat → R) {h c : Nat} (hh : h * 2 ≤ c) :
    Finset.sum (Finset.range c) f =
      Finset.sum (Finset.range h) (fun l => f l + f (h + l)) +
        Finset.sum (Finset.range (c - h * 2)) (fun l => f (h * 2 + l)) := by
  rw [sum_split f hh]
  congr 1
  have e : h * 2 = h + h := by omega
  rw [e, Finset.sum_range_add, Finset.sum_add_distrib]

section den
variable {R : Type} [Zero α] [Add α] [Sub α] [Mul α] [Ring R] (S : Sem α R)

theorem strassen_dynamic_body_den (recurse : Matrix α → Matrix α → Option (Matrix α))
    {r c q : Nat} (a b : Nat → Nat → α) (hA : Fits r c) (hB : Fits c q) (hC : Fits r q)
    (hrec : ¬ min r (min c q) ≤ strassen_threshold →
      ∀ a' b', ∃ p, recurse (ofFn (r / 2) (c / 2) a') (ofFn (c / 2) (q / 2) b') =
        some (ofFn (r / 2) (q / 2) p) ∧
      ∀ i j, i < r / 2 → j < q / 2 → S.den (p i j) =
        Finset.sum (Finset.range (c / 2)) (fun l => S.den (a' i l) * S.den (b' l j))) :
    ∃ p, strassen_dynamic_body recurse (ofFn r c a) (ofFn c q b) = some (ofFn r q p) ∧
      ∀ i j, i < r → j < q → S.den (p i j) =
        Finset.sum (Finset.range c) (fun l => S.den (a i l) * S.den (b l j)) := by
  unfold strassen_dynamic_body
  simp only [ofFn_rows, ofFn_cols, if_true]
  by_cases hmin : min r (min c q) ≤ strassen_threshold
  · rw [if_pos hmin]
    obtain ⟨p, hp, ep⟩ := multiply_classic_den S a b hA hB hC
    exact ⟨p, hp, fun i j _ _ => ep i j⟩
  rw [if_neg hmin]
  have hrec := hrec hmin
  have hr2 : r / 2 + r / 2 ≤ r := by omega
  have hc2 : c / 2 + c / 2 ≤ c := by omega
  have hq2 : q / 2 + q / 2 ≤ q := by omega
  obtain ⟨a11, hA11, ea11⟩ := subblock_den S a hA (show 0 + r / 2 ≤ r by omega)
    (show 0 + c / 2 ≤ c by omega)
  obtain ⟨a12, hA12, ea12⟩ := subblock_den S a hA (show 0 + r / 2 ≤ r by omega) hc2
  obtain ⟨a21, hA21, ea21⟩ := subblock_den S a hA hr2 (show 0 + c / 2 ≤ c by omega)
  obtain ⟨a22, hA22, ea22⟩ := subblock_den S a hA hr2 hc2
  obtain ⟨b11, hB11, eb11⟩ := subblock_den S b hB (show 0 + c / 2 ≤ c by omega)
    (show 0 + q / 2 ≤ q by omega)
  obtain ⟨b12, hB12, eb12⟩ := subblock_den S b hB (show 0 + c / 2 ≤ c by omega) hq2
  obtain ⟨b21, hB21, eb21⟩ := subblock_den S b hB hc2 (show 0 + q / 2 ≤ q by omega)
  obtain ⟨b22, hB22, eb22⟩ := subblock_den S b hB hc2 hq2
  rw [hA11, andThen_some, hA12, andThen_some, hA21, andThen_some, hA22, andThen_some,
    hB11, andThen_some, hB12, andThen_some, hB21, andThen_some, hB22, andThen_some]
  rw [zeros_eq hC]
  -- P1
  rw [add_ofFn, andThen_some, add_ofFn, andThen_some]
  obtain ⟨p1, hP1, hp1⟩ := hrec (fun i j => a11 i j + a22 i j) (fun i j => b11 i j + b22 i j)
  rw [hP1, andThen_some]
  obtain ⟨c1, hC1, e1⟩ := block_add_den S (fun _ _ => (0 : α)) hC p1
    (show 0 + r / 2 ≤ r by omega) (show 0 + q / 2 ≤ q by omega)
  rw [hC1, andThen_some]
  obtain ⟨c2, hC2, e2⟩ := block_add_den S c1 hC p1 hr2 hq2
  rw [hC2, andThen_some]
  -- P2
  rw [add_ofFn, andThen_some]
  obtain ⟨p2, hP2, hp2⟩ := hrec (fun i j => a21 i j + a22 i j) b11
  rw [hP2, andThen_some]
  obtain ⟨c3, hC3, e3⟩ := block_add_den S c2 hC p2 hr2 (show 0 + q / 2 ≤ q by omega)
  rw [hC3, andThen_some]
  obtain ⟨c4, hC4, e4⟩ := block_subtract_den S c3 hC p2 hr2 hq2
  rw [hC4, andThen_some]
  -- P3
  rw [sub_ofFn, andThen_some]
  obtain ⟨p3, hP3, hp3⟩ := hrec a11 (fun i j => b12 i j - b22 i j)
  rw [hP3, andThen_some]
  obtain ⟨c5, hC5, e5⟩ := block_add_den S c4 hC p3 (show 0 + r / 2 ≤ r by omega) hq2
  rw [hC5, andThen_some]
  obtain ⟨c6, hC6, e6⟩ := block_add_den S c5 hC p3 hr2 hq2
  rw [hC6, andThen_some]
  -- P4
  rw [sub_ofFn, andThen_some]
  obtain ⟨p4, hP4, hp4⟩ := hrec a22 (fun i j => b21 i j - b11 i j)
  rw [hP4, andThen_some]
  obtain ⟨c7, hC7, e7⟩ := block_add_den S c6 hC p4
    (show 0 + r / 2 ≤ r by omega) (show 0 + q / 2 ≤ q by omega)
  rw [hC7, andThen_some]
  obtain ⟨c8, hC8, e8⟩ := block_add_den S c7 hC p4 hr2 (show 0 + q / 2 ≤ q by omega)
  rw [hC8, andThen_some]
  -- P5
  rw [add_ofFn, andThen_some]
  obtain ⟨p5, hP5, hp5⟩ := hrec (fun i j => a11 i j + a12 i j) b22
  rw [hP5, andThen_some]
  obtain ⟨c9, hC9, e9⟩ := block_subtract_den S c8 hC p5
    (show 0 + r / 2 ≤ r by omega) (show 0 + q / 2 ≤ q by omega)
  rw [hC9, andThen_some]
  obtain ⟨c10, hC10, e10⟩ := block_add_den S c9 hC p5 (show 0 + r / 2 ≤ r by omega) hq2
  rw [hC10, andThen_some]
  -- P6
  rw [sub_ofFn, andThen_some, add_ofFn, andThen_some]
  obtain ⟨p6, hP6, hp6⟩ := hrec (fun i j => a21 i j - a11 i j) (fun i j => b11 i j + b12 i j)
  rw [hP6, andThen_some]
  obtain ⟨c11, hC11, e11⟩ := block_add_den S c10 hC p6 hr2 hq2
  rw [hC11, andThen_some]
  -- P7
  rw [sub_ofFn, andThen_some, add_ofFn, andThen_some]
  obtain ⟨p7, hP7, hp7⟩ := hrec (fun i j => a12 i j - a22 i j) (fun i j => b21 i j + b22 i j)
  rw [hP7, andThen_some]
  obtain ⟨c12, hC12, e12⟩ := block_add_den S c11 hC p7
    (show 0 + r / 2 ≤ r by omega) (show 0 + q / 2 ≤ q by omega)
  rw [hC12, andThen_some]
  obtain ⟨c13, hC13, e13⟩ := dynamic_peeling_den S a b c12 hA hB hC
    (show 1 ≤ 2 by norm_num) (show 1 ≤ 2 by norm_num) (show 1 ≤ 2 by norm_num)
  refine ⟨c13, hC13, ?_⟩
  intro i j hi hj
  rw [e13 i j hi hj, e12, e11, e10, e9, e8, e7, e6, e5, e4, e3, e2, e1, S.den_zero]
  by_cases hpeel : i < r / 2 * 2 ∧ j < q / 2 * 2
  swap
  · repeat (first | rw [if_pos (by omega)] | rw [if_neg (by omega)])
    simp only [add_zero, sub_zero, zero_add]
  rw [sum_split2 _ (show c / 2 * 2 ≤ c by omega)]
  by_cases hi1 : i < r / 2 <;> by_cases hj1 : j < q / 2
  · repeat (first | rw [if_pos (by omega)] | rw [if_neg (by omega)])
    simp only [add_zero, sub_zero, zero_add, Nat.sub_zero]
    simp only [hp1 _ _ hi1 hj1, hp2 _ _ hi1 hj1, hp3 _ _ hi1 hj1, hp4 _ _ hi1 hj1,
      hp5 _ _ hi1 hj1, hp6 _ _ hi1 hj1, hp7 _ _ hi1 hj1,
      S.den_add, S.den_sub, ea11, ea12, ea21, ea22, eb11, eb12, eb21, eb22, Nat.zero_add]
    congr 1
    simp only [← Finset.sum_add_distrib, ← Finset.sum_sub_distrib]
    apply Finset.sum_congr rfl
    intro l _
    simp only [mul_add, add_mul, mul_sub, sub_mul]
    abel
  · have hJ : j - q / 2 < q / 2 := by omega
    have hj' : q / 2 + (j - q / 2) = j := by omega
    repeat (first | rw [if_pos (by omega)] | rw [if_neg (by omega)])
    simp only [add_zero, sub_zero, zero_add, Nat.sub_zero]
    simp only [hp1 _ _ hi1 hJ, hp2 _ _ hi1 hJ, hp3 _ _ hi1 hJ, hp4 _ _ hi1 hJ,
      hp5 _ _ hi1 hJ, hp6 _ _ hi1 hJ, hp7 _ _ hi1 hJ,
      S.den_add, S.den_sub, ea11, ea12, ea21, ea22, eb11, eb12, eb21, eb22, Nat.zero_add, hj']
    congr 1
    simp only [← Finset.sum_add_distrib, ← Finset.sum_sub_distrib]
    apply Finset.sum_congr rfl
    intro l _
    simp only [mul_add, add_mul, mul_sub, sub_mul]
    abel
  · have hI : i - r / 2 < r / 2 := by omega
    have hi' : r / 2 + (i - r / 2) = i := by omega
    repeat (first | rw [if_pos (by omega)] | rw [if_neg (by omega)])
    simp only [add_zero, sub_zero, zero_add, Nat.sub_zero]
    simp only [hp1 _ _ hI hj1, hp2 _ _ hI hj1, hp3 _ _ hI hj1, hp4 _ _ hI hj1,
      hp5 _ _ hI hj1, hp6 _ _ hI hj1, hp7 _ _ hI hj1,
      S.den_add, S.den_sub, ea11, ea12, ea21, ea22, eb11, eb12, eb21, eb22, Nat.zero_add, hi']
    congr 1
    simp only [← Finset.sum_add_distrib, ← Finset.sum_sub_distrib]
    apply Finset.sum_congr rfl
    intro l _
    simp only [mul_add, add_mul, mul_sub, sub_mul]
    abel
  · have hI : i - r / 2 < r / 2 := by omega
    have hi' : r / 2 + (i - r / 2) = i := by omega
    have hJ : j - q / 2 < q / 2 := by omega
    have hj' : q / 2 + (j - q / 2) = j := by omega
    repeat (first | rw [if_pos (by omega)] | rw [if_neg (by omega)])
    simp only [add_zero, sub_zero, zero_add, Nat.sub_zero]
    simp only [hp1 _ _ hI hJ, hp2 _ _ hI hJ, hp3 _ _ hI hJ, hp4 _ _ hI hJ,
      hp5 _ _ hI hJ, hp6 _ _ hI hJ, hp7 _ _ hI hJ,
      S.den_add, S.den_sub, ea11, ea12, ea21, ea22, eb11, eb12, eb21, eb22, Nat.zero_add,
      hi', hj']
    congr 1
    simp only [← Finset.sum_add_distrib, ← Finset.sum_sub_distrib]
    apply Finset.sum_congr rfl
    intro l _
    simp only [mul_add, add_mul, mul_sub, sub_mul]
    abel

theorem strassen_dynamic_fuel_den : ∀ (fuel r c q : Nat) (a b : Nat → Nat → α),
    r < fuel → Fits r c → Fits c q → Fits r q →
    ∃ p, multiply_strassen_dynamic_fuel fuel (ofFn r c a) (ofFn c q b) = some (ofFn r q p) ∧
      ∀ i j, i < r → j < q → S.den (p i j) =
        Finset.sum (Finset.range c) (fun l => S.den (a i l) * S.den (b l j))
  | 0, _, _, _, _, _, h, _, _, _ => absurd h (Nat.not_lt_zero _)
  | fuel + 1, r, c, q, a, b, h, hA, hB, hC => by
    show ∃ p, strassen_dynamic_body (multiply_strassen_dynamic_fuel fuel) (ofFn r c a)
      (ofFn c q b) = some (ofFn r q p) ∧ _
    apply strassen_dynamic_body_den S _ a b hA hB hC
    intro hmin a' b'
    have hr : 0 < r := by
      rcases Nat.eq_zero_or_pos r with h0 | h0
      · exfalso; apply hmin; rw [h0]; simp
      · exact h0
    exact strassen_dynamic_fuel_den fuel (r / 2) (c / 2) (q / 2) a' b' (by omega)
      (hA.sub (Nat.div_le_self _ _) (Nat.div_le_self _ _))
      (hB.sub (Nat.div_le_self _ _) (Nat.div_le_self _ _))
      (hC.sub (Nat.div_le_self _ _) (Nat.div_le_self _ _))

end den

/-- When the classic product of well-formed factors returns a result, the inner
dimensions agree and, unless the inner dimension is zero, the product shape fits. -/
theorem multiply_classic_some_fits [Zero α] [Add α] [Mul α] {A B C : Matrix α}
    (hA : WF A) (hB : WF B) (hC : multiply_classic A B = some C) :
    A.cols = B.rows ∧ (1 ≤ A.cols → Fits A.rows B.cols) := by
  constructor
  · by_contra h
    unfold multiply_classic at hC
    rw [if_neg h] at hC
    exact Option.noConfusion hC
  · intro hk
    refine ⟨hA.1.1, hB.1.2.1, ?_⟩
    by_contra h
    rw [multiply_classic_overflow A B hB.1.2.1 hk (by omega)] at hC
    exact Option.noConfusion hC

/-- C2: for well-formed `A` and `B` over a ring, whenever the classic product returns a
matrix, `multiply_strassen_dynamic` returns the same matrix; this covers every size, odd
dimensions and dimensions above the threshold included. -/
theorem multiply_strassen_dynamic_correct [Ring α] (A B C : Matrix α) (hA : WF A)
    (hB : WF B) (hC : multiply_classic A B = some C) :
    multiply_strassen_dynamic A B = some C := by
  obtain ⟨hk, hfit⟩ := multiply_classic_some_fits hA hB hC
  show strassen_dynamic_body (multiply_strassen_dynamic_fuel A.rows) A B = some C
  by_cases hmin : min A.rows (min A.cols B.cols) ≤ strassen_threshold
  · unfold strassen_dynamic_body
    rw [if_pos hk, if_pos hmin, hC]
  · have hk1 : 1 ≤ A.cols := by
      rcases Nat.eq_zero_or_pos A.cols with h0 | h0
      · exfalso; apply hmin; rw [h0]; simp
      · exact h0
    have hfit2 := hfit hk1
    clear hfit
    obtain ⟨r, c, a, hFa, rfl⟩ := hA.cases
    obtain ⟨c', q, b, hFb, rfl⟩ := hB.cases
    simp only [ofFn_rows, ofFn_cols] at hk hfit2 hmin ⊢
    subst hk
    obtain ⟨p, hp, ep⟩ := strassen_dynamic_fuel_den (Sem.self α) (r + 1) r c q a b
      (Nat.lt_succ_self _) hFa hFb hfit2
    rw [multiply_classic_ofFn a b hFa hFb hfit2] at hC
    have hp' : strassen_dynamic_body (multiply_strassen_dynamic_fuel r) (ofFn r c a)
        (ofFn c q b) = some (ofFn r q p) := hp
    rw [hp', ← Option.some.inj hC]
    congr 1
    apply ofFn_congr
    intro i j hi hj
    rw [dotAcc_eq_sum]
    exact ep i j hi hj

theorem multiply_strassen_dynamic_correct_witness :
    multiply_strassen_dynamic (ofData [1, 2, 3, 4] 2 2 : Matrix Int) (ofData [4, 3, 2, 1] 2 2)
      = some (ofData [8, 5, 20, 13] 2 2) :=
  multiply_strassen_dynamic_correct (ofData [1, 2, 3, 4] 2 2) (ofData [4, 3, 2, 1] 2 2)
    (ofData [8, 5, 20, 13] 2 2)
    (by refine ⟨⟨?_, ?_, ?_⟩, ?_⟩ <;> simp [ofData])
    (by refine ⟨⟨?_, ?_, ?_⟩, ?_⟩ <;> simp [ofData])
    (by decide)

theorem sum_halves {R : Type} [AddCommMonoid R] (f : Nat → R) {n : Nat} (h : n / 2 * 2 = n) :
    Finset.sum (Finset.range n) f =
      Finset.sum (Finset.range (n / 2)) (fun l => f l + f (n / 2 + l)) := by
  rw [sum_split2 f (show n / 2 * 2 ≤ n by omega), h, Nat.sub_self, Finset.sum_range_zero,
    add_zero]

section den
variable {R : Type} [Zero α] [Add α] [Sub α] [Mul α] [Ring R] (S : Sem α R)

theorem strassen_body_den (recurse : Matrix α → Matrix α → Option (Matrix α))
    {n : Nat} (a b : Nat → Nat → α) (hA : Fits n n)
    (hrec : ¬ n ≤ strassen_threshold → n / 2 * 2 = n ∧
      ∀ a' b', ∃ p, recurse (ofFn (n / 2) (n / 2) a') (ofFn (n / 2) (n / 2) b') =
        some (ofFn (n / 2) (n / 2) p) ∧
      ∀ i j, i < n / 2 → j < n / 2 → S.den (p i j) =
        Finset.sum (Finset.range (n / 2)) (fun l => S.den (a' i l) * S.den (b' l j))) :
    ∃ p, strassen_body recurse (ofFn n n a) (ofFn n n b) = some (ofFn n n p) ∧
      ∀ i j, i < n → j < n → S.den (p i j) =
        Finset.sum (Finset.range n) (fun l => S.den (a i l) * S.den (b l j)) := by
  have hB := hA
  have hC := hA
  unfold strassen_body
  simp only [ofFn_rows, ofFn_cols, and_self, if_true]
  by_cases hmin : n ≤ strassen_threshold
  · rw [if_pos hmin]
    obtain ⟨p, hp, ep⟩ := multiply_classic_den S a b hA hB hC
    exact ⟨p, hp, fun i j _ _ => ep i j⟩
  rw [if_neg hmin]
  obtain ⟨heven, hrec⟩ := hrec hmin
  have hr2 : n / 2 + n / 2 ≤ n := by omega
  have hc2 : n / 2 + n / 2 ≤ n := by omega
  have hq2 : n / 2 + n / 2 ≤ n := by omega
  obtain ⟨a11, hA11, ea11⟩ := subblock_den S a hA (show 0 + n / 2 ≤ n by omega)
    (show 0 + n / 2 ≤ n by omega)
  obtain ⟨a12, hA12, ea12⟩ := subblock_den S a hA (show 0 + n / 2 ≤ n by omega) hc2
  obtain ⟨a21, hA21, ea21⟩ := subblock_den S a hA hr2 (show 0 + n / 2 ≤ n by omega)
  obtain ⟨a22, hA22, ea22⟩ := subblock_den S a hA hr2 hc2
  obtain ⟨b11, hB11, eb11⟩ := subblock_den S b hB (show 0 + n / 2 ≤ n by omega)
    (show 0 + n / 2 ≤ n by omega)
  obtain ⟨b12, hB12, eb12⟩ := subblock_den S b hB (show 0 + n / 2 ≤ n by omega) hq2
  obtain ⟨b21, hB21, eb21⟩ := subblock_den S b hB hc2 (show 0 + n / 2 ≤ n by omega)
  obtain ⟨b22, hB22, eb22⟩ := subblock_den S b hB hc2 hq2
  rw [hA11, andThen_some, hA12, andThen_some, hA21, andThen_some, hA22, andThen_some,
    hB11, andThen_some, hB12, andThen_some, hB21, andThen_some, hB22, andThen_some]
  rw [zeros_eq hC]
  -- P1
  rw [add_ofFn, andThen_some, add_ofFn, andThen_some]
  obtain ⟨p1, hP1, hp1⟩ := hrec (fun i j => a11 i j + a22 i j) (fun i j => b11 i j + b22 i j)
  rw [hP1, andThen_some]
  obtain ⟨c1, hC1, e1⟩ := block_add_den S (fun _ _ => (0 : α)) hC p1
    (show 0 + n / 2 ≤ n by omega) (show 0 + n / 2 ≤ n by omega)
  rw [hC1, andThen_some]
  obtain ⟨c2, hC2, e2⟩ := block_add_den S c1 hC p1 hr2 hq2
  rw [hC2, andThen_some]
  -- P2
  rw [add_ofFn, andThen_some]
  obtain ⟨p2, hP2, hp2⟩ := hrec (fun i j => a21 i j + a22 i j) b11
  rw [hP2, andThen_some]
  obtain ⟨c3, hC3, e3⟩ := block_add_den S c2 hC p2 hr2 (show 0 + n / 2 ≤ n by omega)
  rw [hC3, andThen_some]
  obtain ⟨c4, hC4, e4⟩ := block_subtract_den S c3 hC p2 hr2 hq2
  rw [hC4, andThen_some]
  -- P3
  rw [sub_ofFn, andThen_some]
  obtain ⟨p3, hP3, hp3⟩ := hrec a11 (fun i j => b12 i j - b22 i j)
  rw [hP3, andThen_some]
  obtain ⟨c5, hC5, e5⟩ := block_add_den S c4 hC p3 (show 0 + n / 2 ≤ n by omega) hq2
  rw [hC5, andThen_some]
  obtain ⟨c6, hC6, e6⟩ := block_add_den S c5 hC p3 hr2 hq2
  rw [hC6, andThen_some]
  -- P4
  rw [sub_ofFn, andThen_some]
  obtain ⟨p4, hP4, hp4⟩ := hrec a22 (fun i j => b21 i j - b11 i j)
  rw [hP4, andThen_some]
  obtain ⟨c7, hC7, e7⟩ := block_add_den S c6 hC p4
    (show 0 + n / 2 ≤ n by omega) (show 0 + n / 2 ≤ n by omega)
  rw [hC7, andThen_some]
  obtain ⟨c8, hC8, e8⟩ := block_add_den S c7 hC p4 hr2 (show 0 + n / 2 ≤ n by omega)
  rw [hC8, andThen_some]
  -- P5
  rw [add_ofFn, andThen_some]
  obtain ⟨p5, hP5, hp5⟩ := hrec (fun i j => a11 i j + a12 i j) b22
  rw [hP5, andThen_some]
  obtain ⟨c9, hC9, e9⟩ := block_subtract_den S c8 hC p5
    (show 0 + n / 2 ≤ n by omega) (show 0 + n / 2 ≤ n by omega)
  rw [hC9, andThen_some]
  obtain ⟨c10, hC10, e10⟩ := block_add_den S c9 hC p5 (show 0 + n / 2 ≤ n by omega) hq2
  rw [hC10, andThen_some]
  -- P6
  rw [sub_ofFn, andThen_some, add_ofFn, andThen_some]
  obtain ⟨p6, hP6, hp6⟩ := hrec (fun i j => a21 i j - a11 i j) (fun i j => b11 i j + b12 i j)
  rw [hP6, andThen_some]
  obtain ⟨c11, hC11, e11⟩ := block_add_den S c10 hC p6 hr2 hq2
  rw [hC11, andThen_some]
  -- P7
  rw [sub_ofFn, andThen_some, add_ofFn, andThen_some]
  obtain ⟨p7, hP7, hp7⟩ := hrec (fun i j => a12 i j - a22 i j) (fun i j => b21 i j + b22 i j)
  rw [hP7, andThen_some]
  obtain ⟨c12, hC12, e12⟩ := block_add_den S c11 hC p7
    (show 0 + n / 2 ≤ n by omega) (show 0 + n / 2 ≤ n by omega)
  refine ⟨c12, hC12, ?_⟩
  intro i j hi hj
  rw [e12, e11, e10, e9, e8, e7, e6, e5, e4, e3, e2, e1, S.den_zero]
  rw [sum_halves _ heven]
  by_cases hi1 : i < n / 2 <;> by_cases hj1 : j < n / 2
  · repeat (first | rw [if_pos (by omega)] | rw [if_neg (by omega)])
    simp only [add_zero, sub_zero, zero_add, Nat.sub_zero]
    simp only [hp1 _ _ hi1 hj1, hp2 _ _ hi1 hj1, hp3 _ _ hi1 hj1, hp4 _ _ hi1 hj1,
      hp5 _ _ hi1 hj1, hp6 _ _ hi1 hj1, hp7 _ _ hi1 hj1,
      S.den_add, S.den_sub, ea11, ea12, ea21, ea22, eb11, eb12, eb21, eb22, Nat.zero_add]
    simp only [← Finset.sum_add_distrib, ← Finset.sum_sub_distrib]
    apply Finset.sum_congr rfl
    intro l _
    simp only [mul_add, add_mul, mul_sub, sub_mul]
    abel
  · have hJ : j - n / 2 < n / 2 := by omega
    have hj' : n / 2 + (j - n / 2) = j := by omega
    repeat (first | rw [if_pos (by omega)] | rw [if_neg (by omega)])
    simp only [add_zero, sub_zero, zero_add, Nat.sub_zero]
    simp only [hp1 _ _ hi1 hJ, hp2 _ _ hi1 hJ, hp3 _ _ hi1 hJ, hp4 _ _ hi1 hJ,
      hp5 _ _ hi1 hJ, hp6 _ _ hi1 hJ, hp7 _ _ hi1 hJ,
      S.den_add, S.den_sub, ea11, ea12, ea21, ea22, eb11, eb12, eb21, eb22, Nat.zero_add, hj']
    simp only [← Finset.sum_add_distrib, ← Finset.sum_sub_distrib]
    apply Finset.sum_congr rfl
    intro l _
    simp only [mul_add, add_mul, mul_sub, sub_mul]
    abel
  · have hI : i - n / 2 < n / 2 := by omega
    have hi' : n / 2 + (i - n / 2) = i := by omega
    repeat (first | rw [if_pos (by omega)] | rw [if_neg (by omega)])
    simp only [add_zero, sub_zero, zero_add, Nat.sub_zero]
    simp only [hp1 _ _ hI hj1, hp2 _ _ hI hj1, hp3 _ _ hI hj1, hp4 _ _ hI hj1,
      hp5 _ _ hI hj1, hp6 _ _ hI hj1, hp7 _ _ hI hj1,
      S.den_add, S.den_sub, ea11, ea12, ea21, ea22, eb11, eb12, eb21, eb22, Nat.zero_add, hi']
    simp only [← Finset.sum_add_distrib, ← Finset.sum_sub_distrib]
    apply Finset.sum_congr rfl
    intro l _
    simp only [mul_add, add_mul, mul_sub, sub_mul]
    abel
  · have hI : i - n / 2 < n / 2 := by omega
    have hi' : n / 2 + (i - n / 2) = i := by omega
    have hJ : j - n / 2 < n / 2 := by omega
    have hj' : n / 2 + (j - n / 2) = j := by omega
    repeat (first | rw [if_pos (by omega)] | rw [if_neg (by omega)])
    simp only [add_zero, sub_zero, zero_add, Nat.sub_zero]
    simp only [hp1 _ _ hI hJ, hp2 _ _ hI hJ, hp3 _ _ hI hJ, hp4 _ _ hI hJ,
      hp5 _ _ hI hJ, hp6 _ _ hI hJ, hp7 _ _ hI hJ,
      S.den_add, S.den_sub, ea11, ea12, ea21, ea22, eb11, eb12, eb21, eb22, Nat.zero_add,
      hi', hj']
    simp only [← Finset.sum_add_distrib, ← Finset.sum_sub_distrib]
    apply Finset.sum_congr rfl
    intro l _
    simp only [mul_add, add_mul, mul_sub, sub_mul]
    abel

theorem strassen_fuel_den : ∀ (t fuel : Nat) (a b : Nat → Nat → α),
    t < fuel → Fits (2 ^ t) (2 ^ t) →
    ∃ p, strassen_fuel fuel (ofFn (2 ^ t) (2 ^ t) a) (ofFn (2 ^ t) (2 ^ t) b) =
        some (ofFn (2 ^ t) (2 ^ t) p) ∧
      ∀ i j, i < 2 ^ t → j < 2 ^ t → S.den (p i j) =
        Finset.sum (Finset.range (2 ^ t)) (fun l => S.den (a i l) * S.den (b l j))
  | _, 0, _, _, h, _ => absurd h (Nat.not_lt_zero _)
  | t, fuel + 1, a, b, h, hF => by
    show ∃ p, strassen_body (strassen_fuel fuel) (ofFn (2 ^ t) (2 ^ t) a)
      (ofFn (2 ^ t) (2 ^ t) b) = some (ofFn (2 ^ t) (2 ^ t) p) ∧ _
    apply strassen_body_den S _ a b hF
    intro hmin
    cases t with
    | zero => exfalso; apply hmin; simp [strassen_threshold]
    | succ t =>
      have e : 2 ^ (t + 1) / 2 = 2 ^ t := by
        rw [Nat.pow_succ]; exact Nat.mul_div_cancel _ (by norm_num)
      rw [e]
      refine ⟨by rw [Nat.pow_succ], ?_⟩
      intro a' b'
      exact strassen_fuel_den t fuel a' b' (by omega)
        (hF.sub (Nat.pow_le_pow_right (by norm_num) (Nat.le_succ t))
          (Nat.pow_le_pow_right (by norm_num) (Nat.le_succ t)))

end den

theorem next_power_of_2_loop_spec (value : Nat) (hv : value ≤ 32768) :
    ∀ (fuel t : Nat), 1 ≤ t → t ≤ 15 → 15 - t < fuel →
      ∃ t', t ≤ t' ∧ t' ≤ 15 ∧ next_power_of_2_loop value fuel t (2 ^ t) = some (2 ^ t') ∧
        value ≤ 2 ^ t'
  | 0, _, _, _, h => absurd h (Nat.not_lt_zero _)
  | fuel + 1, t, h1, h2, h3 => by
    unfold next_power_of_2_loop
    by_cases hlt : 2 ^ t < value
    · have ht : t < 15 := by
        by_contra hcon
        have : t = 15 := by omega
        rw [this] at hlt
        norm_num at hlt
        omega
      have hp : 2 ^ t * 2 = 2 ^ (t + 1) := by rw [Nat.pow_succ]
      have hp2 : 2 ^ (t + 1) ≤ 2 ^ 15 := Nat.pow_le_pow_right (by norm_num) (by omega)
      rw [if_pos hlt, u32_of_lt (show t + 1 < 4294967296 by omega), if_pos (by omega), hp,
        u32_of_lt (show 2 ^ (t + 1) < 4294967296 by
          have : (2 : Nat) ^ 15 = 32768 := by norm_num
          omega)]
      obtain ⟨t', h4, h5, h6, h7⟩ := next_power_of_2_loop_spec value hv fuel (t + 1)
        (by omega) (by omega) (by omega)
      exact ⟨t', by omega, h5, h6, h7⟩
    · rw [if_neg hlt]
      exact ⟨t, Nat.le_refl _, h2, rfl, by omega⟩

theorem next_power_of_2_spec (value : Nat) (hv : value ≤ 32768) :
    ∃ t, 1 ≤ t ∧ t ≤ 15 ∧ next_power_of_2 value = some (2 ^ t) ∧ value ≤ 2 ^ t := by
  obtain ⟨t', h1, h2, h3, h4⟩ := next_power_of_2_loop_spec value hv 32 1 (Nat.le_refl _)
    (by norm_num) (by norm_num)
  exact ⟨t', h1, h2, h3, h4⟩

theorem Fits_pow {t : Nat} (ht : t ≤ 15) : Fits (2 ^ t) (2 ^ t) := by
  have h1 : 2 ^ t ≤ 2 ^ 15 := Nat.pow_le_pow_right (by norm_num) ht
  have h2 : (2 : Nat) ^ 15 = 32768 := by norm_num
  have h3 : 2 ^ t * 2 ^ t ≤ 32768 * 32768 := Nat.mul_le_mul (by omega) (by omega)
  exact ⟨by omega, by omega, by omega⟩

/-- C3 (as amended): for well-formed `A` (n x k) and `B` (k x m) over a ring with largest
dimension at most `2 ^ 15 = 32768`, `multiply_strassen_static(A, B)` returns the matrix
that `multiply_classic(A, B)` returns. -/
theorem multiply_strassen_static_correct [Ring α] (A B : Matrix α) (hA : WF A) (hB : WF B)
    (hk : A.cols = B.rows) (hmax : max A.rows (max B.cols B.rows) ≤ 32768) :
    ∃ C, multiply_classic A B = some C ∧ multiply_strassen_static A B = some C := by
  obtain ⟨r, c, a, hFa, rfl⟩ := hA.cases
  obtain ⟨c', q, b, hFb, rfl⟩ := hB.cases
  simp only [ofFn_rows, ofFn_cols] at hk hmax
  subst hk
  have hr : r ≤ 32768 := le_trans (le_max_left _ _) hmax
  have hq : q ≤ 32768 := le_trans (le_trans (le_max_left _ _) (le_max_right _ _)) hmax
  have hc : c ≤ 32768 := le_trans (le_trans (le_max_right _ _) (le_max_right _ _)) hmax
  have hFc : Fits r q := ⟨by omega, by omega, by
    have := Nat.mul_le_mul hr hq
    omega⟩
  refine ⟨_, multiply_classic_ofFn a b hFa hFb hFc, ?_⟩
  obtain ⟨t, ht1, ht2, hnp, hle⟩ := next_power_of_2_spec _ hmax
  have hrn : r ≤ 2 ^ t := le_trans (le_max_left _ _) hle
  have hqn : q ≤ 2 ^ t := le_trans (le_trans (le_max_left _ _) (le_max_right _ _)) hle
  have hcn : c ≤ 2 ^ t := le_trans (le_trans (le_max_right _ _) (le_max_right _ _)) hle
  have hFn := Fits_pow ht2
  unfold multiply_strassen_static
  simp only [ofFn_rows, ofFn_cols, if_true]
  rw [hnp, andThen_some, zeros_eq hFn,
    block_add_ofFn _ hFn a (show 0 + r ≤ 2 ^ t by omega) (show 0 + c ≤ 2 ^ t by omega),
    andThen_some,
    block_add_ofFn _ hFn b (show 0 + c ≤ 2 ^ t by omega) (show 0 + q ≤ 2 ^ t by omega),
    andThen_some]
  obtain ⟨p, hp, ep⟩ := strassen_fuel_den (Sem.self α) t (2 ^ t + 1) _ _
    (Nat.lt_succ_of_lt (Nat.lt_two_pow t)) hFn
  unfold strassen
  simp only [ofFn_rows]
  rw [hp, andThen_some, subblock_ofFn _ hFn (show 0 + r ≤ 2 ^ t by omega)
    (show 0 + q ≤ 2 ^ t by omega)]
  congr 1
  apply ofFn_congr
  intro i j hi hj
  have e := ep (0 + i) (0 + j) (by omega) (by omega)
  change p (0 + i) (0 + j) = _ at e
  rw [e, dotAcc_eq_sum, zero_add, sum_split _ hcn]
  have tail : Finset.sum (Finset.range (2 ^ t - c)) (fun l =>
      (Sem.self α).den (if 0 ≤ 0 + i ∧ 0 + i < 0 + r ∧ 0 ≤ c + l ∧ c + l < 0 + c
          then (0 : α) + a (0 + i - 0) (c + l - 0) else 0) *
        (Sem.self α).den (if 0 ≤ c + l ∧ c + l < 0 + c ∧ 0 ≤ 0 + j ∧ 0 + j < 0 + q
          then (0 : α) + b (c + l - 0) (0 + j - 0) else 0)) = 0 := by
    apply Finset.sum_eq_zero
    intro l _
    rw [if_neg (by omega), if_neg (by omega)]
    show (0 : α) * 0 = 0
    rw [zero_mul]
  rw [tail, add_zero]
  apply Finset.sum_congr rfl
  intro l hl
  have hl' := Finset.mem_range.1 hl
  rw [if_pos (by omega), if_pos (by omega)]
  show ((0 : α) + a (0 + i - 0) (l - 0)) * ((0 : α) + b (l - 0) (0 + j - 0)) = a i l * b l j
  simp only [Nat.zero_add, Nat.sub_zero, zero_add]


theorem unitOne_WF : WF unitOne := by
  refine ⟨⟨?_, ?_, ?_⟩, ?_⟩ <;> simp [unitOne, ofData]

theorem multiply_strassen_static_correct_witness :
    ∃ C, multiply_classic (ofData [1, 2, 3, 4] 2 2 : Matrix Int) (ofData [4, 3, 2, 1] 2 2)
        = some C ∧
      multiply_strassen_static (ofData [1, 2, 3, 4] 2 2 : Matrix Int)
        (ofData [4, 3, 2, 1] 2 2) = some C :=
  multiply_strassen_static_correct (ofData [1, 2, 3, 4] 2 2) (ofData [4, 3, 2, 1] 2 2)
    (by refine ⟨⟨?_, ?_, ?_⟩, ?_⟩ <;> simp [ofData])
    (by refine ⟨⟨?_, ?_, ?_⟩, ?_⟩ <;> simp [ofData])
    rfl (by decide)

/-- A block update at the origin of a matrix whose buffer is empty has no result when the
block has an entry. -/
theorem blockUpdate_empty (f : α → α → α) (r c : Nat) (block : Matrix α)
    (hr : 1 ≤ block.rows) (hc : 1 ≤ block.cols) :
    blockUpdate f ⟨r, c, []⟩ (0, 0) block = none := by
  unfold blockUpdate
  dsimp only
  split
  · obtain ⟨k, hk⟩ : ∃ k, block.rows = k + 1 := ⟨block.rows - 1, by omega⟩
    rw [hk, forLoop_succ]
    have h0 : u32 (u32 (0 + 0) * c + 0) = 0 := by simp [u32]
    rw [h0, zipRange_none_of_short f block.data block.cols 0 (0 * block.cols) []
      (Nat.le_refl _) (by simp; omega)]
    rfl
  · rfl

/-- C3 fails as stated: `colOnes` (65536 x 1) and `unitOne` (1 x 1) are well formed with
largest dimension `65536 <= 2 ^ 31`; the classic product returns a matrix, but
`multiply_strassen_static` has no result, because the padded size `65536 * 65536` wraps
to zero. -/
theorem multiply_strassen_static_counterexample :
    WF colOnes ∧ WF unitOne ∧ colOnes.cols = unitOne.rows ∧
      max colOnes.rows (max unitOne.cols unitOne.rows) ≤ 2 ^ 31 ∧
      (∃ C, multiply_classic colOnes unitOne = some C) ∧
      multiply_strassen_static colOnes unitOne = none := by
  refine ⟨colOnes_WF, unitOne_WF, rfl, by decide, ?_, ?_⟩
  · obtain ⟨C, hC, _⟩ := multiply_classic_wf colOnes unitOne colOnes_WF unitOne_WF rfl
      ⟨by show (65536 : Nat) < 4294967296; norm_num, by show (1 : Nat) < 4294967296; norm_num,
       by show (65536 : Nat) * 1 < 4294967296; norm_num⟩
    exact ⟨C, hC⟩
  · unfold multiply_strassen_static
    rw [if_pos (show colOnes.cols = unitOne.rows from rfl)]
    have h1 : next_power_of_2 (max colOnes.rows (max unitOne.cols unitOne.rows)) =
        some 65536 := by decide
    have h2 : (zeros 65536 65536 : Matrix Int) = ⟨65536, 65536, []⟩ := by decide
    rw [h1, andThen_some, h2]
    have h3 : (⟨65536, 65536, []⟩ : Matrix Int).block_add (0, 0) colOnes = none :=
      blockUpdate_empty _ 65536 65536 colOnes (by decide) (by decide)
    rw [h3]
    rfl


/-- C12, the code at the failing input: on the 1 x 1 matrix `[5]` the request
`subblock((4294967295, 0), (2, 0))` passes both assertions, because
`4294967295 + 2` wraps to `1`, and returns a 2 x 0 matrix, although the true sum
`4294967297` exceeds `rows = 1`. -/
theorem subblock_wraps :
    (ofData [5] 1 1 : Matrix Int).subblock (4294967295, 0) (2, 0) = some (ofData [] 2 0) ∧
      (ofData [5] 1 1 : Matrix Int).rows < 4294967295 + 2 := by
  constructor
  · decide
  · decide

/-- C14, the code at the failing input: on the 1 x 1 matrix `[5]` the call
`block_add((4294967295, 0), X)` with `X` of shape 1 x 0 passes the assertion, because
`4294967295 + 1` wraps to `0`, and returns the receiver, although the true sum
`4294967296` exceeds `rows = 1`; `block_subtract` does the same. -/
theorem block_add_wraps :
    (ofData [5] 1 1 : Matrix Int).block_add (4294967295, 0) (ofData [] 1 0) =
        some (ofData [5] 1 1) ∧
      (ofData [5] 1 1 : Matrix Int).block_subtract (4294967295, 0) (ofData [] 1 0) =
        some (ofData [5] 1 1) ∧
      (ofData [5] 1 1 : Matrix Int).rows < 4294967295 + (ofData [] 1 0 : Matrix Int).rows := by
  refine ⟨by decide, by decide, by decide⟩

theorem forPure_eq {σ : Type} (body : Nat → σ → σ) (S : Nat → σ) :
    ∀ (n i0 : Nat), (∀ i, i0 ≤ i → i < i0 + n → body i (S i) = S (i + 1)) →
      forPure body n i0 (S i0) = S (i0 + n)
  | 0, i0, _ => by simp [forPure]
  | n + 1, i0, h => by
    rw [forPure, h i0 (Nat.le_refl _) (by omega),
      forPure_eq body S n (i0 + 1) (fun i h1 h2 => h i (by omega) (by omega))]
    congr 1; omega

theorem tab_getD [Zero α] (n : Nat) (g : Nat → α) (p : Nat) :
    (tab n g).getD p 0 = if p < n then g p else 0 := by
  rw [List.getD_eq_getElem?_getD, tab_getElem?]
  by_cases h : p < n <;> simp [h]

theorem getD_of_le [Zero α] (l : List α) (p : Nat) (h : l.length ≤ p) : l.getD p 0 = 0 := by
  rw [List.getD_eq_getElem?_getD, List.getElem?_eq_none h]
  rfl

theorem Polynomial.coeff_of_le [Zero α] (p : Polynomial α) (t : Nat) (h : p.a.length ≤ t) :
    p.coeff t = 0 := getD_of_le p.a t h

theorem Polynomial.mul_a [Semiring α] (p q : Polynomial α) :
    (p.mul q).a = tab (p.a.length + q.a.length - 1) (fun t =>
      ∑ i ∈ Finset.range q.a.length, ∑ j ∈ Finset.range p.a.length,
        if i + j = t then p.coeff j * q.coeff i else 0) := by
  unfold Polynomial.mul
  simp only
  have key := forPure_eq (fun i product =>
      forPure (fun j product =>
        product.set (i + j) (product.getD (i + j) 0 + p.a.getD j 0 * q.a.getD i 0))
        p.a.length 0 product)
    (fun I => tab (p.a.length + q.a.length - 1) (fun t =>
      ∑ i ∈ Finset.range I, ∑ j ∈ Finset.range p.a.length,
        if i + j = t then p.coeff j * q.coeff i else 0)) q.a.length 0 (by
    intro I _ hI
    dsimp only
    have inner := forPure_eq (fun j product =>
        product.set (I + j) (product.getD (I + j) 0 + p.a.getD j 0 * q.a.getD I 0))
      (fun J => tab (p.a.length + q.a.length - 1) (fun t =>
        (∑ i ∈ Finset.range I, ∑ j ∈ Finset.range p.a.length,
          if i + j = t then p.coeff j * q.coeff i else 0) +
        ∑ j ∈ Finset.range J, if I + j = t then p.coeff j * q.coeff I else 0))
      p.a.length 0 (by
      intro J _ hJ
      dsimp only
      rw [tab_set, tab_getD, if_pos (by omega)]
      apply tab_congr
      intro t _
      rw [Finset.sum_range_succ]
      by_cases h : t = I + J
      · subst h
        rw [if_pos rfl, if_pos rfl, add_assoc]
        rfl
      · rw [if_neg h, if_neg (fun e => h e.symm), add_zero])
    dsimp only at inner
    simp only [Finset.range_zero, Finset.sum_empty, add_zero, Nat.zero_add] at inner
    rw [inner]
    apply tab_congr
    intro t _
    rw [Finset.sum_range_succ])
  dsimp only at key
  simp only [Finset.range_zero, Finset.sum_empty, Nat.zero_add] at key
  rw [← key, replicate_eq_tab]

theorem conv_sum [Semiring α] (p q : Polynomial α) (t : Nat) :
    (∑ i ∈ Finset.range q.a.length, ∑ j ∈ Finset.range p.a.length,
        if i + j = t then p.coeff j * q.coeff i else 0) =
      ∑ x ∈ Finset.antidiagonal t, p.coeff x.2 * q.coeff x.1 := by
  rw [Finset.Nat.sum_antidiagonal_eq_sum_range_succ (fun i j => p.coeff j * q.coeff i)]
  have h1 : ∀ i ∈ Finset.range q.a.length,
      (∑ j ∈ Finset.range p.a.length, if i + j = t then p.coeff j * q.coeff i else 0) =
        if i ≤ t then p.coeff (t - i) * q.coeff i else 0 := by
    intro i _
    by_cases hi : i ≤ t
    · rw [if_pos hi]
      by_cases hj : t - i < p.a.length
      · rw [Finset.sum_eq_single (t - i)]
        · rw [if_pos (by omega)]
        · intro j _ hne
          rw [if_neg (by omega)]
        · intro hn
          exact absurd (Finset.mem_range.2 hj) hn
      · rw [p.coeff_of_le (t - i) (by omega), zero_mul]
        apply Finset.sum_eq_zero
        intro j hj2
        have := Finset.mem_range.1 hj2
        rw [if_neg (by omega)]
    · rw [if_neg hi]
      apply Finset.sum_eq_zero
      intro j _
      rw [if_neg (by omega)]
  rw [Finset.sum_congr rfl h1, ← Finset.sum_filter]
  have h2 : ∑ k ∈ Finset.range (t + 1), p.coeff (t - k) * q.coeff k =
      ∑ k ∈ (Finset.range (t + 1)).filter (fun k => k < q.a.length),
        p.coeff (t - k) * q.coeff k := by
    rw [Finset.sum_filter]
    apply Finset.sum_congr rfl
    intro k _
    by_cases hk : k < q.a.length
    · rw [if_pos hk]
    · rw [if_neg hk, q.coeff_of_le k (by omega), mul_zero]
  rw [h2]
  apply Finset.sum_congr
  · ext k
    simp only [Finset.mem_filter, Finset.mem_range]
    omega
  · intro _ _
    rfl

theorem Polynomial.mul_coeff [Semiring α] (p q : Polynomial α) (t : Nat) :
    (p.mul q).coeff t = ∑ x ∈ Finset.antidiagonal t, p.coeff x.2 * q.coeff x.1 := by
  unfold Polynomial.coeff
  rw [Polynomial.mul_a, tab_getD]
  by_cases h : t < p.a.length + q.a.length - 1
  · rw [if_pos h]
    exact conv_sum p q t
  · rw [if_neg h]
    symm
    apply Finset.sum_eq_zero
    intro x hx
    have := Finset.mem_antidiagonal.1 hx
    by_cases h2 : x.2 < p.a.length
    · have : q.a.length ≤ x.1 := by omega
      show p.coeff x.2 * q.coeff x.1 = 0
      rw [q.coeff_of_le _ this, mul_zero]
    · show p.coeff x.2 * q.coeff x.1 = 0
      rw [p.coeff_of_le _ (by omega), zero_mul]

/-- C17: for polynomials `p` with coefficients `p_0 .. p_d` and `q` with `q_0 .. q_e`,
the product `p * q` has exactly `d + e + 1` coefficients and its coefficient at
`epsilon^t` is the sum of `p_j * q_i` over `i + j = t`. -/
theorem mul_convolution [Semiring α] (p q : Polynomial α) (d e : Nat)
    (hp : p.a.length = d + 1) (hq : q.a.length = e + 1) :
    (p * q).a.length = d + e + 1 ∧
      ∀ t, (p * q).coeff t = ∑ x ∈ Finset.antidiagonal t, p.coeff x.2 * q.coeff x.1 := by
  constructor
  · show (p.mul q).a.length = d + e + 1
    rw [Polynomial.mul_a, tab_length]
    omega
  · intro t
    exact Polynomial.mul_coeff p q t

theorem mul_convolution_witness :
    ((⟨[1, 2]⟩ : Polynomial Int) * ⟨[3, 4, 5]⟩).a.length = 1 + 2 + 1 ∧
      ∀ t, ((⟨[1, 2]⟩ : Polynomial Int) * ⟨[3, 4, 5]⟩).coeff t =
        ∑ x ∈ Finset.antidiagonal t,
          (⟨[1, 2]⟩ : Polynomial Int).coeff x.2 * (⟨[3, 4, 5]⟩ : Polynomial Int).coeff x.1 :=
  mul_convolution ⟨[1, 2]⟩ ⟨[3, 4, 5]⟩ 1 2 rfl rfl

theorem padTo_eq [Zero α] (a : List α) (n : Nat) :
    Polynomial.padTo a n = tab (max a.length n) (fun t => a.getD t 0) := by
  apply List.ext_getElem?
  intro t
  unfold Polynomial.padTo
  rw [tab_getElem?]
  by_cases h1 : t < a.length
  · rw [List.getElem?_append_left h1, if_pos (by omega), List.getD_eq_getElem?_getD,
      List.getElem?_eq_getElem h1]
    rfl
  · rw [List.getElem?_append_right (by omega), List.getElem?_replicate, getD_of_le a t (by omega)]
    by_cases h2 : t < max a.length n
    · rw [if_pos h2, if_pos (by omega)]
    · rw [if_neg h2, if_neg (by omega)]

theorem Polynomial.zipAssign_a [Zero α] (f : α → α → α) (p q : Polynomial α) :
    (Polynomial.zipAssign f p q).a = tab (max p.a.length q.a.length) (fun t =>
      if t < q.a.length then f (p.coeff t) (q.coeff t) else p.coeff t) := by
  unfold Polynomial.zipAssign
  simp only
  rw [padTo_eq, tab_length, Nat.min_eq_right (Nat.le_max_right _ _)]
  have key := forPure_eq (fun i a => a.set i (f (a.getD i 0) (q.a.getD i 0)))
    (fun I => tab (max p.a.length q.a.length) (fun t =>
      if t < I then f (p.coeff t) (q.coeff t) else p.coeff t)) q.a.length 0 (by
    intro I _ hI
    dsimp only
    rw [tab_set, tab_getD, if_pos (by omega), if_neg (Nat.lt_irrefl I)]
    apply tab_congr
    intro t _
    by_cases h : t = I
    · subst h
      rw [if_pos rfl, if_pos (Nat.lt_succ_self t)]
      rfl
    · rw [if_neg h]
      by_cases h2 : t < I
      · rw [if_pos h2, if_pos (by omega)]
      · rw [if_neg h2, if_neg (by omega)])
  dsimp only at key
  simp only [Nat.not_lt_zero, if_false, Nat.zero_add] at key
  exact key

/-- C18: `p + q` and `p - q` have as many coefficients as the longer of `p` and `q`, and
the coefficient at `epsilon^t` is `p_t + q_t`, respectively `p_t - q_t`, a coefficient
past the end of a vector being zero; whether `p` is the shorter or the longer operand
makes no difference. -/
theorem add_sub_coefficients [AddGroup α] (p q : Polynomial α) :
    (p + q).a.length = max p.a.length q.a.length ∧
    (p - q).a.length = max p.a.length q.a.length ∧
    (∀ t, (p + q).coeff t = p.coeff t + q.coeff t) ∧
    (∀ t, (p - q).coeff t = p.coeff t - q.coeff t) ∧
    ((⟨[1]⟩ : Polynomial Int) + ⟨[10, 20, 30]⟩ = ⟨[11, 20, 30]⟩) ∧
    ((⟨[10, 20, 30]⟩ : Polynomial Int) - ⟨[1]⟩ = ⟨[9, 20, 30]⟩) := by
  refine ⟨?_, ?_, ?_, ?_, by decide, by decide⟩
  · show (Polynomial.zipAssign _ p q).a.length = _
    rw [Polynomial.zipAssign_a, tab_length]
  · show (Polynomial.zipAssign _ p q).a.length = _
    rw [Polynomial.zipAssign_a, tab_length]
  · intro t
    show (Polynomial.zipAssign _ p q).a.getD t 0 = _
    rw [Polynomial.zipAssign_a, tab_getD]
    by_cases h : t < q.a.length
    · rw [if_pos (by omega), if_pos h]
    · by_cases h2 : t < p.a.length
      · rw [if_pos (by omega), if_neg h, q.coeff_of_le t (by omega), add_zero]
      · rw [if_neg (by omega), q.coeff_of_le t (by omega), p.coeff_of_le t (by omega), add_zero]
  · intro t
    show (Polynomial.zipAssign _ p q).a.getD t 0 = _
    rw [Polynomial.zipAssign_a, tab_getD]
    by_cases h : t < q.a.length
    · rw [if_pos (by omega), if_pos h]
    · by_cases h2 : t < p.a.length
      · rw [if_pos (by omega), if_neg h, q.coeff_of_le t (by omega), sub_zero]
      · rw [if_neg (by omega), q.coeff_of_le t (by omega), p.coeff_of_le t (by omega), sub_zero]

theorem shiftDown_eq [Zero α] (k : Nat) (a : List α) :
    Polynomial.shiftDown k a = tab a.length (fun t =>
      if t < a.length - k then a.getD (t + k) 0 else a.getD t 0) := by
  unfold Polynomial.shiftDown
  by_cases hk : k = 0
  · subst hk
    have key := forPure_eq (fun i (l : List α) => l.set i (l.getD (i + 0) 0))
      (fun _ => a) (a.length - 0) 0 (by
        intro i _ hi
        dsimp only
        apply List.ext_getElem?
        intro t
        rw [List.getElem?_set]
        by_cases h : i = t
        · subst h
          rw [if_pos rfl, if_pos (by omega), List.getElem?_eq_getElem (by omega),
            List.getD_eq_getElem?_getD, List.getElem?_eq_getElem (by omega)]
          rfl
        · rw [if_neg h])
    dsimp only at key
    rw [key]
    conv_lhs => rw [eq_tab_of_length a]
    apply tab_congr
    intro t _
    simp
  · have key := forPure_eq (fun i (l : List α) => l.set i (l.getD (i + k) 0))
      (fun I => tab a.length (fun t => if t < I then a.getD (t + k) 0 else a.getD t 0))
      (a.length - k) 0 (by
        intro I _ hI
        dsimp only
        rw [tab_set, tab_getD]
        apply tab_congr
        intro t _
        by_cases h : t = I
        · subst h
          rw [if_pos rfl, if_pos (Nat.lt_succ_self t), if_pos (by omega), if_neg (by omega)]
        · rw [if_neg h]
          by_cases h2 : t < I
          · rw [if_pos h2, if_pos (by omega)]
          · rw [if_neg h2, if_neg (by omega)])
    dsimp only at key
    simp only [Nat.not_lt_zero, if_false, Nat.zero_add] at key
    rw [← key]
    congr 1
    exact eq_tab_of_length a

theorem tab_dropLast (n : Nat) (g : Nat → α) : (tab n g).dropLast = tab (n - 1) g := by
  apply List.ext_getElem?
  intro t
  rw [List.dropLast_eq_take, List.getElem?_take, tab_getElem?, tab_getElem?, tab_length]
  by_cases h : t < n - 1
  · rw [if_pos h, if_pos h, if_pos (by omega)]
  · rw [if_neg h, if_neg h]

theorem drop_eq_tab [Zero α] (k : Nat) (a : List α) :
    a.drop k = tab (a.length - k) (fun t => a.getD (t + k) 0) := by
  apply List.ext_getElem?
  intro t
  rw [List.getElem?_drop, tab_getElem?]
  by_cases h : t < a.length - k
  · rw [if_pos h, List.getD_eq_getElem?_getD, Nat.add_comm,
      List.getElem?_eq_getElem (show t + k < a.length by omega)]
    rfl
  · rw [if_neg h, List.getElem?_eq_none (by omega)]

theorem shiftDown_one [Zero α] (a : List α) :
    (Polynomial.shiftDown 1 a).dropLast = a.drop 1 := by
  rw [shiftDown_eq, tab_dropLast, drop_eq_tab]
  apply tab_congr
  intro t ht
  rw [if_pos ht]

theorem shiftDown_two [Zero α] (a : List α) :
    (Polynomial.shiftDown 2 a).dropLast.dropLast = a.drop 2 := by
  rw [shiftDown_eq, tab_dropLast, tab_dropLast, drop_eq_tab, Nat.sub_sub]
  apply tab_congr
  intro t ht
  rw [if_pos ht]

theorem Polynomial.div_epsilon [Zero α] [One α] [DecidableEq α] (p : Polynomial α) :
    p.div ⟨[0, 1]⟩ =
      if p.a.length = 1 then some ⟨[0]⟩ else if p.a.length = 0 then none
      else some ⟨p.a.drop 1⟩ := by
  unfold Polynomial.div
  rw [if_pos (Or.inl ⟨rfl, rfl, rfl⟩),
    if_pos (show (⟨[0, 1]⟩ : Polynomial α).a.length = 2 from rfl), shiftDown_one]

theorem Polynomial.div_epsilon_sq [Zero α] [One α] [DecidableEq α] (p : Polynomial α) :
    p.div ⟨[0, 0, 1]⟩ = if p.a.length ≤ 2 then some ⟨[0]⟩ else some ⟨p.a.drop 2⟩ := by
  unfold Polynomial.div
  rw [if_pos (Or.inr ⟨rfl, rfl, rfl, rfl⟩),
    if_neg (show ¬ (⟨[0, 0, 1]⟩ : Polynomial α).a.length = 2 from
      fun h => absurd h (by simp)),
    if_pos (show (⟨[0, 0, 1]⟩ : Polynomial α).a.length = 3 from rfl), shiftDown_two]

/-- C19: for a polynomial `p` with coefficients `p_0 .. p_d`, dividing by `[0, 1]`
(epsilon) gives `p_1 .. p_d` when `d >= 1` and `[0]` when `d = 0`; dividing by
`[0, 0, 1]` (epsilon squared) gives `p_2 .. p_d` when `d >= 2` and `[0]` when `d <= 1`;
in each case the quotient has at least one coefficient. -/
theorem div_shifts [Zero α] [One α] [DecidableEq α] (p : Polynomial α) (d : Nat)
    (hp : p.a.length = d + 1) :
    (∃ r, p.div ⟨[0, 1]⟩ = some r ∧ 1 ≤ r.a.length ∧
      (1 ≤ d → r.a = p.a.drop 1) ∧ (d = 0 → r.a = [0])) ∧
    (∃ r, p.div ⟨[0, 0, 1]⟩ = some r ∧ 1 ≤ r.a.length ∧
      (2 ≤ d → r.a = p.a.drop 2) ∧ (d ≤ 1 → r.a = [0])) := by
  constructor
  · rw [Polynomial.div_epsilon]
    by_cases h : d = 0
    · rw [if_pos (by omega)]
      exact ⟨_, rfl, by simp, fun h1 => by omega, fun _ => rfl⟩
    · rw [if_neg (by omega), if_neg (by omega)]
      exact ⟨_, rfl, by simp only [List.length_drop]; omega, fun _ => rfl, fun h1 => absurd h1 h⟩
  · rw [Polynomial.div_epsilon_sq]
    by_cases h : d ≤ 1
    · rw [if_pos (by omega)]
      exact ⟨_, rfl, by simp, fun h1 => by omega, fun _ => rfl⟩
    · rw [if_neg (by omega)]
      exact ⟨_, rfl, by simp only [List.length_drop]; omega, fun _ => rfl, fun h1 => absurd h1 h⟩

theorem div_shifts_witness :
    (∃ r, (⟨[7, 8, 9]⟩ : Polynomial Int).div ⟨[0, 1]⟩ = some r ∧ 1 ≤ r.a.length ∧
      (1 ≤ 2 → r.a = ([7, 8, 9] : List Int).drop 1) ∧ (2 = 0 → r.a = [0])) ∧
    (∃ r, (⟨[7, 8, 9]⟩ : Polynomial Int).div ⟨[0, 0, 1]⟩ = some r ∧ 1 ≤ r.a.length ∧
      (2 ≤ 2 → r.a = ([7, 8, 9] : List Int).drop 2) ∧ (2 ≤ 1 → r.a = [0])) :=
  div_shifts ⟨[7, 8, 9]⟩ 2 rfl

theorem Polynomial.div_isSome [Zero α] [One α] [DecidableEq α] (p q : Polynomial α)
    (hp : p.a ≠ []) : (p.div q).isSome = true ↔ q.a = [0, 1] ∨ q.a = [0, 0, 1] := by
  have hlen : p.a.length ≠ 0 := fun h => hp (List.length_eq_zero.1 h)
  constructor
  · intro h
    unfold Polynomial.div at h
    split at h
    · rename_i hc
      obtain ⟨qa⟩ := q
      simp only at hc ⊢
      rcases hc with ⟨h2, h0, h1⟩ | ⟨h3, h0, h1, h2⟩
      · left
        match qa, h2 with
        | [x, y], _ =>
          simp only [List.getElem?_cons_zero, List.getElem?_cons_succ, Option.some.injEq] at h0 h1
          rw [h0, h1]
      · right
        match qa, h3 with
        | [x, y, z], _ =>
          simp only [List.getElem?_cons_zero, List.getElem?_cons_succ, Option.some.injEq]
            at h0 h1 h2
          rw [h0, h1, h2]
    · simp at h
  · intro h
    obtain ⟨qa⟩ := q
    simp only at h
    rcases h with rfl | rfl
    · rw [Polynomial.div_epsilon]
      by_cases h1 : p.a.length = 1
      · rw [if_pos h1]; rfl
      · rw [if_neg h1, if_neg hlen]; rfl
    · rw [Polynomial.div_epsilon_sq]
      by_cases h1 : p.a.length ≤ 2
      · rw [if_pos h1]; rfl
      · rw [if_neg h1]; rfl

/-- C20: on a dividend with at least one coefficient, `p / q` returns a quotient exactly
when the coefficient list of `q` is `[0, 1]` or `[0, 0, 1]`; for every other divisor,
such as `[1]`, `[0, 2]` and `[0, 1, 0]`, the assertion fails and nothing is returned. -/
theorem div_succeeds_iff [Zero α] [One α] [DecidableEq α] (p q : Polynomial α)
    (hp : p.a ≠ []) :
    ((p.div q).isSome = true ↔ q.a = [0, 1] ∨ q.a = [0, 0, 1]) ∧
    (¬ (q.a = [0, 1] ∨ q.a = [0, 0, 1]) → p.div q = none) ∧
    (⟨[6, 4]⟩ : Polynomial Int).div ⟨[1]⟩ = none ∧
    (⟨[6, 4]⟩ : Polynomial Int).div ⟨[0, 2]⟩ = none ∧
    (⟨[6, 4]⟩ : Polynomial Int).div ⟨[0, 1, 0]⟩ = none := by
  refine ⟨Polynomial.div_isSome p q hp, ?_, by decide, by decide, by decide⟩
  intro h
  have := (Polynomial.div_isSome p q hp).not.2 h
  cases hd : p.div q with
  | none => rfl
  | some r => rw [hd] at this; simp at this

theorem div_succeeds_iff_witness :
    (((⟨[6, 4]⟩ : Polynomial Int).div ⟨[0, 1]⟩).isSome = true ↔
      ([0, 1] : List Int) = [0, 1] ∨ ([0, 1] : List Int) = [0, 0, 1]) ∧
    (¬ (([0, 1] : List Int) = [0, 1] ∨ ([0, 1] : List Int) = [0, 0, 1]) →
      (⟨[6, 4]⟩ : Polynomial Int).div ⟨[0, 1]⟩ = none) ∧
    (⟨[6, 4]⟩ : Polynomial Int).div ⟨[1]⟩ = none ∧
    (⟨[6, 4]⟩ : Polynomial Int).div ⟨[0, 2]⟩ = none ∧
    (⟨[6, 4]⟩ : Polynomial Int).div ⟨[0, 1, 0]⟩ = none :=
  div_succeeds_iff ⟨[6, 4]⟩ ⟨[0, 1]⟩ (by decide)

@[simp] theorem addTo_ofFn [Add α] {r c : Nat} (g h : Nat → Nat → α) :
    Matrix.addTo (some (ofFn r c g)) (ofFn r c h) = some (ofFn r c (fun i j => g i j + h i j)) :=
  add_ofFn g h

@[simp] theorem subFrom_ofFn [Sub α] {r c : Nat} (g h : Nat → Nat → α) :
    Matrix.subFrom (some (ofFn r c g)) (ofFn r c h) = some (ofFn r c (fun i j => g i j - h i j)) :=
  sub_ofFn g h

theorem sum_split3 {R : Type} [AddCommMonoid R] (f : Nat → R) {h c : Nat} (hh : h * 3 ≤ c) :
    Finset.sum (Finset.range c) f =
      Finset.sum (Finset.range h) (fun l => f l + f (h + l) + f (2 * h + l)) +
        Finset.sum (Finset.range (c - h * 3)) (fun l => f (h * 3 + l)) := by
  rw [sum_split f hh]
  congr 1
  have e : h * 3 = h + h + h := by omega
  rw [e, Finset.sum_range_add, Finset.sum_range_add, Finset.sum_add_distrib,
    Finset.sum_add_distrib]
  congr 1
  apply Finset.sum_congr rfl
  intro l _
  congr 1
  omega

section den
variable {R : Type} [Zero α] [Add α] [Sub α] [Mul α] [Ring R] (S : Sem α R)

set_option maxHeartbeats 20000000 in
theorem laderman_body_den (recurse : Matrix α → Matrix α → Option (Matrix α))
    {r c q : Nat} (a b : Nat → Nat → α) (hA : Fits r c) (hB : Fits c q) (hC : Fits r q)
    (hrec : ¬ min r (min c q) ≤ laderman_threshold →
      ∀ a' b', ∃ p, recurse (ofFn (r / 3) (c / 3) a') (ofFn (c / 3) (q / 3) b') =
        some (ofFn (r / 3) (q / 3) p) ∧
      ∀ i j, i < r / 3 → j < q / 3 → S.den (p i j) =
        Finset.sum (Finset.range (c / 3)) (fun l => S.den (a' i l) * S.den (b' l j))) :
    ∃ p, laderman_body recurse (ofFn r c a) (ofFn c q b) = some (ofFn r q p) ∧
      ∀ i j, i < r → j < q → S.den (p i j) =
        Finset.sum (Finset.range c) (fun l => S.den (a i l) * S.den (b l j)) := by
  unfold laderman_body
  simp only [ofFn_rows, ofFn_cols, if_true]
  by_cases hmin : min r (min c q) ≤ laderman_threshold
  · rw [if_pos hmin]
    obtain ⟨p, hp, ep⟩ := multiply_classic_den S a b hA hB hC
    exact ⟨p, hp, fun i j _ _ => ep i j⟩
  rw [if_neg hmin]
  have hrec := hrec hmin
  have hr3 : r / 3 * 3 ≤ r := Nat.div_mul_le_self r 3
  have hc3 : c / 3 * 3 ≤ c := Nat.div_mul_le_self c 3
  have hq3 : q / 3 * 3 ≤ q := Nat.div_mul_le_self q 3
  obtain ⟨a11, hA11, ea11⟩ := subblock_den S a hA
    (show 0 + r / 3 ≤ r by omega) (show 0 + c / 3 ≤ c by omega)
  rw [hA11, andThen_some]
  obtain ⟨a12, hA12, ea12⟩ := subblock_den S a hA
    (show 0 + r / 3 ≤ r by omega) (show c / 3 + c / 3 ≤ c by omega)
  rw [hA12, andThen_some]
  obtain ⟨a13, hA13, ea13⟩ := subblock_den S a hA
    (show 0 + r / 3 ≤ r by omega) (show 2 * (c / 3) + c / 3 ≤ c by omega)
  rw [hA13, andThen_some]
  obtain ⟨a21, hA21, ea21⟩ := subblock_den S a hA
    (show r / 3 + r / 3 ≤ r by omega) (show 0 + c / 3 ≤ c by omega)
  rw [hA21, andThen_some]
  obtain ⟨a22, hA22, ea22⟩ := subblock_den S a hA
    (show r / 3 + r / 3 ≤ r by omega) (show c / 3 + c / 3 ≤ c by omega)
  rw [hA22, andThen_some]
  obtain ⟨a23, hA23, ea23⟩ := subblock_den S a hA
    (show r / 3 + r / 3 ≤ r by omega) (show 2 * (c / 3) + c / 3 ≤ c by omega)
  rw [hA23, andThen_some]
  obtain ⟨a31, hA31, ea31⟩ := subblock_den S a hA
    (show 2 * (r / 3) + r / 3 ≤ r by omega) (show 0 + c / 3 ≤ c by omega)
  rw [hA31, andThen_some]
  obtain ⟨a32, hA32, ea32⟩ := subblock_den S a hA
    (show 2 * (r / 3) + r / 3 ≤ r by omega) (show c / 3 + c / 3 ≤ c by omega)
  rw [hA32, andThen_some]
  obtain ⟨a33, hA33, ea33⟩ := subblock_den S a hA
    (show 2 * (r / 3) + r / 3 ≤ r by omega) (show 2 * (c / 3) + c / 3 ≤ c by omega)
  rw [hA33, andThen_some]
  obtain ⟨b11, hB11, eb11⟩ := subblock_den S b hB
    (show 0 + c / 3 ≤ c by omega) (show 0 + q / 3 ≤ q by omega)
  rw [hB11, andThen_some]
  obtain ⟨b12, hB12, eb12⟩ := subblock_den S b hB
    (show 0 + c / 3 ≤ c by omega) (show q / 3 + q / 3 ≤ q by omega)
  rw [hB12, andThen_some]
  obtain ⟨b13, hB13, eb13⟩ := subblock_den S b hB
    (show 0 + c / 3 ≤ c by omega) (show 2 * (q / 3) + q / 3 ≤ q by omega)
  rw [hB13, andThen_some]
  obtain ⟨b21, hB21, eb21⟩ := subblock_den S b hB
    (show c / 3 + c / 3 ≤ c by omega) (show 0 + q / 3 ≤ q by omega)
  rw [hB21, andThen_some]
  obtain ⟨b22, hB22, eb22⟩ := subblock_den S b hB
    (show c / 3 + c / 3 ≤ c by omega) (show q / 3 + q / 3 ≤ q by omega)
  rw [hB22, andThen_some]
  obtain ⟨b23, hB23, eb23⟩ := subblock_den S b hB
    (show c / 3 + c / 3 ≤ c by omega) (show 2 * (q / 3) + q / 3 ≤ q by omega)
  rw [hB23, andThen_some]
  obtain ⟨b31, hB31, eb31⟩ := subblock_den S b hB
    (show 2 * (c / 3) + c / 3 ≤ c by omega) (show 0 + q / 3 ≤ q by omega)
  rw [hB31, andThen_some]
  obtain ⟨b32, hB32, eb32⟩ := subblock_den S b hB
    (show 2 * (c / 3) + c / 3 ≤ c by omega) (show q / 3 + q / 3 ≤ q by omega)
  rw [hB32, andThen_some]
  obtain ⟨b33, hB33, eb33⟩ := subblock_den S b hB
    (show 2 * (c / 3) + c / 3 ≤ c by omega) (show 2 * (q / 3) + q / 3 ≤ q by omega)
  rw [hB33, andThen_some]
  rw [zeros_eq hC]
  -- P1
  try rw [add_ofFn a11 a12]
  try rw [addTo_ofFn (fun i j => a11 i j + a12 i j) a13]
  try rw [subFrom_ofFn (fun i j => a11 i j + a12 i j + a13 i j) a21]
  try rw [subFrom_ofFn (fun i j => a11 i j + a12 i j + a13 i j - a21 i j) a22]
  try rw [subFrom_ofFn (fun i j => a11 i j + a12 i j + a13 i j - a21 i j - a22 i j) a32]
  try rw [subFrom_ofFn (fun i j => a11 i j + a12 i j + a13 i j - a21 i j - a22 i j - a32 i j) a33]
  rw [andThen_some]
  obtain ⟨p1, hP1, hp1⟩ := hrec
    (fun i j => a11 i j + a12 i j + a13 i j - a21 i j - a22 i j - a32 i j - a33 i j)
    b22
  rw [hP1, andThen_some]
  obtain ⟨c1, hC1, e1⟩ := block_add_den S (fun _ _ => (0 : α)) hC p1
    (show 0 + r / 3 ≤ r by omega) (show q / 3 + q / 3 ≤ q by omega)
  rw [hC1, andThen_some]
  -- P2
  try rw [sub_ofFn a11 a21]
  rw [andThen_some]
  try rw [sub_ofFn b22 b12]
  rw [andThen_some]
  obtain ⟨p2, hP2, hp2⟩ := hrec
    (fun i j => a11 i j - a21 i j)
    (fun i j => b22 i j - b12 i j)
  rw [hP2, andThen_some]
  obtain ⟨c2, hC2, e2⟩ := block_add_den S c1 hC p2
    (show r / 3 + r / 3 ≤ r by omega) (show 0 + q / 3 ≤ q by omega)
  rw [hC2, andThen_some]
  obtain ⟨c3, hC3, e3⟩ := block_add_den S c2 hC p2
    (show r / 3 + r / 3 ≤ r by omega) (show q / 3 + q / 3 ≤ q by omega)
  rw [hC3, andThen_some]
  -- P3
  try rw [sub_ofFn b12 b11]
  try rw [addTo_ofFn (fun i j => b12 i j - b11 i j) b21]
  try rw [subFrom_ofFn (fun i j => b12 i j - b11 i j + b21 i j) b22]
  try rw [subFrom_ofFn (fun i j => b12 i j - b11 i j + b21 i j - b22 i j) b23]
  try rw [subFrom_ofFn (fun i j => b12 i j - b11 i j + b21 i j - b22 i j - b23 i j) b31]
  try rw [addTo_ofFn (fun i j => b12 i j - b11 i j + b21 i j - b22 i j - b23 i j - b31 i j) b33]
  rw [andThen_some]
  obtain ⟨p3, hP3, hp3⟩ := hrec
    a22
    (fun i j => b12 i j - b11 i j + b21 i j - b22 i j - b23 i j - b31 i j + b33 i j)
  rw [hP3, andThen_some]
  obtain ⟨c4, hC4, e4⟩ := block_add_den S c3 hC p3
    (show r / 3 + r / 3 ≤ r by omega) (show 0 + q / 3 ≤ q by omega)
  rw [hC4, andThen_some]
  -- P4
  try rw [sub_ofFn a21 a11]
  try rw [addTo_ofFn (fun i j => a21 i j - a11 i j) a22]
  rw [andThen_some]
  try rw [sub_ofFn b11 b12]
  try rw [addTo_ofFn (fun i j => b11 i j - b12 i j) b22]
  rw [andThen_some]
  obtain ⟨p4, hP4, hp4⟩ := hrec
    (fun i j => a21 i j - a11 i j + a22 i j)
    (fun i j => b11 i j - b12 i j + b22 i j)
  rw [hP4, andThen_some]
  obtain ⟨c5, hC5, e5⟩ := block_add_den S c4 hC p4
    (show 0 + r / 3 ≤ r by omega) (show q / 3 + q / 3 ≤ q by omega)
  rw [hC5, andThen_some]
  obtain ⟨c6, hC6, e6⟩ := block_add_den S c5 hC p4
    (show r / 3 + r / 3 ≤ r by omega) (show 0 + q / 3 ≤ q by omega)
  rw [hC6, andThen_some]
  obtain ⟨c7, hC7, e7⟩ := block_add_den S c6 hC p4
    (show r / 3 + r / 3 ≤ r by omega) (show q / 3 + q / 3 ≤ q by omega)
  rw [hC7, andThen_some]
  -- P5
  try rw [add_ofFn a21 a22]
  rw [andThen_some]
  try rw [sub_ofFn b12 b11]
  rw [andThen_some]
  obtain ⟨p5, hP5, hp5⟩ := hrec
    (fun i j => a21 i j + a22 i j)
    (fun i j => b12 i j - b11 i j)
  rw [hP5, andThen_some]
  obtain ⟨c8, hC8, e8⟩ := block_add_den S c7 hC p5
    (show 0 + r / 3 ≤ r by omega) (show q / 3 + q / 3 ≤ q by omega)
  rw [hC8, andThen_some]
  obtain ⟨c9, hC9, e9⟩ := block_add_den S c8 hC p5
    (show r / 3 + r / 3 ≤ r by omega) (show q / 3 + q / 3 ≤ q by omega)
  rw [hC9, andThen_some]
  -- P6
  obtain ⟨p6, hP6, hp6⟩ := hrec
    a11
    b11
  rw [hP6, andThen_some]
  obtain ⟨c10, hC10, e10⟩ := block_add_den S c9 hC p6
    (show 0 + r / 3 ≤ r by omega) (show 0 + q / 3 ≤ q by omega)
  rw [hC10, andThen_some]
  obtain ⟨c11, hC11, e11⟩ := block_add_den S c10 hC p6
    (show 0 + r / 3 ≤ r by omega) (show q / 3 + q / 3 ≤ q by omega)
  rw [hC11, andThen_some]
  obtain ⟨c12, hC12, e12⟩ := block_add_den S c11 hC p6
    (show 0 + r / 3 ≤ r by omega) (show 2 * (q / 3) + q / 3 ≤ q by omega)
  rw [hC12, andThen_some]
  obtain ⟨c13, hC13, e13⟩ := block_add_den S c12 hC p6
    (show r / 3 + r / 3 ≤ r by omega) (show 0 + q / 3 ≤ q by omega)
  rw [hC13, andThen_some]
  obtain ⟨c14, hC14, e14⟩ := block_add_den S c13 hC p6
    (show r / 3 + r / 3 ≤ r by omega) (show q / 3 + q / 3 ≤ q by omega)
  rw [hC14, andThen_some]
  obtain ⟨c15, hC15, e15⟩ := block_add_den S c14 hC p6
    (show 2 * (r / 3) + r / 3 ≤ r by omega) (show 0 + q / 3 ≤ q by omega)
  rw [hC15, andThen_some]
  obtain ⟨c16, hC16, e16⟩ := block_add_den S c15 hC p6
    (show 2 * (r / 3) + r / 3 ≤ r by omega) (show 2 * (q / 3) + q / 3 ≤ q by omega)
  rw [hC16, andThen_some]
  -- P7
  try rw [sub_ofFn a31 a11]
  try rw [addTo_ofFn (fun i j => a31 i j - a11 i j) a32]
  rw [andThen_some]
  try rw [sub_ofFn b11 b13]
  try rw [addTo_ofFn (fun i j => b11 i j - b13 i j) b23]
  rw [andThen_some]
  obtain ⟨p7, hP7, hp7⟩ := hrec
    (fun i j => a31 i j - a11 i j + a32 i j)
    (fun i j => b11 i j - b13 i j + b23 i j)
  rw [hP7, andThen_some]
  obtain ⟨c17, hC17, e17⟩ := block_add_den S c16 hC p7
    (show 0 + r / 3 ≤ r by omega) (show 2 * (q / 3) + q / 3 ≤ q by omega)
  rw [hC17, andThen_some]
  obtain ⟨c18, hC18, e18⟩ := block_add_den S c17 hC p7
    (show 2 * (r / 3) + r / 3 ≤ r by omega) (show 0 + q / 3 ≤ q by omega)
  rw [hC18, andThen_some]
  obtain ⟨c19, hC19, e19⟩ := block_add_den S c18 hC p7
    (show 2 * (r / 3) + r / 3 ≤ r by omega) (show 2 * (q / 3) + q / 3 ≤ q by omega)
  rw [hC19, andThen_some]
  -- P8
  try rw [sub_ofFn a31 a11]
  rw [andThen_some]
  try rw [sub_ofFn b13 b23]
  rw [andThen_some]
  obtain ⟨p8, hP8, hp8⟩ := hrec
    (fun i j => a31 i j - a11 i j)
    (fun i j => b13 i j - b23 i j)
  rw [hP8, andThen_some]
  obtain ⟨c20, hC20, e20⟩ := block_add_den S c19 hC p8
    (show 2 * (r / 3) + r / 3 ≤ r by omega) (show 0 + q / 3 ≤ q by omega)
  rw [hC20, andThen_some]
  obtain ⟨c21, hC21, e21⟩ := block_add_den S c20 hC p8
    (show 2 * (r / 3) + r / 3 ≤ r by omega) (show 2 * (q / 3) + q / 3 ≤ q by omega)
  rw [hC21, andThen_some]
  -- P9
  try rw [add_ofFn a31 a32]
  rw [andThen_some]
  try rw [sub_ofFn b13 b11]
  rw [andThen_some]
  obtain ⟨p9, hP9, hp9⟩ := hrec
    (fun i j => a31 i j + a32 i j)
    (fun i j => b13 i j - b11 i j)
  rw [hP9, andThen_some]
  obtain ⟨c22, hC22, e22⟩ := block_add_den S c21 hC p9
    (show 0 + r / 3 ≤ r by omega) (show 2 * (q / 3) + q / 3 ≤ q by omega)
  rw [hC22, andThen_some]
  obtain ⟨c23, hC23, e23⟩ := block_add_den S c22 hC p9
    (show 2 * (r / 3) + r / 3 ≤ r by omega) (show 2 * (q / 3) + q / 3 ≤ q by omega)
  rw [hC23, andThen_some]
  -- P10
  try rw [add_ofFn a11 a12]
  try rw [addTo_ofFn (fun i j => a11 i j + a12 i j) a13]
  try rw [subFrom_ofFn (fun i j => a11 i j + a12 i j + a13 i j) a22]
  try rw [subFrom_ofFn (fun i j => a11 i j + a12 i j + a13 i j - a22 i j) a23]
  try rw [subFrom_ofFn (fun i j => a11 i j + a12 i j + a13 i j - a22 i j - a23 i j) a31]
  try rw [subFrom_ofFn (fun i j => a11 i j + a12 i j + a13 i j - a22 i j - a23 i j - a31 i j) a32]
  rw [andThen_some]
  obtain ⟨p10, hP10, hp10⟩ := hrec
    (fun i j => a11 i j + a12 i j + a13 i j - a22 i j - a23 i j - a31 i j - a32 i j)
    b23
  rw [hP10, andThen_some]
  obtain ⟨c24, hC24, e24⟩ := block_add_den S c23 hC p10
    (show 0 + r / 3 ≤ r by omega) (show 2 * (q / 3) + q / 3 ≤ q by omega)
  rw [hC24, andThen_some]
  -- P11
  try rw [sub_ofFn b13 b11]
  try rw [addTo_ofFn (fun i j => b13 i j - b11 i j) b21]
  try rw [subFrom_ofFn (fun i j => b13 i j - b11 i j + b21 i j) b22]
  try rw [subFrom_ofFn (fun i j => b13 i j - b11 i j + b21 i j - b22 i j) b23]
  try rw [subFrom_ofFn (fun i j => b13 i j - b11 i j + b21 i j - b22 i j - b23 i j) b31]
  try rw [addTo_ofFn (fun i j => b13 i j - b11 i j + b21 i j - b22 i j - b23 i j - b31 i j) b32]
  rw [andThen_some]
  obtain ⟨p11, hP11, hp11⟩ := hrec
    a32
    (fun i j => b13 i j - b11 i j + b21 i j - b22 i j - b23 i j - b31 i j + b32 i j)
  rw [hP11, andThen_some]
  obtain ⟨c25, hC25, e25⟩ := block_add_den S c24 hC p11
    (show 2 * (r / 3) + r / 3 ≤ r by omega) (show 0 + q / 3 ≤ q by omega)
  rw [hC25, andThen_some]
  -- P12
  try rw [sub_ofFn a32 a13]
  try rw [addTo_ofFn (fun i j => a32 i j - a13 i j) a33]
  rw [andThen_some]
  try rw [add_ofFn b22 b31]
  try rw [subFrom_ofFn (fun i j => b22 i j + b31 i j) b32]
  rw [andThen_some]
  obtain ⟨p12, hP12, hp12⟩ := hrec
    (fun i j => a32 i j - a13 i j + a33 i j)
    (fun i j => b22 i j + b31 i j - b32 i j)
  rw [hP12, andThen_some]
  obtain ⟨c26, hC26, e26⟩ := block_add_den S c25 hC p12
    (show 0 + r / 3 ≤ r by omega) (show q / 3 + q / 3 ≤ q by omega)
  rw [hC26, andThen_some]
  obtain ⟨c27, hC27, e27⟩ := block_add_den S c26 hC p12
    (show 2 * (r / 3) + r / 3 ≤ r by omega) (show 0 + q / 3 ≤ q by omega)
  rw [hC27, andThen_some]
  obtain ⟨c28, hC28, e28⟩ := block_add_den S c27 hC p12
    (show 2 * (r / 3) + r / 3 ≤ r by omega) (show q / 3 + q / 3 ≤ q by omega)
  rw [hC28, andThen_some]
  -- P13
  try rw [sub_ofFn a13 a33]
  rw [andThen_some]
  try rw [sub_ofFn b22 b32]
  rw [andThen_some]
  obtain ⟨p13, hP13, hp13⟩ := hrec
    (fun i j => a13 i j - a33 i j)
    (fun i j => b22 i j - b32 i j)
  rw [hP13, andThen_some]
  obtain ⟨c29, hC29, e29⟩ := block_add_den S c28 hC p13
    (show 2 * (r / 3) + r / 3 ≤ r by omega) (show 0 + q / 3 ≤ q by omega)
  rw [hC29, andThen_some]
  obtain ⟨c30, hC30, e30⟩ := block_add_den S c29 hC p13
    (show 2 * (r / 3) + r / 3 ≤ r by omega) (show q / 3 + q / 3 ≤ q by omega)
  rw [hC30, andThen_some]
  -- P14
  obtain ⟨p14, hP14, hp14⟩ := hrec
    a13
    b31
  rw [hP14, andThen_some]
  obtain ⟨c31, hC31, e31⟩ := block_add_den S c30 hC p14
    (show 0 + r / 3 ≤ r by omega) (show 0 + q / 3 ≤ q by omega)
  rw [hC31, andThen_some]
  obtain ⟨c32, hC32, e32⟩ := block_add_den S c31 hC p14
    (show 0 + r / 3 ≤ r by omega) (show q / 3 + q / 3 ≤ q by omega)
  rw [hC32, andThen_some]
  obtain ⟨c33, hC33, e33⟩ := block_add_den S c32 hC p14
    (show 0 + r / 3 ≤ r by omega) (show 2 * (q / 3) + q / 3 ≤ q by omega)
  rw [hC33, andThen_some]
  obtain ⟨c34, hC34, e34⟩ := block_add_den S c33 hC p14
    (show r / 3 + r / 3 ≤ r by omega) (show 0 + q / 3 ≤ q by omega)
  rw [hC34, andThen_some]
  obtain ⟨c35, hC35, e35⟩ := block_add_den S c34 hC p14
    (show r / 3 + r / 3 ≤ r by omega) (show 2 * (q / 3) + q / 3 ≤ q by omega)
  rw [hC35, andThen_some]
  obtain ⟨c36, hC36, e36⟩ := block_add_den S c35 hC p14
    (show 2 * (r / 3) + r / 3 ≤ r by omega) (show 0 + q / 3 ≤ q by omega)
  rw [hC36, andThen_some]
  obtain ⟨c37, hC37, e37⟩ := block_add_den S c36 hC p14
    (show 2 * (r / 3) + r / 3 ≤ r by omega) (show q / 3 + q / 3 ≤ q by omega)
  rw [hC37, andThen_some]
  -- P15
  try rw [add_ofFn a32 a33]
  rw [andThen_some]
  try rw [sub_ofFn b32 b31]
  rw [andThen_some]
  obtain ⟨p15, hP15, hp15⟩ := hrec
    (fun i j => a32 i j + a33 i j)
    (fun i j => b32 i j - b31 i j)
  rw [hP15, andThen_some]
  obtain ⟨c38, hC38, e38⟩ := block_add_den S c37 hC p15
    (show 0 + r / 3 ≤ r by omega) (show q / 3 + q / 3 ≤ q by omega)
  rw [hC38, andThen_some]
  obtain ⟨c39, hC39, e39⟩ := block_add_den S c38 hC p15
    (show 2 * (r / 3) + r / 3 ≤ r by omega) (show q / 3 + q / 3 ≤ q by omega)
  rw [hC39, andThen_some]
  -- P16
  try rw [sub_ofFn a22 a13]
  try rw [addTo_ofFn (fun i j => a22 i j - a13 i j) a23]
  rw [andThen_some]
  try rw [add_ofFn b23 b31]
  try rw [subFrom_ofFn (fun i j => b23 i j + b31 i j) b33]
  rw [andThen_some]
  obtain ⟨p16, hP16, hp16⟩ := hrec
    (fun i j => a22 i j - a13 i j + a23 i j)
    (fun i j => b23 i j + b31 i j - b33 i j)
  rw [hP16, andThen_some]
  obtain ⟨c40, hC40, e40⟩ := block_add_den S c39 hC p16
    (show 0 + r / 3 ≤ r by omega) (show 2 * (q / 3) + q / 3 ≤ q by omega)
  rw [hC40, andThen_some]
  obtain ⟨c41, hC41, e41⟩ := block_add_den S c40 hC p16
    (show r / 3 + r / 3 ≤ r by omega) (show 0 + q / 3 ≤ q by omega)
  rw [hC41, andThen_some]
  obtain ⟨c42, hC42, e42⟩ := block_add_den S c41 hC p16
    (show r / 3 + r / 3 ≤ r by omega) (show 2 * (q / 3) + q / 3 ≤ q by omega)
  rw [hC42, andThen_some]
  -- P17
  try rw [sub_ofFn a13 a23]
  rw [andThen_some]
  try rw [sub_ofFn b23 b33]
  rw [andThen_some]
  obtain ⟨p17, hP17, hp17⟩ := hrec
    (fun i j => a13 i j - a23 i j)
    (fun i j => b23 i j - b33 i j)
  rw [hP17, andThen_some]
  obtain ⟨c43, hC43, e43⟩ := block_add_den S c42 hC p17
    (show r / 3 + r / 3 ≤ r by omega) (show 0 + q / 3 ≤ q by omega)
  rw [hC43, andThen_some]
  obtain ⟨c44, hC44, e44⟩ := block_add_den S c43 hC p17
    (show r / 3 + r / 3 ≤ r by omega) (show 2 * (q / 3) + q / 3 ≤ q by omega)
  rw [hC44, andThen_some]
  -- P18
  try rw [add_ofFn a22 a23]
  rw [andThen_some]
  try rw [sub_ofFn b33 b31]
  rw [andThen_some]
  obtain ⟨p18, hP18, hp18⟩ := hrec
    (fun i j => a22 i j + a23 i j)
    (fun i j => b33 i j - b31 i j)
  rw [hP18, andThen_some]
  obtain ⟨c45, hC45, e45⟩ := block_add_den S c44 hC p18
    (show 0 + r / 3 ≤ r by omega) (show 2 * (q / 3) + q / 3 ≤ q by omega)
  rw [hC45, andThen_some]
  obtain ⟨c46, hC46, e46⟩ := block_add_den S c45 hC p18
    (show r / 3 + r / 3 ≤ r by omega) (show 2 * (q / 3) + q / 3 ≤ q by omega)
  rw [hC46, andThen_some]
  -- P19
  obtain ⟨p19, hP19, hp19⟩ := hrec
    a12
    b21
  rw [hP19, andThen_some]
  obtain ⟨c47, hC47, e47⟩ := block_add_den S c46 hC p19
    (show 0 + r / 3 ≤ r by omega) (show 0 + q / 3 ≤ q by omega)
  rw [hC47, andThen_some]
  -- P20
  obtain ⟨p20, hP20, hp20⟩ := hrec
    a23
    b32
  rw [hP20, andThen_some]
  obtain ⟨c48, hC48, e48⟩ := block_add_den S c47 hC p20
    (show r / 3 + r / 3 ≤ r by omega) (show q / 3 + q / 3 ≤ q by omega)
  rw [hC48, andThen_some]
  -- P21
  obtain ⟨p21, hP21, hp21⟩ := hrec
    a21
    b13
  rw [hP21, andThen_some]
  obtain ⟨c49, hC49, e49⟩ := block_add_den S c48 hC p21
    (show r / 3 + r / 3 ≤ r by omega) (show 2 * (q / 3) + q / 3 ≤ q by omega)
  rw [hC49, andThen_some]
  -- P22
  obtain ⟨p22, hP22, hp22⟩ := hrec
    a31
    b12
  rw [hP22, andThen_some]
  obtain ⟨c50, hC50, e50⟩ := block_add_den S c49 hC p22
    (show 2 * (r / 3) + r / 3 ≤ r by omega) (show q / 3 + q / 3 ≤ q by omega)
  rw [hC50, andThen_some]
  -- P23
  obtain ⟨p23, hP23, hp23⟩ := hrec
    a33
    b33
  rw [hP23, andThen_some]
  obtain ⟨c51, hC51, e51⟩ := block_add_den S c50 hC p23
    (show 2 * (r / 3) + r / 3 ≤ r by omega) (show 2 * (q / 3) + q / 3 ≤ q by omega)
  rw [hC51, andThen_some]
  obtain ⟨cf, hCf, ef⟩ := dynamic_peeling_den S a b c51 hA hB hC
    (show 1 ≤ 3 by norm_num) (show 1 ≤ 3 by norm_num) (show 1 ≤ 3 by norm_num)
  refine ⟨cf, hCf, ?_⟩
  intro i j hi hj
  rw [ef i j hi hj]
  rw [e51, e50, e49, e48, e47, e46, e45, e44, e43, e42, e41, e40,
    e39, e38, e37, e36, e35, e34, e33, e32, e31, e30, e29, e28,
    e27, e26, e25, e24, e23, e22, e21, e20, e19, e18, e17, e16,
    e15, e14, e13, e12, e11, e10, e9, e8, e7, e6, e5, e4,
    e3, e2, e1, S.den_zero]
  by_cases hpeel : i < r / 3 * 3 ∧ j < q / 3 * 3
  swap
  · repeat (first | rw [if_pos (by omega)] | rw [if_neg (by omega)])
    simp only [add_zero, sub_zero, zero_add]
  rw [sum_split3 _ hc3]
  have hir : i < r / 3 ∨ (r / 3 ≤ i ∧ i < 2 * (r / 3)) ∨ 2 * (r / 3) ≤ i := by omega
  have hjr : j < q / 3 ∨ (q / 3 ≤ j ∧ j < 2 * (q / 3)) ∨ 2 * (q / 3) ≤ j := by omega
  rcases hir with hi1 | hi1 | hi1 <;> rcases hjr with hj1 | hj1 | hj1
  · have hI : i - 0 < r / 3 := by omega
    have hJ : j - 0 < q / 3 := by omega
    have hi' : 0 + (i - 0) = i := by omega
    have hj' : 0 + (j - 0) = j := by omega
    repeat (first | rw [if_pos (by omega)] | rw [if_neg (by omega)])
    simp only [add_zero, sub_zero, zero_add, Nat.sub_zero] at hI hJ ⊢
    simp only [hp1 _ _ hI hJ, hp2 _ _ hI hJ, hp3 _ _ hI hJ, hp4 _ _ hI hJ,
      hp5 _ _ hI hJ, hp6 _ _ hI hJ, hp7 _ _ hI hJ, hp8 _ _ hI hJ,
      hp9 _ _ hI hJ, hp10 _ _ hI hJ, hp11 _ _ hI hJ, hp12 _ _ hI hJ,
      hp13 _ _ hI hJ, hp14 _ _ hI hJ, hp15 _ _ hI hJ, hp16 _ _ hI hJ,
      hp17 _ _ hI hJ, hp18 _ _ hI hJ, hp19 _ _ hI hJ, hp20 _ _ hI hJ,
      hp21 _ _ hI hJ, hp22 _ _ hI hJ, hp23 _ _ hI hJ,
      S.den_add, S.den_sub, ea11, ea12, ea13, ea21, ea22, ea23, ea31, ea32, ea33,
      eb11, eb12, eb13, eb21, eb22, eb23, eb31, eb32, eb33,
      Nat.zero_add, hi', hj']
    congr 1
    simp only [← Finset.sum_add_distrib]
    apply Finset.sum_congr rfl
    intro l _
    try simp only [mul_add, add_mul, mul_sub, sub_mul]
    abel
  · have hI : i - 0 < r / 3 := by omega
    have hJ : j - q / 3 < q / 3 := by omega
    have hi' : 0 + (i - 0) = i := by omega
    have hj' : q / 3 + (j - q / 3) = j := by omega
    repeat (first | rw [if_pos (by omega)] | rw [if_neg (by omega)])
    simp only [add_zero, sub_zero, zero_add, Nat.sub_zero] at hI hJ ⊢
    simp only [hp1 _ _ hI hJ, hp2 _ _ hI hJ, hp3 _ _ hI hJ, hp4 _ _ hI hJ,
      hp5 _ _ hI hJ, hp6 _ _ hI hJ, hp7 _ _ hI hJ, hp8 _ _ hI hJ,
      hp9 _ _ hI hJ, hp10 _ _ hI hJ, hp11 _ _ hI hJ, hp12 _ _ hI hJ,
      hp13 _ _ hI hJ, hp14 _ _ hI hJ, hp15 _ _ hI hJ, hp16 _ _ hI hJ,
      hp17 _ _ hI hJ, hp18 _ _ hI hJ, hp19 _ _ hI hJ, hp20 _ _ hI hJ,
      hp21 _ _ hI hJ, hp22 _ _ hI hJ, hp23 _ _ hI hJ,
      S.den_add, S.den_sub, ea11, ea12, ea13, ea21, ea22, ea23, ea31, ea32, ea33,
      eb11, eb12, eb13, eb21, eb22, eb23, eb31, eb32, eb33,
      Nat.zero_add, hi', hj']
    congr 1
    simp only [← Finset.sum_add_distrib]
    apply Finset.sum_congr rfl
    intro l _
    try simp only [mul_add, add_mul, mul_sub, sub_mul]
    abel
  · have hI : i - 0 < r / 3 := by omega
    have hJ : j - 2 * (q / 3) < q / 3 := by omega
    have hi' : 0 + (i - 0) = i := by omega
    have hj' : 2 * (q / 3) + (j - 2 * (q / 3)) = j := by omega
    repeat (first | rw [if_pos (by omega)] | rw [if_neg (by omega)])
    simp only [add_zero, sub_zero, zero_add, Nat.sub_zero] at hI hJ ⊢
    simp only [hp1 _ _ hI hJ, hp2 _ _ hI hJ, hp3 _ _ hI hJ, hp4 _ _ hI hJ,
      hp5 _ _ hI hJ, hp6 _ _ hI hJ, hp7 _ _ hI hJ, hp8 _ _ hI hJ,
      hp9 _ _ hI hJ, hp10 _ _ hI hJ, hp11 _ _ hI hJ, hp12 _ _ hI hJ,
      hp13 _ _ hI hJ, hp14 _ _ hI hJ, hp15 _ _ hI hJ, hp16 _ _ hI hJ,
      hp17 _ _ hI hJ, hp18 _ _ hI hJ, hp19 _ _ hI hJ, hp20 _ _ hI hJ,
      hp21 _ _ hI hJ, hp22 _ _ hI hJ, hp23 _ _ hI hJ,
      S.den_add, S.den_sub, ea11, ea12, ea13, ea21, ea22, ea23, ea31, ea32, ea33,
      eb11, eb12, eb13, eb21, eb22, eb23, eb31, eb32, eb33,
      Nat.zero_add, hi', hj']
    congr 1
    simp only [← Finset.sum_add_distrib]
    apply Finset.sum_congr rfl
    intro l _
    try simp only [mul_add, add_mul, mul_sub, sub_mul]
    abel
  · have hI : i - r / 3 < r / 3 := by omega
    have hJ : j - 0 < q / 3 := by omega
    have hi' : r / 3 + (i - r / 3) = i := by omega
    have hj' : 0 + (j - 0) = j := by omega
    repeat (first | rw [if_pos (by omega)] | rw [if_neg (by omega)])
    simp only [add_zero, sub_zero, zero_add, Nat.sub_zero] at hI hJ ⊢
    simp only [hp1 _ _ hI hJ, hp2 _ _ hI hJ, hp3 _ _ hI hJ, hp4 _ _ hI hJ,
      hp5 _ _ hI hJ, hp6 _ _ hI hJ, hp7 _ _ hI hJ, hp8 _ _ hI hJ,
      hp9 _ _ hI hJ, hp10 _ _ hI hJ, hp11 _ _ hI hJ, hp12 _ _ hI hJ,
      hp13 _ _ hI hJ, hp14 _ _ hI hJ, hp15 _ _ hI hJ, hp16 _ _ hI hJ,
      hp17 _ _ hI hJ, hp18 _ _ hI hJ, hp19 _ _ hI hJ, hp20 _ _ hI hJ,
      hp21 _ _ hI hJ, hp22 _ _ hI hJ, hp23 _ _ hI hJ,
      S.den_add, S.den_sub, ea11, ea12, ea13, ea21, ea22, ea23, ea31, ea32, ea33,
      eb11, eb12, eb13, eb21, eb22, eb23, eb31, eb32, eb33,
      Nat.zero_add, hi', hj']
    congr 1
    simp only [← Finset.sum_add_distrib]
    apply Finset.sum_congr rfl
    intro l _
    try simp only [mul_add, add_mul, mul_sub, sub_mul]
    abel
  · have hI : i - r / 3 < r / 3 := by omega
    have hJ : j - q / 3 < q / 3 := by omega
    have hi' : r / 3 + (i - r / 3) = i := by omega
    have hj' : q / 3 + (j - q / 3) = j := by omega
    repeat (first | rw [if_pos (by omega)] | rw [if_neg (by omega)])
    simp only [add_zero, sub_zero, zero_add, Nat.sub_zero] at hI hJ ⊢
    simp only [hp1 _ _ hI hJ, hp2 _ _ hI hJ, hp3 _ _ hI hJ, hp4 _ _ hI hJ,
      hp5 _ _ hI hJ, hp6 _ _ hI hJ, hp7 _ _ hI hJ, hp8 _ _ hI hJ,
      hp9 _ _ hI hJ, hp10 _ _ hI hJ, hp11 _ _ hI hJ, hp12 _ _ hI hJ,
      hp13 _ _ hI hJ, hp14 _ _ hI hJ, hp15 _ _ hI hJ, hp16 _ _ hI hJ,
      hp17 _ _ hI hJ, hp18 _ _ hI hJ, hp19 _ _ hI hJ, hp20 _ _ hI hJ,
      hp21 _ _ hI hJ, hp22 _ _ hI hJ, hp23 _ _ hI hJ,
      S.den_add, S.den_sub, ea11, ea12, ea13, ea21, ea22, ea23, ea31, ea32, ea33,
      eb11, eb12, eb13, eb21, eb22, eb23, eb31, eb32, eb33,
      Nat.zero_add, hi', hj']
    congr 1
    simp only [← Finset.sum_add_distrib]
    apply Finset.sum_congr rfl
    intro l _
    try simp only [mul_add, add_mul, mul_sub, sub_mul]
    abel
  · have hI : i - r / 3 < r / 3 := by omega
    have hJ : j - 2 * (q / 3) < q / 3 := by omega
    have hi' : r / 3 + (i - r / 3) = i := by omega
    have hj' : 2 * (q / 3) + (j - 2 * (q / 3)) = j := by omega
    repeat (first | rw [if_pos (by omega)] | rw [if_neg (by omega)])
    simp only [add_zero, sub_zero, zero_add, Nat.sub_zero] at hI hJ ⊢
    simp only [hp1 _ _ hI hJ, hp2 _ _ hI hJ, hp3 _ _ hI hJ, hp4 _ _ hI hJ,
      hp5 _ _ hI hJ, hp6 _ _ hI hJ, hp7 _ _ hI hJ, hp8 _ _ hI hJ,
      hp9 _ _ hI hJ, hp10 _ _ hI hJ, hp11 _ _ hI hJ, hp12 _ _ hI hJ,
      hp13 _ _ hI hJ, hp14 _ _ hI hJ, hp15 _ _ hI hJ, hp16 _ _ hI hJ,
      hp17 _ _ hI hJ, hp18 _ _ hI hJ, hp19 _ _ hI hJ, hp20 _ _ hI hJ,
      hp21 _ _ hI hJ, hp22 _ _ hI hJ, hp23 _ _ hI hJ,
      S.den_add, S.den_sub, ea11, ea12, ea13, ea21, ea22, ea23, ea31, ea32, ea33,
      eb11, eb12, eb13, eb21, eb22, eb23, eb31, eb32, eb33,
      Nat.zero_add, hi', hj']
    congr 1
    simp only [← Finset.sum_add_distrib]
    apply Finset.sum_congr rfl
    intro l _
    try simp only [mul_add, add_mul, mul_sub, sub_mul]
    abel
  · have hI : i - 2 * (r / 3) < r / 3 := by omega
    have hJ : j - 0 < q / 3 := by omega
    have hi' : 2 * (r / 3) + (i - 2 * (r / 3)) = i := by omega
    have hj' : 0 + (j - 0) = j := by omega
    repeat (first | rw [if_pos (by omega)] | rw [if_neg (by omega)])
    simp only [add_zero, sub_zero, zero_add, Nat.sub_zero] at hI hJ ⊢
    simp only [hp1 _ _ hI hJ, hp2 _ _ hI hJ, hp3 _ _ hI hJ, hp4 _ _ hI hJ,
      hp5 _ _ hI hJ, hp6 _ _ hI hJ, hp7 _ _ hI hJ, hp8 _ _ hI hJ,
      hp9 _ _ hI hJ, hp10 _ _ hI hJ, hp11 _ _ hI hJ, hp12 _ _ hI hJ,
      hp13 _ _ hI hJ, hp14 _ _ hI hJ, hp15 _ _ hI hJ, hp16 _ _ hI hJ,
      hp17 _ _ hI hJ, hp18 _ _ hI hJ, hp19 _ _ hI hJ, hp20 _ _ hI hJ,
      hp21 _ _ hI hJ, hp22 _ _ hI hJ, hp23 _ _ hI hJ,
      S.den_add, S.den_sub, ea11, ea12, ea13, ea21, ea22, ea23, ea31, ea32, ea33,
      eb11, eb12, eb13, eb21, eb22, eb23, eb31, eb32, eb33,
      Nat.zero_add, hi', hj']
    congr 1
    simp only [← Finset.sum_add_distrib]
    apply Finset.sum_congr rfl
    intro l _
    try simp only [mul_add, add_mul, mul_sub, sub_mul]
    abel
  · have hI : i - 2 * (r / 3) < r / 3 := by omega
    have hJ : j - q / 3 < q / 3 := by omega
    have hi' : 2 * (r / 3) + (i - 2 * (r / 3)) = i := by omega
    have hj' : q / 3 + (j - q / 3) = j := by omega
    repeat (first | rw [if_pos (by omega)] | rw [if_neg (by omega)])
    simp only [add_zero, sub_zero, zero_add, Nat.sub_zero] at hI hJ ⊢
    simp only [hp1 _ _ hI hJ, hp2 _ _ hI hJ, hp3 _ _ hI hJ, hp4 _ _ hI hJ,
      hp5 _ _ hI hJ, hp6 _ _ hI hJ, hp7 _ _ hI hJ, hp8 _ _ hI hJ,
      hp9 _ _ hI hJ, hp10 _ _ hI hJ, hp11 _ _ hI hJ, hp12 _ _ hI hJ,
      hp13 _ _ hI hJ, hp14 _ _ hI hJ, hp15 _ _ hI hJ, hp16 _ _ hI hJ,
      hp17 _ _ hI hJ, hp18 _ _ hI hJ, hp19 _ _ hI hJ, hp20 _ _ hI hJ,
      hp21 _ _ hI hJ, hp22 _ _ hI hJ, hp23 _ _ hI hJ,
      S.den_add, S.den_sub, ea11, ea12, ea13, ea21, ea22, ea23, ea31, ea32, ea33,
      eb11, eb12, eb13, eb21, eb22, eb23, eb31, eb32, eb33,
      Nat.zero_add, hi', hj']
    congr 1
    simp only [← Finset.sum_add_distrib]
    apply Finset.sum_congr rfl
    intro l _
    try simp only [mul_add, add_mul, mul_sub, sub_mul]
    abel
  · have hI : i - 2 * (r / 3) < r / 3 := by omega
    have hJ : j - 2 * (q / 3) < q / 3 := by omega
    have hi' : 2 * (r / 3) + (i - 2 * (r / 3)) = i := by omega
    have hj' : 2 * (q / 3) + (j - 2 * (q / 3)) = j := by omega
    repeat (first | rw [if_pos (by omega)] | rw [if_neg (by omega)])
    simp only [add_zero, sub_zero, zero_add, Nat.sub_zero] at hI hJ ⊢
    simp only [hp1 _ _ hI hJ, hp2 _ _ hI hJ, hp3 _ _ hI hJ, hp4 _ _ hI hJ,
      hp5 _ _ hI hJ, hp6 _ _ hI hJ, hp7 _ _ hI hJ, hp8 _ _ hI hJ,
      hp9 _ _ hI hJ, hp10 _ _ hI hJ, hp11 _ _ hI hJ, hp12 _ _ hI hJ,
      hp13 _ _ hI hJ, hp14 _ _ hI hJ, hp15 _ _ hI hJ, hp16 _ _ hI hJ,
      hp17 _ _ hI hJ, hp18 _ _ hI hJ, hp19 _ _ hI hJ, hp20 _ _ hI hJ,
      hp21 _ _ hI hJ, hp22 _ _ hI hJ, hp23 _ _ hI hJ,
      S.den_add, S.den_sub, ea11, ea12, ea13, ea21, ea22, ea23, ea31, ea32, ea33,
      eb11, eb12, eb13, eb21, eb22, eb23, eb31, eb32, eb33,
      Nat.zero_add, hi', hj']
    congr 1
    simp only [← Finset.sum_add_distrib]
    apply Finset.sum_congr rfl
    intro l _
    try simp only [mul_add, add_mul, mul_sub, sub_mul]
    abel

theorem laderman_fuel_den : ∀ (fuel r c q : Nat) (a b : Nat → Nat → α),
    r < fuel → Fits r c → Fits c q → Fits r q →
    ∃ p, multiply_laderman_fuel fuel (ofFn r c a) (ofFn c q b) = some (ofFn r q p) ∧
      ∀ i j, i < r → j < q → S.den (p i j) =
        Finset.sum (Finset.range c) (fun l => S.den (a i l) * S.den (b l j))
  | 0, _, _, _, _, _, h, _, _, _ => absurd h (Nat.not_lt_zero _)
  | fuel + 1, r, c, q, a, b, h, hA, hB, hC => by
    show ∃ p, laderman_body (multiply_laderman_fuel fuel) (ofFn r c a)
      (ofFn c q b) = some (ofFn r q p) ∧ _
    apply laderman_body_den S _ a b hA hB hC
    intro hmin a' b'
    have hr : 0 < r := by
      rcases Nat.eq_zero_or_pos r with h0 | h0
      · exfalso; apply hmin; rw [h0]; simp
      · exact h0
    exact laderman_fuel_den fuel (r / 3) (c / 3) (q / 3) a' b' (by omega)
      (hA.sub (Nat.div_le_self _ _) (Nat.div_le_self _ _))
      (hB.sub (Nat.div_le_self _ _) (Nat.div_le_self _ _))
      (hC.sub (Nat.div_le_self _ _) (Nat.div_le_self _ _))

end den

/-- C4: for well-formed `A` and `B` over a ring, whenever the classic product returns a
matrix, `multiply_laderman` returns the same matrix; this covers every size, dimensions not
divisible by 3 and dimensions above the threshold, where the 23 products are formed
recursively, included. -/
theorem multiply_laderman_correct [Ring α] (A B C : Matrix α) (hA : WF A)
    (hB : WF B) (hC : multiply_classic A B = some C) :
    multiply_laderman A B = some C := by
  obtain ⟨hk, hfit⟩ := multiply_classic_some_fits hA hB hC
  show laderman_body (multiply_laderman_fuel A.rows) A B = some C
  by_cases hmin : min A.rows (min A.cols B.cols) ≤ laderman_threshold
  · unfold laderman_body
    rw [if_pos hk, if_pos hmin, hC]
  · have hk1 : 1 ≤ A.cols := by
      rcases Nat.eq_zero_or_pos A.cols with h0 | h0
      · exfalso; apply hmin; rw [h0]; simp
      · exact h0
    have hfit2 := hfit hk1
    clear hfit
    obtain ⟨r, c, a, hFa, rfl⟩ := hA.cases
    obtain ⟨c', q, b, hFb, rfl⟩ := hB.cases
    simp only [ofFn_rows, ofFn_cols] at hk hfit2 hmin ⊢
    subst hk
    obtain ⟨p, hp, ep⟩ := laderman_fuel_den (Sem.self α) (r + 1) r c q a b
      (Nat.lt_succ_self _) hFa hFb hfit2
    rw [multiply_classic_ofFn a b hFa hFb hfit2] at hC
    have hp' : laderman_body (multiply_laderman_fuel r) (ofFn r c a)
        (ofFn c q b) = some (ofFn r q p) := hp
    rw [hp', ← Option.some.inj hC]
    congr 1
    apply ofFn_congr
    intro i j hi hj
    rw [dotAcc_eq_sum]
    exact ep i j hi hj

theorem multiply_laderman_correct_witness :
    multiply_laderman (ofData [1, 2, 3, 4] 2 2 : Matrix Int) (ofData [4, 3, 2, 1] 2 2)
      = some (ofData [8, 5, 20, 13] 2 2) :=
  multiply_laderman_correct (ofData [1, 2, 3, 4] 2 2) (ofData [4, 3, 2, 1] 2 2)
    (ofData [8, 5, 20, 13] 2 2)
    (by refine ⟨⟨?_, ?_, ?_⟩, ?_⟩ <;> simp [ofData])
    (by refine ⟨⟨?_, ?_, ?_⟩, ?_⟩ <;> simp [ofData])
    (by decide)

section readings
variable {R : Type} [CommRing R]

theorem Bilin.sub_left {F : (Nat → Nat → R) → (Nat → Nat → R) → Nat → Nat → R}
    (hF : Bilin F) (x x' y : Nat → Nat → R) : F (x - x') y = F x y - F x' y := by
  have e : x - x' = x + (-1 : R) • x' := by
    funext i j
    simp [sub_eq_add_neg]
  rw [e, hF.add_left, hF.smul_left]
  funext i j
  simp [sub_eq_add_neg]

theorem Bilin.sub_right {F : (Nat → Nat → R) → (Nat → Nat → R) → Nat → Nat → R}
    (hF : Bilin F) (x y y' : Nat → Nat → R) : F x (y - y') = F x y - F x y' := by
  have e : y - y' = y + (-1 : R) • y' := by
    funext i j
    simp [sub_eq_add_neg]
  rw [e, hF.add_right, hF.smul_right]
  funext i j
  simp [sub_eq_add_neg]

theorem sblk_add (sr sc : Nat) (x x' : Nat → Nat → R) :
    sblk sr sc (x + x') = sblk sr sc x + sblk sr sc x' := rfl

theorem sblk_smul (sr sc : Nat) (s : R) (x : Nat → Nat → R) :
    sblk sr sc (s • x) = s • sblk sr sc x := rfl

theorem str_add (x x' : Nat → Nat → R) : str (x + x') = str x + str x' := rfl

theorem str_sub (x x' : Nat → Nat → R) : str (x - x') = str x - str x' := rfl

theorem str_smul (s : R) (x : Nat → Nat → R) : str (s • x) = s • str x := rfl

theorem place_add (sr sc br bc : Nat) (P P' : Nat → Nat → R) :
    place sr sc br bc (P + P') = place sr sc br bc P + place sr sc br bc P' := by
  funext i j
  simp only [place, Pi.add_apply]
  split
  · rfl
  · rw [add_zero]

theorem place_sub (sr sc br bc : Nat) (P P' : Nat → Nat → R) :
    place sr sc br bc (P - P') = place sr sc br bc P - place sr sc br bc P' := by
  funext i j
  simp only [place, Pi.sub_apply]
  split
  · rfl
  · rw [sub_zero]

theorem place_smul (sr sc br bc : Nat) (s : R) (P : Nat → Nat → R) :
    place sr sc br bc (s • P) = s • place sr sc br bc P := by
  funext i j
  simp only [place, Pi.smul_apply, smul_eq_mul]
  split
  · rfl
  · rw [mul_zero]

theorem sdot_bilin (c : Nat) : Bilin (sdot (R := R) c) := by
  constructor
  · intro x x' y
    funext i j
    simp only [sdot, Pi.add_apply, add_mul, Finset.sum_add_distrib]
  · intro s x y
    funext i j
    simp only [sdot, Pi.smul_apply, smul_eq_mul, mul_assoc, Finset.mul_sum]
  · intro x y y'
    funext i j
    simp only [sdot, Pi.add_apply, mul_add, Finset.sum_add_distrib]
  · intro s x y
    funext i j
    simp only [sdot, Pi.smul_apply, smul_eq_mul, Finset.mul_sum]
    apply Finset.sum_congr rfl
    intro l _
    ring

theorem speel_bilin (n k m r c q : Nat) : Bilin (speel (R := R) n k m r c q) := by
  constructor
  · intro x x' y
    funext i j
    simp only [speel, Pi.add_apply]
    split <;> simp only [add_mul, Finset.sum_add_distrib]
  · intro s x y
    funext i j
    simp only [speel, Pi.smul_apply, smul_eq_mul]
    split <;> simp only [mul_assoc, Finset.mul_sum]
  · intro x y y'
    funext i j
    simp only [speel, Pi.add_apply]
    split <;> simp only [mul_add, Finset.sum_add_distrib]
  · intro s x y
    funext i j
    simp only [speel, Pi.smul_apply, smul_eq_mul]
    split <;>
    · rw [Finset.mul_sum]
      apply Finset.sum_congr rfl
      intro l _
      ring

theorem biniLevel_bilin (e : R) {F G : (Nat → Nat → R) → (Nat → Nat → R) → Nat → Nat → R}
    (hF : Bilin F) (hG : Bilin G) (r c q : Nat) : Bilin (biniLevel e F G r c q) := by
  have hp := speel_bilin (R := R) 2 2 3 r c q
  constructor
  · intro x x' y
    simp only [biniLevel, biniBlocks, sblk_add, str_add, hF.add_left, hG.add_left, hG.add_right,
      hp.add_left, place_add, smul_add]
    abel
  · intro s x y
    simp only [biniLevel, biniBlocks, sblk_smul, str_smul, str_add, hF.smul_left, hG.smul_left,
      hG.smul_right, hp.smul_left, place_add, place_smul, smul_add, smul_comm e s]
  · intro x y y'
    simp only [biniLevel, biniBlocks, sblk_add, str_add, hF.add_right, hG.add_left, hG.add_right,
      hp.add_right, place_add, smul_add]
    abel
  · intro s x y
    simp only [biniLevel, biniBlocks, sblk_smul, str_smul, str_add, hF.smul_right, hG.smul_left,
      hG.smul_right, hp.smul_right, place_add, place_smul, smul_add, smul_comm e s]

theorem biniSem_bilin (e : R) : ∀ (fuel r c q : Nat), Bilin (biniSem e fuel r c q)
  | 0, _, _, _ => by
    constructor <;> intros <;> funext i j <;> simp [biniSem]
  | fuel + 1, r, c, q => by
    have hF := biniSem_bilin e fuel (r / 2) (c / 2) (q / 3)
    have hG := biniSem_bilin e fuel (q / 3) (c / 2) (r / 2)
    have hL := biniLevel_bilin e hF hG r c q
    have hd := sdot_bilin (R := R) c
    constructor
    · intro x x' y
      simp only [biniSem]
      split
      · exact hd.add_left x x' y
      · exact hL.add_left x x' y
    · intro s x y
      simp only [biniSem]
      split
      · exact hd.smul_left s x y
      · exact hL.smul_left s x y
    · intro x y y'
      simp only [biniSem]
      split
      · exact hd.add_right x y y'
      · exact hL.add_right x y y'
    · intro s x y
      simp only [biniSem]
      split
      · exact hd.smul_right s x y
      · exact hL.smul_right s x y

end readings

section readings
variable {R R0 : Type} [CommRing R] [CommRing R0]

theorem place_in {sr sc br bc : Nat} (P : Nat → Nat → R) {i j : Nat}
    (h : sr ≤ i ∧ i < sr + br ∧ sc ≤ j ∧ j < sc + bc) :
    place sr sc br bc P i j = P (i - sr) (j - sc) := if_pos h

theorem place_out {sr sc br bc : Nat} (P : Nat → Nat → R) {i j : Nat}
    (h : ¬ (sr ≤ i ∧ i < sr + br ∧ sc ≤ j ∧ j < sc + bc)) :
    place sr sc br bc P i j = 0 := if_neg h

theorem biniLevel_mod (f : R →+* R0) (e : R) (he : f e = 0)
    {F G : (Nat → Nat → R) → (Nat → Nat → R) → Nat → Nat → R} (r c q : Nat)
    (hF : ∀ x y i j, i < r / 2 → j < q / 3 → f (F x y i j) =
      Finset.sum (Finset.range (c / 2)) (fun l => f (x i l) * f (y l j)))
    (hG : ∀ x y i j, i < q / 3 → j < r / 2 → f (G x y i j) =
      Finset.sum (Finset.range (c / 2)) (fun l => f (x i l) * f (y l j)))
    (x y : Nat → Nat → R) (i j : Nat) (hi : i < r) (hj : j < q) :
    f (biniLevel e F G r c q x y i j) =
      Finset.sum (Finset.range c) (fun l => f (x i l) * f (y l j)) := by
  have hc2 : c / 2 * 2 ≤ c := Nat.div_mul_le_self c 2
  have hr2 : r / 2 * 2 ≤ r := Nat.div_mul_le_self r 2
  have hq3 : q / 3 * 3 ≤ q := Nat.div_mul_le_self q 3
  simp only [biniLevel, biniBlocks, Pi.add_apply, map_add]
  by_cases hin : i < r / 2 * 2 ∧ j < q / 3 * 3
  · obtain ⟨hi2, hj3⟩ := hin
    have hpeel : f (speel 2 2 3 r c q x y i j) =
        Finset.sum (Finset.range (c - c / 2 * 2))
          (fun l => f (x i (c / 2 * 2 + l)) * f (y (c / 2 * 2 + l) j)) := by
      simp only [speel]
      rw [if_pos ⟨hi2, hj3⟩, map_sum]
      simp only [map_mul]
    rw [hpeel, sum_split2 (fun l => f (x i l) * f (y l j)) hc2]
    congr 1
    by_cases hi1 : i < r / 2
    · by_cases hj1 : j < q / 3
      · have hi' : i < r / 2 := by omega
        have hj' : j < q / 3 := by omega
        rw [place_in _ (by omega), place_out _ (by omega), place_out _ (by omega), place_out _ (by omega), place_out _ (by omega), place_out _ (by omega)]
        simp only [Pi.add_apply, Pi.smul_apply, smul_eq_mul, map_add, map_mul, he, zero_mul,
          add_zero, zero_add, map_zero, Nat.sub_zero, hF _ _ _ _ hi' hj', sblk, str, Nat.zero_add,
          Finset.sum_add_distrib]
      · by_cases hj2 : j < 2 * (q / 3)
        · have hi' : i < r / 2 := by omega
          have hj' : j - q / 3 < q / 3 := by omega
          rw [place_out _ (by omega), place_in _ (by omega), place_out _ (by omega), place_out _ (by omega), place_out _ (by omega), place_out _ (by omega)]
          simp only [Pi.add_apply, Pi.smul_apply, smul_eq_mul, map_add, map_mul, he, zero_mul,
            add_zero, zero_add, map_zero, Nat.sub_zero, hF _ _ _ _ hi' hj', sblk, str, Nat.zero_add,
            Finset.sum_add_distrib]
          simp only [(show q / 3 + (j - q / 3) = j by omega)]
        · have hi' : i < r / 2 := by omega
          have hj' : j - 2 * (q / 3) < q / 3 := by omega
          rw [place_out _ (by omega), place_out _ (by omega), place_out _ (by omega), place_out _ (by omega), place_in _ (by omega), place_out _ (by omega)]
          simp only [Pi.add_apply, Pi.smul_apply, smul_eq_mul, map_add, map_mul, he, zero_mul,
            add_zero, zero_add, map_zero, Nat.sub_zero, hG _ _ _ _ hj' hi', sblk, str, Nat.zero_add,
            Finset.sum_add_distrib]
          simp only [(show 2 * (q / 3) + (j - 2 * (q / 3)) = j by omega)]
          congr 1 <;>
          · apply Finset.sum_congr rfl
            intro l _
            ring
    · by_cases hj1 : j < q / 3
      · have hi' : i - r / 2 < r / 2 := by omega
        have hj' : j < q / 3 := by omega
        rw [place_out _ (by omega), place_out _ (by omega), place_in _ (by omega), place_out _ (by omega), place_out _ (by omega), place_out _ (by omega)]
        simp only [Pi.add_apply, Pi.smul_apply, smul_eq_mul, map_add, map_mul, he, zero_mul,
          add_zero, zero_add, map_zero, Nat.sub_zero, hF _ _ _ _ hi' hj', sblk, str, Nat.zero_add,
          Finset.sum_add_distrib]
        simp only [(show r / 2 + (i - r / 2) = i by omega)]
      · by_cases hj2 : j < 2 * (q / 3)
        · have hi' : i - r / 2 < r / 2 := by omega
          have hj' : j - q / 3 < q / 3 := by omega
          rw [place_out _ (by omega), place_out _ (by omega), place_out _ (by omega), place_out _ (by omega), place_out _ (by omega), place_in _ (by omega)]
          simp only [Pi.add_apply, Pi.smul_apply, smul_eq_mul, map_add, map_mul, he, zero_mul,
            add_zero, zero_add, map_zero, Nat.sub_zero, hG _ _ _ _ hj' hi', sblk, str, Nat.zero_add,
            Finset.sum_add_distrib]
          simp only [(show r / 2 + (i - r / 2) = i by omega), (show q / 3 + (j - q / 3) = j by omega)]
          congr 1 <;>
          · apply Finset.sum_congr rfl
            intro l _
            ring
        · have hi' : i - r / 2 < r / 2 := by omega
          have hj' : j - 2 * (q / 3) < q / 3 := by omega
          rw [place_out _ (by omega), place_out _ (by omega), place_out _ (by omega), place_in _ (by omega), place_out _ (by omega), place_out _ (by omega)]
          simp only [Pi.add_apply, Pi.smul_apply, smul_eq_mul, map_add, map_mul, he, zero_mul,
            add_zero, zero_add, map_zero, Nat.sub_zero, hG _ _ _ _ hj' hi', sblk, str, Nat.zero_add,
            Finset.sum_add_distrib]
          simp only [(show r / 2 + (i - r / 2) = i by omega), (show 2 * (q / 3) + (j - 2 * (q / 3)) = j by omega)]
          congr 1 <;>
          · apply Finset.sum_congr rfl
            intro l _
            ring
  · have hpeel : f (speel 2 2 3 r c q x y i j) =
        Finset.sum (Finset.range c) (fun l => f (x i l) * f (y l j)) := by
      simp only [speel]
      rw [if_neg hin, map_sum]
      simp only [map_mul]
    rw [hpeel, place_out _ (by omega), place_out _ (by omega), place_out _ (by omega),
      place_out _ (by omega), place_out _ (by omega), place_out _ (by omega)]
    simp only [map_zero, zero_add]

end readings

theorem biniSem_mod {R R0 : Type} [CommRing R] [CommRing R0] (f : R →+* R0) (e : R)
    (he : f e = 0) : ∀ (fuel r c q : Nat), c < fuel → ∀ (x y : Nat → Nat → R) (i j : Nat),
      i < r → j < q → f (biniSem e fuel r c q x y i j) =
        Finset.sum (Finset.range c) (fun l => f (x i l) * f (y l j))
  | 0, _, _, _, h => absurd h (Nat.not_lt_zero _)
  | fuel + 1, r, c, q, h => by
    intro x y i j hi hj
    simp only [biniSem]
    split
    · simp only [sdot, map_sum, map_mul]
    · rename_i hb
      have hc : 200 < c := by
        simp only [bini_threshold] at hb
        omega
      exact biniLevel_mod f e he r c q
        (biniSem_mod f e he fuel (r / 2) (c / 2) (q / 3) (by omega))
        (biniSem_mod f e he fuel (q / 3) (c / 2) (r / 2) (by omega)) x y i j hi hj

theorem mem_tab {n : Nat} {g : Nat → α} {x : α} (h : x ∈ tab n g) : ∃ p, p < n ∧ x = g p := by
  unfold tab at h
  obtain ⟨p, hp, rfl⟩ := List.mem_map.1 h
  exact ⟨p, List.mem_range.1 hp, rfl⟩

theorem mem_ofFn {r c : Nat} {g : Nat → Nat → α} {x : α} (h : x ∈ (ofFn r c g).data) :
    ∃ i j, i < r ∧ j < c ∧ x = g i j := by
  obtain ⟨p, hp, rfl⟩ := mem_tab h
  have hc : 0 < c := by
    rcases Nat.eq_zero_or_pos c with h0 | h0
    · subst h0; simp at hp
    · exact h0
  exact ⟨p / c, p % c, (Nat.div_lt_iff_lt_mul hc).2 hp, Nat.mod_lt _ hc, rfl⟩

theorem ofFn_mem {r c : Nat} (g : Nat → Nat → α) {i j : Nat} (hi : i < r) (hj : j < c) :
    g i j ∈ (ofFn r c g).data := by
  unfold ofFn tab
  simp only
  refine List.mem_map.2 ⟨i * c + j, List.mem_range.2 ?_, ?_⟩
  · have := idx_le hi (Nat.succ_le_of_lt hj); omega
  · rw [idx_div hj, idx_mod hj]

theorem mapM_some {β γ : Type} (k : β → Option γ) (k' : β → γ) :
    ∀ l : List β, (∀ x ∈ l, k x = some (k' x)) → l.mapM k = some (l.map k')
  | [], _ => rfl
  | x :: l, h => by
    rw [List.mapM_cons, h x (List.mem_cons_self _ _),
      mapM_some k k' l (fun y hy => h y (List.mem_cons_of_mem _ hy))]
    rfl

theorem divScalar_ofFn (sdiv : α → α → Option α) (s : α) {r c : Nat} (g : Nat → Nat → α)
    (h : ∀ i j, i < r → j < c → ∃ p, sdiv (g i j) s = some p) :
    divScalar sdiv (ofFn r c g) s =
      some (ofFn r c (fun i j => (sdiv (g i j) s).getD (g i j))) := by
  unfold divScalar
  rw [mapM_some (fun x => sdiv x s) (fun x => (sdiv x s).getD x)]
  · simp only [Option.map_some', ofFn, tab, List.map_map]
    rfl
  · intro x hx
    obtain ⟨i, j, hi, hj, rfl⟩ := mem_ofFn hx
    obtain ⟨p, hp⟩ := h i j hi hj
    rw [hp]
    rfl

theorem stepAt_all (Q : α → Prop) (f : α → α → α) (hf : ∀ a b, Q a → Q (f a b))
    (src : List α) (d s : Nat) (dst dst' : List α) (h : stepAt f src d s dst = some dst')
    (hd : ∀ x ∈ dst, Q x) : ∀ x ∈ dst', Q x := by
  unfold stepAt at h
  split at h
  · rename_i x y hx hy
    simp only [Option.some.injEq] at h
    subst h
    intro z hz
    rcases List.mem_or_eq_of_mem_set hz with h1 | h1
    · exact hd z h1
    · subst h1
      exact hf _ _ (hd x (List.getElem?_mem hx))
  · simp at h

theorem zipRange_all (Q : α → Prop) (f : α → α → α) (hf : ∀ a b, Q a → Q (f a b))
    (src : List α) (n d s : Nat) (dst dst' : List α) (h : zipRange f src n d s dst = some dst')
    (hd : ∀ x ∈ dst, Q x) : ∀ x ∈ dst', Q x := by
  unfold zipRange at h
  exact forLoop_pres _ (fun l => ∀ x ∈ l, Q x)
    (fun i a a' ha hb => stepAt_all Q f hf src _ _ a a' hb ha) n 0 dst dst' hd h

/-- A block update keeps the shape and the length of the buffer, and every property of
the entries that `f` keeps in its first argument. -/
theorem blockUpdate_inv (Q : α → Prop) (f : α → α → α) (hf : ∀ a b, Q a → Q (f a b))
    (M block M' : Matrix α) (tl : Nat × Nat) (h : blockUpdate f M tl block = some M') :
    M'.rows = M.rows ∧ M'.cols = M.cols ∧ M'.data.length = M.data.length ∧
      ((∀ x ∈ M.data, Q x) → ∀ x ∈ M'.data, Q x) := by
  unfold blockUpdate at h
  dsimp only at h
  split at h
  · cases hl : forLoop (fun i dat =>
        zipRange f block.data block.cols
          (u32 (u32 (tl.1 + i) * M.cols + tl.2)) (i * block.cols) dat)
      block.rows 0 M.data with
    | none => rw [hl] at h; simp at h
    | some dat =>
      rw [hl] at h
      simp only [Option.map_some', Option.some.injEq] at h
      subst h
      refine ⟨rfl, rfl, ?_, ?_⟩
      · exact forLoop_pres _ (fun l => l.length = M.data.length)
          (fun i a a' ha hb => (zipRange_length f _ _ _ _ a a' hb).trans ha) _ 0 _ _ rfl hl
      · intro hM
        exact forLoop_pres _ (fun l => ∀ x ∈ l, Q x)
          (fun i a a' ha hb => zipRange_all Q f hf _ _ _ _ a a' hb ha) _ 0 _ _ hM hl
  · simp at h

/-- Dynamic peeling keeps the shape and the length of the buffer of `C`, and every property
of its entries that is kept by adding to them. -/
theorem dynamic_peeling_inv [Zero α] [Add α] [Mul α] (Q : α → Prop)
    (hQ : ∀ a b, Q a → Q (a + b)) (A B C C' : Matrix α) (n k m : Nat)
    (h : dynamic_peeling A B C n k m = some C') :
    C'.rows = C.rows ∧ C'.cols = C.cols ∧ C'.data.length = C.data.length ∧
      ((∀ x ∈ C.data, Q x) → ∀ x ∈ C'.data, Q x) := by
  unfold dynamic_peeling at h
  dsimp only at h
  split at h
  swap
  · simp at h
  split at h
  · simp at h
  simp only [Option.bind_eq_some] at h
  obtain ⟨C1, h1, C2, h2, h3⟩ := h
  have s1 : C1.rows = C.rows ∧ C1.cols = C.cols ∧ C1.data.length = C.data.length ∧
      ((∀ x ∈ C.data, Q x) → ∀ x ∈ C1.data, Q x) := by
    split at h1
    · simp only [Option.bind_eq_some] at h1
      obtain ⟨_, _, _, _, _, _, hb⟩ := h1
      exact blockUpdate_inv Q _ hQ _ _ _ _ hb
    · simp only [Option.some.injEq] at h1
      subst h1
      exact ⟨rfl, rfl, rfl, fun h => h⟩
  have s2 : C2.rows = C1.rows ∧ C2.cols = C1.cols ∧ C2.data.length = C1.data.length ∧
      ((∀ x ∈ C1.data, Q x) → ∀ x ∈ C2.data, Q x) := by
    split at h2
    · simp only [Option.bind_eq_some] at h2
      obtain ⟨_, _, _, _, hb⟩ := h2
      exact blockUpdate_inv Q _ hQ _ _ _ _ hb
    · simp only [Option.some.injEq] at h2
      subst h2
      exact ⟨rfl, rfl, rfl, fun h => h⟩
  have s3 : C'.rows = C2.rows ∧ C'.cols = C2.cols ∧ C'.data.length = C2.data.length ∧
      ((∀ x ∈ C2.data, Q x) → ∀ x ∈ C'.data, Q x) := by
    split at h3
    · simp only [Option.bind_eq_some] at h3
      obtain ⟨_, _, _, _, _, _, hb⟩ := h3
      exact blockUpdate_inv Q _ hQ _ _ _ _ hb
    · simp only [Option.some.injEq] at h3
      subst h3
      exact ⟨rfl, rfl, rfl, fun h => h⟩
  obtain ⟨a1, b1, c1, d1⟩ := s1
  obtain ⟨a2, b2, c2, d2⟩ := s2
  obtain ⟨a3, b3, c3, d3⟩ := s3
  exact ⟨a3.trans (a2.trans a1), b3.trans (b2.trans b1), c3.trans (c2.trans c1),
    fun h => d3 (d2 (d1 h))⟩

theorem dotAcc_all [Zero α] [Add α] [Mul α] (Q : α → Prop) (h0 : Q 0)
    (hQ : ∀ a b, Q a → Q (a + b)) (f g : Nat → α) : ∀ n, Q (dotAcc f g n)
  | 0 => h0
  | n + 1 => hQ _ _ (dotAcc_all Q h0 hQ f g n)

section sem
variable {R : Type} [Zero α] [Add α] [Sub α] [Mul α] [CommRing R] (S : Sem α R)

/-- `block_add` on readings: the reading of the block is added in its place. -/
theorem block_add_sem (Q : α → Prop) (hQ : ∀ a b, Q a → Q (a + b)) {r c : Nat}
    (g : Nat → Nat → α) (hF : Fits r c) {sr sc br bc : Nat} (h : Nat → Nat → α)
    (hr : sr + br ≤ r) (hc : sc + bc ≤ c) (Gs H : Nat → Nat → R)
    (hG : ∀ i j, S.den (g i j) = Gs i j)
    (hH : ∀ i j, i < br → j < bc → S.den (h i j) = H i j) (hQg : ∀ i j, Q (g i j)) :
    ∃ g', (ofFn r c g).block_add (sr, sc) (ofFn br bc h) = some (ofFn r c g') ∧
      (∀ i j, S.den (g' i j) = (Gs + place sr sc br bc H) i j) ∧ ∀ i j, Q (g' i j) := by
  refine ⟨_, block_add_ofFn g hF h hr hc, ?_, ?_⟩
  · intro i j
    simp only [Pi.add_apply, place]
    split
    · rename_i hin
      rw [S.den_add, hG, hH _ _ (by omega) (by omega)]
    · rw [hG, add_zero]
  · intro i j
    split
    · exact hQ _ _ (hQg i j)
    · exact hQg i j

/-- `block_subtract` on readings: the reading of the block is subtracted in its place. -/
theorem block_subtract_sem (Q : α → Prop) (hQ : ∀ a b, Q a → Q (a - b)) {r c : Nat}
    (g : Nat → Nat → α) (hF : Fits r c) {sr sc br bc : Nat} (h : Nat → Nat → α)
    (hr : sr + br ≤ r) (hc : sc + bc ≤ c) (Gs H : Nat → Nat → R)
    (hG : ∀ i j, S.den (g i j) = Gs i j)
    (hH : ∀ i j, i < br → j < bc → S.den (h i j) = H i j) (hQg : ∀ i j, Q (g i j)) :
    ∃ g', (ofFn r c g).block_subtract (sr, sc) (ofFn br bc h) = some (ofFn r c g') ∧
      (∀ i j, S.den (g' i j) = (Gs - place sr sc br bc H) i j) ∧ ∀ i j, Q (g' i j) := by
  refine ⟨_, block_subtract_ofFn g hF h hr hc, ?_, ?_⟩
  · intro i j
    simp only [Pi.sub_apply, place]
    split
    · rename_i hin
      rw [S.den_sub, hG, hH _ _ (by omega) (by omega)]
    · rw [hG, sub_zero]
  · intro i j
    split
    · exact hQ _ _ (hQg i j)
    · exact hQg i j

end sem

section sem
variable {R : Type} [Zero α] [Add α] [Sub α] [Mul α] [CommRing R] (S : Sem α R)

set_option maxHeartbeats 4000000 in
/-- The accumulation of the ten products of one level of Bini's algorithm, on readings:
every entry of the accumulated `C` reads as `e` times the entry of the six blocks. -/
theorem bini_accumulate_sem (Q : α → Prop) (sdiv : α → α → Option α) (eps : α) (e : R)
    (D : R → R) (hE : EpsDiv S Q sdiv eps e D)
    (recurse : Matrix α → Matrix α → Option (Matrix α))
    {F G : (Nat → Nat → R) → (Nat → Nat → R) → Nat → Nat → R} (hF : Bilin F) (hG : Bilin G)
    {r c q : Nat} (a b : Nat → Nat → α) (hA : Fits r c) (hB : Fits c q) (hC : Fits r q)
    (hrF : ∀ (a' b' : Nat → Nat → α) (X Y : Nat → Nat → R),
      (∀ i l, S.den (a' i l) = X i l) → (∀ l j, S.den (b' l j) = Y l j) →
      ∃ p, recurse (ofFn (r / 2) (c / 2) a') (ofFn (c / 2) (q / 3) b') =
          some (ofFn (r / 2) (q / 3) p) ∧
        ∀ i j, i < r / 2 → j < q / 3 → Q (p i j) ∧ S.den (p i j) = F X Y i j)
    (hrG : ∀ (a' b' : Nat → Nat → α) (X Y : Nat → Nat → R),
      (∀ i l, S.den (a' i l) = X i l) → (∀ l j, S.den (b' l j) = Y l j) →
      ∃ p, recurse (ofFn (q / 3) (c / 2) a') (ofFn (c / 2) (r / 2) b') =
          some (ofFn (q / 3) (r / 2) p) ∧
        ∀ i j, i < q / 3 → j < r / 2 → Q (p i j) ∧ S.den (p i j) = G X Y i j) :
    ∃ g, bini_accumulate recurse (ofFn r c a) (ofFn c q b) eps = some (ofFn r q g) ∧
      (∀ i j, Q (g i j)) ∧
      ∀ i j, S.den (g i j) =
        e * biniBlocks e F G r c q (fun i l => S.den (a i l)) (fun l j => S.den (b l j)) i j := by
  have hr2 : r / 2 * 2 ≤ r := Nat.div_mul_le_self r 2
  have hc2 : c / 2 * 2 ≤ c := Nat.div_mul_le_self c 2
  have hq3 : q / 3 * 3 ≤ q := Nat.div_mul_le_self q 3
  have hq32 := hB.2.1
  have hFA : Fits (r / 2) (c / 2) := hA.sub (by omega) (by omega)
  have hFB : Fits (c / 2) (q / 3) := hB.sub (by omega) (by omega)
  have hFP : Fits (q / 3) (r / 2) :=
    ⟨by have := hC.2.1; omega, by have := hC.1; omega, by
      rw [Nat.mul_comm]; exact mul_le_of_le (by omega) (by omega) hC.2.2⟩
  unfold bini_accumulate
  simp only [ofFn_rows, ofFn_cols]
  rw [u32_of_lt (show 2 * (q / 3) < 4294967296 by omega)]
  obtain ⟨a11, hA11, ea11⟩ := subblock_den S a hA (show 0 + r / 2 ≤ r by omega) (show 0 + c / 2 ≤ c by omega)
  rw [hA11, andThen_some]
  obtain ⟨a12, hA12, ea12⟩ := subblock_den S a hA (show 0 + r / 2 ≤ r by omega) (show c / 2 + c / 2 ≤ c by omega)
  rw [hA12, andThen_some]
  obtain ⟨a21, hA21, ea21⟩ := subblock_den S a hA (show r / 2 + r / 2 ≤ r by omega) (show 0 + c / 2 ≤ c by omega)
  rw [hA21, andThen_some]
  obtain ⟨a22, hA22, ea22⟩ := subblock_den S a hA (show r / 2 + r / 2 ≤ r by omega) (show c / 2 + c / 2 ≤ c by omega)
  rw [hA22, andThen_some]
  obtain ⟨b11, hB11, eb11⟩ := subblock_den S b hB (show 0 + c / 2 ≤ c by omega) (show 0 + q / 3 ≤ q by omega)
  rw [hB11, andThen_some]
  obtain ⟨b12, hB12, eb12⟩ := subblock_den S b hB (show 0 + c / 2 ≤ c by omega) (show q / 3 + q / 3 ≤ q by omega)
  rw [hB12, andThen_some]
  obtain ⟨b13, hB13, eb13⟩ := subblock_den S b hB (show 0 + c / 2 ≤ c by omega) (show 2 * (q / 3) + q / 3 ≤ q by omega)
  rw [hB13, andThen_some]
  obtain ⟨b21, hB21, eb21⟩ := subblock_den S b hB (show c / 2 + c / 2 ≤ c by omega) (show 0 + q / 3 ≤ q by omega)
  rw [hB21, andThen_some]
  obtain ⟨b22, hB22, eb22⟩ := subblock_den S b hB (show c / 2 + c / 2 ≤ c by omega) (show q / 3 + q / 3 ≤ q by omega)
  rw [hB22, andThen_some]
  obtain ⟨b23, hB23, eb23⟩ := subblock_den S b hB (show c / 2 + c / 2 ≤ c by omega) (show 2 * (q / 3) + q / 3 ≤ q by omega)
  rw [hB23, andThen_some]
  rw [zeros_eq hC]
  simp only [smul_ofFn]
  -- product 1 of the first half
  rw [add_ofFn, andThen_some]
  obtain ⟨p1, hp1, ep1⟩ := hrF (fun i j => a12 i j + a22 i j * eps) b21
    (sblk 0 (c / 2) (fun i l => S.den (a i l)) + e • sblk (r / 2) (c / 2) (fun i l => S.den (a i l)))
    (sblk (c / 2) 0 (fun l j => S.den (b l j)))
    (fun i l => by
      simp only [S.den_add, S.den_mul, hE.den_eps, ea12, ea22, sblk, str, Pi.add_apply,
        Pi.smul_apply, smul_eq_mul]
      try ring)
    (fun l j => by
      simp only [S.den_add, S.den_mul, hE.den_eps, eb21, sblk, str, Pi.add_apply,
        Pi.smul_apply, smul_eq_mul]
      try ring)
  rw [hp1, andThen_some]
  rw [smul_ofFn]
  obtain ⟨c1, hc1, ec1, qc1⟩ := block_add_sem S Q hE.Q_add (fun _ _ => (0 : α)) hC (fun i j => p1 i j * eps)
    (show 0 + r / 2 ≤ r by omega) (show 0 + q / 3 ≤ q by omega) (fun _ _ => (0 : R)) (e • F (sblk 0 (c / 2) (fun i l => S.den (a i l)) + e • sblk (r / 2) (c / 2) (fun i l => S.den (a i l))) (sblk (c / 2) 0 (fun l j => S.den (b l j)))) (fun _ _ => S.den_zero) (fun i j hi hj => by
      rw [S.den_mul, hE.den_eps, (ep1 i j hi hj).2]
      simp only [Pi.smul_apply, smul_eq_mul, str]
      ring) (fun _ _ => hE.Q_zero)
  rw [hc1, andThen_some]
  obtain ⟨c2, hc2, ec2, qc2⟩ := block_add_sem S Q hE.Q_add c1 hC p1
    (show r / 2 + r / 2 ≤ r by omega) (show 0 + q / 3 ≤ q by omega) _ (F (sblk 0 (c / 2) (fun i l => S.den (a i l)) + e • sblk (r / 2) (c / 2) (fun i l => S.den (a i l))) (sblk (c / 2) 0 (fun l j => S.den (b l j)))) ec1 (fun i j hi hj => (ep1 i j hi hj).2) qc1
  rw [hc2, andThen_some]
  -- product 2 of the first half
  rw [add_ofFn, andThen_some]
  obtain ⟨p2, hp2, ep2⟩ := hrF a11 (fun i j => b11 i j + b12 i j * eps)
    (sblk 0 0 (fun i l => S.den (a i l)))
    (sblk 0 0 (fun l j => S.den (b l j)) + e • sblk 0 (q / 3) (fun l j => S.den (b l j)))
    (fun i l => by
      simp only [S.den_add, S.den_mul, hE.den_eps, ea11, sblk, str, Pi.add_apply,
        Pi.smul_apply, smul_eq_mul]
      try ring)
    (fun l j => by
      simp only [S.den_add, S.den_mul, hE.den_eps, eb11, eb12, sblk, str, Pi.add_apply,
        Pi.smul_apply, smul_eq_mul]
      try ring)
  rw [hp2, andThen_some]
  rw [smul_ofFn]
  obtain ⟨c3, hc3, ec3, qc3⟩ := block_add_sem S Q hE.Q_add c2 hC (fun i j => p2 i j * eps)
    (show 0 + r / 2 ≤ r by omega) (show 0 + q / 3 ≤ q by omega) _ (e • F (sblk 0 0 (fun i l => S.den (a i l))) (sblk 0 0 (fun l j => S.den (b l j)) + e • sblk 0 (q / 3) (fun l j => S.den (b l j)))) ec2 (fun i j hi hj => by
      rw [S.den_mul, hE.den_eps, (ep2 i j hi hj).2]
      simp only [Pi.smul_apply, smul_eq_mul, str]
      ring) qc2
  rw [hc3, andThen_some]
  obtain ⟨c4, hc4, ec4, qc4⟩ := block_add_sem S Q hE.Q_add c3 hC p2
    (show 0 + r / 2 ≤ r by omega) (show q / 3 + q / 3 ≤ q by omega) _ (F (sblk 0 0 (fun i l => S.den (a i l))) (sblk 0 0 (fun l j => S.den (b l j)) + e • sblk 0 (q / 3) (fun l j => S.den (b l j)))) ec3 (fun i j hi hj => (ep2 i j hi hj).2) qc3
  rw [hc4, andThen_some]
  -- product 3 of the first half
  rw [add_ofFn, andThen_some, add_ofFn, andThen_some]
  obtain ⟨p3, hp3, ep3⟩ := hrF a12 (fun i j => b11 i j + b21 i j + b22 i j * eps)
    (sblk 0 (c / 2) (fun i l => S.den (a i l)))
    (sblk 0 0 (fun l j => S.den (b l j)) + sblk (c / 2) 0 (fun l j => S.den (b l j)) + e • sblk (c / 2) (q / 3) (fun l j => S.den (b l j)))
    (fun i l => by
      simp only [S.den_add, S.den_mul, hE.den_eps, ea12, sblk, str, Pi.add_apply,
        Pi.smul_apply, smul_eq_mul]
      try ring)
    (fun l j => by
      simp only [S.den_add, S.den_mul, hE.den_eps, eb11, eb21, eb22, sblk, str, Pi.add_apply,
        Pi.smul_apply, smul_eq_mul]
      try ring)
  rw [hp3, andThen_some]
  obtain ⟨c5, hc5, ec5, qc5⟩ := block_subtract_sem S Q hE.Q_sub c4 hC p3
    (show r / 2 + r / 2 ≤ r by omega) (show 0 + q / 3 ≤ q by omega) _ (F (sblk 0 (c / 2) (fun i l => S.den (a i l))) (sblk 0 0 (fun l j => S.den (b l j)) + sblk (c / 2) 0 (fun l j => S.den (b l j)) + e • sblk (c / 2) (q / 3) (fun l j => S.den (b l j)))) ec4 (fun i j hi hj => (ep3 i j hi hj).2) qc4
  rw [hc5, andThen_some]
  -- product 4 of the first half
  rw [add_ofFn, andThen_some, add_ofFn, andThen_some]
  obtain ⟨p4, hp4, ep4⟩ := hrF (fun i j => a11 i j + a12 i j + a21 i j * eps) b11
    (sblk 0 0 (fun i l => S.den (a i l)) + sblk 0 (c / 2) (fun i l => S.den (a i l)) + e • sblk (r / 2) 0 (fun i l => S.den (a i l)))
    (sblk 0 0 (fun l j => S.den (b l j)))
    (fun i l => by
      simp only [S.den_add, S.den_mul, hE.den_eps, ea11, ea12, ea21, sblk, str, Pi.add_apply,
        Pi.smul_apply, smul_eq_mul]
      try ring)
    (fun l j => by
      simp only [S.den_add, S.den_mul, hE.den_eps, eb11, sblk, str, Pi.add_apply,
        Pi.smul_apply, smul_eq_mul]
      try ring)
  rw [hp4, andThen_some]
  obtain ⟨c6, hc6, ec6, qc6⟩ := block_subtract_sem S Q hE.Q_sub c5 hC p4
    (show 0 + r / 2 ≤ r by omega) (show q / 3 + q / 3 ≤ q by omega) _ (F (sblk 0 0 (fun i l => S.den (a i l)) + sblk 0 (c / 2) (fun i l => S.den (a i l)) + e • sblk (r / 2) 0 (fun i l => S.den (a i l))) (sblk 0 0 (fun l j => S.den (b l j)))) ec5 (fun i j hi hj => (ep4 i j hi hj).2) qc5
  rw [hc6, andThen_some]
  -- product 5 of the first half
  rw [add_ofFn, andThen_some]
  rw [add_ofFn, andThen_some]
  obtain ⟨p5, hp5, ep5⟩ := hrF (fun i j => a12 i j + a21 i j * eps) (fun i j => b11 i j + b22 i j * eps)
    (sblk 0 (c / 2) (fun i l => S.den (a i l)) + e • sblk (r / 2) 0 (fun i l => S.den (a i l)))
    (sblk 0 0 (fun l j => S.den (b l j)) + e • sblk (c / 2) (q / 3) (fun l j => S.den (b l j)))
    (fun i l => by
      simp only [S.den_add, S.den_mul, hE.den_eps, ea12, ea21, sblk, str, Pi.add_apply,
        Pi.smul_apply, smul_eq_mul]
      try ring)
    (fun l j => by
      simp only [S.den_add, S.den_mul, hE.den_eps, eb11, eb22, sblk, str, Pi.add_apply,
        Pi.smul_apply, smul_eq_mul]
      try ring)
  rw [hp5, andThen_some]
  obtain ⟨c7, hc7, ec7, qc7⟩ := block_add_sem S Q hE.Q_add c6 hC p5
    (show 0 + r / 2 ≤ r by omega) (show q / 3 + q / 3 ≤ q by omega) _ (F (sblk 0 (c / 2) (fun i l => S.den (a i l)) + e • sblk (r / 2) 0 (fun i l => S.den (a i l))) (sblk 0 0 (fun l j => S.den (b l j)) + e • sblk (c / 2) (q / 3) (fun l j => S.den (b l j)))) ec6 (fun i j hi hj => (ep5 i j hi hj).2) qc6
  rw [hc7, andThen_some]
  obtain ⟨c8, hc8, ec8, qc8⟩ := block_add_sem S Q hE.Q_add c7 hC p5
    (show r / 2 + r / 2 ≤ r by omega) (show 0 + q / 3 ≤ q by omega) _ (F (sblk 0 (c / 2) (fun i l => S.den (a i l)) + e • sblk (r / 2) 0 (fun i l => S.den (a i l))) (sblk 0 0 (fun l j => S.den (b l j)) + e • sblk (c / 2) (q / 3) (fun l j => S.den (b l j)))) ec7 (fun i j hi hj => (ep5 i j hi hj).2) qc7
  rw [hc8, andThen_some]
  -- the transpositions
  rw [transposed_ofFn a11 hFA, andThen_some, transposed_ofFn a12 hFA, andThen_some,
    transposed_ofFn a21 hFA, andThen_some, transposed_ofFn a22 hFA, andThen_some,
    transposed_ofFn b12 hFB, andThen_some, transposed_ofFn b22 hFB, andThen_some,
    transposed_ofFn b13 hFB, andThen_some, transposed_ofFn b23 hFB, andThen_some]
  simp only [smul_ofFn]
  -- product 1 of the second half
  rw [add_ofFn, andThen_some]
  obtain ⟨p1t, hp1t, ep1t⟩ := hrG (fun i j => b13 j i + b12 j i * eps) (fun i j => a21 j i)
    (str (sblk 0 (2 * (q / 3)) (fun l j => S.den (b l j))) + e • str (sblk 0 (q / 3) (fun l j => S.den (b l j))))
    (str (sblk (r / 2) 0 (fun i l => S.den (a i l))))
    (fun i l => by
      simp only [S.den_add, S.den_mul, hE.den_eps, eb13, eb12, sblk, str, Pi.add_apply,
        Pi.smul_apply, smul_eq_mul]
      try ring)
    (fun l j => by
      simp only [S.den_add, S.den_mul, hE.den_eps, ea21, sblk, str, Pi.add_apply,
        Pi.smul_apply, smul_eq_mul]
      try ring)
  rw [hp1t, andThen_some]
  rw [transposed_ofFn p1t hFP, andThen_some]
  rw [smul_ofFn]
  obtain ⟨c9, hc9, ec9, qc9⟩ := block_add_sem S Q hE.Q_add c8 hC (fun i j => p1t j i * eps)
    (show r / 2 + r / 2 ≤ r by omega) (show 2 * (q / 3) + q / 3 ≤ q by omega) _ (e • str (G (str (sblk 0 (2 * (q / 3)) (fun l j => S.den (b l j))) + e • str (sblk 0 (q / 3) (fun l j => S.den (b l j)))) (str (sblk (r / 2) 0 (fun i l => S.den (a i l)))))) ec8 (fun i j hi hj => by
      rw [S.den_mul, hE.den_eps, (ep1t j i hj hi).2]
      simp only [Pi.smul_apply, smul_eq_mul, str]
      ring) qc8
  rw [hc9, andThen_some]
  obtain ⟨c10, hc10, ec10, qc10⟩ := block_add_sem S Q hE.Q_add c9 hC (fun i j => p1t j i)
    (show r / 2 + r / 2 ≤ r by omega) (show q / 3 + q / 3 ≤ q by omega) _ (str (G (str (sblk 0 (2 * (q / 3)) (fun l j => S.den (b l j))) + e • str (sblk 0 (q / 3) (fun l j => S.den (b l j)))) (str (sblk (r / 2) 0 (fun i l => S.den (a i l)))))) ec9 (fun i j hi hj => (ep1t j i hj hi).2) qc9
  rw [hc10, andThen_some]
  -- product 2 of the second half
  rw [add_ofFn, andThen_some]
  obtain ⟨p2t, hp2t, ep2t⟩ := hrG (fun i j => b23 j i) (fun i j => a22 j i + a12 j i * eps)
    (str (sblk (c / 2) (2 * (q / 3)) (fun l j => S.den (b l j))))
    (str (sblk (r / 2) (c / 2) (fun i l => S.den (a i l))) + e • str (sblk 0 (c / 2) (fun i l => S.den (a i l))))
    (fun i l => by
      simp only [S.den_add, S.den_mul, hE.den_eps, eb23, sblk, str, Pi.add_apply,
        Pi.smul_apply, smul_eq_mul]
      try ring)
    (fun l j => by
      simp only [S.den_add, S.den_mul, hE.den_eps, ea22, ea12, sblk, str, Pi.add_apply,
        Pi.smul_apply, smul_eq_mul]
      try ring)
  rw [hp2t, andThen_some]
  rw [transposed_ofFn p2t hFP, andThen_some]
  rw [smul_ofFn]
  obtain ⟨c11, hc11, ec11, qc11⟩ := block_add_sem S Q hE.Q_add c10 hC (fun i j => p2t j i * eps)
    (show r / 2 + r / 2 ≤ r by omega) (show 2 * (q / 3) + q / 3 ≤ q by omega) _ (e • str (G (str (sblk (c / 2) (2 * (q / 3)) (fun l j => S.den (b l j)))) (str (sblk (r / 2) (c / 2) (fun i l => S.den (a i l))) + e • str (sblk 0 (c / 2) (fun i l => S.den (a i l)))))) ec10 (fun i j hi hj => by
      rw [S.den_mul, hE.den_eps, (ep2t j i hj hi).2]
      simp only [Pi.smul_apply, smul_eq_mul, str]
      ring) qc10
  rw [hc11, andThen_some]
  obtain ⟨c12, hc12, ec12, qc12⟩ := block_add_sem S Q hE.Q_add c11 hC (fun i j => p2t j i)
    (show 0 + r / 2 ≤ r by omega) (show 2 * (q / 3) + q / 3 ≤ q by omega) _ (str (G (str (sblk (c / 2) (2 * (q / 3)) (fun l j => S.den (b l j)))) (str (sblk (r / 2) (c / 2) (fun i l => S.den (a i l))) + e • str (sblk 0 (c / 2) (fun i l => S.den (a i l)))))) ec11 (fun i j hi hj => (ep2t j i hj hi).2) qc11
  rw [hc12, andThen_some]
  -- product 3 of the second half
  rw [add_ofFn, andThen_some, add_ofFn, andThen_some]
  obtain ⟨p3t, hp3t, ep3t⟩ := hrG (fun i j => b13 j i) (fun i j => a22 j i + a21 j i + a11 j i * eps)
    (str (sblk 0 (2 * (q / 3)) (fun l j => S.den (b l j))))
    (str (sblk (r / 2) (c / 2) (fun i l => S.den (a i l))) + str (sblk (r / 2) 0 (fun i l => S.den (a i l))) + e • str (sblk 0 0 (fun i l => S.den (a i l))))
    (fun i l => by
      simp only [S.den_add, S.den_mul, hE.den_eps, eb13, sblk, str, Pi.add_apply,
        Pi.smul_apply, smul_eq_mul]
      try ring)
    (fun l j => by
      simp only [S.den_add, S.den_mul, hE.den_eps, ea22, ea21, ea11, sblk, str, Pi.add_apply,
        Pi.smul_apply, smul_eq_mul]
      try ring)
  rw [hp3t, andThen_some]
  rw [transposed_ofFn p3t hFP, andThen_some]
  obtain ⟨c13, hc13, ec13, qc13⟩ := block_subtract_sem S Q hE.Q_sub c12 hC (fun i j => p3t j i)
    (show r / 2 + r / 2 ≤ r by omega) (show q / 3 + q / 3 ≤ q by omega) _ (str (G (str (sblk 0 (2 * (q / 3)) (fun l j => S.den (b l j)))) (str (sblk (r / 2) (c / 2) (fun i l => S.den (a i l))) + str (sblk (r / 2) 0 (fun i l => S.den (a i l))) + e • str (sblk 0 0 (fun i l => S.den (a i l)))))) ec12 (fun i j hi hj => (ep3t j i hj hi).2) qc12
  rw [hc13, andThen_some]
  -- product 4 of the second half
  rw [add_ofFn, andThen_some, add_ofFn, andThen_some]
  obtain ⟨p4t, hp4t, ep4t⟩ := hrG (fun i j => b23 j i + b13 j i + b22 j i * eps) (fun i j => a22 j i)
    (str (sblk (c / 2) (2 * (q / 3)) (fun l j => S.den (b l j))) + str (sblk 0 (2 * (q / 3)) (fun l j => S.den (b l j))) + e • str (sblk (c / 2) (q / 3) (fun l j => S.den (b l j))))
    (str (sblk (r / 2) (c / 2) (fun i l => S.den (a i l))))
    (fun i l => by
      simp only [S.den_add, S.den_mul, hE.den_eps, eb23, eb13, eb22, sblk, str, Pi.add_apply,
        Pi.smul_apply, smul_eq_mul]
      try ring)
    (fun l j => by
      simp only [S.den_add, S.den_mul, hE.den_eps, ea22, sblk, str, Pi.add_apply,
        Pi.smul_apply, smul_eq_mul]
      try ring)
  rw [hp4t, andThen_some]
  rw [transposed_ofFn p4t hFP, andThen_some]
  obtain ⟨c14, hc14, ec14, qc14⟩ := block_subtract_sem S Q hE.Q_sub c13 hC (fun i j => p4t j i)
    (show 0 + r / 2 ≤ r by omega) (show 2 * (q / 3) + q / 3 ≤ q by omega) _ (str (G (str (sblk (c / 2) (2 * (q / 3)) (fun l j => S.den (b l j))) + str (sblk 0 (2 * (q / 3)) (fun l j => S.den (b l j))) + e • str (sblk (c / 2) (q / 3) (fun l j => S.den (b l j)))) (str (sblk (r / 2) (c / 2) (fun i l => S.den (a i l)))))) ec13 (fun i j hi hj => (ep4t j i hj hi).2) qc13
  rw [hc14, andThen_some]
  -- product 5 of the second half
  rw [add_ofFn, andThen_some]
  rw [add_ofFn, andThen_some]
  obtain ⟨p5t, hp5t, ep5t⟩ := hrG (fun i j => b13 j i + b22 j i * eps) (fun i j => a22 j i + a11 j i * eps)
    (str (sblk 0 (2 * (q / 3)) (fun l j => S.den (b l j))) + e • str (sblk (c / 2) (q / 3) (fun l j => S.den (b l j))))
    (str (sblk (r / 2) (c / 2) (fun i l => S.den (a i l))) + e • str (sblk 0 0 (fun i l => S.den (a i l))))
    (fun i l => by
      simp only [S.den_add, S.den_mul, hE.den_eps, eb13, eb22, sblk, str, Pi.add_apply,
        Pi.smul_apply, smul_eq_mul]
      try ring)
    (fun l j => by
      simp only [S.den_add, S.den_mul, hE.den_eps, ea22, ea11, sblk, str, Pi.add_apply,
        Pi.smul_apply, smul_eq_mul]
      try ring)
  rw [hp5t, andThen_some]
  rw [transposed_ofFn p5t hFP, andThen_some]
  obtain ⟨c15, hc15, ec15, qc15⟩ := block_add_sem S Q hE.Q_add c14 hC (fun i j => p5t j i)
    (show 0 + r / 2 ≤ r by omega) (show 2 * (q / 3) + q / 3 ≤ q by omega) _ (str (G (str (sblk 0 (2 * (q / 3)) (fun l j => S.den (b l j))) + e • str (sblk (c / 2) (q / 3) (fun l j => S.den (b l j)))) (str (sblk (r / 2) (c / 2) (fun i l => S.den (a i l))) + e • str (sblk 0 0 (fun i l => S.den (a i l)))))) ec14 (fun i j hi hj => (ep5t j i hj hi).2) qc14
  rw [hc15, andThen_some]
  obtain ⟨c16, hc16, ec16, qc16⟩ := block_add_sem S Q hE.Q_add c15 hC (fun i j => p5t j i)
    (show r / 2 + r / 2 ≤ r by omega) (show q / 3 + q / 3 ≤ q by omega) _ (str (G (str (sblk 0 (2 * (q / 3)) (fun l j => S.den (b l j))) + e • str (sblk (c / 2) (q / 3) (fun l j => S.den (b l j)))) (str (sblk (r / 2) (c / 2) (fun i l => S.den (a i l))) + e • str (sblk 0 0 (fun i l => S.den (a i l)))))) ec15 (fun i j hi hj => (ep5t j i hj hi).2) qc15
  refine ⟨c16, hc16, qc16, ?_⟩
  intro i j
  rw [ec16]
  simp only [biniBlocks, hF.add_left, hF.add_right, hF.smul_left, hF.smul_right,
    hG.add_left, hG.add_right, hG.smul_left, hG.smul_right, place_add, place_smul,
    str_add, str_smul, smul_add, Pi.add_apply, Pi.sub_apply, Pi.smul_apply, smul_eq_mul]
  ring

end sem

section sem
variable {R : Type} [Zero α] [Add α] [Sub α] [Mul α] [CommRing R] (S : Sem α R)

/-- The classic product on readings, with a property of the entries that sums keep. -/
theorem multiply_classic_sem (Q : α → Prop) (h0 : Q 0) (hQ : ∀ a b, Q a → Q (a + b))
    {r k q : Nat} (a b : Nat → Nat → α) (hA : Fits r k) (hB : Fits k q) (hC : Fits r q) :
    ∃ p, multiply_classic (ofFn r k a) (ofFn k q b) = some (ofFn r q p) ∧
      ∀ i j, Q (p i j) ∧
        S.den (p i j) = sdot k (fun i l => S.den (a i l)) (fun l j => S.den (b l j)) i j := by
  refine ⟨_, multiply_classic_ofFn a b hA hB hC, ?_⟩
  intro i j
  exact ⟨dotAcc_all Q h0 hQ _ _ k, S.den_dotAcc _ _ k⟩

/-- One call of `multiply_bini` on readings. -/
theorem bini_body_sem (Q : α → Prop) (sdiv : α → α → Option α) (eps : α) (e : R)
    (D : R → R) (hE : EpsDiv S Q sdiv eps e D)
    (recurse : Matrix α → Matrix α → Option (Matrix α))
    {F G : (Nat → Nat → R) → (Nat → Nat → R) → Nat → Nat → R} (hF : Bilin F) (hG : Bilin G)
    {r c q : Nat} (a b : Nat → Nat → α) (hA : Fits r c) (hB : Fits c q) (hC : Fits r q)
    (hrF : ¬ ((r < 2 ∨ c < 2 ∨ q < 3) ∨
        (r ≤ bini_threshold ∨ c ≤ bini_threshold ∨ q ≤ bini_threshold)) →
      ∀ (a' b' : Nat → Nat → α) (X Y : Nat → Nat → R),
      (∀ i l, S.den (a' i l) = X i l) → (∀ l j, S.den (b' l j) = Y l j) →
      ∃ p, recurse (ofFn (r / 2) (c / 2) a') (ofFn (c / 2) (q / 3) b') =
          some (ofFn (r / 2) (q / 3) p) ∧
        ∀ i j, i < r / 2 → j < q / 3 → Q (p i j) ∧ S.den (p i j) = F X Y i j)
    (hrG : ¬ ((r < 2 ∨ c < 2 ∨ q < 3) ∨
        (r ≤ bini_threshold ∨ c ≤ bini_threshold ∨ q ≤ bini_threshold)) →
      ∀ (a' b' : Nat → Nat → α) (X Y : Nat → Nat → R),
      (∀ i l, S.den (a' i l) = X i l) → (∀ l j, S.den (b' l j) = Y l j) →
      ∃ p, recurse (ofFn (q / 3) (c / 2) a') (ofFn (c / 2) (r / 2) b') =
          some (ofFn (q / 3) (r / 2) p) ∧
        ∀ i j, i < q / 3 → j < r / 2 → Q (p i j) ∧ S.den (p i j) = G X Y i j) :
    ∃ p, bini_body sdiv recurse (ofFn r c a) (ofFn c q b) eps = some (ofFn r q p) ∧
      ∀ i j, i < r → j < q → Q (p i j) ∧ S.den (p i j) =
        (if (r < 2 ∨ c < 2 ∨ q < 3) ∨
            (r ≤ bini_threshold ∨ c ≤ bini_threshold ∨ q ≤ bini_threshold) then
          sdot c (fun i l => S.den (a i l)) (fun l j => S.den (b l j))
        else biniLevel e F G r c q (fun i l => S.den (a i l)) (fun l j => S.den (b l j)))
          i j := by
  unfold bini_body
  simp only [ofFn_rows, ofFn_cols, if_true]
  by_cases h1 : r < 2 ∨ c < 2 ∨ q < 3
  · rw [if_pos h1, if_pos (Or.inl h1)]
    obtain ⟨p, hp, ep⟩ := multiply_classic_sem S Q hE.Q_zero hE.Q_add a b hA hB hC
    exact ⟨p, hp, fun i j _ _ => ep i j⟩
  rw [if_neg h1]
  by_cases h2 : r ≤ bini_threshold ∨ c ≤ bini_threshold ∨ q ≤ bini_threshold
  · rw [if_pos h2, if_pos (Or.inr h2)]
    obtain ⟨p, hp, ep⟩ := multiply_classic_sem S Q hE.Q_zero hE.Q_add a b hA hB hC
    exact ⟨p, hp, fun i j _ _ => ep i j⟩
  rw [if_neg h2]
  have hb : ¬ ((r < 2 ∨ c < 2 ∨ q < 3) ∨
      (r ≤ bini_threshold ∨ c ≤ bini_threshold ∨ q ≤ bini_threshold)) := by
    rintro (h | h)
    · exact h1 h
    · exact h2 h
  rw [if_neg hb]
  obtain ⟨g, hg, qg, eg⟩ := bini_accumulate_sem S Q sdiv eps e D hE recurse hF hG a b hA hB hC
    (hrF hb) (hrG hb)
  rw [hg, andThen_some]
  have hdiv : ∀ i j, ∃ p', sdiv (g i j) eps = some p' ∧ Q p' ∧
      S.den p' = biniBlocks e F G r c q (fun i l => S.den (a i l))
        (fun l j => S.den (b l j)) i j := by
    intro i j
    obtain ⟨p', h1, h2, h3⟩ := hE.div_ok (g i j) (qg i j)
    refine ⟨p', h1, h2, ?_⟩
    rw [h3, eg, hE.D_eps]
  rw [divScalar_ofFn sdiv eps g (fun i j _ _ => ⟨_, (Classical.choose_spec (hdiv i j)).1⟩),
    andThen_some]
  obtain ⟨c1, hc1, ec1⟩ := dynamic_peeling_den S a b
    (fun i j => (sdiv (g i j) eps).getD (g i j)) hA hB hC
    (show 1 ≤ 2 by omega) (show 1 ≤ 2 by omega) (show 1 ≤ 3 by omega)
  have hget : ∀ i j, Q ((sdiv (g i j) eps).getD (g i j)) ∧
      S.den ((sdiv (g i j) eps).getD (g i j)) =
        biniBlocks e F G r c q (fun i l => S.den (a i l)) (fun l j => S.den (b l j)) i j := by
    intro i j
    obtain ⟨p', h1, h2, h3⟩ := hdiv i j
    rw [h1]
    exact ⟨h2, h3⟩
  have hinv := (dynamic_peeling_inv Q hE.Q_add _ _ _ _ 2 2 3 hc1).2.2.2 (by
    intro x hx
    obtain ⟨i, j, _, _, rfl⟩ := mem_ofFn hx
    exact (hget i j).1)
  refine ⟨c1, hc1, ?_⟩
  intro i j hi hj
  refine ⟨hinv _ (ofFn_mem c1 hi hj), ?_⟩
  rw [ec1 i j hi hj, (hget i j).2]
  rfl

/-- The function `multiply_bini` on readings: with enough fuel it returns a matrix whose
entries can be divided and read as `biniSem`. -/
theorem bini_fuel_sem (Q : α → Prop) (sdiv : α → α → Option α) (eps : α) (e : R)
    (D : R → R) (hE : EpsDiv S Q sdiv eps e D) :
    ∀ (fuel r c q : Nat) (a b : Nat → Nat → α) (X Y : Nat → Nat → R),
      c < fuel → Fits r c → Fits c q → Fits r q →
      (∀ i l, S.den (a i l) = X i l) → (∀ l j, S.den (b l j) = Y l j) →
      ∃ p, multiply_bini_fuel sdiv fuel (ofFn r c a) (ofFn c q b) eps = some (ofFn r q p) ∧
        ∀ i j, i < r → j < q → Q (p i j) ∧ S.den (p i j) = biniSem e fuel r c q X Y i j
  | 0, _, _, _, _, _, _, _, h, _, _, _, _, _ => absurd h (Nat.not_lt_zero _)
  | fuel + 1, r, c, q, a, b, X, Y, h, hA, hB, hC, hX, hY => by
    have eX : X = fun i l => S.den (a i l) := funext fun i => funext fun l => (hX i l).symm
    have eY : Y = fun l j => S.den (b l j) := funext fun l => funext fun j => (hY l j).symm
    subst eX
    subst eY
    have key := bini_body_sem S Q sdiv eps e D hE
      (fun X Y => multiply_bini_fuel sdiv fuel X Y eps)
      (biniSem_bilin e fuel (r / 2) (c / 2) (q / 3))
      (biniSem_bilin e fuel (q / 3) (c / 2) (r / 2)) a b hA hB hC
      (fun hb a' b' X Y hX hY => by
        have hc : 200 < c := by
          simp only [bini_threshold] at hb
          omega
        exact bini_fuel_sem Q sdiv eps e D hE fuel (r / 2) (c / 2) (q / 3) a' b' X Y
          (by omega) (hA.sub (Nat.div_le_self _ _) (Nat.div_le_self _ _))
          (hB.sub (Nat.div_le_self _ _) (Nat.div_le_self _ _))
          (hC.sub (Nat.div_le_self _ _) (Nat.div_le_self _ _)) hX hY)
      (fun hb a' b' X Y hX hY => by
        have hc : 200 < c := by
          simp only [bini_threshold] at hb
          omega
        have hq3 : q / 3 ≤ q := Nat.div_le_self _ _
        have hr2 : r / 2 ≤ r := Nat.div_le_self _ _
        have hc2 : c / 2 ≤ c := Nat.div_le_self _ _
        exact bini_fuel_sem Q sdiv eps e D hE fuel (q / 3) (c / 2) (r / 2) a' b' X Y
          (by omega)
          ⟨by have := hB.2.1; omega, by have := hA.2.1; omega, by
            rw [Nat.mul_comm]; exact mul_le_of_le hc2 hq3 hB.2.2⟩
          ⟨by have := hA.2.1; omega, by have := hA.1; omega, by
            rw [Nat.mul_comm]; exact mul_le_of_le hr2 hc2 hA.2.2⟩
          ⟨by have := hC.2.1; omega, by have := hC.1; omega, by
            rw [Nat.mul_comm]; exact mul_le_of_le hr2 hq3 hC.2.2⟩ hX hY)
    exact key

end sem

theorem Polynomial.zero_coeff [Zero α] (t : Nat) : (0 : Polynomial α).coeff t = 0 := by
  show ([0] : List α).getD t 0 = 0
  cases t with
  | zero => rfl
  | succ t => rfl

theorem Polynomial.zipAssign_coeff [Zero α] (f : α → α → α) (hf : ∀ x, f x 0 = x) (hf0 : f 0 0 = 0)
    (p q : Polynomial α) (t : Nat) :
    (Polynomial.zipAssign f p q).coeff t = f (p.coeff t) (q.coeff t) := by
  show (Polynomial.zipAssign f p q).a.getD t 0 = _
  rw [Polynomial.zipAssign_a, tab_getD]
  by_cases h : t < q.a.length
  · rw [if_pos (by omega), if_pos h]
  · by_cases h2 : t < p.a.length
    · rw [if_pos (by omega), if_neg h, q.coeff_of_le t (by omega), hf]
    · rw [if_neg (by omega), q.coeff_of_le t (by omega), p.coeff_of_le t (by omega), hf0]

theorem Polynomial.add_coeff [AddMonoid α] (p q : Polynomial α) (t : Nat) :
    (p + q).coeff t = p.coeff t + q.coeff t :=
  Polynomial.zipAssign_coeff _ (fun x => add_zero x) (add_zero 0) p q t

theorem Polynomial.sub_coeff [AddGroup α] (p q : Polynomial α) (t : Nat) :
    (p - q).coeff t = p.coeff t - q.coeff t :=
  Polynomial.zipAssign_coeff _ (fun x => sub_zero x) (sub_zero 0) p q t

theorem Polynomial.zipAssign_ne_nil [Zero α] (f : α → α → α) (p q : Polynomial α)
    (hp : p.a ≠ []) : (Polynomial.zipAssign f p q).a ≠ [] := by
  intro h
  have hl : (Polynomial.zipAssign f p q).a.length = 0 := by rw [h]; rfl
  rw [Polynomial.zipAssign_a, tab_length] at hl
  have : p.a.length = 0 := by omega
  exact hp (List.length_eq_zero.1 this)

/-- The polynomials of the program read as formal power series. -/
theorem polySem_exists [CommRing α] :
    ∃ S : Sem (Polynomial α) (PowerSeries α),
      ∀ p, S.den p = PowerSeries.mk (fun n => p.coeff n) := by
  refine ⟨⟨fun p => PowerSeries.mk (fun n => p.coeff n), ?_, ?_, ?_, ?_⟩, fun _ => rfl⟩
  · ext n
    simp only [PowerSeries.coeff_mk, Polynomial.zero_coeff, map_zero]
  · intro x y
    ext n
    simp only [PowerSeries.coeff_mk, Polynomial.add_coeff, map_add]
  · intro x y
    ext n
    simp only [PowerSeries.coeff_mk, Polynomial.sub_coeff, map_sub]
  · intro x y
    ext n
    rw [PowerSeries.coeff_mul]
    simp only [PowerSeries.coeff_mk]
    show (x.mul y).coeff n = _
    rw [Polynomial.mul_coeff]
    exact Finset.Nat.sum_antidiagonal_swap (f := fun p => x.coeff p.1 * y.coeff p.2)


theorem Polynomial.div_epsilon_coeff [Zero α] [One α] [DecidableEq α] (p : Polynomial α)
    (hp : p.a ≠ []) :
    ∃ p', p.div Polynomial.epsilon = some p' ∧ p'.a ≠ [] ∧ ∀ n, p'.coeff n = p.coeff (n + 1) := by
  have hlen : p.a.length ≠ 0 := fun h => hp (List.length_eq_zero.1 h)
  show ∃ p', p.div ⟨[0, 1]⟩ = some p' ∧ _
  rw [Polynomial.div_epsilon]
  by_cases h1 : p.a.length = 1
  · rw [if_pos h1]
    refine ⟨_, rfl, by simp, ?_⟩
    intro n
    rw [p.coeff_of_le (n + 1) (by omega)]
    exact Polynomial.zero_coeff n
  · rw [if_neg h1, if_neg hlen]
    refine ⟨_, rfl, ?_, ?_⟩
    · intro h
      have : (p.a.drop 1).length = 0 := by
        show (Polynomial.mk (p.a.drop 1)).a.length = 0
        rw [h]; rfl
      rw [List.length_drop] at this
      omega
    · intro n
      show (p.a.drop 1).getD n 0 = p.a.getD (n + 1) 0
      rw [List.getD_eq_getElem?_getD, List.getD_eq_getElem?_getD, List.getElem?_drop,
        Nat.add_comm]

theorem polyEpsDiv [CommRing α] [DecidableEq α] (S : Sem (Polynomial α) (PowerSeries α))
    (hS : ∀ p, S.den p = PowerSeries.mk (fun n => p.coeff n)) :
    EpsDiv S (fun p => p.a ≠ []) Polynomial.div Polynomial.epsilon PowerSeries.X
      (fun f => PowerSeries.mk (fun n => PowerSeries.coeff α (n + 1) f)) := by
  constructor
  · rw [hS]
    ext n
    rw [PowerSeries.coeff_mk, PowerSeries.coeff_X]
    show ([0, 1] : List α).getD n 0 = _
    match n with
    | 0 => rfl
    | 1 => rfl
    | n + 2 => simp
  · show ([0] : List α) ≠ []
    simp
  · intro a b ha
    exact Polynomial.zipAssign_ne_nil _ a b ha
  · intro a b ha
    exact Polynomial.zipAssign_ne_nil _ a b ha
  · intro p hp
    obtain ⟨p', h1, h2, h3⟩ := Polynomial.div_epsilon_coeff p hp
    refine ⟨p', h1, h2, ?_⟩
    rw [hS, hS]
    ext n
    simp only [PowerSeries.coeff_mk, h3]
  · intro t
    ext n
    simp only [PowerSeries.coeff_mk, PowerSeries.coeff_succ_X_mul]
  · intro u v
    ext n
    simp only [PowerSeries.coeff_mk, map_add]
  · intro u v
    ext n
    simp only [PowerSeries.coeff_mk, map_sub]

theorem cast_ofFn {β : Type} (conv : β → α) {r c : Nat} (a : Nat → Nat → β) :
    Matrix.cast conv (ofFn r c a) = ofFn r c (fun i j => conv (a i j)) := by
  unfold Matrix.cast ofFn tab
  simp only [List.map_map]
  rfl

theorem polynomial_to_scalar_ofFn [Zero α] {r c : Nat} (p : Nat → Nat → Polynomial α)
    (h : ∀ i j, i < r → j < c → (p i j).a ≠ []) :
    polynomial_to_scalar (ofFn r c p) = some (ofFn r c (fun i j => (p i j).coeff 0)) := by
  unfold polynomial_to_scalar
  rw [mapM_some (fun x : Polynomial α => x.a[0]?) (fun x => x.coeff 0)]
  · simp only [Option.map_some', ofFn, tab, List.map_map]
    rfl
  · intro x hx
    obtain ⟨i, j, hi, hj, rfl⟩ := mem_ofFn hx
    have := h i j hi hj
    unfold Polynomial.coeff
    cases hd : (p i j).a with
    | nil => exact absurd hd this
    | cons y ys => simp

theorem polynomial_to_scalar_zeros [Zero α] (r c : Nat) :
    polynomial_to_scalar ⟨r, c, (zeros r c : Matrix (Polynomial α)).data⟩ =
      some ⟨r, c, (zeros r c : Matrix α).data⟩ := by
  unfold polynomial_to_scalar
  rw [mapM_some (fun x : Polynomial α => x.a[0]?) (fun x => x.coeff 0)]
  · simp only [Option.map_some', zeros, filled, List.map_replicate]
    rfl
  · intro x hx
    simp only [zeros, filled] at hx
    rw [List.eq_of_mem_replicate hx]
    rfl

/-- C5: for well-formed `A` and `B` over a commutative ring, whenever the classic product
returns a matrix, `multiply_bini_exact` returns the same matrix; this covers every size,
dimensions above the threshold, where the ten products, the division by epsilon and the
peeling with factors (2, 2, 3) are executed at nested levels, included. -/
theorem multiply_bini_exact_correct [CommRing α] [DecidableEq α] (A B C : Matrix α)
    (hA : WF A) (hB : WF B) (hC : multiply_classic A B = some C) :
    multiply_bini_exact A B = some C := by
  obtain ⟨hk, hfit⟩ := multiply_classic_some_fits hA hB hC
  unfold multiply_bini_exact multiply_bini
  rcases Nat.eq_zero_or_pos A.cols with h0 | h0
  · rw [multiply_classic_inner_zero A B hk h0] at hC
    have hb : multiply_bini_fuel Polynomial.div (A.cols + 1) (cast Polynomial.const A)
        (cast Polynomial.const B) Polynomial.epsilon =
        some ⟨A.rows, B.cols, (zeros A.rows B.cols : Matrix (Polynomial α)).data⟩ := by
      show bini_body _ _ _ _ _ = _
      unfold bini_body
      have e1 : (Matrix.cast Polynomial.const A : Matrix (Polynomial α)).cols = A.cols := rfl
      have e2 : (Matrix.cast Polynomial.const B : Matrix (Polynomial α)).rows = B.rows := rfl
      rw [e1, e2, if_pos hk, if_pos (Or.inr (Or.inl (by omega)))]
      exact multiply_classic_inner_zero _ _ hk h0
    have e1 : (Matrix.cast Polynomial.const A : Matrix (Polynomial α)).cols = A.cols := rfl
    rw [e1, hb, andThen_some, polynomial_to_scalar_zeros, ← Option.some.inj hC]
  · have hfit2 := hfit h0
    clear hfit
    obtain ⟨r, c, a, hFa, rfl⟩ := hA.cases
    obtain ⟨c', q, b, hFb, rfl⟩ := hB.cases
    simp only [ofFn_rows, ofFn_cols] at hk hfit2 h0 ⊢
    subst hk
    obtain ⟨S, hS⟩ := polySem_exists (α := α)
    have hE := polyEpsDiv S hS
    rw [cast_ofFn, cast_ofFn]
    simp only [ofFn_cols]
    obtain ⟨p, hp, ep⟩ := bini_fuel_sem S _ _ _ _ _ hE (c + 1) r c q
      (fun i j => Polynomial.const (a i j)) (fun i j => Polynomial.const (b i j)) _ _
      (Nat.lt_succ_self _) hFa hFb hfit2 (fun _ _ => rfl) (fun _ _ => rfl)
    rw [hp, andThen_some, polynomial_to_scalar_ofFn p (fun i j hi hj => (ep i j hi hj).1)]
    rw [multiply_classic_ofFn a b hFa hFb hfit2] at hC
    rw [← Option.some.inj hC]
    congr 1
    apply ofFn_congr
    intro i j hi hj
    rw [dotAcc_eq_sum]
    have h1 : (p i j).coeff 0 = PowerSeries.constantCoeff α (S.den (p i j)) := by
      rw [hS, ← PowerSeries.coeff_zero_eq_constantCoeff_apply, PowerSeries.coeff_mk]
    rw [h1, (ep i j hi hj).2,
      biniSem_mod (PowerSeries.constantCoeff α) PowerSeries.X PowerSeries.constantCoeff_X
        (c + 1) r c q (Nat.lt_succ_self _) _ _ i j hi hj]
    apply Finset.sum_congr rfl
    intro l _
    rw [hS, hS, ← PowerSeries.coeff_zero_eq_constantCoeff_apply,
      ← PowerSeries.coeff_zero_eq_constantCoeff_apply, PowerSeries.coeff_mk,
      PowerSeries.coeff_mk]
    rfl

theorem multiply_bini_exact_correct_witness :
    multiply_bini_exact (ofData [1, 2, 3, 4] 2 2 : Matrix Int) (ofData [4, 3, 2, 1] 2 2)
      = some (ofData [8, 5, 20, 13] 2 2) :=
  multiply_bini_exact_correct (ofData [1, 2, 3, 4] 2 2) (ofData [4, 3, 2, 1] 2 2)
    (ofData [8, 5, 20, 13] 2 2)
    (by refine ⟨⟨?_, ?_, ?_⟩, ?_⟩ <;> simp [ofData])
    (by refine ⟨⟨?_, ?_, ?_⟩, ?_⟩ <;> simp [ofData])
    (by decide)

section readings
variable {R R0 : Type} [CommRing R] [CommRing R0]

theorem place_zero (sr sc br bc : Nat) : place sr sc br bc (0 : Nat → Nat → R) = 0 := by
  funext i j
  simp only [place, Pi.zero_apply]
  split <;> rfl

theorem schonLevel_bilin (e : R) {F : (Nat → Nat → R) → (Nat → Nat → R) → Nat → Nat → R}
    (hF : Bilin F) (r c q : Nat) : Bilin (schonLevel e F r c q) := by
  have hp := speel_bilin (R := R) 3 3 3 r c q
  constructor
  · intro x x' y
    simp only [schonLevel, schonBlocks, schonCell, schonDiag, schonOff, sblk_add, hF.add_left,
      hp.add_left, place_add, place_sub, smul_add, smul_sub, if_true,
      show ¬ ((0 : Nat) = 1) by decide, show ¬ ((0 : Nat) = 2) by decide,
      show ¬ ((1 : Nat) = 0) by decide, show ¬ ((1 : Nat) = 2) by decide,
      show ¬ ((2 : Nat) = 0) by decide, show ¬ ((2 : Nat) = 1) by decide, if_false]
    abel
  · intro s x y
    simp only [schonLevel, schonBlocks, schonCell, schonDiag, schonOff, sblk_smul,
      hF.smul_left, hp.smul_left, place_add, place_sub, place_smul, smul_add, smul_sub, if_true,
      show ¬ ((0 : Nat) = 1) by decide, show ¬ ((0 : Nat) = 2) by decide,
      show ¬ ((1 : Nat) = 0) by decide, show ¬ ((1 : Nat) = 2) by decide,
      show ¬ ((2 : Nat) = 0) by decide, show ¬ ((2 : Nat) = 1) by decide, if_false,
      smul_comm e s, smul_comm (e * e) s]
  · intro x y y'
    simp only [schonLevel, schonBlocks, schonCell, schonDiag, schonOff, sblk_add, hF.add_right,
      hp.add_right, place_add, place_sub, smul_add, smul_sub, if_true,
      show ¬ ((0 : Nat) = 1) by decide, show ¬ ((0 : Nat) = 2) by decide,
      show ¬ ((1 : Nat) = 0) by decide, show ¬ ((1 : Nat) = 2) by decide,
      show ¬ ((2 : Nat) = 0) by decide, show ¬ ((2 : Nat) = 1) by decide, if_false]
    abel
  · intro s x y
    simp only [schonLevel, schonBlocks, schonCell, schonDiag, schonOff, sblk_smul,
      hF.smul_right, hp.smul_right, place_add, place_sub, place_smul, smul_add, smul_sub,
      if_true,
      show ¬ ((0 : Nat) = 1) by decide, show ¬ ((0 : Nat) = 2) by decide,
      show ¬ ((1 : Nat) = 0) by decide, show ¬ ((1 : Nat) = 2) by decide,
      show ¬ ((2 : Nat) = 0) by decide, show ¬ ((2 : Nat) = 1) by decide, if_false,
      smul_comm e s, smul_comm (e * e) s]

theorem schonSem_bilin (e : R) : ∀ (fuel r c q : Nat), Bilin (schonSem e fuel r c q)
  | 0, _, _, _ => by
    constructor <;> intros <;> funext i j <;> simp [schonSem]
  | fuel + 1, r, c, q => by
    have hF := schonSem_bilin e fuel (r / 3) (c / 3) (q / 3)
    have hL := schonLevel_bilin e hF r c q
    have hd := sdot_bilin (R := R) c
    constructor
    · intro x x' y
      simp only [schonSem]
      split
      · exact hd.add_left x x' y
      · exact hL.add_left x x' y
    · intro s x y
      simp only [schonSem]
      split
      · exact hd.smul_left s x y
      · exact hL.smul_left s x y
    · intro x y y'
      simp only [schonSem]
      split
      · exact hd.add_right x y y'
      · exact hL.add_right x y y'
    · intro s x y
      simp only [schonSem]
      split
      · exact hd.smul_right s x y
      · exact hL.smul_right s x y

end readings

section readings
variable {R R0 : Type} [CommRing R] [CommRing R0]

theorem schonLevel_mod (f : R →+* R0) (e : R) (he : f e = 0)
    {F : (Nat → Nat → R) → (Nat → Nat → R) → Nat → Nat → R} (r c q : Nat)
    (hF : ∀ x y i j, i < r / 3 → j < q / 3 → f (F x y i j) =
      Finset.sum (Finset.range (c / 3)) (fun l => f (x i l) * f (y l j)))
    (x y : Nat → Nat → R) (i j : Nat) (hi : i < r) (hj : j < q) :
    f (schonLevel e F r c q x y i j) =
      Finset.sum (Finset.range c) (fun l => f (x i l) * f (y l j)) := by
  have hc3 : c / 3 * 3 ≤ c := Nat.div_mul_le_self c 3
  have hr3 : r / 3 * 3 ≤ r := Nat.div_mul_le_self r 3
  have hq3 : q / 3 * 3 ≤ q := Nat.div_mul_le_self q 3
  simp only [schonLevel, schonBlocks, Pi.add_apply, map_add, off3]
  by_cases hin : i < r / 3 * 3 ∧ j < q / 3 * 3
  · obtain ⟨hi2, hj3⟩ := hin
    have hpeel : f (speel 3 3 3 r c q x y i j) =
        Finset.sum (Finset.range (c - c / 3 * 3))
          (fun l => f (x i (c / 3 * 3 + l)) * f (y (c / 3 * 3 + l) j)) := by
      simp only [speel]
      rw [if_pos ⟨hi2, hj3⟩, map_sum]
      simp only [map_mul]
    rw [hpeel, sum_split3 (fun l => f (x i l) * f (y l j)) hc3]
    congr 1
    by_cases hi1 : i < r / 3
    · by_cases hj1 : j < q / 3
      · have hi' : i < r / 3 := by omega
        have hj' : j < q / 3 := by omega
        rw [place_in _ (by omega), place_out _ (by omega), place_out _ (by omega), place_out _ (by omega), place_out _ (by omega), place_out _ (by omega), place_out _ (by omega), place_out _ (by omega), place_out _ (by omega)]
        simp only [schonCell, schonDiag, schonOff, if_true, if_false,
          show ¬ ((0 : Nat) = 1) by decide, show ¬ ((0 : Nat) = 2) by decide,
          show ¬ ((1 : Nat) = 0) by decide, show ¬ ((1 : Nat) = 2) by decide,
          show ¬ ((2 : Nat) = 0) by decide, show ¬ ((2 : Nat) = 1) by decide,
          Pi.add_apply, Pi.sub_apply, Pi.smul_apply, smul_eq_mul, map_add, map_sub, map_mul, he,
          zero_mul, mul_zero, sub_zero, add_zero, zero_add, map_zero, Nat.sub_zero,
          hF _ _ _ _ hi' hj', sblk, off3, Nat.zero_add, Finset.sum_add_distrib]
      · by_cases hj2 : j < 2 * (q / 3)
        · have hi' : i < r / 3 := by omega
          have hj' : j - q / 3 < q / 3 := by omega
          rw [place_out _ (by omega), place_in _ (by omega), place_out _ (by omega), place_out _ (by omega), place_out _ (by omega), place_out _ (by omega), place_out _ (by omega), place_out _ (by omega), place_out _ (by omega)]
          simp only [schonCell, schonDiag, schonOff, if_true, if_false,
            show ¬ ((0 : Nat) = 1) by decide, show ¬ ((0 : Nat) = 2) by decide,
            show ¬ ((1 : Nat) = 0) by decide, show ¬ ((1 : Nat) = 2) by decide,
            show ¬ ((2 : Nat) = 0) by decide, show ¬ ((2 : Nat) = 1) by decide,
            Pi.add_apply, Pi.sub_apply, Pi.smul_apply, smul_eq_mul, map_add, map_sub, map_mul, he,
            zero_mul, mul_zero, sub_zero, add_zero, zero_add, map_zero, Nat.sub_zero,
            hF _ _ _ _ hi' hj', sblk, off3, Nat.zero_add, Finset.sum_add_distrib]
          simp only [(show q / 3 + (j - q / 3) = j by omega)]
        · have hi' : i < r / 3 := by omega
          have hj' : j - 2 * (q / 3) < q / 3 := by omega
          rw [place_out _ (by omega), place_out _ (by omega), place_in _ (by omega), place_out _ (by omega), place_out _ (by omega), place_out _ (by omega), place_out _ (by omega), place_out _ (by omega), place_out _ (by omega)]
          simp only [schonCell, schonDiag, schonOff, if_true, if_false,
            show ¬ ((0 : Nat) = 1) by decide, show ¬ ((0 : Nat) = 2) by decide,
            show ¬ ((1 : Nat) = 0) by decide, show ¬ ((1 : Nat) = 2) by decide,
            show ¬ ((2 : Nat) = 0) by decide, show ¬ ((2 : Nat) = 1) by decide,
            Pi.add_apply, Pi.sub_apply, Pi.smul_apply, smul_eq_mul, map_add, map_sub, map_mul, he,
            zero_mul, mul_zero, sub_zero, add_zero, zero_add, map_zero, Nat.sub_zero,
            hF _ _ _ _ hi' hj', sblk, off3, Nat.zero_add, Finset.sum_add_distrib]
          simp only [(show 2 * (q / 3) + (j - 2 * (q / 3)) = j by omega)]
    · by_cases hi2' : i < 2 * (r / 3)
      · by_cases hj1 : j < q / 3
        · have hi' : i - r / 3 < r / 3 := by omega
          have hj' : j < q / 3 := by omega
          rw [place_out _ (by omega), place_out _ (by omega), place_out _ (by omega), place_in _ (by omega), place_out _ (by omega), place_out _ (by omega), place_out _ (by omega), place_out _ (by omega), place_out _ (by omega)]
          simp only [schonCell, schonDiag, schonOff, if_true, if_false,
            show ¬ ((0 : Nat) = 1) by decide, show ¬ ((0 : Nat) = 2) by decide,
            show ¬ ((1 : Nat) = 0) by decide, show ¬ ((1 : Nat) = 2) by decide,
            show ¬ ((2 : Nat) = 0) by decide, show ¬ ((2 : Nat) = 1) by decide,
            Pi.add_apply, Pi.sub_apply, Pi.smul_apply, smul_eq_mul, map_add, map_sub, map_mul, he,
            zero_mul, mul_zero, sub_zero, add_zero, zero_add, map_zero, Nat.sub_zero,
            hF _ _ _ _ hi' hj', sblk, off3, Nat.zero_add, Finset.sum_add_distrib]
          simp only [(show r / 3 + (i - r / 3) = i by omega)]
        · by_cases hj2 : j < 2 * (q / 3)
          · have hi' : i - r / 3 < r / 3 := by omega
            have hj' : j - q / 3 < q / 3 := by omega
            rw [place_out _ (by omega), place_out _ (by omega), place_out _ (by omega), place_out _ (by omega), place_in _ (by omega), place_out _ (by omega), place_out _ (by omega), place_out _ (by omega), place_out _ (by omega)]
            simp only [schonCell, schonDiag, schonOff, if_true, if_false,
              show ¬ ((0 : Nat) = 1) by decide, show ¬ ((0 : Nat) = 2) by decide,
              show ¬ ((1 : Nat) = 0) by decide, show ¬ ((1 : Nat) = 2) by decide,
              show ¬ ((2 : Nat) = 0) by decide, show ¬ ((2 : Nat) = 1) by decide,
              Pi.add_apply, Pi.sub_apply, Pi.smul_apply, smul_eq_mul, map_add, map_sub, map_mul, he,
              zero_mul, mul_zero, sub_zero, add_zero, zero_add, map_zero, Nat.sub_zero,
              hF _ _ _ _ hi' hj', sblk, off3, Nat.zero_add, Finset.sum_add_distrib]
            simp only [(show r / 3 + (i - r / 3) = i by omega), (show q / 3 + (j - q / 3) = j by omega)]
          · have hi' : i - r / 3 < r / 3 := by omega
            have hj' : j - 2 * (q / 3) < q / 3 := by omega
            rw [place_out _ (by omega), place_out _ (by omega), place_out _ (by omega), place_out _ (by omega), place_out _ (by omega), place_in _ (by omega), place_out _ (by omega), place_out _ (by omega), place_out _ (by omega)]
            simp only [schonCell, schonDiag, schonOff, if_true, if_false,
              show ¬ ((0 : Nat) = 1) by decide, show ¬ ((0 : Nat) = 2) by decide,
              show ¬ ((1 : Nat) = 0) by decide, show ¬ ((1 : Nat) = 2) by decide,
              show ¬ ((2 : Nat) = 0) by decide, show ¬ ((2 : Nat) = 1) by decide,
              Pi.add_apply, Pi.sub_apply, Pi.smul_apply, smul_eq_mul, map_add, map_sub, map_mul, he,
              zero_mul, mul_zero, sub_zero, add_zero, zero_add, map_zero, Nat.sub_zero,
              hF _ _ _ _ hi' hj', sblk, off3, Nat.zero_add, Finset.sum_add_distrib]
            simp only [(show r / 3 + (i - r / 3) = i by omega), (show 2 * (q / 3) + (j - 2 * (q / 3)) = j by omega)]
      · by_cases hj1 : j < q / 3
        · have hi' : i - 2 * (r / 3) < r / 3 := by omega
          have hj' : j < q / 3 := by omega
          rw [place_out _ (by omega), place_out _ (by omega), place_out _ (by omega), place_out _ (by omega), place_out _ (by omega), place_out _ (by omega), place_in _ (by omega), place_out _ (by omega), place_out _ (by omega)]
          simp only [schonCell, schonDiag, schonOff, if_true, if_false,
            show ¬ ((0 : Nat) = 1) by decide, show ¬ ((0 : Nat) = 2) by decide,
            show ¬ ((1 : Nat) = 0) by decide, show ¬ ((1 : Nat) = 2) by decide,
            show ¬ ((2 : Nat) = 0) by decide, show ¬ ((2 : Nat) = 1) by decide,
            Pi.add_apply, Pi.sub_apply, Pi.smul_apply, smul_eq_mul, map_add, map_sub, map_mul, he,
            zero_mul, mul_zero, sub_zero, add_zero, zero_add, map_zero, Nat.sub_zero,
            hF _ _ _ _ hi' hj', sblk, off3, Nat.zero_add, Finset.sum_add_distrib]
          simp only [(show 2 * (r / 3) + (i - 2 * (r / 3)) = i by omega)]
        · by_cases hj2 : j < 2 * (q / 3)
          · have hi' : i - 2 * (r / 3) < r / 3 := by omega
            have hj' : j - q / 3 < q / 3 := by omega
            rw [place_out _ (by omega), place_out _ (by omega), place_out _ (by omega), place_out _ (by omega), place_out _ (by omega), place_out _ (by omega), place_out _ (by omega), place_in _ (by omega), place_out _ (by omega)]
            simp only [schonCell, schonDiag, schonOff, if_true, if_false,
              show ¬ ((0 : Nat) = 1) by decide, show ¬ ((0 : Nat) = 2) by decide,
              show ¬ ((1 : Nat) = 0) by decide, show ¬ ((1 : Nat) = 2) by decide,
              show ¬ ((2 : Nat) = 0) by decide, show ¬ ((2 : Nat) = 1) by decide,
              Pi.add_apply, Pi.sub_apply, Pi.smul_apply, smul_eq_mul, map_add, map_sub, map_mul, he,
              zero_mul, mul_zero, sub_zero, add_zero, zero_add, map_zero, Nat.sub_zero,
              hF _ _ _ _ hi' hj', sblk, off3, Nat.zero_add, Finset.sum_add_distrib]
            simp only [(show 2 * (r / 3) + (i - 2 * (r / 3)) = i by omega), (show q / 3 + (j - q / 3) = j by omega)]
          · have hi' : i - 2 * (r / 3) < r / 3 := by omega
            have hj' : j - 2 * (q / 3) < q / 3 := by omega
            rw [place_out _ (by omega), place_out _ (by omega), place_out _ (by omega), place_out _ (by omega), place_out _ (by omega), place_out _ (by omega), place_out _ (by omega), place_out _ (by omega), place_in _ (by omega)]
            simp only [schonCell, schonDiag, schonOff, if_true, if_false,
              show ¬ ((0 : Nat) = 1) by decide, show ¬ ((0 : Nat) = 2) by decide,
              show ¬ ((1 : Nat) = 0) by decide, show ¬ ((1 : Nat) = 2) by decide,
              show ¬ ((2 : Nat) = 0) by decide, show ¬ ((2 : Nat) = 1) by decide,
              Pi.add_apply, Pi.sub_apply, Pi.smul_apply, smul_eq_mul, map_add, map_sub, map_mul, he,
              zero_mul, mul_zero, sub_zero, add_zero, zero_add, map_zero, Nat.sub_zero,
              hF _ _ _ _ hi' hj', sblk, off3, Nat.zero_add, Finset.sum_add_distrib]
            simp only [(show 2 * (r / 3) + (i - 2 * (r / 3)) = i by omega), (show 2 * (q / 3) + (j - 2 * (q / 3)) = j by omega)]
  · have hpeel : f (speel 3 3 3 r c q x y i j) =
        Finset.sum (Finset.range c) (fun l => f (x i l) * f (y l j)) := by
      simp only [speel]
      rw [if_neg hin, map_sum]
      simp only [map_mul]
    rw [hpeel, place_out _ (by omega), place_out _ (by omega), place_out _ (by omega),
      place_out _ (by omega), place_out _ (by omega), place_out _ (by omega),
      place_out _ (by omega), place_out _ (by omega), place_out _ (by omega)]
    simp only [map_zero, zero_add]

theorem schonSem_mod (f : R →+* R0) (e : R) (he : f e = 0) :
    ∀ (fuel r c q : Nat), r < fuel → ∀ (x y : Nat → Nat → R) (i j : Nat),
      i < r → j < q → f (schonSem e fuel r c q x y i j) =
        Finset.sum (Finset.range c) (fun l => f (x i l) * f (y l j))
  | 0, _, _, _, h => absurd h (Nat.not_lt_zero _)
  | fuel + 1, r, c, q, h => by
    intro x y i j hi hj
    simp only [schonSem]
    split
    · simp only [sdot, map_sum, map_mul]
    · rename_i hb
      have hr : 200 < r := by
        simp only [schonhage_threshold] at hb
        omega
      exact schonLevel_mod f e he r c q
        (schonSem_mod f e he fuel (r / 3) (c / 3) (q / 3) (by omega)) x y i j hi hj

end readings

theorem forLoop_three {σ : Type} (body : Nat → σ → Option σ) (s : σ) :
    forLoop body 3 0 s =
      (body 0 s).bind (fun s1 => (body 1 s1).bind (fun s2 => body 2 s2)) := by
  show (body 0 s).bind (fun s1 => (body 1 s1).bind (fun s2 => (body 2 s2).bind some)) = _
  congr 1
  funext s1
  congr 1
  funext s2
  exact Option.bind_some _

theorem setGrid_apply (C : Nat → Nat → Matrix α) (j k : Nat) (M : Matrix α) (a b : Nat) :
    setGrid C j k M a b = if a = j ∧ b = k then M else C a b := rfl

section sem
variable {R : Type} [Zero α] [Add α] [Sub α] [Mul α] [CommRing R] (S : Sem α R)

/-- The scalar division of a matrix by `eps`, on readings. -/
theorem divScalar_sem (Q : α → Prop) (sdiv : α → α → Option α) (eps : α) (e : R)
    (D : R → R) (hE : EpsDiv S Q sdiv eps e D) {r c : Nat} (g : Nat → Nat → α)
    (G : Nat → Nat → R) (hg : ∀ i j, i < r → j < c → Q (g i j) ∧ S.den (g i j) = G i j) :
    ∃ g', divScalar sdiv (ofFn r c g) eps = some (ofFn r c g') ∧
      ∀ i j, i < r → j < c → Q (g' i j) ∧ S.den (g' i j) = D (G i j) := by
  have hdiv : ∀ i j, i < r → j < c → ∃ p', sdiv (g i j) eps = some p' ∧ Q p' ∧
      S.den p' = D (G i j) := by
    intro i j hi hj
    obtain ⟨p', h1, h2, h3⟩ := hE.div_ok (g i j) (hg i j hi hj).1
    exact ⟨p', h1, h2, by rw [h3, (hg i j hi hj).2]⟩
  refine ⟨_, divScalar_ofFn sdiv eps g (fun i j hi hj => ⟨_, (hdiv i j hi hj).choose_spec.1⟩), ?_⟩
  intro i j hi hj
  obtain ⟨p', h1, h2, h3⟩ := hdiv i j hi hj
  rw [h1]
  exact ⟨h2, h3⟩

/-- The scalar division of a matrix by `eps * eps`, on readings. -/
theorem div2Scalar_sem (Q : α → Prop) (sdiv : α → α → Option α) (eps : α) (e : R)
    (D2 : R → R) (hE : Eps2Div S Q sdiv eps e D2) {r c : Nat} (g : Nat → Nat → α)
    (G : Nat → Nat → R) (hg : ∀ i j, i < r → j < c → Q (g i j) ∧ S.den (g i j) = G i j) :
    ∃ g', divScalar sdiv (ofFn r c g) (eps * eps) = some (ofFn r c g') ∧
      ∀ i j, i < r → j < c → Q (g' i j) ∧ S.den (g' i j) = D2 (G i j) := by
  have hdiv : ∀ i j, i < r → j < c → ∃ p', sdiv (g i j) (eps * eps) = some p' ∧ Q p' ∧
      S.den p' = D2 (G i j) := by
    intro i j hi hj
    obtain ⟨p', h1, h2, h3⟩ := hE.div2_ok (g i j) (hg i j hi hj).1
    exact ⟨p', h1, h2, by rw [h3, (hg i j hi hj).2]⟩
  refine ⟨_, divScalar_ofFn sdiv (eps * eps) g
    (fun i j hi hj => ⟨_, (hdiv i j hi hj).choose_spec.1⟩), ?_⟩
  intro i j hi hj
  obtain ⟨p', h1, h2, h3⟩ := hdiv i j hi hj
  rw [h1]
  exact ⟨h2, h3⟩

/-- The operator `+=` on readings. -/
theorem madd_sem (Q : α → Prop) (hQ : ∀ a b, Q a → Q (a + b)) {r c : Nat}
    (g h : Nat → Nat → α) (G H : Nat → Nat → R)
    (hg : ∀ i j, i < r → j < c → Q (g i j) ∧ S.den (g i j) = G i j)
    (hh : ∀ i j, i < r → j < c → S.den (h i j) = H i j) :
    ∃ g', (ofFn r c g).add (ofFn r c h) = some (ofFn r c g') ∧
      ∀ i j, i < r → j < c → Q (g' i j) ∧ S.den (g' i j) = G i j + H i j := by
  refine ⟨_, add_ofFn g h, ?_⟩
  intro i j hi hj
  exact ⟨hQ _ _ (hg i j hi hj).1, by rw [S.den_add, (hg i j hi hj).2, hh i j hi hj]⟩

/-- The operator `-=` on readings. -/
theorem msub_sem (Q : α → Prop) (hQ : ∀ a b, Q a → Q (a - b)) {r c : Nat}
    (g h : Nat → Nat → α) (G H : Nat → Nat → R)
    (hg : ∀ i j, i < r → j < c → Q (g i j) ∧ S.den (g i j) = G i j)
    (hh : ∀ i j, i < r → j < c → S.den (h i j) = H i j) :
    ∃ g', (ofFn r c g).sub (ofFn r c h) = some (ofFn r c g') ∧
      ∀ i j, i < r → j < c → Q (g' i j) ∧ S.den (g' i j) = G i j - H i j := by
  refine ⟨_, sub_ofFn g h, ?_⟩
  intro i j hi hj
  exact ⟨hQ _ _ (hg i j hi hj).1, by rw [S.den_sub, (hg i j hi hj).2, hh i j hi hj]⟩

end sem

section sem
variable {R : Type} [Zero α] [Add α] [Sub α] [Mul α] [CommRing R] (S : Sem α R)

set_option maxHeartbeats 8000000 in
/-- The nine blocks `C[a][b]` of one level of Schonhage's algorithm, on readings. -/
theorem schonhage_products_sem (Q : α → Prop) (sdiv : α → α → Option α) (eps : α) (e : R)
    (D D2 : R → R) (hE : EpsDiv S Q sdiv eps e D) (hE2 : Eps2Div S Q sdiv eps e D2)
    (recurse : Matrix α → Matrix α → Option (Matrix α))
    {F : (Nat → Nat → R) → (Nat → Nat → R) → Nat → Nat → R} (hF : Bilin F)
    {r c q : Nat} (a b : Nat → Nat → α) (hA : Fits r c) (hB : Fits c q) (hC : Fits r q)
    (hrF : ∀ (a' b' : Nat → Nat → α) (X Y : Nat → Nat → R),
      (∀ i l, S.den (a' i l) = X i l) → (∀ l j, S.den (b' l j) = Y l j) →
      ∃ p, recurse (ofFn (r / 3) (c / 3) a') (ofFn (c / 3) (q / 3) b') =
          some (ofFn (r / 3) (q / 3) p) ∧
        ∀ i j, i < r / 3 → j < q / 3 → Q (p i j) ∧ S.den (p i j) = F X Y i j) :
    ∃ C, schonhage_products sdiv recurse (ofFn r c a) (ofFn c q b) eps = some C ∧
      ∀ a' b', a' < 3 → b' < 3 → ∃ g, C a' b' = ofFn (r / 3) (q / 3) g ∧
        ∀ i j, i < r / 3 → j < q / 3 → Q (g i j) ∧ S.den (g i j) =
          schonCell e F r c q (fun i l => S.den (a i l)) (fun l j => S.den (b l j)) a' b' i j := by
  have hr3 : r / 3 * 3 ≤ r := Nat.div_mul_le_self r 3
  have hc3 : c / 3 * 3 ≤ c := Nat.div_mul_le_self c 3
  have hq3 : q / 3 * 3 ≤ q := Nat.div_mul_le_self q 3
  have hr32 := hA.1
  have hc32 := hA.2.1
  have hq32 := hB.2.1
  have hFC : Fits (r / 3) (q / 3) := hC.sub (by omega) (by omega)
  have hsub := Bilin.sub_right hF
  have hden2 : S.den (eps * eps) = e * e := by rw [S.den_mul, hE.den_eps]
  unfold schonhage_products
  simp only [ofFn_rows, ofFn_cols]
  rw [u32_of_lt (show 2 * (r / 3) < 4294967296 by omega),
    u32_of_lt (show 2 * (c / 3) < 4294967296 by omega),
    u32_of_lt (show 2 * (q / 3) < 4294967296 by omega)]
  obtain ⟨a00, hA00, ea00⟩ := subblock_den S a hA (show 0 + r / 3 ≤ r by omega) (show 0 + c / 3 ≤ c by omega)
  rw [hA00, andThen_some]
  obtain ⟨a01, hA01, ea01⟩ := subblock_den S a hA (show 0 + r / 3 ≤ r by omega) (show c / 3 + c / 3 ≤ c by omega)
  rw [hA01, andThen_some]
  obtain ⟨a02, hA02, ea02⟩ := subblock_den S a hA (show 0 + r / 3 ≤ r by omega) (show 2 * (c / 3) + c / 3 ≤ c by omega)
  rw [hA02, andThen_some]
  obtain ⟨a10, hA10, ea10⟩ := subblock_den S a hA (show r / 3 + r / 3 ≤ r by omega) (show 0 + c / 3 ≤ c by omega)
  rw [hA10, andThen_some]
  obtain ⟨a11, hA11, ea11⟩ := subblock_den S a hA (show r / 3 + r / 3 ≤ r by omega) (show c / 3 + c / 3 ≤ c by omega)
  rw [hA11, andThen_some]
  obtain ⟨a12, hA12, ea12⟩ := subblock_den S a hA (show r / 3 + r / 3 ≤ r by omega) (show 2 * (c / 3) + c / 3 ≤ c by omega)
  rw [hA12, andThen_some]
  obtain ⟨a20, hA20, ea20⟩ := subblock_den S a hA (show 2 * (r / 3) + r / 3 ≤ r by omega) (show 0 + c / 3 ≤ c by omega)
  rw [hA20, andThen_some]
  obtain ⟨a21, hA21, ea21⟩ := subblock_den S a hA (show 2 * (r / 3) + r / 3 ≤ r by omega) (show c / 3 + c / 3 ≤ c by omega)
  rw [hA21, andThen_some]
  obtain ⟨a22, hA22, ea22⟩ := subblock_den S a hA (show 2 * (r / 3) + r / 3 ≤ r by omega) (show 2 * (c / 3) + c / 3 ≤ c by omega)
  rw [hA22, andThen_some]
  obtain ⟨b00, hB00, eb00⟩ := subblock_den S b hB (show 0 + c / 3 ≤ c by omega) (show 0 + q / 3 ≤ q by omega)
  rw [hB00, andThen_some]
  obtain ⟨b01, hB01, eb01⟩ := subblock_den S b hB (show 0 + c / 3 ≤ c by omega) (show q / 3 + q / 3 ≤ q by omega)
  rw [hB01, andThen_some]
  obtain ⟨b02, hB02, eb02⟩ := subblock_den S b hB (show 0 + c / 3 ≤ c by omega) (show 2 * (q / 3) + q / 3 ≤ q by omega)
  rw [hB02, andThen_some]
  obtain ⟨b10, hB10, eb10⟩ := subblock_den S b hB (show c / 3 + c / 3 ≤ c by omega) (show 0 + q / 3 ≤ q by omega)
  rw [hB10, andThen_some]
  obtain ⟨b11, hB11, eb11⟩ := subblock_den S b hB (show c / 3 + c / 3 ≤ c by omega) (show q / 3 + q / 3 ≤ q by omega)
  rw [hB11, andThen_some]
  obtain ⟨b12, hB12, eb12⟩ := subblock_den S b hB (show c / 3 + c / 3 ≤ c by omega) (show 2 * (q / 3) + q / 3 ≤ q by omega)
  rw [hB12, andThen_some]
  obtain ⟨b20, hB20, eb20⟩ := subblock_den S b hB (show 2 * (c / 3) + c / 3 ≤ c by omega) (show 0 + q / 3 ≤ q by omega)
  rw [hB20, andThen_some]
  obtain ⟨b21, hB21, eb21⟩ := subblock_den S b hB (show 2 * (c / 3) + c / 3 ≤ c by omega) (show q / 3 + q / 3 ≤ q by omega)
  rw [hB21, andThen_some]
  obtain ⟨b22, hB22, eb22⟩ := subblock_den S b hB (show 2 * (c / 3) + c / 3 ≤ c by omega) (show 2 * (q / 3) + q / 3 ≤ q by omega)
  rw [hB22, andThen_some]
  rw [forLoop_three]
  simp only [grid9, smul_ofFn, zeros_eq hFC]
  -- i = 0
  rw [add_ofFn, andThen_some]
  obtain ⟨w0, hw0, ew0⟩ := hrF a00 (fun i j => b10 i j + b20 i j)
    (sblk 0 0 (fun i l => S.den (a i l)))
    (sblk (c / 3) 0 (fun l j => S.den (b l j)) + sblk (2 * (c / 3)) 0 (fun l j => S.den (b l j)))
    (fun i l => by
      simp only [S.den_add, S.den_sub, S.den_mul, hE.den_eps, ea00, sblk, Pi.add_apply,
        Pi.sub_apply, Pi.smul_apply, smul_eq_mul]
      try ring)
    (fun l j => by
      simp only [S.den_add, S.den_sub, S.den_mul, hE.den_eps, eb10, eb20, sblk, Pi.add_apply,
        Pi.sub_apply, Pi.smul_apply, smul_eq_mul]
      try ring)
  rw [hw0, andThen_some]
  rw [forLoop_three]
  -- i = 0, j = 0
  rw [schonhage_step]
  rw [if_pos rfl]
  simp only [grid9, smul_ofFn]
  rw [add_ofFn, andThen_some]
  rw [add_ofFn, andThen_some]
  obtain ⟨u00, hu00, eu00⟩ := hrF (fun i j => a00 i j + a01 i j * (eps * eps)) (fun i j => b00 i j * (eps * eps) + b10 i j)
    (sblk 0 0 (fun i l => S.den (a i l)) + (e * e) • sblk 0 (c / 3) (fun i l => S.den (a i l)))
    ((e * e) • sblk 0 0 (fun l j => S.den (b l j)) + sblk (c / 3) 0 (fun l j => S.den (b l j)))
    (fun i l => by
      simp only [S.den_add, S.den_sub, S.den_mul, hE.den_eps, ea00, ea01, sblk, Pi.add_apply,
        Pi.sub_apply, Pi.smul_apply, smul_eq_mul]
      try ring)
    (fun l j => by
      simp only [S.den_add, S.den_sub, S.den_mul, hE.den_eps, eb00, eb10, sblk, Pi.add_apply,
        Pi.sub_apply, Pi.smul_apply, smul_eq_mul]
      try ring)
  rw [hu00, andThen_some]
  rw [add_ofFn, andThen_some]
  obtain ⟨v00, hv00, ev00⟩ := hrF (fun i j => a00 i j + a02 i j * (eps * eps)) b20
    (sblk 0 0 (fun i l => S.den (a i l)) + (e * e) • sblk 0 (2 * (c / 3)) (fun i l => S.den (a i l)))
    (sblk (2 * (c / 3)) 0 (fun l j => S.den (b l j)))
    (fun i l => by
      simp only [S.den_add, S.den_sub, S.den_mul, hE.den_eps, ea00, ea02, sblk, Pi.add_apply,
        Pi.sub_apply, Pi.smul_apply, smul_eq_mul]
      try ring)
    (fun l j => by
      simp only [S.den_add, S.den_sub, S.den_mul, hE.den_eps, eb20, sblk, Pi.add_apply,
        Pi.sub_apply, Pi.smul_apply, smul_eq_mul]
      try ring)
  rw [hv00, andThen_some]
  obtain ⟨d00, hd00, ed00⟩ := divScalar_sem S Q sdiv eps e D hE v00 _ ev00
  rw [hd00, andThen_some]
  rw [forLoop_three]
  rw [if_neg (show ¬ ((0 : Nat) ≠ 0) by decide), Option.some_bind]
  rw [if_pos (show (1 : Nat) ≠ 0 by decide)]
  simp only [setGrid_apply, show ¬ ((0 : Nat) = 1) by decide, show ¬ ((0 : Nat) = 2) by decide, show ¬ ((1 : Nat) = 0) by decide, show ¬ ((1 : Nat) = 2) by decide, show ¬ ((2 : Nat) = 0) by decide, show ¬ ((2 : Nat) = 1) by decide, and_self, and_true, and_false, true_and, false_and, if_true, if_false]
  obtain ⟨c01_1, hc01_1, ec01_1⟩ := msub_sem S Q hE.Q_sub (fun _ _ => (0 : α)) d00 (fun _ _ => (0 : R)) _
    (fun _ _ _ _ => ⟨hE.Q_zero, S.den_zero⟩) (fun i j hi hj => (ed00 i j hi hj).2)
  rw [hc01_1, andThen_some]
  rw [Option.some_bind]
  rw [if_pos (show (2 : Nat) ≠ 0 by decide)]
  simp only [setGrid_apply, show ¬ ((0 : Nat) = 1) by decide, show ¬ ((0 : Nat) = 2) by decide, show ¬ ((1 : Nat) = 0) by decide, show ¬ ((1 : Nat) = 2) by decide, show ¬ ((2 : Nat) = 0) by decide, show ¬ ((2 : Nat) = 1) by decide, and_self, and_true, and_false, true_and, false_and, if_true, if_false]
  obtain ⟨c02_2, hc02_2, ec02_2⟩ := msub_sem S Q hE.Q_sub (fun _ _ => (0 : α)) d00 (fun _ _ => (0 : R)) _
    (fun _ _ _ _ => ⟨hE.Q_zero, S.den_zero⟩) (fun i j hi hj => (ed00 i j hi hj).2)
  rw [hc02_2, andThen_some]
  rw [andThen_some, andThen_some]
  dsimp only
  rw [add_ofFn, andThen_some, sub_ofFn, andThen_some]
  obtain ⟨t00, ht00, et00⟩ := div2Scalar_sem S Q sdiv eps e D2 hE2
    (fun i j => u00 i j + v00 i j - w0 i j)
    (fun i j => F (sblk 0 0 (fun i l => S.den (a i l)) + (e * e) • sblk 0 (c / 3) (fun i l => S.den (a i l))) ((e * e) • sblk 0 0 (fun l j => S.den (b l j)) + sblk (c / 3) 0 (fun l j => S.den (b l j))) i j + F (sblk 0 0 (fun i l => S.den (a i l)) + (e * e) • sblk 0 (2 * (c / 3)) (fun i l => S.den (a i l))) (sblk (2 * (c / 3)) 0 (fun l j => S.den (b l j))) i j - F (sblk 0 0 (fun i l => S.den (a i l))) (sblk (c / 3) 0 (fun l j => S.den (b l j)) + sblk (2 * (c / 3)) 0 (fun l j => S.den (b l j))) i j)
    (fun i j hi hj => ⟨hE.Q_sub _ _ (hE.Q_add _ _ (eu00 i j hi hj).1), by
      rw [S.den_sub, S.den_add, (eu00 i j hi hj).2, (ev00 i j hi hj).2, (ew0 i j hi hj).2]⟩)
  rw [ht00, andThen_some]
  simp only [setGrid_apply, show ¬ ((0 : Nat) = 1) by decide, show ¬ ((0 : Nat) = 2) by decide, show ¬ ((1 : Nat) = 0) by decide, show ¬ ((1 : Nat) = 2) by decide, show ¬ ((2 : Nat) = 0) by decide, show ¬ ((2 : Nat) = 1) by decide, and_self, and_true, and_false, true_and, false_and, if_true, if_false]
  obtain ⟨c00_3, hc00_3, ec00_3⟩ := madd_sem S Q hE.Q_add (fun _ _ => (0 : α)) t00 (fun _ _ => (0 : R)) _
    (fun _ _ _ _ => ⟨hE.Q_zero, S.den_zero⟩) (fun i j hi hj => (et00 i j hi hj).2)
  rw [hc00_3, andThen_some]
  rw [Option.some_bind]
  -- i = 0, j = 1
  rw [schonhage_step]
  rw [if_neg (show ¬ ((1 : Nat) = 0) by decide)]
  simp only [grid9, smul_ofFn]
  rw [add_ofFn, andThen_some]
  rw [sub_ofFn, andThen_some]
  obtain ⟨u01, hu01, eu01⟩ := hrF (fun i j => a00 i j + a11 i j * (eps * eps)) (fun i j => b10 i j - b01 i j * eps)
    (sblk 0 0 (fun i l => S.den (a i l)) + (e * e) • sblk (r / 3) (c / 3) (fun i l => S.den (a i l)))
    (sblk (c / 3) 0 (fun l j => S.den (b l j)) - e • sblk 0 (q / 3) (fun l j => S.den (b l j)))
    (fun i l => by
      simp only [S.den_add, S.den_sub, S.den_mul, hE.den_eps, ea00, ea11, sblk, Pi.add_apply,
        Pi.sub_apply, Pi.smul_apply, smul_eq_mul]
      try ring)
    (fun l j => by
      simp only [S.den_add, S.den_sub, S.den_mul, hE.den_eps, eb10, eb01, sblk, Pi.add_apply,
        Pi.sub_apply, Pi.smul_apply, smul_eq_mul]
      try ring)
  rw [hu01, andThen_some]
  rw [add_ofFn, andThen_some]
  rw [add_ofFn, andThen_some]
  obtain ⟨v01, hv01, ev01⟩ := hrF (fun i j => a00 i j + a12 i j * (eps * eps)) (fun i j => b20 i j + b01 i j * eps)
    (sblk 0 0 (fun i l => S.den (a i l)) + (e * e) • sblk (r / 3) (2 * (c / 3)) (fun i l => S.den (a i l)))
    (sblk (2 * (c / 3)) 0 (fun l j => S.den (b l j)) + e • sblk 0 (q / 3) (fun l j => S.den (b l j)))
    (fun i l => by
      simp only [S.den_add, S.den_sub, S.den_mul, hE.den_eps, ea00, ea12, sblk, Pi.add_apply,
        Pi.sub_apply, Pi.smul_apply, smul_eq_mul]
      try ring)
    (fun l j => by
      simp only [S.den_add, S.den_sub, S.den_mul, hE.den_eps, eb20, eb01, sblk, Pi.add_apply,
        Pi.sub_apply, Pi.smul_apply, smul_eq_mul]
      try ring)
  rw [hv01, andThen_some]
  obtain ⟨d01, hd01, ed01⟩ := divScalar_sem S Q sdiv eps e D hE v01 _ ev01
  rw [hd01, andThen_some]
  simp only [setGrid_apply, show ¬ ((0 : Nat) = 1) by decide, show ¬ ((0 : Nat) = 2) by decide, show ¬ ((1 : Nat) = 0) by decide, show ¬ ((1 : Nat) = 2) by decide, show ¬ ((2 : Nat) = 0) by decide, show ¬ ((2 : Nat) = 1) by decide, and_self, and_true, and_false, true_and, false_and, if_true, if_false]
  obtain ⟨c01_4, hc01_4, ec01_4⟩ := madd_sem S Q hE.Q_add c01_1 d01 _ _
    ec01_1 (fun i j hi hj => (ed01 i j hi hj).2)
  rw [hc01_4, andThen_some]
  rw [andThen_some]
  dsimp only
  rw [add_ofFn, andThen_some, sub_ofFn, andThen_some]
  obtain ⟨t01, ht01, et01⟩ := div2Scalar_sem S Q sdiv eps e D2 hE2
    (fun i j => u01 i j + v01 i j - w0 i j)
    (fun i j => F (sblk 0 0 (fun i l => S.den (a i l)) + (e * e) • sblk (r / 3) (c / 3) (fun i l => S.den (a i l))) (sblk (c / 3) 0 (fun l j => S.den (b l j)) - e • sblk 0 (q / 3) (fun l j => S.den (b l j))) i j + F (sblk 0 0 (fun i l => S.den (a i l)) + (e * e) • sblk (r / 3) (2 * (c / 3)) (fun i l => S.den (a i l))) (sblk (2 * (c / 3)) 0 (fun l j => S.den (b l j)) + e • sblk 0 (q / 3) (fun l j => S.den (b l j))) i j - F (sblk 0 0 (fun i l => S.den (a i l))) (sblk (c / 3) 0 (fun l j => S.den (b l j)) + sblk (2 * (c / 3)) 0 (fun l j => S.den (b l j))) i j)
    (fun i j hi hj => ⟨hE.Q_sub _ _ (hE.Q_add _ _ (eu01 i j hi hj).1), by
      rw [S.den_sub, S.den_add, (eu01 i j hi hj).2, (ev01 i j hi hj).2, (ew0 i j hi hj).2]⟩)
  rw [ht01, andThen_some]
  simp only [setGrid_apply, show ¬ ((0 : Nat) = 1) by decide, show ¬ ((0 : Nat) = 2) by decide, show ¬ ((1 : Nat) = 0) by decide, show ¬ ((1 : Nat) = 2) by decide, show ¬ ((2 : Nat) = 0) by decide, show ¬ ((2 : Nat) = 1) by decide, and_self, and_true, and_false, true_and, false_and, if_true, if_false]
  obtain ⟨c10_5, hc10_5, ec10_5⟩ := madd_sem S Q hE.Q_add (fun _ _ => (0 : α)) t01 (fun _ _ => (0 : R)) _
    (fun _ _ _ _ => ⟨hE.Q_zero, S.den_zero⟩) (fun i j hi hj => (et01 i j hi hj).2)
  rw [hc10_5, andThen_some]
  rw [Option.some_bind]
  -- i = 0, j = 2
  rw [schonhage_step]
  rw [if_neg (show ¬ ((2 : Nat) = 0) by decide)]
  simp only [grid9, smul_ofFn]
  rw [add_ofFn, andThen_some]
  rw [sub_ofFn, andThen_some]
  obtain ⟨u02, hu02, eu02⟩ := hrF (fun i j => a00 i j + a21 i j * (eps * eps)) (fun i j => b10 i j - b02 i j * eps)
    (sblk 0 0 (fun i l => S.den (a i l)) + (e * e) • sblk (2 * (r / 3)) (c / 3) (fun i l => S.den (a i l)))
    (sblk (c / 3) 0 (fun l j => S.den (b l j)) - e • sblk 0 (2 * (q / 3)) (fun l j => S.den (b l j)))
    (fun i l => by
      simp only [S.den_add, S.den_sub, S.den_mul, hE.den_eps, ea00, ea21, sblk, Pi.add_apply,
        Pi.sub_apply, Pi.smul_apply, smul_eq_mul]
      try ring)
    (fun l j => by
      simp only [S.den_add, S.den_sub, S.den_mul, hE.den_eps, eb10, eb02, sblk, Pi.add_apply,
        Pi.sub_apply, Pi.smul_apply, smul_eq_mul]
      try ring)
  rw [hu02, andThen_some]
  rw [add_ofFn, andThen_some]
  rw [add_ofFn, andThen_some]
  obtain ⟨v02, hv02, ev02⟩ := hrF (fun i j => a00 i j + a22 i j * (eps * eps)) (fun i j => b20 i j + b02 i j * eps)
    (sblk 0 0 (fun i l => S.den (a i l)) + (e * e) • sblk (2 * (r / 3)) (2 * (c / 3)) (fun i l => S.den (a i l)))
    (sblk (2 * (c / 3)) 0 (fun l j => S.den (b l j)) + e • sblk 0 (2 * (q / 3)) (fun l j => S.den (b l j)))
    (fun i l => by
      simp only [S.den_add, S.den_sub, S.den_mul, hE.den_eps, ea00, ea22, sblk, Pi.add_apply,
        Pi.sub_apply, Pi.smul_apply, smul_eq_mul]
      try ring)
    (fun l j => by
      simp only [S.den_add, S.den_sub, S.den_mul, hE.den_eps, eb20, eb02, sblk, Pi.add_apply,
        Pi.sub_apply, Pi.smul_apply, smul_eq_mul]
      try ring)
  rw [hv02, andThen_some]
  obtain ⟨d02, hd02, ed02⟩ := divScalar_sem S Q sdiv eps e D hE v02 _ ev02
  rw [hd02, andThen_some]
  simp only [setGrid_apply, show ¬ ((0 : Nat) = 1) by decide, show ¬ ((0 : Nat) = 2) by decide, show ¬ ((1 : Nat) = 0) by decide, show ¬ ((1 : Nat) = 2) by decide, show ¬ ((2 : Nat) = 0) by decide, show ¬ ((2 : Nat) = 1) by decide, and_self, and_true, and_false, true_and, false_and, if_true, if_false]
  obtain ⟨c02_6, hc02_6, ec02_6⟩ := madd_sem S Q hE.Q_add c02_2 d02 _ _
    ec02_2 (fun i j hi hj => (ed02 i j hi hj).2)
  rw [hc02_6, andThen_some]
  rw [andThen_some]
  dsimp only
  rw [add_ofFn, andThen_some, sub_ofFn, andThen_some]
  obtain ⟨t02, ht02, et02⟩ := div2Scalar_sem S Q sdiv eps e D2 hE2
    (fun i j => u02 i j + v02 i j - w0 i j)
    (fun i j => F (sblk 0 0 (fun i l => S.den (a i l)) + (e * e) • sblk (2 * (r / 3)) (c / 3) (fun i l => S.den (a i l))) (sblk (c / 3) 0 (fun l j => S.den (b l j)) - e • sblk 0 (2 * (q / 3)) (fun l j => S.den (b l j))) i j + F (sblk 0 0 (fun i l => S.den (a i l)) + (e * e) • sblk (2 * (r / 3)) (2 * (c / 3)) (fun i l => S.den (a i l))) (sblk (2 * (c / 3)) 0 (fun l j => S.den (b l j)) + e • sblk 0 (2 * (q / 3)) (fun l j => S.den (b l j))) i j - F (sblk 0 0 (fun i l => S.den (a i l))) (sblk (c / 3) 0 (fun l j => S.den (b l j)) + sblk (2 * (c / 3)) 0 (fun l j => S.den (b l j))) i j)
    (fun i j hi hj => ⟨hE.Q_sub _ _ (hE.Q_add _ _ (eu02 i j hi hj).1), by
      rw [S.den_sub, S.den_add, (eu02 i j hi hj).2, (ev02 i j hi hj).2, (ew0 i j hi hj).2]⟩)
  rw [ht02, andThen_some]
  simp only [setGrid_apply, show ¬ ((0 : Nat) = 1) by decide, show ¬ ((0 : Nat) = 2) by decide, show ¬ ((1 : Nat) = 0) by decide, show ¬ ((1 : Nat) = 2) by decide, show ¬ ((2 : Nat) = 0) by decide, show ¬ ((2 : Nat) = 1) by decide, and_self, and_true, and_false, true_and, false_and, if_true, if_false]
  obtain ⟨c20_7, hc20_7, ec20_7⟩ := madd_sem S Q hE.Q_add (fun _ _ => (0 : α)) t02 (fun _ _ => (0 : R)) _
    (fun _ _ _ _ => ⟨hE.Q_zero, S.den_zero⟩) (fun i j hi hj => (et02 i j hi hj).2)
  rw [hc20_7, andThen_some]
  rw [Option.some_bind]
  -- i = 1
  rw [add_ofFn, andThen_some]
  obtain ⟨w1, hw1, ew1⟩ := hrF a10 (fun i j => b11 i j + b21 i j)
    (sblk (r / 3) 0 (fun i l => S.den (a i l)))
    (sblk (c / 3) (q / 3) (fun l j => S.den (b l j)) + sblk (2 * (c / 3)) (q / 3) (fun l j => S.den (b l j)))
    (fun i l => by
      simp only [S.den_add, S.den_sub, S.den_mul, hE.den_eps, ea10, sblk, Pi.add_apply,
        Pi.sub_apply, Pi.smul_apply, smul_eq_mul]
      try ring)
    (fun l j => by
      simp only [S.den_add, S.den_sub, S.den_mul, hE.den_eps, eb11, eb21, sblk, Pi.add_apply,
        Pi.sub_apply, Pi.smul_apply, smul_eq_mul]
      try ring)
  rw [hw1, andThen_some]
  rw [forLoop_three]
  -- i = 1, j = 0
  rw [schonhage_step]
  rw [if_neg (show ¬ ((0 : Nat) = 1) by decide)]
  simp only [grid9, smul_ofFn]
  rw [add_ofFn, andThen_some]
  rw [sub_ofFn, andThen_some]
  obtain ⟨u10, hu10, eu10⟩ := hrF (fun i j => a10 i j + a01 i j * (eps * eps)) (fun i j => b11 i j - b00 i j * eps)
    (sblk (r / 3) 0 (fun i l => S.den (a i l)) + (e * e) • sblk 0 (c / 3) (fun i l => S.den (a i l)))
    (sblk (c / 3) (q / 3) (fun l j => S.den (b l j)) - e • sblk 0 0 (fun l j => S.den (b l j)))
    (fun i l => by
      simp only [S.den_add, S.den_sub, S.den_mul, hE.den_eps, ea10, ea01, sblk, Pi.add_apply,
        Pi.sub_apply, Pi.smul_apply, smul_eq_mul]
      try ring)
    (fun l j => by
      simp only [S.den_add, S.den_sub, S.den_mul, hE.den_eps, eb11, eb00, sblk, Pi.add_apply,
        Pi.sub_apply, Pi.smul_apply, smul_eq_mul]
      try ring)
  rw [hu10, andThen_some]
  rw [add_ofFn, andThen_some]
  rw [add_ofFn, andThen_some]
  obtain ⟨v10, hv10, ev10⟩ := hrF (fun i j => a10 i j + a02 i j * (eps * eps)) (fun i j => b21 i j + b00 i j * eps)
    (sblk (r / 3) 0 (fun i l => S.den (a i l)) + (e * e) • sblk 0 (2 * (c / 3)) (fun i l => S.den (a i l)))
    (sblk (2 * (c / 3)) (q / 3) (fun l j => S.den (b l j)) + e • sblk 0 0 (fun l j => S.den (b l j)))
    (fun i l => by
      simp only [S.den_add, S.den_sub, S.den_mul, hE.den_eps, ea10, ea02, sblk, Pi.add_apply,
        Pi.sub_apply, Pi.smul_apply, smul_eq_mul]
      try ring)
    (fun l j => by
      simp only [S.den_add, S.den_sub, S.den_mul, hE.den_eps, eb21, eb00, sblk, Pi.add_apply,
        Pi.sub_apply, Pi.smul_apply, smul_eq_mul]
      try ring)
  rw [hv10, andThen_some]
  obtain ⟨d10, hd10, ed10⟩ := divScalar_sem S Q sdiv eps e D hE v10 _ ev10
  rw [hd10, andThen_some]
  simp only [setGrid_apply, show ¬ ((0 : Nat) = 1) by decide, show ¬ ((0 : Nat) = 2) by decide, show ¬ ((1 : Nat) = 0) by decide, show ¬ ((1 : Nat) = 2) by decide, show ¬ ((2 : Nat) = 0) by decide, show ¬ ((2 : Nat) = 1) by decide, and_self, and_true, and_false, true_and, false_and, if_true, if_false]
  obtain ⟨c10_8, hc10_8, ec10_8⟩ := madd_sem S Q hE.Q_add c10_5 d10 _ _
    ec10_5 (fun i j hi hj => (ed10 i j hi hj).2)
  rw [hc10_8, andThen_some]
  rw [andThen_some]
  dsimp only
  rw [add_ofFn, andThen_some, sub_ofFn, andThen_some]
  obtain ⟨t10, ht10, et10⟩ := div2Scalar_sem S Q sdiv eps e D2 hE2
    (fun i j => u10 i j + v10 i j - w1 i j)
    (fun i j => F (sblk (r / 3) 0 (fun i l => S.den (a i l)) + (e * e) • sblk 0 (c / 3) (fun i l => S.den (a i l))) (sblk (c / 3) (q / 3) (fun l j => S.den (b l j)) - e • sblk 0 0 (fun l j => S.den (b l j))) i j + F (sblk (r / 3) 0 (fun i l => S.den (a i l)) + (e * e) • sblk 0 (2 * (c / 3)) (fun i l => S.den (a i l))) (sblk (2 * (c / 3)) (q / 3) (fun l j => S.den (b l j)) + e • sblk 0 0 (fun l j => S.den (b l j))) i j - F (sblk (r / 3) 0 (fun i l => S.den (a i l))) (sblk (c / 3) (q / 3) (fun l j => S.den (b l j)) + sblk (2 * (c / 3)) (q / 3) (fun l j => S.den (b l j))) i j)
    (fun i j hi hj => ⟨hE.Q_sub _ _ (hE.Q_add _ _ (eu10 i j hi hj).1), by
      rw [S.den_sub, S.den_add, (eu10 i j hi hj).2, (ev10 i j hi hj).2, (ew1 i j hi hj).2]⟩)
  rw [ht10, andThen_some]
  simp only [setGrid_apply, show ¬ ((0 : Nat) = 1) by decide, show ¬ ((0 : Nat) = 2) by decide, show ¬ ((1 : Nat) = 0) by decide, show ¬ ((1 : Nat) = 2) by decide, show ¬ ((2 : Nat) = 0) by decide, show ¬ ((2 : Nat) = 1) by decide, and_self, and_true, and_false, true_and, false_and, if_true, if_false]
  obtain ⟨c01_9, hc01_9, ec01_9⟩ := madd_sem S Q hE.Q_add c01_4 t10 _ _
    ec01_4 (fun i j hi hj => (et10 i j hi hj).2)
  rw [hc01_9, andThen_some]
  rw [Option.some_bind]
  -- i = 1, j = 1
  rw [schonhage_step]
  rw [if_pos rfl]
  simp only [grid9, smul_ofFn]
  rw [add_ofFn, andThen_some]
  rw [add_ofFn, andThen_some]
  obtain ⟨u11, hu11, eu11⟩ := hrF (fun i j => a10 i j + a11 i j * (eps * eps)) (fun i j => b01 i j * (eps * eps) + b11 i j)
    (sblk (r / 3) 0 (fun i l => S.den (a i l)) + (e * e) • sblk (r / 3) (c / 3) (fun i l => S.den (a i l)))
    ((e * e) • sblk 0 (q / 3) (fun l j => S.den (b l j)) + sblk (c / 3) (q / 3) (fun l j => S.den (b l j)))
    (fun i l => by
      simp only [S.den_add, S.den_sub, S.den_mul, hE.den_eps, ea10, ea11, sblk, Pi.add_apply,
        Pi.sub_apply, Pi.smul_apply, smul_eq_mul]
      try ring)
    (fun l j => by
      simp only [S.den_add, S.den_sub, S.den_mul, hE.den_eps, eb01, eb11, sblk, Pi.add_apply,
        Pi.sub_apply, Pi.smul_apply, smul_eq_mul]
      try ring)
  rw [hu11, andThen_some]
  rw [add_ofFn, andThen_some]
  obtain ⟨v11, hv11, ev11⟩ := hrF (fun i j => a10 i j + a12 i j * (eps * eps)) b21
    (sblk (r / 3) 0 (fun i l => S.den (a i l)) + (e * e) • sblk (r / 3) (2 * (c / 3)) (fun i l => S.den (a i l)))
    (sblk (2 * (c / 3)) (q / 3) (fun l j => S.den (b l j)))
    (fun i l => by
      simp only [S.den_add, S.den_sub, S.den_mul, hE.den_eps, ea10, ea12, sblk, Pi.add_apply,
        Pi.sub_apply, Pi.smul_apply, smul_eq_mul]
      try ring)
    (fun l j => by
      simp only [S.den_add, S.den_sub, S.den_mul, hE.den_eps, eb21, sblk, Pi.add_apply,
        Pi.sub_apply, Pi.smul_apply, smul_eq_mul]
      try ring)
  rw [hv11, andThen_some]
  obtain ⟨d11, hd11, ed11⟩ := divScalar_sem S Q sdiv eps e D hE v11 _ ev11
  rw [hd11, andThen_some]
  rw [forLoop_three]
  rw [if_pos (show (0 : Nat) ≠ 1 by decide)]
  simp only [setGrid_apply, show ¬ ((0 : Nat) = 1) by decide, show ¬ ((0 : Nat) = 2) by decide, show ¬ ((1 : Nat) = 0) by decide, show ¬ ((1 : Nat) = 2) by decide, show ¬ ((2 : Nat) = 0) by decide, show ¬ ((2 : Nat) = 1) by decide, and_self, and_true, and_false, true_and, false_and, if_true, if_false]
  obtain ⟨c10_10, hc10_10, ec10_10⟩ := msub_sem S Q hE.Q_sub c10_8 d11 _ _
    ec10_8 (fun i j hi hj => (ed11 i j hi hj).2)
  rw [hc10_10, andThen_some]
  rw [Option.some_bind]
  rw [if_neg (show ¬ ((1 : Nat) ≠ 1) by decide), Option.some_bind]
  rw [if_pos (show (2 : Nat) ≠ 1 by decide)]
  simp only [setGrid_apply, show ¬ ((0 : Nat) = 1) by decide, show ¬ ((0 : Nat) = 2) by decide, show ¬ ((1 : Nat) = 0) by decide, show ¬ ((1 : Nat) = 2) by decide, show ¬ ((2 : Nat) = 0) by decide, show ¬ ((2 : Nat) = 1) by decide, and_self, and_true, and_false, true_and, false_and, if_true, if_false]
  obtain ⟨c12_11, hc12_11, ec12_11⟩ := msub_sem S Q hE.Q_sub (fun _ _ => (0 : α)) d11 (fun _ _ => (0 : R)) _
    (fun _ _ _ _ => ⟨hE.Q_zero, S.den_zero⟩) (fun i j hi hj => (ed11 i j hi hj).2)
  rw [hc12_11, andThen_some]
  rw [andThen_some, andThen_some]
  dsimp only
  rw [add_ofFn, andThen_some, sub_ofFn, andThen_some]
  obtain ⟨t11, ht11, et11⟩ := div2Scalar_sem S Q sdiv eps e D2 hE2
    (fun i j => u11 i j + v11 i j - w1 i j)
    (fun i j => F (sblk (r / 3) 0 (fun i l => S.den (a i l)) + (e * e) • sblk (r / 3) (c / 3) (fun i l => S.den (a i l))) ((e * e) • sblk 0 (q / 3) (fun l j => S.den (b l j)) + sblk (c / 3) (q / 3) (fun l j => S.den (b l j))) i j + F (sblk (r / 3) 0 (fun i l => S.den (a i l)) + (e * e) • sblk (r / 3) (2 * (c / 3)) (fun i l => S.den (a i l))) (sblk (2 * (c / 3)) (q / 3) (fun l j => S.den (b l j))) i j - F (sblk (r / 3) 0 (fun i l => S.den (a i l))) (sblk (c / 3) (q / 3) (fun l j => S.den (b l j)) + sblk (2 * (c / 3)) (q / 3) (fun l j => S.den (b l j))) i j)
    (fun i j hi hj => ⟨hE.Q_sub _ _ (hE.Q_add _ _ (eu11 i j hi hj).1), by
      rw [S.den_sub, S.den_add, (eu11 i j hi hj).2, (ev11 i j hi hj).2, (ew1 i j hi hj).2]⟩)
  rw [ht11, andThen_some]
  simp only [setGrid_apply, show ¬ ((0 : Nat) = 1) by decide, show ¬ ((0 : Nat) = 2) by decide, show ¬ ((1 : Nat) = 0) by decide, show ¬ ((1 : Nat) = 2) by decide, show ¬ ((2 : Nat) = 0) by decide, show ¬ ((2 : Nat) = 1) by decide, and_self, and_true, and_false, true_and, false_and, if_true, if_false]
  obtain ⟨c11_12, hc11_12, ec11_12⟩ := madd_sem S Q hE.Q_add (fun _ _ => (0 : α)) t11 (fun _ _ => (0 : R)) _
    (fun _ _ _ _ => ⟨hE.Q_zero, S.den_zero⟩) (fun i j hi hj => (et11 i j hi hj).2)
  rw [hc11_12, andThen_some]
  rw [Option.some_bind]
  -- i = 1, j = 2
  rw [schonhage_step]
  rw [if_neg (show ¬ ((2 : Nat) = 1) by decide)]
  simp only [grid9, smul_ofFn]
  rw [add_ofFn, andThen_some]
  rw [sub_ofFn, andThen_some]
  obtain ⟨u12, hu12, eu12⟩ := hrF (fun i j => a10 i j + a21 i j * (eps * eps)) (fun i j => b11 i j - b02 i j * eps)
    (sblk (r / 3) 0 (fun i l => S.den (a i l)) + (e * e) • sblk (2 * (r / 3)) (c / 3) (fun i l => S.den (a i l)))
    (sblk (c / 3) (q / 3) (fun l j => S.den (b l j)) - e • sblk 0 (2 * (q / 3)) (fun l j => S.den (b l j)))
    (fun i l => by
      simp only [S.den_add, S.den_sub, S.den_mul, hE.den_eps, ea10, ea21, sblk, Pi.add_apply,
        Pi.sub_apply, Pi.smul_apply, smul_eq_mul]
      try ring)
    (fun l j => by
      simp only [S.den_add, S.den_sub, S.den_mul, hE.den_eps, eb11, eb02, sblk, Pi.add_apply,
        Pi.sub_apply, Pi.smul_apply, smul_eq_mul]
      try ring)
  rw [hu12, andThen_some]
  rw [add_ofFn, andThen_some]
  rw [add_ofFn, andThen_some]
  obtain ⟨v12, hv12, ev12⟩ := hrF (fun i j => a10 i j + a22 i j * (eps * eps)) (fun i j => b21 i j + b02 i j * eps)
    (sblk (r / 3) 0 (fun i l => S.den (a i l)) + (e * e) • sblk (2 * (r / 3)) (2 * (c / 3)) (fun i l => S.den (a i l)))
    (sblk (2 * (c / 3)) (q / 3) (fun l j => S.den (b l j)) + e • sblk 0 (2 * (q / 3)) (fun l j => S.den (b l j)))
    (fun i l => by
      simp only [S.den_add, S.den_sub, S.den_mul, hE.den_eps, ea10, ea22, sblk, Pi.add_apply,
        Pi.sub_apply, Pi.smul_apply, smul_eq_mul]
      try ring)
    (fun l j => by
      simp only [S.den_add, S.den_sub, S.den_mul, hE.den_eps, eb21, eb02, sblk, Pi.add_apply,
        Pi.sub_apply, Pi.smul_apply, smul_eq_mul]
      try ring)
  rw [hv12, andThen_some]
  obtain ⟨d12, hd12, ed12⟩ := divScalar_sem S Q sdiv eps e D hE v12 _ ev12
  rw [hd12, andThen_some]
  simp only [setGrid_apply, show ¬ ((0 : Nat) = 1) by decide, show ¬ ((0 : Nat) = 2) by decide, show ¬ ((1 : Nat) = 0) by decide, show ¬ ((1 : Nat) = 2) by decide, show ¬ ((2 : Nat) = 0) by decide, show ¬ ((2 : Nat) = 1) by decide, and_self, and_true, and_false, true_and, false_and, if_true, if_false]
  obtain ⟨c12_13, hc12_13, ec12_13⟩ := madd_sem S Q hE.Q_add c12_11 d12 _ _
    ec12_11 (fun i j hi hj => (ed12 i j hi hj).2)
  rw [hc12_13, andThen_some]
  rw [andThen_some]
  dsimp only
  rw [add_ofFn, andThen_some, sub_ofFn, andThen_some]
  obtain ⟨t12, ht12, et12⟩ := div2Scalar_sem S Q sdiv eps e D2 hE2
    (fun i j => u12 i j + v12 i j - w1 i j)
    (fun i j => F (sblk (r / 3) 0 (fun i l => S.den (a i l)) + (e * e) • sblk (2 * (r / 3)) (c / 3) (fun i l => S.den (a i l))) (sblk (c / 3) (q / 3) (fun l j => S.den (b l j)) - e • sblk 0 (2 * (q / 3)) (fun l j => S.den (b l j))) i j + F (sblk (r / 3) 0 (fun i l => S.den (a i l)) + (e * e) • sblk (2 * (r / 3)) (2 * (c / 3)) (fun i l => S.den (a i l))) (sblk (2 * (c / 3)) (q / 3) (fun l j => S.den (b l j)) + e • sblk 0 (2 * (q / 3)) (fun l j => S.den (b l j))) i j - F (sblk (r / 3) 0 (fun i l => S.den (a i l))) (sblk (c / 3) (q / 3) (fun l j => S.den (b l j)) + sblk (2 * (c / 3)) (q / 3) (fun l j => S.den (b l j))) i j)
    (fun i j hi hj => ⟨hE.Q_sub _ _ (hE.Q_add _ _ (eu12 i j hi hj).1), by
      rw [S.den_sub, S.den_add, (eu12 i j hi hj).2, (ev12 i j hi hj).2, (ew1 i j hi hj).2]⟩)
  rw [ht12, andThen_some]
  simp only [setGrid_apply, show ¬ ((0 : Nat) = 1) by decide, show ¬ ((0 : Nat) = 2) by decide, show ¬ ((1 : Nat) = 0) by decide, show ¬ ((1 : Nat) = 2) by decide, show ¬ ((2 : Nat) = 0) by decide, show ¬ ((2 : Nat) = 1) by decide, and_self, and_true, and_false, true_and, false_and, if_true, if_false]
  obtain ⟨c21_14, hc21_14, ec21_14⟩ := madd_sem S Q hE.Q_add (fun _ _ => (0 : α)) t12 (fun _ _ => (0 : R)) _
    (fun _ _ _ _ => ⟨hE.Q_zero, S.den_zero⟩) (fun i j hi hj => (et12 i j hi hj).2)
  rw [hc21_14, andThen_some]
  rw [Option.some_bind]
  -- i = 2
  rw [add_ofFn, andThen_some]
  obtain ⟨w2, hw2, ew2⟩ := hrF a20 (fun i j => b12 i j + b22 i j)
    (sblk (2 * (r / 3)) 0 (fun i l => S.den (a i l)))
    (sblk (c / 3) (2 * (q / 3)) (fun l j => S.den (b l j)) + sblk (2 * (c / 3)) (2 * (q / 3)) (fun l j => S.den (b l j)))
    (fun i l => by
      simp only [S.den_add, S.den_sub, S.den_mul, hE.den_eps, ea20, sblk, Pi.add_apply,
        Pi.sub_apply, Pi.smul_apply, smul_eq_mul]
      try ring)
    (fun l j => by
      simp only [S.den_add, S.den_sub, S.den_mul, hE.den_eps, eb12, eb22, sblk, Pi.add_apply,
        Pi.sub_apply, Pi.smul_apply, smul_eq_mul]
      try ring)
  rw [hw2, andThen_some]
  rw [forLoop_three]
  -- i = 2, j = 0
  rw [schonhage_step]
  rw [if_neg (show ¬ ((0 : Nat) = 2) by decide)]
  simp only [grid9, smul_ofFn]
  rw [add_ofFn, andThen_some]
  rw [sub_ofFn, andThen_some]
  obtain ⟨u20, hu20, eu20⟩ := hrF (fun i j => a20 i j + a01 i j * (eps * eps)) (fun i j => b12 i j - b00 i j * eps)
    (sblk (2 * (r / 3)) 0 (fun i l => S.den (a i l)) + (e * e) • sblk 0 (c / 3) (fun i l => S.den (a i l)))
    (sblk (c / 3) (2 * (q / 3)) (fun l j => S.den (b l j)) - e • sblk 0 0 (fun l j => S.den (b l j)))
    (fun i l => by
      simp only [S.den_add, S.den_sub, S.den_mul, hE.den_eps, ea20, ea01, sblk, Pi.add_apply,
        Pi.sub_apply, Pi.smul_apply, smul_eq_mul]
      try ring)
    (fun l j => by
      simp only [S.den_add, S.den_sub, S.den_mul, hE.den_eps, eb12, eb00, sblk, Pi.add_apply,
        Pi.sub_apply, Pi.smul_apply, smul_eq_mul]
      try ring)
  rw [hu20, andThen_some]
  rw [add_ofFn, andThen_some]
  rw [add_ofFn, andThen_some]
  obtain ⟨v20, hv20, ev20⟩ := hrF (fun i j => a20 i j + a02 i j * (eps * eps)) (fun i j => b22 i j + b00 i j * eps)
    (sblk (2 * (r / 3)) 0 (fun i l => S.den (a i l)) + (e * e) • sblk 0 (2 * (c / 3)) (fun i l => S.den (a i l)))
    (sblk (2 * (c / 3)) (2 * (q / 3)) (fun l j => S.den (b l j)) + e • sblk 0 0 (fun l j => S.den (b l j)))
    (fun i l => by
      simp only [S.den_add, S.den_sub, S.den_mul, hE.den_eps, ea20, ea02, sblk, Pi.add_apply,
        Pi.sub_apply, Pi.smul_apply, smul_eq_mul]
      try ring)
    (fun l j => by
      simp only [S.den_add, S.den_sub, S.den_mul, hE.den_eps, eb22, eb00, sblk, Pi.add_apply,
        Pi.sub_apply, Pi.smul_apply, smul_eq_mul]
      try ring)
  rw [hv20, andThen_some]
  obtain ⟨d20, hd20, ed20⟩ := divScalar_sem S Q sdiv eps e D hE v20 _ ev20
  rw [hd20, andThen_some]
  simp only [setGrid_apply, show ¬ ((0 : Nat) = 1) by decide, show ¬ ((0 : Nat) = 2) by decide, show ¬ ((1 : Nat) = 0) by decide, show ¬ ((1 : Nat) = 2) by decide, show ¬ ((2 : Nat) = 0) by decide, show ¬ ((2 : Nat) = 1) by decide, and_self, and_true, and_false, true_and, false_and, if_true, if_false]
  obtain ⟨c20_15, hc20_15, ec20_15⟩ := madd_sem S Q hE.Q_add c20_7 d20 _ _
    ec20_7 (fun i j hi hj => (ed20 i j hi hj).2)
  rw [hc20_15, andThen_some]
  rw [andThen_some]
  dsimp only
  rw [add_ofFn, andThen_some, sub_ofFn, andThen_some]
  obtain ⟨t20, ht20, et20⟩ := div2Scalar_sem S Q sdiv eps e D2 hE2
    (fun i j => u20 i j + v20 i j - w2 i j)
    (fun i j => F (sblk (2 * (r / 3)) 0 (fun i l => S.den (a i l)) + (e * e) • sblk 0 (c / 3) (fun i l => S.den (a i l))) (sblk (c / 3) (2 * (q / 3)) (fun l j => S.den (b l j)) - e • sblk 0 0 (fun l j => S.den (b l j))) i j + F (sblk (2 * (r / 3)) 0 (fun i l => S.den (a i l)) + (e * e) • sblk 0 (2 * (c / 3)) (fun i l => S.den (a i l))) (sblk (2 * (c / 3)) (2 * (q / 3)) (fun l j => S.den (b l j)) + e • sblk 0 0 (fun l j => S.den (b l j))) i j - F (sblk (2 * (r / 3)) 0 (fun i l => S.den (a i l))) (sblk (c / 3) (2 * (q / 3)) (fun l j => S.den (b l j)) + sblk (2 * (c / 3)) (2 * (q / 3)) (fun l j => S.den (b l j))) i j)
    (fun i j hi hj => ⟨hE.Q_sub _ _ (hE.Q_add _ _ (eu20 i j hi hj).1), by
      rw [S.den_sub, S.den_add, (eu20 i j hi hj).2, (ev20 i j hi hj).2, (ew2 i j hi hj).2]⟩)
  rw [ht20, andThen_some]
  simp only [setGrid_apply, show ¬ ((0 : Nat) = 1) by decide, show ¬ ((0 : Nat) = 2) by decide, show ¬ ((1 : Nat) = 0) by decide, show ¬ ((1 : Nat) = 2) by decide, show ¬ ((2 : Nat) = 0) by decide, show ¬ ((2 : Nat) = 1) by decide, and_self, and_true, and_false, true_and, false_and, if_true, if_false]
  obtain ⟨c02_16, hc02_16, ec02_16⟩ := madd_sem S Q hE.Q_add c02_6 t20 _ _
    ec02_6 (fun i j hi hj => (et20 i j hi hj).2)
  rw [hc02_16, andThen_some]
  rw [Option.some_bind]
  -- i = 2, j = 1
  rw [schonhage_step]
  rw [if_neg (show ¬ ((1 : Nat) = 2) by decide)]
  simp only [grid9, smul_ofFn]
  rw [add_ofFn, andThen_some]
  rw [sub_ofFn, andThen_some]
  obtain ⟨u21, hu21, eu21⟩ := hrF (fun i j => a20 i j + a11 i j * (eps * eps)) (fun i j => b12 i j - b01 i j * eps)
    (sblk (2 * (r / 3)) 0 (fun i l => S.den (a i l)) + (e * e) • sblk (r / 3) (c / 3) (fun i l => S.den (a i l)))
    (sblk (c / 3) (2 * (q / 3)) (fun l j => S.den (b l j)) - e • sblk 0 (q / 3) (fun l j => S.den (b l j)))
    (fun i l => by
      simp only [S.den_add, S.den_sub, S.den_mul, hE.den_eps, ea20, ea11, sblk, Pi.add_apply,
        Pi.sub_apply, Pi.smul_apply, smul_eq_mul]
      try ring)
    (fun l j => by
      simp only [S.den_add, S.den_sub, S.den_mul, hE.den_eps, eb12, eb01, sblk, Pi.add_apply,
        Pi.sub_apply, Pi.smul_apply, smul_eq_mul]
      try ring)
  rw [hu21, andThen_some]
  rw [add_ofFn, andThen_some]
  rw [add_ofFn, andThen_some]
  obtain ⟨v21, hv21, ev21⟩ := hrF (fun i j => a20 i j + a12 i j * (eps * eps)) (fun i j => b22 i j + b01 i j * eps)
    (sblk (2 * (r / 3)) 0 (fun i l => S.den (a i l)) + (e * e) • sblk (r / 3) (2 * (c / 3)) (fun i l => S.den (a i l)))
    (sblk (2 * (c / 3)) (2 * (q / 3)) (fun l j => S.den (b l j)) + e • sblk 0 (q / 3) (fun l j => S.den (b l j)))
    (fun i l => by
      simp only [S.den_add, S.den_sub, S.den_mul, hE.den_eps, ea20, ea12, sblk, Pi.add_apply,
        Pi.sub_apply, Pi.smul_apply, smul_eq_mul]
      try ring)
    (fun l j => by
      simp only [S.den_add, S.den_sub, S.den_mul, hE.den_eps, eb22, eb01, sblk, Pi.add_apply,
        Pi.sub_apply, Pi.smul_apply, smul_eq_mul]
      try ring)
  rw [hv21, andThen_some]
  obtain ⟨d21, hd21, ed21⟩ := divScalar_sem S Q sdiv eps e D hE v21 _ ev21
  rw [hd21, andThen_some]
  simp only [setGrid_apply, show ¬ ((0 : Nat) = 1) by decide, show ¬ ((0 : Nat) = 2) by decide, show ¬ ((1 : Nat) = 0) by decide, show ¬ ((1 : Nat) = 2) by decide, show ¬ ((2 : Nat) = 0) by decide, show ¬ ((2 : Nat) = 1) by decide, and_self, and_true, and_false, true_and, false_and, if_true, if_false]
  obtain ⟨c21_17, hc21_17, ec21_17⟩ := madd_sem S Q hE.Q_add c21_14 d21 _ _
    ec21_14 (fun i j hi hj => (ed21 i j hi hj).2)
  rw [hc21_17, andThen_some]
  rw [andThen_some]
  dsimp only
  rw [add_ofFn, andThen_some, sub_ofFn, andThen_some]
  obtain ⟨t21, ht21, et21⟩ := div2Scalar_sem S Q sdiv eps e D2 hE2
    (fun i j => u21 i j + v21 i j - w2 i j)
    (fun i j => F (sblk (2 * (r / 3)) 0 (fun i l => S.den (a i l)) + (e * e) • sblk (r / 3) (c / 3) (fun i l => S.den (a i l))) (sblk (c / 3) (2 * (q / 3)) (fun l j => S.den (b l j)) - e • sblk 0 (q / 3) (fun l j => S.den (b l j))) i j + F (sblk (2 * (r / 3)) 0 (fun i l => S.den (a i l)) + (e * e) • sblk (r / 3) (2 * (c / 3)) (fun i l => S.den (a i l))) (sblk (2 * (c / 3)) (2 * (q / 3)) (fun l j => S.den (b l j)) + e • sblk 0 (q / 3) (fun l j => S.den (b l j))) i j - F (sblk (2 * (r / 3)) 0 (fun i l => S.den (a i l))) (sblk (c / 3) (2 * (q / 3)) (fun l j => S.den (b l j)) + sblk (2 * (c / 3)) (2 * (q / 3)) (fun l j => S.den (b l j))) i j)
    (fun i j hi hj => ⟨hE.Q_sub _ _ (hE.Q_add _ _ (eu21 i j hi hj).1), by
      rw [S.den_sub, S.den_add, (eu21 i j hi hj).2, (ev21 i j hi hj).2, (ew2 i j hi hj).2]⟩)
  rw [ht21, andThen_some]
  simp only [setGrid_apply, show ¬ ((0 : Nat) = 1) by decide, show ¬ ((0 : Nat) = 2) by decide, show ¬ ((1 : Nat) = 0) by decide, show ¬ ((1 : Nat) = 2) by decide, show ¬ ((2 : Nat) = 0) by decide, show ¬ ((2 : Nat) = 1) by decide, and_self, and_true, and_false, true_and, false_and, if_true, if_false]
  obtain ⟨c12_18, hc12_18, ec12_18⟩ := madd_sem S Q hE.Q_add c12_13 t21 _ _
    ec12_13 (fun i j hi hj => (et21 i j hi hj).2)
  rw [hc12_18, andThen_some]
  rw [Option.some_bind]
  -- i = 2, j = 2
  rw [schonhage_step]
  rw [if_pos rfl]
  simp only [grid9, smul_ofFn]
  rw [add_ofFn, andThen_some]
  rw [add_ofFn, andThen_some]
  obtain ⟨u22, hu22, eu22⟩ := hrF (fun i j => a20 i j + a21 i j * (eps * eps)) (fun i j => b02 i j * (eps * eps) + b12 i j)
    (sblk (2 * (r / 3)) 0 (fun i l => S.den (a i l)) + (e * e) • sblk (2 * (r / 3)) (c / 3) (fun i l => S.den (a i l)))
    ((e * e) • sblk 0 (2 * (q / 3)) (fun l j => S.den (b l j)) + sblk (c / 3) (2 * (q / 3)) (fun l j => S.den (b l j)))
    (fun i l => by
      simp only [S.den_add, S.den_sub, S.den_mul, hE.den_eps, ea20, ea21, sblk, Pi.add_apply,
        Pi.sub_apply, Pi.smul_apply, smul_eq_mul]
      try ring)
    (fun l j => by
      simp only [S.den_add, S.den_sub, S.den_mul, hE.den_eps, eb02, eb12, sblk, Pi.add_apply,
        Pi.sub_apply, Pi.smul_apply, smul_eq_mul]
      try ring)
  rw [hu22, andThen_some]
  rw [add_ofFn, andThen_some]
  obtain ⟨v22, hv22, ev22⟩ := hrF (fun i j => a20 i j + a22 i j * (eps * eps)) b22
    (sblk (2 * (r / 3)) 0 (fun i l => S.den (a i l)) + (e * e) • sblk (2 * (r / 3)) (2 * (c / 3)) (fun i l => S.den (a i l)))
    (sblk (2 * (c / 3)) (2 * (q / 3)) (fun l j => S.den (b l j)))
    (fun i l => by
      simp only [S.den_add, S.den_sub, S.den_mul, hE.den_eps, ea20, ea22, sblk, Pi.add_apply,
        Pi.sub_apply, Pi.smul_apply, smul_eq_mul]
      try ring)
    (fun l j => by
      simp only [S.den_add, S.den_sub, S.den_mul, hE.den_eps, eb22, sblk, Pi.add_apply,
        Pi.sub_apply, Pi.smul_apply, smul_eq_mul]
      try ring)
  rw [hv22, andThen_some]
  obtain ⟨d22, hd22, ed22⟩ := divScalar_sem S Q sdiv eps e D hE v22 _ ev22
  rw [hd22, andThen_some]
  rw [forLoop_three]
  rw [if_pos (show (0 : Nat) ≠ 2 by decide)]
  simp only [setGrid_apply, show ¬ ((0 : Nat) = 1) by decide, show ¬ ((0 : Nat) = 2) by decide, show ¬ ((1 : Nat) = 0) by decide, show ¬ ((1 : Nat) = 2) by decide, show ¬ ((2 : Nat) = 0) by decide, show ¬ ((2 : Nat) = 1) by decide, and_self, and_true, and_false, true_and, false_and, if_true, if_false]
  obtain ⟨c20_19, hc20_19, ec20_19⟩ := msub_sem S Q hE.Q_sub c20_15 d22 _ _
    ec20_15 (fun i j hi hj => (ed22 i j hi hj).2)
  rw [hc20_19, andThen_some]
  rw [Option.some_bind]
  rw [if_pos (show (1 : Nat) ≠ 2 by decide)]
  simp only [setGrid_apply, show ¬ ((0 : Nat) = 1) by decide, show ¬ ((0 : Nat) = 2) by decide, show ¬ ((1 : Nat) = 0) by decide, show ¬ ((1 : Nat) = 2) by decide, show ¬ ((2 : Nat) = 0) by decide, show ¬ ((2 : Nat) = 1) by decide, and_self, and_true, and_false, true_and, false_and, if_true, if_false]
  obtain ⟨c21_20, hc21_20, ec21_20⟩ := msub_sem S Q hE.Q_sub c21_17 d22 _ _
    ec21_17 (fun i j hi hj => (ed22 i j hi hj).2)
  rw [hc21_20, andThen_some]
  rw [Option.some_bind]
  rw [if_neg (show ¬ ((2 : Nat) ≠ 2) by decide)]
  rw [andThen_some, andThen_some]
  dsimp only
  rw [add_ofFn, andThen_some, sub_ofFn, andThen_some]
  obtain ⟨t22, ht22, et22⟩ := div2Scalar_sem S Q sdiv eps e D2 hE2
    (fun i j => u22 i j + v22 i j - w2 i j)
    (fun i j => F (sblk (2 * (r / 3)) 0 (fun i l => S.den (a i l)) + (e * e) • sblk (2 * (r / 3)) (c / 3) (fun i l => S.den (a i l))) ((e * e) • sblk 0 (2 * (q / 3)) (fun l j => S.den (b l j)) + sblk (c / 3) (2 * (q / 3)) (fun l j => S.den (b l j))) i j + F (sblk (2 * (r / 3)) 0 (fun i l => S.den (a i l)) + (e * e) • sblk (2 * (r / 3)) (2 * (c / 3)) (fun i l => S.den (a i l))) (sblk (2 * (c / 3)) (2 * (q / 3)) (fun l j => S.den (b l j))) i j - F (sblk (2 * (r / 3)) 0 (fun i l => S.den (a i l))) (sblk (c / 3) (2 * (q / 3)) (fun l j => S.den (b l j)) + sblk (2 * (c / 3)) (2 * (q / 3)) (fun l j => S.den (b l j))) i j)
    (fun i j hi hj => ⟨hE.Q_sub _ _ (hE.Q_add _ _ (eu22 i j hi hj).1), by
      rw [S.den_sub, S.den_add, (eu22 i j hi hj).2, (ev22 i j hi hj).2, (ew2 i j hi hj).2]⟩)
  rw [ht22, andThen_some]
  simp only [setGrid_apply, show ¬ ((0 : Nat) = 1) by decide, show ¬ ((0 : Nat) = 2) by decide, show ¬ ((1 : Nat) = 0) by decide, show ¬ ((1 : Nat) = 2) by decide, show ¬ ((2 : Nat) = 0) by decide, show ¬ ((2 : Nat) = 1) by decide, and_self, and_true, and_false, true_and, false_and, if_true, if_false]
  obtain ⟨c22_21, hc22_21, ec22_21⟩ := madd_sem S Q hE.Q_add (fun _ _ => (0 : α)) t22 (fun _ _ => (0 : R)) _
    (fun _ _ _ _ => ⟨hE.Q_zero, S.den_zero⟩) (fun i j hi hj => (et22 i j hi hj).2)
  rw [hc22_21, andThen_some]
  refine ⟨_, rfl, ?_⟩
  intro a' b' ha' hb'
  have hcases : (a' = 0 ∨ a' = 1 ∨ a' = 2) ∧ (b' = 0 ∨ b' = 1 ∨ b' = 2) := by omega
  obtain ⟨ha, hb⟩ := hcases
  rcases ha with rfl | rfl | rfl <;> rcases hb with rfl | rfl | rfl
  · refine ⟨c00_3, ?_, ?_⟩
    · simp only [setGrid_apply, show ¬ ((0 : Nat) = 1) by decide, show ¬ ((0 : Nat) = 2) by decide, show ¬ ((1 : Nat) = 0) by decide, show ¬ ((1 : Nat) = 2) by decide, show ¬ ((2 : Nat) = 0) by decide, show ¬ ((2 : Nat) = 1) by decide, and_self, and_true, and_false, true_and, false_and, if_true, if_false]
    · intro i j hi hj
      refine ⟨(ec00_3 i j hi hj).1, ?_⟩
      rw [(ec00_3 i j hi hj).2]
      simp only [schonCell, schonDiag, schonOff, if_true, if_false, show ¬ ((0 : Nat) = 1) by decide, show ¬ ((0 : Nat) = 2) by decide, show ¬ ((1 : Nat) = 0) by decide, show ¬ ((1 : Nat) = 2) by decide, show ¬ ((2 : Nat) = 0) by decide, show ¬ ((2 : Nat) = 1) by decide,
        hF.add_left, hF.add_right, hF.smul_left, hF.smul_right, hsub, Pi.add_apply,
        Pi.sub_apply, Pi.smul_apply, smul_eq_mul, off3, mul_assoc, hE.D_add, hE.D_sub,
        hE.D_eps, hE2.D2_add, hE2.D2_sub, hE2.D2_eps, mul_add, mul_sub]
      ring
  · refine ⟨c01_9, ?_, ?_⟩
    · simp only [setGrid_apply, show ¬ ((0 : Nat) = 1) by decide, show ¬ ((0 : Nat) = 2) by decide, show ¬ ((1 : Nat) = 0) by decide, show ¬ ((1 : Nat) = 2) by decide, show ¬ ((2 : Nat) = 0) by decide, show ¬ ((2 : Nat) = 1) by decide, and_self, and_true, and_false, true_and, false_and, if_true, if_false]
    · intro i j hi hj
      refine ⟨(ec01_9 i j hi hj).1, ?_⟩
      rw [(ec01_9 i j hi hj).2]
      simp only [schonCell, schonDiag, schonOff, if_true, if_false, show ¬ ((0 : Nat) = 1) by decide, show ¬ ((0 : Nat) = 2) by decide, show ¬ ((1 : Nat) = 0) by decide, show ¬ ((1 : Nat) = 2) by decide, show ¬ ((2 : Nat) = 0) by decide, show ¬ ((2 : Nat) = 1) by decide,
        hF.add_left, hF.add_right, hF.smul_left, hF.smul_right, hsub, Pi.add_apply,
        Pi.sub_apply, Pi.smul_apply, smul_eq_mul, off3, mul_assoc, hE.D_add, hE.D_sub,
        hE.D_eps, hE2.D2_add, hE2.D2_sub, hE2.D2_eps, mul_add, mul_sub]
      ring
  · refine ⟨c02_16, ?_, ?_⟩
    · simp only [setGrid_apply, show ¬ ((0 : Nat) = 1) by decide, show ¬ ((0 : Nat) = 2) by decide, show ¬ ((1 : Nat) = 0) by decide, show ¬ ((1 : Nat) = 2) by decide, show ¬ ((2 : Nat) = 0) by decide, show ¬ ((2 : Nat) = 1) by decide, and_self, and_true, and_false, true_and, false_and, if_true, if_false]
    · intro i j hi hj
      refine ⟨(ec02_16 i j hi hj).1, ?_⟩
      rw [(ec02_16 i j hi hj).2]
      simp only [schonCell, schonDiag, schonOff, if_true, if_false, show ¬ ((0 : Nat) = 1) by decide, show ¬ ((0 : Nat) = 2) by decide, show ¬ ((1 : Nat) = 0) by decide, show ¬ ((1 : Nat) = 2) by decide, show ¬ ((2 : Nat) = 0) by decide, show ¬ ((2 : Nat) = 1) by decide,
        hF.add_left, hF.add_right, hF.smul_left, hF.smul_right, hsub, Pi.add_apply,
        Pi.sub_apply, Pi.smul_apply, smul_eq_mul, off3, mul_assoc, hE.D_add, hE.D_sub,
        hE.D_eps, hE2.D2_add, hE2.D2_sub, hE2.D2_eps, mul_add, mul_sub]
      ring
  · refine ⟨c10_10, ?_, ?_⟩
    · simp only [setGrid_apply, show ¬ ((0 : Nat) = 1) by decide, show ¬ ((0 : Nat) = 2) by decide, show ¬ ((1 : Nat) = 0) by decide, show ¬ ((1 : Nat) = 2) by decide, show ¬ ((2 : Nat) = 0) by decide, show ¬ ((2 : Nat) = 1) by decide, and_self, and_true, and_false, true_and, false_and, if_true, if_false]
    · intro i j hi hj
      refine ⟨(ec10_10 i j hi hj).1, ?_⟩
      rw [(ec10_10 i j hi hj).2]
      simp only [schonCell, schonDiag, schonOff, if_true, if_false, show ¬ ((0 : Nat) = 1) by decide, show ¬ ((0 : Nat) = 2) by decide, show ¬ ((1 : Nat) = 0) by decide, show ¬ ((1 : Nat) = 2) by decide, show ¬ ((2 : Nat) = 0) by decide, show ¬ ((2 : Nat) = 1) by decide,
        hF.add_left, hF.add_right, hF.smul_left, hF.smul_right, hsub, Pi.add_apply,
        Pi.sub_apply, Pi.smul_apply, smul_eq_mul, off3, mul_assoc, hE.D_add, hE.D_sub,
        hE.D_eps, hE2.D2_add, hE2.D2_sub, hE2.D2_eps, mul_add, mul_sub]
      ring
  · refine ⟨c11_12, ?_, ?_⟩
    · simp only [setGrid_apply, show ¬ ((0 : Nat) = 1) by decide, show ¬ ((0 : Nat) = 2) by decide, show ¬ ((1 : Nat) = 0) by decide, show ¬ ((1 : Nat) = 2) by decide, show ¬ ((2 : Nat) = 0) by decide, show ¬ ((2 : Nat) = 1) by decide, and_self, and_true, and_false, true_and, false_and, if_true, if_false]
    · intro i j hi hj
      refine ⟨(ec11_12 i j hi hj).1, ?_⟩
      rw [(ec11_12 i j hi hj).2]
      simp only [schonCell, schonDiag, schonOff, if_true, if_false, show ¬ ((0 : Nat) = 1) by decide, show ¬ ((0 : Nat) = 2) by decide, show ¬ ((1 : Nat) = 0) by decide, show ¬ ((1 : Nat) = 2) by decide, show ¬ ((2 : Nat) = 0) by decide, show ¬ ((2 : Nat) = 1) by decide,
        hF.add_left, hF.add_right, hF.smul_left, hF.smul_right, hsub, Pi.add_apply,
        Pi.sub_apply, Pi.smul_apply, smul_eq_mul, off3, mul_assoc, hE.D_add, hE.D_sub,
        hE.D_eps, hE2.D2_add, hE2.D2_sub, hE2.D2_eps, mul_add, mul_sub]
      ring
  · refine ⟨c12_18, ?_, ?_⟩
    · simp only [setGrid_apply, show ¬ ((0 : Nat) = 1) by decide, show ¬ ((0 : Nat) = 2) by decide, show ¬ ((1 : Nat) = 0) by decide, show ¬ ((1 : Nat) = 2) by decide, show ¬ ((2 : Nat) = 0) by decide, show ¬ ((2 : Nat) = 1) by decide, and_self, and_true, and_false, true_and, false_and, if_true, if_false]
    · intro i j hi hj
      refine ⟨(ec12_18 i j hi hj).1, ?_⟩
      rw [(ec12_18 i j hi hj).2]
      simp only [schonCell, schonDiag, schonOff, if_true, if_false, show ¬ ((0 : Nat) = 1) by decide, show ¬ ((0 : Nat) = 2) by decide, show ¬ ((1 : Nat) = 0) by decide, show ¬ ((1 : Nat) = 2) by decide, show ¬ ((2 : Nat) = 0) by decide, show ¬ ((2 : Nat) = 1) by decide,
        hF.add_left, hF.add_right, hF.smul_left, hF.smul_right, hsub, Pi.add_apply,
        Pi.sub_apply, Pi.smul_apply, smul_eq_mul, off3, mul_assoc, hE.D_add, hE.D_sub,
        hE.D_eps, hE2.D2_add, hE2.D2_sub, hE2.D2_eps, mul_add, mul_sub]
      ring
  · refine ⟨c20_19, ?_, ?_⟩
    · simp only [setGrid_apply, show ¬ ((0 : Nat) = 1) by decide, show ¬ ((0 : Nat) = 2) by decide, show ¬ ((1 : Nat) = 0) by decide, show ¬ ((1 : Nat) = 2) by decide, show ¬ ((2 : Nat) = 0) by decide, show ¬ ((2 : Nat) = 1) by decide, and_self, and_true, and_false, true_and, false_and, if_true, if_false]
    · intro i j hi hj
      refine ⟨(ec20_19 i j hi hj).1, ?_⟩
      rw [(ec20_19 i j hi hj).2]
      simp only [schonCell, schonDiag, schonOff, if_true, if_false, show ¬ ((0 : Nat) = 1) by decide, show ¬ ((0 : Nat) = 2) by decide, show ¬ ((1 : Nat) = 0) by decide, show ¬ ((1 : Nat) = 2) by decide, show ¬ ((2 : Nat) = 0) by decide, show ¬ ((2 : Nat) = 1) by decide,
        hF.add_left, hF.add_right, hF.smul_left, hF.smul_right, hsub, Pi.add_apply,
        Pi.sub_apply, Pi.smul_apply, smul_eq_mul, off3, mul_assoc, hE.D_add, hE.D_sub,
        hE.D_eps, hE2.D2_add, hE2.D2_sub, hE2.D2_eps, mul_add, mul_sub]
      ring
  · refine ⟨c21_20, ?_, ?_⟩
    · simp only [setGrid_apply, show ¬ ((0 : Nat) = 1) by decide, show ¬ ((0 : Nat) = 2) by decide, show ¬ ((1 : Nat) = 0) by decide, show ¬ ((1 : Nat) = 2) by decide, show ¬ ((2 : Nat) = 0) by decide, show ¬ ((2 : Nat) = 1) by decide, and_self, and_true, and_false, true_and, false_and, if_true, if_false]
    · intro i j hi hj
      refine ⟨(ec21_20 i j hi hj).1, ?_⟩
      rw [(ec21_20 i j hi hj).2]
      simp only [schonCell, schonDiag, schonOff, if_true, if_false, show ¬ ((0 : Nat) = 1) by decide, show ¬ ((0 : Nat) = 2) by decide, show ¬ ((1 : Nat) = 0) by decide, show ¬ ((1 : Nat) = 2) by decide, show ¬ ((2 : Nat) = 0) by decide, show ¬ ((2 : Nat) = 1) by decide,
        hF.add_left, hF.add_right, hF.smul_left, hF.smul_right, hsub, Pi.add_apply,
        Pi.sub_apply, Pi.smul_apply, smul_eq_mul, off3, mul_assoc, hE.D_add, hE.D_sub,
        hE.D_eps, hE2.D2_add, hE2.D2_sub, hE2.D2_eps, mul_add, mul_sub]
      ring
  · refine ⟨c22_21, ?_, ?_⟩
    · simp only [setGrid_apply, show ¬ ((0 : Nat) = 1) by decide, show ¬ ((0 : Nat) = 2) by decide, show ¬ ((1 : Nat) = 0) by decide, show ¬ ((1 : Nat) = 2) by decide, show ¬ ((2 : Nat) = 0) by decide, show ¬ ((2 : Nat) = 1) by decide, and_self, and_true, and_false, true_and, false_and, if_true, if_false]
    · intro i j hi hj
      refine ⟨(ec22_21 i j hi hj).1, ?_⟩
      rw [(ec22_21 i j hi hj).2]
      simp only [schonCell, schonDiag, schonOff, if_true, if_false, show ¬ ((0 : Nat) = 1) by decide, show ¬ ((0 : Nat) = 2) by decide, show ¬ ((1 : Nat) = 0) by decide, show ¬ ((1 : Nat) = 2) by decide, show ¬ ((2 : Nat) = 0) by decide, show ¬ ((2 : Nat) = 1) by decide,
        hF.add_left, hF.add_right, hF.smul_left, hF.smul_right, hsub, Pi.add_apply,
        Pi.sub_apply, Pi.smul_apply, smul_eq_mul, off3, mul_assoc, hE.D_add, hE.D_sub,
        hE.D_eps, hE2.D2_add, hE2.D2_sub, hE2.D2_eps, mul_add, mul_sub]
      ring

end sem

section sem
variable {R : Type} [Zero α] [Add α] [Sub α] [Mul α] [CommRing R] (S : Sem α R)

set_option maxHeartbeats 4000000 in
/-- One call of `multiply_schonhage` on readings. -/
theorem schonhage_body_sem (Q : α → Prop) (sdiv : α → α → Option α) (eps : α) (e : R)
    (D D2 : R → R) (hE : EpsDiv S Q sdiv eps e D) (hE2 : Eps2Div S Q sdiv eps e D2)
    (recurse : Matrix α → Matrix α → Option (Matrix α))
    {F : (Nat → Nat → R) → (Nat → Nat → R) → Nat → Nat → R} (hF : Bilin F)
    {r c q : Nat} (a b : Nat → Nat → α) (hA : Fits r c) (hB : Fits c q) (hC : Fits r q)
    (hrF : ¬ ((r < 3 ∨ c < 3 ∨ q < 3) ∨
        (r ≤ schonhage_threshold ∨ c ≤ schonhage_threshold ∨ q ≤ schonhage_threshold)) →
      ∀ (a' b' : Nat → Nat → α) (X Y : Nat → Nat → R),
      (∀ i l, S.den (a' i l) = X i l) → (∀ l j, S.den (b' l j) = Y l j) →
      ∃ p, recurse (ofFn (r / 3) (c / 3) a') (ofFn (c / 3) (q / 3) b') =
          some (ofFn (r / 3) (q / 3) p) ∧
        ∀ i j, i < r / 3 → j < q / 3 → Q (p i j) ∧ S.den (p i j) = F X Y i j) :
    ∃ p, schonhage_body sdiv recurse (ofFn r c a) (ofFn c q b) eps = some (ofFn r q p) ∧
      ∀ i j, i < r → j < q → Q (p i j) ∧ S.den (p i j) =
        (if (r < 3 ∨ c < 3 ∨ q < 3) ∨
            (r ≤ schonhage_threshold ∨ c ≤ schonhage_threshold ∨ q ≤ schonhage_threshold) then
          sdot c (fun i l => S.den (a i l)) (fun l j => S.den (b l j))
        else schonLevel e F r c q (fun i l => S.den (a i l)) (fun l j => S.den (b l j)))
          i j := by
  unfold schonhage_body
  simp only [ofFn_rows, ofFn_cols, if_true]
  by_cases h1 : r < 3 ∨ c < 3 ∨ q < 3
  · rw [if_pos h1, if_pos (Or.inl h1)]
    obtain ⟨p, hp, ep⟩ := multiply_classic_sem S Q hE.Q_zero hE.Q_add a b hA hB hC
    exact ⟨p, hp, fun i j _ _ => ep i j⟩
  rw [if_neg h1]
  by_cases h2 : r ≤ schonhage_threshold ∨ c ≤ schonhage_threshold ∨ q ≤ schonhage_threshold
  · rw [if_pos h2, if_pos (Or.inr h2)]
    obtain ⟨p, hp, ep⟩ := multiply_classic_sem S Q hE.Q_zero hE.Q_add a b hA hB hC
    exact ⟨p, hp, fun i j _ _ => ep i j⟩
  rw [if_neg h2]
  have hb : ¬ ((r < 3 ∨ c < 3 ∨ q < 3) ∨
      (r ≤ schonhage_threshold ∨ c ≤ schonhage_threshold ∨ q ≤ schonhage_threshold)) := by
    rintro (h | h)
    · exact h1 h
    · exact h2 h
  rw [if_neg hb]
  have hr3 : r / 3 * 3 ≤ r := Nat.div_mul_le_self r 3
  have hq3 : q / 3 * 3 ≤ q := Nat.div_mul_le_self q 3
  have hr32 := hA.1
  have hq32 := hB.2.1
  obtain ⟨C, hCp, hcells⟩ := schonhage_products_sem S Q sdiv eps e D D2 hE hE2 recurse hF a b
    hA hB hC (hrF hb)
  rw [hCp, andThen_some]
  have e0r : u32 (r / 3 * 0) = 0 := rfl
  have e1r : u32 (r / 3 * 1) = r / 3 := by
    rw [Nat.mul_one]; exact u32_of_lt (by omega)
  have e2r : u32 (r / 3 * 2) = 2 * (r / 3) := by
    rw [Nat.mul_comm]; exact u32_of_lt (by omega)
  have e0q : u32 (q / 3 * 0) = 0 := rfl
  have e1q : u32 (q / 3 * 1) = q / 3 := by
    rw [Nat.mul_one]; exact u32_of_lt (by omega)
  have e2q : u32 (q / 3 * 2) = 2 * (q / 3) := by
    rw [Nat.mul_comm]; exact u32_of_lt (by omega)
  obtain ⟨g00, hg00, eg00⟩ := hcells 0 0 (by omega) (by omega)
  obtain ⟨g01, hg01, eg01⟩ := hcells 0 1 (by omega) (by omega)
  obtain ⟨g02, hg02, eg02⟩ := hcells 0 2 (by omega) (by omega)
  obtain ⟨g10, hg10, eg10⟩ := hcells 1 0 (by omega) (by omega)
  obtain ⟨g11, hg11, eg11⟩ := hcells 1 1 (by omega) (by omega)
  obtain ⟨g12, hg12, eg12⟩ := hcells 1 2 (by omega) (by omega)
  obtain ⟨g20, hg20, eg20⟩ := hcells 2 0 (by omega) (by omega)
  obtain ⟨g21, hg21, eg21⟩ := hcells 2 1 (by omega) (by omega)
  obtain ⟨g22, hg22, eg22⟩ := hcells 2 2 (by omega) (by omega)
  rw [forLoop_three, forLoop_three, zeros_eq hC]
  simp only [e0r, e1r, e2r, e0q, e1q, e2q]
  rw [hg00]
  obtain ⟨c1, hc1, ec1, qc1⟩ := block_add_sem S Q hE.Q_add (fun _ _ => (0 : α)) hC g00
    (show 0 + r / 3 ≤ r by omega) (show 0 + q / 3 ≤ q by omega) (fun _ _ => (0 : R)) _ (fun _ _ => S.den_zero)
    (fun i j hi hj => (eg00 i j hi hj).2) (fun _ _ => hE.Q_zero)
  rw [hc1, Option.some_bind]
  rw [hg01]
  obtain ⟨c2, hc2, ec2, qc2⟩ := block_add_sem S Q hE.Q_add c1 hC g01
    (show 0 + r / 3 ≤ r by omega) (show q / 3 + q / 3 ≤ q by omega) _ _ ec1
    (fun i j hi hj => (eg01 i j hi hj).2) qc1
  rw [hc2, Option.some_bind]
  rw [hg02]
  obtain ⟨c3, hc3, ec3, qc3⟩ := block_add_sem S Q hE.Q_add c2 hC g02
    (show 0 + r / 3 ≤ r by omega) (show 2 * (q / 3) + q / 3 ≤ q by omega) _ _ ec2
    (fun i j hi hj => (eg02 i j hi hj).2) qc2
  rw [hc3, Option.some_bind]
  rw [forLoop_three]
  simp only [e0r, e1r, e2r, e0q, e1q, e2q]
  rw [hg10]
  obtain ⟨c4, hc4, ec4, qc4⟩ := block_add_sem S Q hE.Q_add c3 hC g10
    (show r / 3 + r / 3 ≤ r by omega) (show 0 + q / 3 ≤ q by omega) _ _ ec3
    (fun i j hi hj => (eg10 i j hi hj).2) qc3
  rw [hc4, Option.some_bind]
  rw [hg11]
  obtain ⟨c5, hc5, ec5, qc5⟩ := block_add_sem S Q hE.Q_add c4 hC g11
    (show r / 3 + r / 3 ≤ r by omega) (show q / 3 + q / 3 ≤ q by omega) _ _ ec4
    (fun i j hi hj => (eg11 i j hi hj).2) qc4
  rw [hc5, Option.some_bind]
  rw [hg12]
  obtain ⟨c6, hc6, ec6, qc6⟩ := block_add_sem S Q hE.Q_add c5 hC g12
    (show r / 3 + r / 3 ≤ r by omega) (show 2 * (q / 3) + q / 3 ≤ q by omega) _ _ ec5
    (fun i j hi hj => (eg12 i j hi hj).2) qc5
  rw [hc6, Option.some_bind]
  rw [forLoop_three]
  simp only [e0r, e1r, e2r, e0q, e1q, e2q]
  rw [hg20]
  obtain ⟨c7, hc7, ec7, qc7⟩ := block_add_sem S Q hE.Q_add c6 hC g20
    (show 2 * (r / 3) + r / 3 ≤ r by omega) (show 0 + q / 3 ≤ q by omega) _ _ ec6
    (fun i j hi hj => (eg20 i j hi hj).2) qc6
  rw [hc7, Option.some_bind]
  rw [hg21]
  obtain ⟨c8, hc8, ec8, qc8⟩ := block_add_sem S Q hE.Q_add c7 hC g21
    (show 2 * (r / 3) + r / 3 ≤ r by omega) (show q / 3 + q / 3 ≤ q by omega) _ _ ec7
    (fun i j hi hj => (eg21 i j hi hj).2) qc7
  rw [hc8, Option.some_bind]
  rw [hg22]
  obtain ⟨c9, hc9, ec9, qc9⟩ := block_add_sem S Q hE.Q_add c8 hC g22
    (show 2 * (r / 3) + r / 3 ≤ r by omega) (show 2 * (q / 3) + q / 3 ≤ q by omega) _ _ ec8
    (fun i j hi hj => (eg22 i j hi hj).2) qc8
  rw [hc9, andThen_some]
  obtain ⟨c10, hc10, ec10⟩ := dynamic_peeling_den S a b c9 hA hB hC
    (show 1 ≤ 3 by omega) (show 1 ≤ 3 by omega) (show 1 ≤ 3 by omega)
  have hinv := (dynamic_peeling_inv Q hE.Q_add _ _ _ _ 3 3 3 hc10).2.2.2 (by
    intro x hx
    obtain ⟨i, j, _, _, rfl⟩ := mem_ofFn hx
    exact qc9 i j)
  refine ⟨c10, hc10, ?_⟩
  intro i j hi hj
  refine ⟨hinv _ (ofFn_mem c10 hi hj), ?_⟩
  rw [ec10 i j hi hj, ec9]
  simp only [schonLevel, schonBlocks, off3, Pi.add_apply, zero_add]
  rfl

/-- The function `multiply_schonhage` on readings: with enough fuel it returns a matrix
whose entries can be divided and read as `schonSem`. -/
theorem schonhage_fuel_sem (Q : α → Prop) (sdiv : α → α → Option α) (eps : α) (e : R)
    (D D2 : R → R) (hE : EpsDiv S Q sdiv eps e D) (hE2 : Eps2Div S Q sdiv eps e D2) :
    ∀ (fuel r c q : Nat) (a b : Nat → Nat → α) (X Y : Nat → Nat → R),
      r < fuel → Fits r c → Fits c q → Fits r q →
      (∀ i l, S.den (a i l) = X i l) → (∀ l j, S.den (b l j) = Y l j) →
      ∃ p, multiply_schonhage_fuel sdiv fuel (ofFn r c a) (ofFn c q b) eps =
          some (ofFn r q p) ∧
        ∀ i j, i < r → j < q → Q (p i j) ∧ S.den (p i j) = schonSem e fuel r c q X Y i j
  | 0, _, _, _, _, _, _, _, h, _, _, _, _, _ => absurd h (Nat.not_lt_zero _)
  | fuel + 1, r, c, q, a, b, X, Y, h, hA, hB, hC, hX, hY => by
    have eX : X = fun i l => S.den (a i l) := funext fun i => funext fun l => (hX i l).symm
    have eY : Y = fun l j => S.den (b l j) := funext fun l => funext fun j => (hY l j).symm
    subst eX
    subst eY
    exact schonhage_body_sem S Q sdiv eps e D D2 hE hE2
      (fun X Y => multiply_schonhage_fuel sdiv fuel X Y eps)
      (schonSem_bilin e fuel (r / 3) (c / 3) (q / 3)) a b hA hB hC
      (fun hb a' b' X Y hX hY => by
        have hr : 200 < r := by
          simp only [schonhage_threshold] at hb
          omega
        exact schonhage_fuel_sem Q sdiv eps e D D2 hE hE2 fuel (r / 3) (c / 3) (q / 3) a' b'
          X Y (by omega) (hA.sub (Nat.div_le_self _ _) (Nat.div_le_self _ _))
          (hB.sub (Nat.div_le_self _ _) (Nat.div_le_self _ _))
          (hC.sub (Nat.div_le_self _ _) (Nat.div_le_self _ _)) hX hY)

end sem

theorem Polynomial.epsilon_sq [CommRing α] :
    (Polynomial.epsilon * Polynomial.epsilon : Polynomial α) = ⟨[0, 0, 1]⟩ := by
  show Polynomial.mul ⟨[0, 1]⟩ ⟨[0, 1]⟩ = _
  simp [Polynomial.mul, forPure]

theorem Polynomial.div_epsilon_sq_coeff [CommRing α] [DecidableEq α] (p : Polynomial α) :
    ∃ p', p.div (Polynomial.epsilon * Polynomial.epsilon) = some p' ∧ p'.a ≠ [] ∧
      ∀ n, p'.coeff n = p.coeff (n + 2) := by
  rw [Polynomial.epsilon_sq, Polynomial.div_epsilon_sq]
  by_cases h1 : p.a.length ≤ 2
  · rw [if_pos h1]
    refine ⟨_, rfl, by simp, ?_⟩
    intro n
    rw [p.coeff_of_le (n + 2) (by omega)]
    exact Polynomial.zero_coeff n
  · rw [if_neg h1]
    refine ⟨_, rfl, ?_, ?_⟩
    · intro h
      have : (p.a.drop 2).length = 0 := by
        show (Polynomial.mk (p.a.drop 2)).a.length = 0
        rw [h]; rfl
      rw [List.length_drop] at this
      omega
    · intro n
      show (p.a.drop 2).getD n 0 = p.a.getD (n + 2) 0
      rw [List.getD_eq_getElem?_getD, List.getD_eq_getElem?_getD, List.getElem?_drop,
        Nat.add_comm]

theorem polyEps2Div [CommRing α] [DecidableEq α] (S : Sem (Polynomial α) (PowerSeries α))
    (hS : ∀ p, S.den p = PowerSeries.mk (fun n => p.coeff n)) :
    Eps2Div S (fun p => p.a ≠ []) Polynomial.div Polynomial.epsilon PowerSeries.X
      (fun f => PowerSeries.mk (fun n => PowerSeries.coeff α (n + 2) f)) := by
  constructor
  · intro p _
    obtain ⟨p', h1, h2, h3⟩ := Polynomial.div_epsilon_sq_coeff p
    refine ⟨p', h1, h2, ?_⟩
    rw [hS, hS]
    ext n
    simp only [PowerSeries.coeff_mk, h3]
  · intro t
    ext n
    simp only [PowerSeries.coeff_mk, PowerSeries.coeff_succ_X_mul]
  · intro u v
    ext n
    simp only [PowerSeries.coeff_mk, map_add]
  · intro u v
    ext n
    simp only [PowerSeries.coeff_mk, map_sub]

/-- C6: for well-formed `A` and `B` over a commutative ring, whenever the classic product
returns a matrix, `multiply_schonhage_exact` returns the same matrix; this covers every size,
dimensions above the threshold, where the 21 products and the divisions by epsilon and by
epsilon squared are executed at nested levels, included. -/
theorem multiply_schonhage_exact_correct [CommRing α] [DecidableEq α] (A B C : Matrix α)
    (hA : WF A) (hB : WF B) (hC : multiply_classic A B = some C) :
    multiply_schonhage_exact A B = some C := by
  obtain ⟨hk, hfit⟩ := multiply_classic_some_fits hA hB hC
  unfold multiply_schonhage_exact multiply_schonhage
  rcases Nat.eq_zero_or_pos A.cols with h0 | h0
  · rw [multiply_classic_inner_zero A B hk h0] at hC
    have hb : multiply_schonhage_fuel Polynomial.div (A.rows + 1)
        (Matrix.cast Polynomial.const A) (Matrix.cast Polynomial.const B) Polynomial.epsilon =
        some ⟨A.rows, B.cols, (zeros A.rows B.cols : Matrix (Polynomial α)).data⟩ := by
      show schonhage_body _ _ _ _ _ = _
      unfold schonhage_body
      have e1 : (Matrix.cast Polynomial.const A : Matrix (Polynomial α)).cols = A.cols := rfl
      have e2 : (Matrix.cast Polynomial.const B : Matrix (Polynomial α)).rows = B.rows := rfl
      rw [e1, e2, if_pos hk, if_pos (Or.inr (Or.inl (by omega)))]
      exact multiply_classic_inner_zero _ _ hk h0
    have e1 : (Matrix.cast Polynomial.const A : Matrix (Polynomial α)).rows = A.rows := rfl
    rw [e1, hb, andThen_some, polynomial_to_scalar_zeros, ← Option.some.inj hC]
  · have hfit2 := hfit h0
    clear hfit
    obtain ⟨r, c, a, hFa, rfl⟩ := hA.cases
    obtain ⟨c', q, b, hFb, rfl⟩ := hB.cases
    simp only [ofFn_rows, ofFn_cols] at hk hfit2 h0 ⊢
    subst hk
    obtain ⟨S, hS⟩ := polySem_exists (α := α)
    have hE := polyEpsDiv S hS
    have hE2 := polyEps2Div S hS
    rw [cast_ofFn, cast_ofFn]
    simp only [ofFn_rows]
    obtain ⟨p, hp, ep⟩ := schonhage_fuel_sem S _ _ _ _ _ _ hE hE2 (r + 1) r c q
      (fun i j => Polynomial.const (a i j)) (fun i j => Polynomial.const (b i j)) _ _
      (Nat.lt_succ_self _) hFa hFb hfit2 (fun _ _ => rfl) (fun _ _ => rfl)
    rw [hp, andThen_some, polynomial_to_scalar_ofFn p (fun i j hi hj => (ep i j hi hj).1)]
    rw [multiply_classic_ofFn a b hFa hFb hfit2] at hC
    rw [← Option.some.inj hC]
    congr 1
    apply ofFn_congr
    intro i j hi hj
    rw [dotAcc_eq_sum]
    have h1 : (p i j).coeff 0 = PowerSeries.constantCoeff α (S.den (p i j)) := by
      rw [hS, ← PowerSeries.coeff_zero_eq_constantCoeff_apply, PowerSeries.coeff_mk]
    rw [h1, (ep i j hi hj).2,
      schonSem_mod (PowerSeries.constantCoeff α) PowerSeries.X PowerSeries.constantCoeff_X
        (r + 1) r c q (Nat.lt_succ_self _) _ _ i j hi hj]
    apply Finset.sum_congr rfl
    intro l _
    rw [hS, hS, ← PowerSeries.coeff_zero_eq_constantCoeff_apply,
      ← PowerSeries.coeff_zero_eq_constantCoeff_apply, PowerSeries.coeff_mk,
      PowerSeries.coeff_mk]
    rfl

theorem multiply_schonhage_exact_correct_witness :
    multiply_schonhage_exact (ofData [1, 2, 3, 4] 2 2 : Matrix Int) (ofData [4, 3, 2, 1] 2 2)
      = some (ofData [8, 5, 20, 13] 2 2) :=
  multiply_schonhage_exact_correct (ofData [1, 2, 3, 4] 2 2) (ofData [4, 3, 2, 1] 2 2)
    (ofData [8, 5, 20, 13] 2 2)
    (by refine ⟨⟨?_, ?_, ?_⟩, ?_⟩ <;> simp [ofData])
    (by refine ⟨⟨?_, ?_, ?_⟩, ?_⟩ <;> simp [ofData])
    (by decide)


theorem andThen_eq_some {β γ : Type} {x : Option β} {f : β → Option γ} {y : γ}
    (h : andThen x f = some y) : ∃ a, x = some a ∧ f a = some y := by
  cases x with
  | none => simp [andThen] at h
  | some a => exact ⟨a, rfl, h⟩

theorem WF_filled {r c : Nat} (v : α) (h : Fits r c) : WF (filled r c v) := by
  refine ⟨h, ?_⟩
  show (List.replicate (u32 (r * c)) v).length = r * c
  rw [List.length_replicate, u32_of_lt h.2.2]

theorem WF_empty : WF (Matrix.empty : Matrix α) :=
  ⟨⟨by show (0 : Nat) < 4294967296; norm_num, by show (0 : Nat) < 4294967296; norm_num,
    by show (0 : Nat) * 0 < 4294967296; norm_num⟩, rfl⟩

theorem Fits.symm {r c : Nat} (h : Fits r c) : Fits c r :=
  ⟨h.2.1, h.1, by rw [Nat.mul_comm]; exact h.2.2⟩

theorem mapM_length {β γ : Type} (k : β → Option γ) :
    ∀ (l : List β) (l' : List γ), l.mapM k = some l' → l'.length = l.length
  | [], l', h => by
    simp only [List.mapM_nil] at h
    cases h
    rfl
  | x :: l, l', h => by
    rw [List.mapM_cons] at h
    cases hx : k x with
    | none => rw [hx] at h; simp at h
    | some y =>
      cases hl : l.mapM k with
      | none => rw [hx, hl] at h; simp at h
      | some ys =>
        rw [hx, hl] at h
        simp at h
        subst h
        simp [mapM_length k l ys hl]

theorem zipAll_length (f : α → α → α) :
    ∀ (l1 l2 l : List α), zipAll f l1 l2 = some l → l.length = l1.length
  | [], _, l, h => by
    simp only [zipAll, Option.some.injEq] at h
    subst h
    rfl
  | _ :: _, [], l, h => by simp [zipAll] at h
  | x :: xs, y :: ys, l, h => by
    simp only [zipAll, Option.map_eq_some'] at h
    obtain ⟨r, hr, rfl⟩ := h
    simp [zipAll_length f xs ys r hr]

theorem cast_wf {β : Type} (conv : α → β) (M : Matrix α) (h : WF M) :
    WF (Matrix.cast conv M) :=
  ⟨h.1, by show (M.data.map conv).length = _; rw [List.length_map]; exact h.2⟩

theorem smul_wf [Mul α] (s : α) (M : Matrix α) (h : WF M) : WF (smul s M) :=
  ⟨h.1, by show (M.data.map _).length = _; rw [List.length_map]; exact h.2⟩

theorem transposed_wf [Zero α] (M : Matrix α) (h : WF M) : Returns WF M.transposed := by
  intro T hT
  obtain ⟨r, c, g, hF, rfl⟩ := h.cases
  rw [transposed_ofFn g hF] at hT
  rw [← Option.some.inj hT]
  exact WF_ofFn _ hF.symm

theorem subblock_wf [Zero α] [Add α] (M : Matrix α) (tl sz : Nat × Nat)
    (hsz : Fits sz.1 sz.2) : Returns WF (M.subblock tl sz) := by
  intro B hB
  unfold subblock at hB
  dsimp only at hB
  split at hB
  · cases hl : forLoop (fun i out =>
        zipRange (fun o x => o + x) M.data sz.2 (i * sz.2)
          (u32 (u32 (tl.1 + i) * M.cols + tl.2)) out)
      sz.1 0 (List.replicate (u32 (sz.1 * sz.2)) (0 : α)) with
    | none => rw [hl] at hB; simp at hB
    | some out =>
      rw [hl] at hB
      simp only [Option.map_some', Option.some.injEq] at hB
      subst hB
      refine ⟨hsz, ?_⟩
      have := forLoop_pres _ (fun l => l.length = u32 (sz.1 * sz.2))
        (fun i a a' ha hb => (zipRange_length _ _ _ _ _ a a' hb).trans ha) _ 0 _ _
        (List.length_replicate _ _) hl
      show out.length = sz.1 * sz.2
      rw [this, u32_of_lt hsz.2.2]
  · simp at hB

theorem blockUpdate_wf (f : α → α → α) (M X : Matrix α) (tl : Nat × Nat) (h : WF M) :
    Returns WF (blockUpdate f M tl X) := by
  intro M' hM'
  obtain ⟨h1, h2, h3, _⟩ := blockUpdate_inv (fun _ => True) f (fun _ _ _ => trivial) M X M' tl hM'
  exact ⟨by rw [h1, h2]; exact h.1, by rw [h1, h2, h3]; exact h.2⟩

theorem elementwise_wf (f : α → α → α) (M X : Matrix α) (h : WF M) :
    Returns WF (elementwise f M X) := by
  intro M' hM'
  unfold elementwise at hM'
  split at hM'
  · simp only [Option.map_eq_some'] at hM'
    obtain ⟨d, hd, rfl⟩ := hM'
    exact ⟨h.1, by show d.length = _; rw [zipAll_length f _ _ d hd]; exact h.2⟩
  · simp at hM'

theorem divScalar_wf (sdiv : α → α → Option α) (M : Matrix α) (s : α) (h : WF M) :
    Returns WF (divScalar sdiv M s) := by
  intro M' hM'
  unfold divScalar at hM'
  simp only [Option.map_eq_some'] at hM'
  obtain ⟨d, hd, rfl⟩ := hM'
  exact ⟨h.1, by show d.length = _; rw [mapM_length _ _ d hd]; exact h.2⟩

theorem polynomial_to_scalar_wf (P : Matrix (Polynomial α)) (h : WF P) :
    Returns WF (polynomial_to_scalar P) := by
  intro M' hM'
  unfold polynomial_to_scalar at hM'
  simp only [Option.map_eq_some'] at hM'
  obtain ⟨d, hd, rfl⟩ := hM'
  exact ⟨h.1, by show d.length = _; rw [mapM_length _ _ d hd]; exact h.2⟩

theorem multiply_classic_ret_wf [Zero α] [Add α] [Mul α] (A B : Matrix α) (hA : WF A)
    (hB : WF B) (hAB : Fits A.rows B.cols) : Returns WF (multiply_classic A B) := by
  intro C hC
  obtain ⟨hk, _⟩ := multiply_classic_some_fits hA hB hC
  obtain ⟨C', hC', hwf, _, _⟩ := multiply_classic_wf A B hA hB hk hAB
  rw [hC'] at hC
  rw [← Option.some.inj hC]
  exact hwf

theorem dynamic_peeling_wf [Zero α] [Add α] [Mul α] (A B C : Matrix α) (n k m : Nat)
    (hC : WF C) : Returns WF (dynamic_peeling A B C n k m) := by
  intro C' hC'
  obtain ⟨h1, h2, h3, _⟩ := dynamic_peeling_inv (fun _ => True) (fun _ _ _ => trivial)
    A B C C' n k m hC'
  exact ⟨by rw [h1, h2]; exact hC.1, by rw [h1, h2, h3]; exact hC.2⟩

theorem dynamic_peeling_shape [Zero α] [Add α] [Mul α] (A B C C' : Matrix α) (n k m : Nat)
    (h : dynamic_peeling A B C n k m = some C') : A.rows = C.rows ∧ B.cols = C.cols := by
  unfold dynamic_peeling at h
  split at h
  · rename_i hc
    exact ⟨hc.1, hc.2.2⟩
  · simp at h

theorem multiply_strassen_dynamic_wf [Ring α] (A B : Matrix α) (hA : WF A) (hB : WF B)
    (hAB : Fits A.rows B.cols) : Returns WF (multiply_strassen_dynamic A B) := by
  intro M hM
  have hk : A.cols = B.rows := by
    by_contra hk
    have : multiply_strassen_dynamic A B = none := by
      show strassen_dynamic_body _ A B = none
      unfold strassen_dynamic_body
      rw [if_neg hk]
    rw [this] at hM
    exact Option.noConfusion hM
  obtain ⟨r, c, a, hFa, rfl⟩ := hA.cases
  obtain ⟨c', q, b, hFb, rfl⟩ := hB.cases
  simp only [ofFn_rows, ofFn_cols] at hk hAB
  subst hk
  obtain ⟨p, hp, _⟩ := strassen_dynamic_fuel_den (Sem.self α) (r + 1) r c q a b
    (Nat.lt_succ_self _) hFa hFb hAB
  have hp' : multiply_strassen_dynamic (ofFn r c a) (ofFn c q b) = some (ofFn r q p) := hp
  rw [hp'] at hM
  rw [← Option.some.inj hM]
  exact WF_ofFn _ hAB

theorem multiply_strassen_static_wf [Zero α] [Add α] [Sub α] [Mul α] (A B : Matrix α)
    (hAB : Fits A.rows B.cols) : Returns WF (multiply_strassen_static A B) := by
  intro M hM
  unfold multiply_strassen_static at hM
  split at hM
  · obtain ⟨n, _, hM⟩ := andThen_eq_some hM
    obtain ⟨new_A, _, hM⟩ := andThen_eq_some hM
    obtain ⟨new_B, _, hM⟩ := andThen_eq_some hM
    obtain ⟨product, _, hM⟩ := andThen_eq_some hM
    exact subblock_wf product (0, 0) (A.rows, B.cols) hAB M hM
  · simp at hM

theorem multiply_laderman_wf [Ring α] (A B : Matrix α) (hA : WF A) (hB : WF B)
    (hAB : Fits A.rows B.cols) : Returns WF (multiply_laderman A B) := by
  intro M hM
  have hk : A.cols = B.rows := by
    by_contra hk
    have : multiply_laderman A B = none := by
      show laderman_body _ A B = none
      unfold laderman_body
      rw [if_neg hk]
    rw [this] at hM
    exact Option.noConfusion hM
  obtain ⟨r, c, a, hFa, rfl⟩ := hA.cases
  obtain ⟨c', q, b, hFb, rfl⟩ := hB.cases
  simp only [ofFn_rows, ofFn_cols] at hk hAB
  subst hk
  obtain ⟨p, hp, _⟩ := laderman_fuel_den (Sem.self α) (r + 1) r c q a b
    (Nat.lt_succ_self _) hFa hFb hAB
  have hp' : multiply_laderman (ofFn r c a) (ofFn c q b) = some (ofFn r q p) := hp
  rw [hp'] at hM
  rw [← Option.some.inj hM]
  exact WF_ofFn _ hAB

/-- The accumulated `C` of `bini_accumulate` has the buffer length of `zeros(A.rows, B.cols)`. -/
theorem bini_accumulate_length [Zero α] [Add α] [Sub α] [Mul α]
    (recurse : Matrix α → Matrix α → Option (Matrix α)) (A B C : Matrix α) (eps : α)
    (h : bini_accumulate recurse A B eps = some C) :
    C.data.length = (zeros A.rows B.cols : Matrix α).data.length := by
  unfold bini_accumulate at h
  dsimp only at h
  obtain ⟨v0, -, h⟩ := andThen_eq_some h
  obtain ⟨v1, -, h⟩ := andThen_eq_some h
  obtain ⟨v2, -, h⟩ := andThen_eq_some h
  obtain ⟨v3, -, h⟩ := andThen_eq_some h
  obtain ⟨v4, -, h⟩ := andThen_eq_some h
  obtain ⟨v5, -, h⟩ := andThen_eq_some h
  obtain ⟨v6, -, h⟩ := andThen_eq_some h
  obtain ⟨v7, -, h⟩ := andThen_eq_some h
  obtain ⟨v8, -, h⟩ := andThen_eq_some h
  obtain ⟨v9, -, h⟩ := andThen_eq_some h
  obtain ⟨v10, -, h⟩ := andThen_eq_some h
  obtain ⟨v11, -, h⟩ := andThen_eq_some h
  obtain ⟨v12, hb1, h⟩ := andThen_eq_some h
  have l1 := (blockUpdate_inv (fun _ => True) _ (fun _ _ _ => trivial) _ _ _ _ hb1).2.2.1
  obtain ⟨v13, hb2, h⟩ := andThen_eq_some h
  have l2 := (blockUpdate_inv (fun _ => True) _ (fun _ _ _ => trivial) _ _ _ _ hb2).2.2.1
  obtain ⟨v14, -, h⟩ := andThen_eq_some h
  obtain ⟨v15, -, h⟩ := andThen_eq_some h
  obtain ⟨v16, hb3, h⟩ := andThen_eq_some h
  have l3 := (blockUpdate_inv (fun _ => True) _ (fun _ _ _ => trivial) _ _ _ _ hb3).2.2.1
  obtain ⟨v17, hb4, h⟩ := andThen_eq_some h
  have l4 := (blockUpdate_inv (fun _ => True) _ (fun _ _ _ => trivial) _ _ _ _ hb4).2.2.1
  obtain ⟨v18, -, h⟩ := andThen_eq_some h
  obtain ⟨v19, -, h⟩ := andThen_eq_some h
  obtain ⟨v20, -, h⟩ := andThen_eq_some h
  obtain ⟨v21, hb5, h⟩ := andThen_eq_some h
  have l5 := (blockUpdate_inv (fun _ => True) _ (fun _ _ _ => trivial) _ _ _ _ hb5).2.2.1
  obtain ⟨v22, -, h⟩ := andThen_eq_some h
  obtain ⟨v23, -, h⟩ := andThen_eq_some h
  obtain ⟨v24, -, h⟩ := andThen_eq_some h
  obtain ⟨v25, hb6, h⟩ := andThen_eq_some h
  have l6 := (blockUpdate_inv (fun _ => True) _ (fun _ _ _ => trivial) _ _ _ _ hb6).2.2.1
  obtain ⟨v26, -, h⟩ := andThen_eq_some h
  obtain ⟨v27, -, h⟩ := andThen_eq_some h
  obtain ⟨v28, -, h⟩ := andThen_eq_some h
  obtain ⟨v29, hb7, h⟩ := andThen_eq_some h
  have l7 := (blockUpdate_inv (fun _ => True) _ (fun _ _ _ => trivial) _ _ _ _ hb7).2.2.1
  obtain ⟨v30, hb8, h⟩ := andThen_eq_some h
  have l8 := (blockUpdate_inv (fun _ => True) _ (fun _ _ _ => trivial) _ _ _ _ hb8).2.2.1
  obtain ⟨v31, -, h⟩ := andThen_eq_some h
  obtain ⟨v32, -, h⟩ := andThen_eq_some h
  obtain ⟨v33, -, h⟩ := andThen_eq_some h
  obtain ⟨v34, -, h⟩ := andThen_eq_some h
  obtain ⟨v35, -, h⟩ := andThen_eq_some h
  obtain ⟨v36, -, h⟩ := andThen_eq_some h
  obtain ⟨v37, -, h⟩ := andThen_eq_some h
  obtain ⟨v38, -, h⟩ := andThen_eq_some h
  obtain ⟨v39, -, h⟩ := andThen_eq_some h
  obtain ⟨v40, -, h⟩ := andThen_eq_some h
  obtain ⟨v41, -, h⟩ := andThen_eq_some h
  obtain ⟨v42, hb9, h⟩ := andThen_eq_some h
  have l9 := (blockUpdate_inv (fun _ => True) _ (fun _ _ _ => trivial) _ _ _ _ hb9).2.2.1
  obtain ⟨v43, hb10, h⟩ := andThen_eq_some h
  have l10 := (blockUpdate_inv (fun _ => True) _ (fun _ _ _ => trivial) _ _ _ _ hb10).2.2.1
  obtain ⟨v44, -, h⟩ := andThen_eq_some h
  obtain ⟨v45, -, h⟩ := andThen_eq_some h
  obtain ⟨v46, -, h⟩ := andThen_eq_some h
  obtain ⟨v47, hb11, h⟩ := andThen_eq_some h
  have l11 := (blockUpdate_inv (fun _ => True) _ (fun _ _ _ => trivial) _ _ _ _ hb11).2.2.1
  obtain ⟨v48, hb12, h⟩ := andThen_eq_some h
  have l12 := (blockUpdate_inv (fun _ => True) _ (fun _ _ _ => trivial) _ _ _ _ hb12).2.2.1
  obtain ⟨v49, -, h⟩ := andThen_eq_some h
  obtain ⟨v50, -, h⟩ := andThen_eq_some h
  obtain ⟨v51, -, h⟩ := andThen_eq_some h
  obtain ⟨v52, -, h⟩ := andThen_eq_some h
  obtain ⟨v53, hb13, h⟩ := andThen_eq_some h
  have l13 := (blockUpdate_inv (fun _ => True) _ (fun _ _ _ => trivial) _ _ _ _ hb13).2.2.1
  obtain ⟨v54, -, h⟩ := andThen_eq_some h
  obtain ⟨v55, -, h⟩ := andThen_eq_some h
  obtain ⟨v56, -, h⟩ := andThen_eq_some h
  obtain ⟨v57, -, h⟩ := andThen_eq_some h
  obtain ⟨v58, hb14, h⟩ := andThen_eq_some h
  have l14 := (blockUpdate_inv (fun _ => True) _ (fun _ _ _ => trivial) _ _ _ _ hb14).2.2.1
  obtain ⟨v59, -, h⟩ := andThen_eq_some h
  obtain ⟨v60, -, h⟩ := andThen_eq_some h
  obtain ⟨v61, -, h⟩ := andThen_eq_some h
  obtain ⟨v62, -, h⟩ := andThen_eq_some h
  obtain ⟨v63, hb15, h⟩ := andThen_eq_some h
  have l15 := (blockUpdate_inv (fun _ => True) _ (fun _ _ _ => trivial) _ _ _ _ hb15).2.2.1
  have lfin := (blockUpdate_inv (fun _ => True) _ (fun _ _ _ => trivial) _ _ _ _ h).2.2.1
  omega

theorem bini_body_wf [Zero α] [Add α] [Sub α] [Mul α] (sdiv : α → α → Option α)
    (recurse : Matrix α → Matrix α → Option (Matrix α)) (A B : Matrix α) (eps : α)
    (hA : WF A) (hB : WF B) (hAB : Fits A.rows B.cols) :
    Returns WF (bini_body sdiv recurse A B eps) := by
  intro M hM
  unfold bini_body at hM
  split at hM
  swap
  · simp at hM
  split at hM
  · exact multiply_classic_ret_wf A B hA hB hAB M hM
  split at hM
  · exact multiply_classic_ret_wf A B hA hB hAB M hM
  obtain ⟨C1, h1, hM⟩ := andThen_eq_some hM
  obtain ⟨C2, h2, hM⟩ := andThen_eq_some hM
  have l1 := bini_accumulate_length recurse A B C1 eps h1
  obtain ⟨s1, s2⟩ := dynamic_peeling_shape A B C2 M 2 2 3 hM
  have hz : (zeros A.rows B.cols : Matrix α).data.length = A.rows * B.cols := by
    show (List.replicate (u32 (A.rows * B.cols)) (0 : α)).length = _
    rw [List.length_replicate, u32_of_lt hAB.2.2]
  have l2 : C2.data.length = C1.data.length := by
    unfold divScalar at h2
    simp only [Option.map_eq_some'] at h2
    obtain ⟨d, hd, rfl⟩ := h2
    exact mapM_length _ _ d hd
  have hC2 : WF C2 := ⟨by rw [← s1, ← s2]; exact hAB, by rw [← s1, ← s2, l2, l1, hz]⟩
  exact dynamic_peeling_wf A B C2 2 2 3 hC2 M hM

theorem multiply_bini_wf [Zero α] [Add α] [Sub α] [Mul α] (sdiv : α → α → Option α)
    (A B : Matrix α) (eps : α) (hA : WF A) (hB : WF B) (hAB : Fits A.rows B.cols) :
    Returns WF (multiply_bini sdiv A B eps) :=
  bini_body_wf sdiv _ A B eps hA hB hAB

theorem schonhage_body_wf [Zero α] [Add α] [Sub α] [Mul α] (sdiv : α → α → Option α)
    (recurse : Matrix α → Matrix α → Option (Matrix α)) (A B : Matrix α) (eps : α)
    (hA : WF A) (hB : WF B) (hAB : Fits A.rows B.cols) :
    Returns WF (schonhage_body sdiv recurse A B eps) := by
  intro M hM
  unfold schonhage_body at hM
  split at hM
  swap
  · simp at hM
  split at hM
  · exact multiply_classic_ret_wf A B hA hB hAB M hM
  split at hM
  · exact multiply_classic_ret_wf A B hA hB hAB M hM
  obtain ⟨C, _, hM⟩ := andThen_eq_some hM
  obtain ⟨C2, h2, hM⟩ := andThen_eq_some hM
  have hz : WF (zeros A.rows B.cols : Matrix α) := WF_filled 0 hAB
  have hC2 : WF C2 :=
    forLoop_pres _ (fun X => WF X)
      (fun i X X' hX hb =>
        forLoop_pres _ (fun X => WF X)
          (fun j Y Y' hY hb' => blockUpdate_wf _ Y _ _ hY Y' hb') 3 0 X X' hX hb)
      3 0 _ C2 hz h2
  exact dynamic_peeling_wf A B C2 3 3 3 hC2 M hM

theorem multiply_schonhage_wf [Zero α] [Add α] [Sub α] [Mul α] (sdiv : α → α → Option α)
    (A B : Matrix α) (eps : α) (hA : WF A) (hB : WF B) (hAB : Fits A.rows B.cols) :
    Returns WF (multiply_schonhage sdiv A B eps) :=
  schonhage_body_wf sdiv _ A B eps hA hB hAB

theorem returns_andThen {β γ : Type} (P : γ → Prop) (x : Option β) (f : β → Option γ)
    (h : ∀ a, x = some a → Returns P (f a)) : Returns P (andThen x f) := by
  intro y hy
  obtain ⟨a, ha, hf⟩ := andThen_eq_some hy
  exact h a ha y hf

theorem sample_WF : WF sample := by
  refine ⟨⟨?_, ?_, ?_⟩, ?_⟩ <;> simp [sample, ofData]

/-- C16 (as amended): the invariant `WF` (a buffer of `rows * cols` scalars, the shape
within the 32-bit size type) holds of the empty matrix and of `filled` and `zeros` for
every shape that fits, and every matrix returned by one of the operations on well-formed
operands is well-formed again, provided the shape of the result fits: the cast
constructor, `transposed`, `subblock`, `block_add`, `block_subtract`, `+=` and `+`, `-=` and
`-`, `*=` and the scalar `*`, `/=`, `multiply_classic`, `dynamic_peeling`,
`polynomial_to_scalar` and the fast multiplications. -/
theorem invariant_preserved [CommRing α] [DecidableEq α] (M X A B C : Matrix α)
    (P : Matrix (Polynomial α)) (hM : WF M) (hA : WF A) (hB : WF B) (hC : WF C)
    (hP : WF P) (r c : Nat) (v s eps : α) (hrc : Fits r c) (tl sz : Nat × Nat)
    (hsz : Fits sz.1 sz.2) (hAB : Fits A.rows B.cols) (sdiv : α → α → Option α)
    (n k m : Nat) :
    WF (Matrix.empty : Matrix α) ∧ WF (filled r c v) ∧ WF (zeros r c : Matrix α) ∧
    WF (Matrix.cast Polynomial.const M) ∧
    Returns WF M.transposed ∧
    Returns WF (M.subblock tl sz) ∧
    Returns WF (M.block_add tl X) ∧
    Returns WF (M.block_subtract tl X) ∧
    Returns WF (M.add X) ∧
    Returns WF (M.sub X) ∧
    WF (smul s M) ∧
    Returns WF (divScalar sdiv M s) ∧
    Returns WF (multiply_classic A B) ∧
    Returns WF (dynamic_peeling A B C n k m) ∧
    Returns WF (polynomial_to_scalar P) ∧
    Returns WF (multiply_strassen_dynamic A B) ∧
    Returns WF (multiply_strassen_static A B) ∧
    Returns WF (multiply_laderman A B) ∧
    Returns WF (multiply_bini sdiv A B eps) ∧
    Returns WF (multiply_bini_exact A B) ∧
    Returns WF (multiply_schonhage sdiv A B eps) ∧
    Returns WF (multiply_schonhage_exact A B) := by
  refine ⟨WF_empty, WF_filled v hrc, WF_filled 0 hrc,
    cast_wf _ M hM, transposed_wf M hM, subblock_wf M tl sz hsz, blockUpdate_wf _ M X tl hM,
    blockUpdate_wf _ M X tl hM, elementwise_wf _ M X hM, elementwise_wf _ M X hM,
    smul_wf s M hM, divScalar_wf sdiv M s hM, multiply_classic_ret_wf A B hA hB hAB,
    dynamic_peeling_wf A B C n k m hC, polynomial_to_scalar_wf P hP,
    multiply_strassen_dynamic_wf A B hA hB hAB, multiply_strassen_static_wf A B hAB,
    multiply_laderman_wf A B hA hB hAB, multiply_bini_wf sdiv A B eps hA hB hAB, ?_,
    multiply_schonhage_wf sdiv A B eps hA hB hAB, ?_⟩
  · unfold multiply_bini_exact
    apply returns_andThen
    intro Pm hPm
    exact polynomial_to_scalar_wf Pm
      (@multiply_bini_wf (Polynomial α) _ _ _ _ _ _ _ _ (cast_wf _ A hA) (cast_wf _ B hB) hAB
        Pm hPm)
  · unfold multiply_schonhage_exact
    apply returns_andThen
    intro Pm hPm
    exact polynomial_to_scalar_wf Pm
      (@multiply_schonhage_wf (Polynomial α) _ _ _ _ _ _ _ _ (cast_wf _ A hA) (cast_wf _ B hB)
        hAB Pm hPm)

theorem invariant_preserved_witness :
    WF sample ∧ Fits 2 3 ∧ Fits 1 1 ∧ Fits sample.rows sample.cols ∧
    WF (Matrix.empty : Matrix Int) ∧ WF (filled 2 3 (7 : Int)) ∧ WF (zeros 2 3 : Matrix Int) ∧
    WF (Matrix.cast Polynomial.const sample) ∧
    Returns WF sample.transposed ∧
    Returns WF (sample.subblock (0, 0) (1, 1)) ∧
    Returns WF (sample.block_add (0, 0) sample) ∧
    Returns WF (sample.block_subtract (0, 0) sample) ∧
    Returns WF (sample.add sample) ∧
    Returns WF (sample.sub sample) ∧
    WF (smul 2 sample) ∧
    Returns WF (divScalar (fun x y => some (x / y)) sample 2) ∧
    Returns WF (multiply_classic sample sample) ∧
    Returns WF (dynamic_peeling sample sample sample 2 2 2) ∧
    Returns WF (polynomial_to_scalar (Matrix.cast Polynomial.const sample)) ∧
    Returns WF (multiply_strassen_dynamic sample sample) ∧
    Returns WF (multiply_strassen_static sample sample) ∧
    Returns WF (multiply_laderman sample sample) ∧
    Returns WF (multiply_bini (fun x y => some (x / y)) sample sample 1) ∧
    Returns WF (multiply_bini_exact sample sample) ∧
    Returns WF (multiply_schonhage (fun x y => some (x / y)) sample sample 1) ∧
    Returns WF (multiply_schonhage_exact sample sample) :=
  ⟨sample_WF, by unfold Fits; decide, by unfold Fits; decide, by unfold Fits; decide,
    invariant_preserved sample sample sample sample sample (Matrix.cast Polynomial.const sample)
      sample_WF sample_WF sample_WF sample_WF (cast_wf _ sample sample_WF) 2 3 7 2 1
      (by unfold Fits; decide) (0, 0) (1, 1) (by unfold Fits; decide) (by unfold Fits; decide)
      (fun x y => some (x / y)) 2 2 2⟩

/-- C16, the counterexample: the matrix `zeros(65536, 65536)` has an empty buffer, because
the buffer size `65536 * 65536` wraps to `0`, so its length is not `rows * cols`. -/
theorem invariant_counterexample :
    (zeros 65536 65536 : Matrix Int).data.length = 0 ∧
      (zeros 65536 65536 : Matrix Int).rows * (zeros 65536 65536 : Matrix Int).cols =
        4294967296 ∧
      ¬ (zeros 65536 65536 : Matrix Int).data.length =
        (zeros 65536 65536 : Matrix Int).rows * (zeros 65536 65536 : Matrix Int).cols := by
  have h0 : (zeros 65536 65536 : Matrix Int).data.length = 0 := by
    show (List.replicate (u32 (65536 * 65536)) (0 : Int)).length = 0
    rw [List.length_replicate]
    rfl
  have h1 : (zeros 65536 65536 : Matrix Int).rows * (zeros 65536 65536 : Matrix Int).cols =
      4294967296 := by
    show 65536 * 65536 = 4294967296
    norm_num
  refine ⟨h0, h1, ?_⟩
  rw [h0, h1]
  decide

theorem mapM_map_some {β γ : Type} (f : β → γ) (g : γ → Option β) (h : ∀ x, g (f x) = some x) :
    ∀ l : List β, (l.map f).mapM g = some l
  | [] => rfl
  | x :: xs => by
    rw [List.map_cons, List.mapM_cons, h x, mapM_map_some f g h xs]
    rfl

theorem mapM_eq_map {β γ : Type} (g : β → Option γ) (f : β → γ) :
    ∀ l : List β, (∀ x ∈ l, g x = some (f x)) → l.mapM g = some (l.map f)
  | [], _ => rfl
  | x :: xs, h => by
    rw [List.mapM_cons, h x (List.mem_cons_self x xs),
      mapM_eq_map g f xs (fun y hy => h y (List.mem_cons_of_mem x hy))]
    rfl

/-- C21: on a matrix `P` of polynomials (each with at least one coefficient, as every
constructor and operator of the class makes them) `polynomial_to_scalar` returns a matrix
with the rows and columns of `P` whose entry `(i, j)`, read with `operator[]`, is the
constant coefficient of the entry `(i, j)` of `P`; and the lift of a scalar matrix `A` by
the cast constructor is projected back to `A`. -/
theorem polynomial_to_scalar_spec [Zero α] (P : Matrix (Polynomial α)) (A : Matrix α)
    (hP : ∀ p ∈ P.data, p.a ≠ []) :
    (∃ R, polynomial_to_scalar P = some R ∧ R.rows = P.rows ∧ R.cols = P.cols ∧
      R.data.length = P.data.length ∧
      ∀ i j, R.get? i j = (P.get? i j).map (fun p => p.coeff 0)) ∧
    polynomial_to_scalar (Matrix.cast Polynomial.const A) = some A := by
  constructor
  · have h : P.data.mapM (fun p => p.a[0]?) = some (P.data.map (fun p => p.coeff 0)) := by
      apply mapM_eq_map
      intro p hp
      have := hP p hp
      cases hpa : p.a with
      | nil => exact absurd hpa this
      | cons x xs => simp [Polynomial.coeff, hpa]
    refine ⟨ofData (P.data.map (fun p => p.coeff 0)) P.rows P.cols, ?_, rfl, rfl, ?_, ?_⟩
    · unfold polynomial_to_scalar
      rw [h]
      rfl
    · simp [ofData]
    · intro i j
      simp [Matrix.get?, ofData]
  · unfold polynomial_to_scalar
    show ((A.data.map Polynomial.const).mapM (fun p => p.a[0]?)).map _ = _
    rw [mapM_map_some Polynomial.const (fun p => p.a[0]?) (fun x => rfl)]
    rfl

theorem polynomial_to_scalar_spec_witness :
    (∀ p ∈ (Matrix.cast Polynomial.const sample).data, p.a ≠ []) ∧
    ((∃ R, polynomial_to_scalar (Matrix.cast Polynomial.const sample) = some R ∧
      R.rows = (Matrix.cast Polynomial.const sample).rows ∧
      R.cols = (Matrix.cast Polynomial.const sample).cols ∧
      R.data.length = (Matrix.cast Polynomial.const sample).data.length ∧
      ∀ i j, R.get? i j =
        ((Matrix.cast Polynomial.const sample).get? i j).map (fun p => p.coeff 0)) ∧
    polynomial_to_scalar (Matrix.cast Polynomial.const sample) = some sample) :=
  ⟨by decide, polynomial_to_scalar_spec (Matrix.cast Polynomial.const sample) sample (by decide)⟩

/-- C22: below the size bounds `multiply_bini` is `multiply_classic`, for every `epsilon`
and every division of the scalar type, also one that fails on every call: no division is
performed. -/
theorem multiply_bini_small [Zero α] [Add α] [Sub α] [Mul α] (sdiv : α → α → Option α)
    (A B : Matrix α) (epsilon : α)
    (h : A.rows < 2 ∨ A.cols < 2 ∨ B.cols < 3 ∨ A.rows ≤ 200 ∨ A.cols ≤ 200 ∨ B.cols ≤ 200) :
    multiply_bini sdiv A B epsilon = multiply_classic A B ∧
      multiply_bini (fun _ _ => none) A B epsilon = multiply_classic A B := by
  have key : ∀ sd : α → α → Option α, multiply_bini sd A B epsilon = multiply_classic A B := by
    intro sd
    show bini_body sd _ A B epsilon = _
    unfold bini_body
    by_cases hk : A.cols = B.rows
    · rw [if_pos hk]
      by_cases h1 : A.rows < 2 ∨ A.cols < 2 ∨ B.cols < 3
      · rw [if_pos h1]
      · rw [if_neg h1, if_pos]
        show A.rows ≤ 200 ∨ A.cols ≤ 200 ∨ B.cols ≤ 200
        omega
    · rw [if_neg hk]
      unfold multiply_classic
      rw [if_neg hk]
  exact ⟨key sdiv, key _⟩

theorem multiply_bini_small_witness :
    ((sample.rows < 2 ∨ sample.cols < 2 ∨ sample.cols < 3 ∨ sample.rows ≤ 200 ∨
      sample.cols ≤ 200 ∨ sample.cols ≤ 200)) ∧
    (multiply_bini (fun x y => some (x / y)) sample sample 0 = multiply_classic sample sample ∧
      multiply_bini (fun _ _ => none) sample sample 0 = multiply_classic sample sample) :=
  ⟨by decide, multiply_bini_small (fun x y => some (x / y)) sample sample 0 (by decide)⟩

/-- C23: below the size bounds `multiply_schonhage` is `multiply_classic`, for every
`epsilon` and every division of the scalar type, also one that fails on every call: no
division by `epsilon` or its square is performed. -/
theorem multiply_schonhage_small [Zero α] [Add α] [Sub α] [Mul α] (sdiv : α → α → Option α)
    (A B : Matrix α) (epsilon : α)
    (h : A.rows < 3 ∨ A.cols < 3 ∨ B.cols < 3 ∨ A.rows ≤ 200 ∨ A.cols ≤ 200 ∨ B.cols ≤ 200) :
    multiply_schonhage sdiv A B epsilon = multiply_classic A B ∧
      multiply_schonhage (fun _ _ => none) A B epsilon = multiply_classic A B := by
  have key : ∀ sd : α → α → Option α,
      multiply_schonhage sd A B epsilon = multiply_classic A B := by
    intro sd
    show schonhage_body sd _ A B epsilon = _
    unfold schonhage_body
    by_cases hk : A.cols = B.rows
    · rw [if_pos hk]
      by_cases h1 : A.rows < 3 ∨ A.cols < 3 ∨ B.cols < 3
      · rw [if_pos h1]
      · rw [if_neg h1, if_pos]
        show A.rows ≤ 200 ∨ A.cols ≤ 200 ∨ B.cols ≤ 200
        omega
    · rw [if_neg hk]
      unfold multiply_classic
      rw [if_neg hk]
  exact ⟨key sdiv, key _⟩

theorem multiply_schonhage_small_witness :
    ((sample.rows < 3 ∨ sample.cols < 3 ∨ sample.cols < 3 ∨ sample.rows ≤ 200 ∨
      sample.cols ≤ 200 ∨ sample.cols ≤ 200)) ∧
    (multiply_schonhage (fun x y => some (x / y)) sample sample 0 =
        multiply_classic sample sample ∧
      multiply_schonhage (fun _ _ => none) sample sample 0 = multiply_classic sample sample) :=
  ⟨by decide,
    multiply_schonhage_small (fun x y => some (x / y)) sample sample 0 (by decide)⟩


theorem divScalar_congr (sdiv sdiv' : α → α → Option α) (s : α)
    (h : ∀ p, sdiv p s = sdiv' p s) (M : Matrix α) : divScalar sdiv M s = divScalar sdiv' M s := by
  unfold divScalar
  have e : (fun x => sdiv x s) = (fun x => sdiv' x s) := funext h
  rw [e]

theorem multiply_bini_fuel_congr [Zero α] [Add α] [Sub α] [Mul α] (sdiv sdiv' : α → α → Option α)
    (eps : α) (h : ∀ p, sdiv p eps = sdiv' p eps) :
    ∀ (fuel : Nat) (A B : Matrix α),
      multiply_bini_fuel sdiv fuel A B eps = multiply_bini_fuel sdiv' fuel A B eps
  | 0, _, _ => rfl
  | fuel + 1, A, B => by
    have e : (fun X Y => multiply_bini_fuel sdiv fuel X Y eps) =
        (fun X Y => multiply_bini_fuel sdiv' fuel X Y eps) :=
      funext fun X => funext fun Y => multiply_bini_fuel_congr sdiv sdiv' eps h fuel X Y
    show bini_body sdiv (fun X Y => multiply_bini_fuel sdiv fuel X Y eps) A B eps =
      bini_body sdiv' (fun X Y => multiply_bini_fuel sdiv' fuel X Y eps) A B eps
    rw [e]
    unfold bini_body
    have e2 : ∀ C : Matrix α, divScalar sdiv C eps = divScalar sdiv' C eps :=
      divScalar_congr sdiv sdiv' eps h
    simp only [e2]

theorem schonhage_step_congr [Zero α] [Add α] [Sub α] [Mul α] (sdiv sdiv' : α → α → Option α)
    (eps eps2 : α) (h : ∀ p, sdiv p eps = sdiv' p eps) (h2 : ∀ p, sdiv p eps2 = sdiv' p eps2)
    (recurse : Matrix α → Matrix α → Option (Matrix α)) (A B : Nat → Nat → Matrix α) (i : Nat)
    (W : Matrix α) (j : Nat) (C : Nat → Nat → Matrix α) :
    schonhage_step sdiv recurse eps eps2 A B i W j C =
      schonhage_step sdiv' recurse eps eps2 A B i W j C := by
  unfold schonhage_step
  have e1 : ∀ M : Matrix α, divScalar sdiv M eps = divScalar sdiv' M eps :=
    divScalar_congr sdiv sdiv' eps h
  have e2 : ∀ M : Matrix α, divScalar sdiv M eps2 = divScalar sdiv' M eps2 :=
    divScalar_congr sdiv sdiv' eps2 h2
  simp only [e1, e2]

theorem multiply_schonhage_fuel_congr [Zero α] [Add α] [Sub α] [Mul α]
    (sdiv sdiv' : α → α → Option α) (eps : α) (h : ∀ p, sdiv p eps = sdiv' p eps)
    (h2 : ∀ p, sdiv p (eps * eps) = sdiv' p (eps * eps)) :
    ∀ (fuel : Nat) (A B : Matrix α),
      multiply_schonhage_fuel sdiv fuel A B eps = multiply_schonhage_fuel sdiv' fuel A B eps
  | 0, _, _ => rfl
  | fuel + 1, A, B => by
    have e : (fun X Y => multiply_schonhage_fuel sdiv fuel X Y eps) =
        (fun X Y => multiply_schonhage_fuel sdiv' fuel X Y eps) :=
      funext fun X => funext fun Y => multiply_schonhage_fuel_congr sdiv sdiv' eps h h2 fuel X Y
    show schonhage_body sdiv (fun X Y => multiply_schonhage_fuel sdiv fuel X Y eps) A B eps =
      schonhage_body sdiv' (fun X Y => multiply_schonhage_fuel sdiv' fuel X Y eps) A B eps
    rw [e]
    unfold schonhage_body schonhage_products
    have e3 : ∀ (rec : Matrix α → Matrix α → Option (Matrix α)) (G H : Nat → Nat → Matrix α)
        (i : Nat) (W : Matrix α),
        (fun j C => schonhage_step sdiv rec eps (eps * eps) G H i W j C) =
        (fun j C => schonhage_step sdiv' rec eps (eps * eps) G H i W j C) :=
      fun rec G H i W => funext fun j => funext fun C =>
        schonhage_step_congr sdiv sdiv' eps (eps * eps) h h2 rec G H i W j C
    simp only [e3]

theorem next_power_of_2_loop_least (value : Nat) (hv : value ≤ 2147483648) :
    ∀ (fuel t : Nat), 1 ≤ t → t ≤ 31 → 31 - t < fuel → (t = 1 ∨ 2 ^ (t - 1) < value) →
      ∃ t', t ≤ t' ∧ t' ≤ 31 ∧ next_power_of_2_loop value fuel t (2 ^ t) = some (2 ^ t') ∧
        value ≤ 2 ^ t' ∧ (t' = 1 ∨ 2 ^ (t' - 1) < value)
  | 0, _, _, _, h, _ => absurd h (Nat.not_lt_zero _)
  | fuel + 1, t, h1, h2, h3, h4 => by
    unfold next_power_of_2_loop
    by_cases hlt : 2 ^ t < value
    · have ht : t < 31 := by
        rcases Nat.lt_or_ge t 31 with h | h
        · exact h
        · have e : t = 31 := by omega
          subst e
          norm_num at hlt
          omega
      have e1 : u32 (t + 1) = t + 1 := u32_of_lt (by omega)
      have hp : 2 ^ (t + 1) ≤ 2 ^ 31 := Nat.pow_le_pow_right (by norm_num) (by omega)
      have e2 : u32 (2 ^ t * 2) = 2 ^ (t + 1) := by
        rw [← pow_succ]
        apply u32_of_lt
        have : (2 : Nat) ^ 31 < 4294967296 := by norm_num
        omega
      rw [if_pos hlt, e1, if_pos (by omega), e2]
      obtain ⟨t', ha, hb, hc, hd, he⟩ := next_power_of_2_loop_least value hv fuel (t + 1)
        (by omega) (by omega) (by omega) (Or.inr (by simpa using hlt))
      exact ⟨t', by omega, hb, hc, hd, he⟩
    · rw [if_neg hlt]
      exact ⟨t, le_refl _, h2, rfl, by omega, h4⟩

theorem next_power_of_2_large (value : Nat) (hv : 2147483648 < value) :
    ∀ (fuel t : Nat), 1 ≤ t → t ≤ 31 → next_power_of_2_loop value fuel t (2 ^ t) = none
  | 0, _, _, _ => rfl
  | fuel + 1, t, h1, h2 => by
    unfold next_power_of_2_loop
    have hp : 2 ^ t ≤ 2 ^ 31 := Nat.pow_le_pow_right (by norm_num) h2
    have hlt : 2 ^ t < value := by
      have : (2 : Nat) ^ 31 = 2147483648 := by norm_num
      omega
    rw [if_pos hlt]
    have e1 : u32 (t + 1) = t + 1 := u32_of_lt (by omega)
    rw [e1]
    by_cases ht : t + 1 < 32
    · have hp2 : 2 ^ (t + 1) ≤ 2 ^ 31 := Nat.pow_le_pow_right (by norm_num) (by omega)
      have e2 : u32 (2 ^ t * 2) = 2 ^ (t + 1) := by
        rw [← pow_succ]
        apply u32_of_lt
        have : (2 : Nat) ^ 31 < 4294967296 := by norm_num
        omega
      rw [if_pos ht, e2]
      exact next_power_of_2_large value hv fuel (t + 1) (by omega) (by omega)
    · rw [if_neg ht]

theorem next_power_of_2_minimal (v : Nat) (hv : v ≤ 2147483648) :
    ∃ t, 1 ≤ t ∧ t ≤ 31 ∧ next_power_of_2 v = some (2 ^ t) ∧ v ≤ 2 ^ t ∧
      ∀ s, 1 ≤ s → v ≤ 2 ^ s → t ≤ s := by
  obtain ⟨t, h1, h2, h3, h4, h5⟩ := next_power_of_2_loop_least v hv 32 1 (le_refl _)
    (by norm_num) (by norm_num) (Or.inl rfl)
  refine ⟨t, h1, h2, h3, h4, ?_⟩
  intro s hs hvs
  rcases h5 with h5 | h5
  · omega
  · have : 2 ^ (t - 1) < 2 ^ s := lt_of_lt_of_le h5 hvs
    have := (Nat.pow_lt_pow_iff_right (by norm_num : 1 < 2)).1 this
    omega

/-- C25, the counterexample: `next_power_of_2(1)` is `2`, although `1 = 2 ^ 0` is a power of
two that is `>= 1`. -/
theorem next_power_of_2_counterexample :
    next_power_of_2 1 = some 2 ∧ 1 ≤ 2 ^ 0 ∧ 2 ^ 0 < 2 := by
  refine ⟨by decide, by norm_num, by norm_num⟩

/-- C25 (as amended): for `v <= 2 ^ 31`, `next_power_of_2(v)` is the least power of two
`2 ^ t` with `t >= 1` that is `>= v` (so it is `2` for `v <= 2`); for larger `v` the assertion
in the loop fails. For compatible `A` and `B` with no dimension above `32768`,
`multiply_strassen_static` pads both to `N x N`, `N` that power of two for the largest of
`A.rows`, `A.cols` and `B.cols`: it is `strassen` on the two padded matrices, cropped. -/
theorem next_power_of_2_least [Ring α] (v : Nat) (A B : Matrix α) :
    (v ≤ 2 ^ 31 → ∃ t, 1 ≤ t ∧ next_power_of_2 v = some (2 ^ t) ∧ v ≤ 2 ^ t ∧
      ∀ s, 1 ≤ s → v ≤ 2 ^ s → 2 ^ t ≤ 2 ^ s) ∧
    (2 ^ 31 < v → next_power_of_2 v = none) ∧
    (WF A → WF B → A.cols = B.rows → max A.rows (max A.cols B.cols) ≤ 32768 →
      ∃ t, 1 ≤ t ∧ max A.rows (max A.cols B.cols) ≤ 2 ^ t ∧
        (∀ s, 1 ≤ s → max A.rows (max A.cols B.cols) ≤ 2 ^ s → 2 ^ t ≤ 2 ^ s) ∧
        multiply_strassen_static A B =
          andThen (strassen
            (ofFn (2 ^ t) (2 ^ t)
              (fun i j => if i < A.rows ∧ j < A.cols then entry A i j else 0))
            (ofFn (2 ^ t) (2 ^ t)
              (fun i j => if i < B.rows ∧ j < B.cols then entry B i j else 0)))
            (fun product => product.subblock (0, 0) (A.rows, B.cols))) := by
  refine ⟨?_, ?_, ?_⟩
  · intro hv
    obtain ⟨t, h1, _, h3, h4, h5⟩ := next_power_of_2_minimal v (by norm_num at hv; exact hv)
    exact ⟨t, h1, h3, h4, fun s hs hvs =>
      Nat.pow_le_pow_right (by norm_num) (h5 s hs hvs)⟩
  · intro hv
    exact next_power_of_2_large v (by norm_num at hv; exact hv) 32 1 (le_refl _) (by norm_num)
  · intro hA hB hk hmax
    have em : max A.rows (max B.cols B.rows) = max A.rows (max A.cols B.cols) := by
      rw [← hk, max_comm B.cols A.cols]
    obtain ⟨t, h1, h2, h3, h4, h5⟩ := next_power_of_2_minimal
      (max A.rows (max A.cols B.cols)) (by omega)
    have ht15 : t ≤ 15 := by
      rcases Nat.lt_or_ge 15 t with h | h
      · have := h5 15 (by norm_num) (by norm_num; omega)
        omega
      · exact h
    refine ⟨t, h1, h4, fun s hs hvs => Nat.pow_le_pow_right (by norm_num) (h5 s hs hvs), ?_⟩
    have hFn := Fits_pow ht15
    have hrn : A.rows ≤ 2 ^ t := le_trans (le_max_left _ _) h4
    have hcn : A.cols ≤ 2 ^ t := le_trans (le_trans (le_max_left _ _) (le_max_right _ _)) h4
    have hqn : B.cols ≤ 2 ^ t := le_trans (le_trans (le_max_right _ _) (le_max_right _ _)) h4
    have eA := hA.eq_ofFn
    have eB := hB.eq_ofFn
    unfold multiply_strassen_static
    rw [if_pos hk, em, h3, andThen_some, zeros_eq hFn]
    have e1 : (ofFn (2 ^ t) (2 ^ t) (fun _ _ => (0 : α))).block_add (0, 0) A =
        some (ofFn (2 ^ t) (2 ^ t)
          (fun i j => if i < A.rows ∧ j < A.cols then entry A i j else 0)) := by
      conv_lhs => rw [eA]
      rw [block_add_ofFn _ hFn _ (show 0 + A.rows ≤ 2 ^ t by omega)
        (show 0 + A.cols ≤ 2 ^ t by omega)]
      congr 1
      apply ofFn_congr
      intro i j _ _
      by_cases h : i < A.rows ∧ j < A.cols
      · rw [if_pos h, if_pos (by omega)]
        simp
      · rw [if_neg h, if_neg (by omega)]
    have e2 : (ofFn (2 ^ t) (2 ^ t) (fun _ _ => (0 : α))).block_add (0, 0) B =
        some (ofFn (2 ^ t) (2 ^ t)
          (fun i j => if i < B.rows ∧ j < B.cols then entry B i j else 0)) := by
      conv_lhs => rw [eB]
      rw [block_add_ofFn _ hFn _ (show 0 + B.rows ≤ 2 ^ t by omega)
        (show 0 + B.cols ≤ 2 ^ t by omega)]
      congr 1
      apply ofFn_congr
      intro i j _ _
      by_cases h : i < B.rows ∧ j < B.cols
      · rw [if_pos h, if_pos (by omega)]
        simp
      · rw [if_neg h, if_neg (by omega)]
    rw [e1, andThen_some, e2, andThen_some]

theorem next_power_of_2_least_witness :
    (∃ t, 1 ≤ t ∧ next_power_of_2 5 = some (2 ^ t) ∧ 5 ≤ 2 ^ t ∧
      ∀ s, 1 ≤ s → 5 ≤ 2 ^ s → 2 ^ t ≤ 2 ^ s) ∧
    (next_power_of_2 (2 ^ 31 + 1) = none) ∧
    (∃ t, 1 ≤ t ∧ max sample.rows (max sample.cols sample.cols) ≤ 2 ^ t ∧
        (∀ s, 1 ≤ s → max sample.rows (max sample.cols sample.cols) ≤ 2 ^ s → 2 ^ t ≤ 2 ^ s) ∧
        multiply_strassen_static sample sample =
          andThen (strassen
            (ofFn (2 ^ t) (2 ^ t)
              (fun i j => if i < sample.rows ∧ j < sample.cols then entry sample i j else 0))
            (ofFn (2 ^ t) (2 ^ t)
              (fun i j => if i < sample.rows ∧ j < sample.cols then entry sample i j else 0)))
            (fun product => product.subblock (0, 0) (sample.rows, sample.cols))) :=
  ⟨(next_power_of_2_least 5 sample sample).1 (by norm_num),
    (next_power_of_2_least (2 ^ 31 + 1) sample sample).2.1 (by norm_num),
    (next_power_of_2_least 5 sample sample).2.2 sample_WF sample_WF rfl (by decide)⟩

section shapes
variable [Zero α] [Add α] [Sub α] [Mul α]

theorem trivSem_exists : ∃ _ : Sem α PUnit, True :=
  ⟨⟨fun _ => PUnit.unit, Subsingleton.elim _ _, fun _ _ => Subsingleton.elim _ _,
    fun _ _ => Subsingleton.elim _ _, fun _ _ => Subsingleton.elim _ _⟩, trivial⟩

theorem strassen_dynamic_returns (A B : Matrix α) (hA : WF A) (hB : WF B)
    (hk : A.cols = B.rows) (hAB : Fits A.rows B.cols) :
    ∃ C, multiply_strassen_dynamic A B = some C ∧ C.rows = A.rows ∧ C.cols = B.cols := by
  obtain ⟨r, c, a, hFa, rfl⟩ := hA.cases
  obtain ⟨c', q, b, hFb, rfl⟩ := hB.cases
  simp only [ofFn_rows, ofFn_cols] at hk hAB ⊢
  subst hk
  obtain ⟨S, _⟩ := trivSem_exists (α := α)
  obtain ⟨p, hp, _⟩ := strassen_dynamic_fuel_den S (r + 1) r c q a b (Nat.lt_succ_self _)
    hFa hFb hAB
  exact ⟨_, hp, rfl, rfl⟩

end shapes

theorem andThen_congr {β γ : Type} {x : Option β} {f g : β → Option γ}
    (h : ∀ a, x = some a → f a = g a) : andThen x f = andThen x g := by
  cases x with
  | none => rfl
  | some a => exact h a rfl

theorem isPow2_iff (n : Nat) : isPow2 n = true ↔ ∃ t, t ≤ 31 ∧ n = 2 ^ t := by
  unfold isPow2
  rw [List.any_eq_true]
  constructor
  · rintro ⟨t, ht, h⟩
    exact ⟨t, by have := List.mem_range.1 ht; omega, by simpa using h⟩
  · rintro ⟨t, ht, h⟩
    exact ⟨t, List.mem_range.2 (by omega), by simpa using h⟩

theorem squarePow2_iff (X Y : Matrix α) : squarePow2 X Y = true ↔
    (X.rows = X.cols ∧ X.cols = Y.rows ∧ Y.rows = Y.cols) ∧ ∃ t, t ≤ 31 ∧ X.rows = 2 ^ t := by
  unfold squarePow2
  rw [Bool.and_eq_true, decide_eq_true_iff, isPow2_iff]

theorem subblock_shape [Zero α] [Add α] {M S : Matrix α} {tl sz : Nat × Nat}
    (h : M.subblock tl sz = some S) : S.rows = sz.1 ∧ S.cols = sz.2 := by
  unfold Matrix.subblock at h
  simp only [] at h
  split at h
  · simp only [Option.map_eq_some'] at h
    obtain ⟨out, _, rfl⟩ := h
    exact ⟨rfl, rfl⟩
  · cases h

theorem elementwise_shape {f : α → α → α} {A B S : Matrix α}
    (h : elementwise f A B = some S) : S.rows = A.rows ∧ S.cols = A.cols := by
  unfold Matrix.elementwise at h
  split at h
  · simp only [Option.map_eq_some'] at h
    obtain ⟨out, _, rfl⟩ := h
    exact ⟨rfl, rfl⟩
  · cases h

theorem blockUpdate_shape {f : α → α → α} {M X S : Matrix α} {tl : Nat × Nat}
    (h : blockUpdate f M tl X = some S) : S.rows = M.rows ∧ S.cols = M.cols := by
  unfold Matrix.blockUpdate at h
  simp only [] at h
  split at h
  · simp only [Option.map_eq_some'] at h
    obtain ⟨out, _, rfl⟩ := h
    exact ⟨rfl, rfl⟩
  · cases h

theorem subblock_sq [Zero α] [Add α] {M S : Matrix α} {tl : Nat × Nat} {h : Nat}
    (e : M.subblock tl (h, h) = some S) : S.rows = h ∧ S.cols = h := subblock_shape e

theorem add_sq [Add α] {A B S : Matrix α} {h : Nat} (e : A.add B = some S)
    (hA : A.rows = h ∧ A.cols = h) : S.rows = h ∧ S.cols = h := by
  have := elementwise_shape e
  exact ⟨this.1.trans hA.1, this.2.trans hA.2⟩

theorem sub_sq [Sub α] {A B S : Matrix α} {h : Nat} (e : A.sub B = some S)
    (hA : A.rows = h ∧ A.cols = h) : S.rows = h ∧ S.cols = h := by
  have := elementwise_shape e
  exact ⟨this.1.trans hA.1, this.2.trans hA.2⟩

theorem andThen_rec_congr {γ : Type} {rec rec' : Matrix α → Matrix α → Option (Matrix α)}
    {h : Nat}
    (hrec : ∀ X Y : Matrix α, (X.rows = h ∧ X.cols = h) → (Y.rows = h ∧ Y.cols = h) →
      rec X Y = rec' X Y)
    {X Y : Matrix α} {f g : Matrix α → Option γ} (hX : X.rows = h ∧ X.cols = h)
    (hY : Y.rows = h ∧ Y.cols = h) (hfg : ∀ P, rec' X Y = some P → f P = g P) :
    andThen (rec X Y) f = andThen (rec' X Y) g := by
  rw [hrec X Y hX hY]
  exact andThen_congr hfg

theorem strassen_body_congr [Zero α] [Add α] [Sub α] [Mul α]
    (rec rec' : Matrix α → Matrix α → Option (Matrix α)) (A B : Matrix α)
    (hrec : ¬ A.rows ≤ strassen_threshold →
      ∀ X Y : Matrix α, (X.rows = A.rows / 2 ∧ X.cols = A.rows / 2) →
      (Y.rows = A.rows / 2 ∧ Y.cols = A.rows / 2) → rec X Y = rec' X Y) :
    strassen_body rec A B = strassen_body rec' A B := by
  unfold strassen_body
  split
  · dsimp only
    split
    · rfl
    · rename_i hbig
      have hr := hrec hbig
      repeat (first
        | (refine andThen_rec_congr hr (by assumption) (by assumption) (fun P hP => ?_))
        | (refine andThen_congr (fun M hM => ?_)
           first
            | have sM := subblock_sq hM
            | have sM := add_sq hM (by assumption)
            | have sM := sub_sq hM (by assumption)
            | skip))
      rfl
  · rfl

theorem strassen_watched_fuel_eq [Zero α] [Add α] [Sub α] [Mul α] :
    ∀ (fuel : Nat) (A B : Matrix α), squarePow2 A B = true →
      strassen_watched_fuel fuel A B = strassen_fuel fuel A B
  | 0, _, _, _ => rfl
  | fuel + 1, A, B, h => by
    show (if squarePow2 A B then strassen_body (strassen_watched_fuel fuel) A B else none) =
      strassen_body (strassen_fuel fuel) A B
    rw [if_pos h]
    apply strassen_body_congr
    intro hbig X Y hX hY
    apply strassen_watched_fuel_eq fuel X Y
    obtain ⟨hs, t, ht, e⟩ := (squarePow2_iff A B).1 h
    rw [squarePow2_iff]
    refine ⟨⟨hX.1.trans hX.2.symm, hX.2.trans hY.1.symm, hY.1.trans hY.2.symm⟩, ?_⟩
    cases t with
    | zero =>
      exfalso
      apply hbig
      rw [e]
      simp [strassen_threshold]
    | succ t =>
      refine ⟨t, by omega, ?_⟩
      rw [hX.1, e, pow_succ, Nat.mul_div_cancel _ (by norm_num : 0 < 2)]

theorem next_power_of_2_loop_pow (value n : Nat) :
    ∀ (fuel t : Nat), 1 ≤ t → t ≤ 31 → next_power_of_2_loop value fuel t (2 ^ t) = some n →
      ∃ t', t' ≤ 31 ∧ n = 2 ^ t'
  | 0, _, _, _, h => by cases h
  | fuel + 1, t, h1, h2, h => by
    unfold next_power_of_2_loop at h
    split at h
    · have e1 : u32 (t + 1) = t + 1 := u32_of_lt (by omega)
      rw [e1] at h
      split at h
      · rename_i ht
        have hp2 : 2 ^ (t + 1) ≤ 2 ^ 31 := Nat.pow_le_pow_right (by norm_num) (by omega)
        have e2 : u32 (2 ^ t * 2) = 2 ^ (t + 1) := by
          rw [← pow_succ]
          apply u32_of_lt
          have : (2 : Nat) ^ 31 < 4294967296 := by norm_num
          omega
        rw [e2] at h
        exact next_power_of_2_loop_pow value n fuel (t + 1) (by omega) (by omega) h
      · cases h
    · exact ⟨t, h2, (Option.some.inj h).symm⟩

/-- C30: every call of `strassen` that comes from `multiply_strassen_static`, the recursive
calls at every level included, is on two square matrices of one size, a power of two:
`multiply_strassen_static` is the same function when every such call is watched and fails
on other arguments. On such arguments the dimension assertion of `strassen` holds, and
when the size is above the threshold it is even, so that the four blocks of half the size
cover the matrix, and matrices of half the size are such arguments again. -/
theorem strassen_calls_square_pow2 [Zero α] [Add α] [Sub α] [Mul α] (A B X Y X1 Y1 : Matrix α) :
    multiply_strassen_static A B =
      (if A.cols = B.rows then
        andThen (next_power_of_2 (max A.rows (max B.cols B.rows))) (fun n =>
        andThen ((zeros n n : Matrix α).block_add (0, 0) A) (fun new_A =>
        andThen ((zeros n n : Matrix α).block_add (0, 0) B) (fun new_B =>
        andThen (strassen_watched new_A new_B) (fun product =>
        product.subblock (0, 0) (A.rows, B.cols)))))
      else none) ∧
    (squarePow2 X Y = true →
      (X.rows = X.cols ∧ X.cols = Y.rows ∧ Y.rows = Y.cols) ∧
      (strassen_threshold < X.rows →
        X.rows / 2 + X.rows / 2 = X.rows ∧
        (X1.rows = X.rows / 2 ∧ X1.cols = X.rows / 2 ∧ Y1.rows = X.rows / 2 ∧
          Y1.cols = X.rows / 2 → squarePow2 X1 Y1 = true))) := by
  constructor
  · unfold multiply_strassen_static
    split
    · refine andThen_congr (fun n hn => ?_)
      refine andThen_congr (fun new_A hA => ?_)
      refine andThen_congr (fun new_B hB => ?_)
      have sA := blockUpdate_shape hA
      have sB := blockUpdate_shape hB
      have e : strassen new_A new_B = strassen_watched new_A new_B := by
        unfold strassen strassen_watched
        symm
        apply strassen_watched_fuel_eq
        rw [squarePow2_iff]
        obtain ⟨t, ht, e⟩ := next_power_of_2_loop_pow _ n 32 1 (le_refl _) (by norm_num) hn
        refine ⟨⟨sA.1.trans sA.2.symm, sA.2.trans sB.1.symm, sB.1.trans sB.2.symm⟩, t, ht, ?_⟩
        exact sA.1.trans e
      rw [e]
    · rfl
  · intro h
    obtain ⟨hs, t, ht, e⟩ := (squarePow2_iff X Y).1 h
    refine ⟨hs, ?_⟩
    intro hbig
    cases t with
    | zero =>
      exfalso
      rw [e] at hbig
      simp [strassen_threshold] at hbig
    | succ t =>
      have e2 : X.rows / 2 = 2 ^ t := by
        rw [e, pow_succ, Nat.mul_div_cancel _ (by norm_num : 0 < 2)]
      constructor
      · rw [e2, e, pow_succ]
        omega
      · rintro ⟨h1, h2, h3, h4⟩
        rw [squarePow2_iff]
        exact ⟨⟨h1.trans h2.symm, h2.trans h3.symm, h3.trans h4.symm⟩, t, by omega,
          h1.trans e2⟩

theorem strassen_calls_square_pow2_witness :
    (squarePow2 (zeros 256 256 : Matrix Int) (zeros 256 256) = true ∧
      strassen_threshold < (zeros 256 256 : Matrix Int).rows ∧
      (zeros 128 128 : Matrix Int).rows = (zeros 256 256 : Matrix Int).rows / 2 ∧
      (zeros 128 128 : Matrix Int).cols = (zeros 256 256 : Matrix Int).rows / 2) ∧
    multiply_strassen_static sample sample =
      (if sample.cols = sample.rows then
        andThen (next_power_of_2 (max sample.rows (max sample.cols sample.rows))) (fun n =>
        andThen ((zeros n n : Matrix Int).block_add (0, 0) sample) (fun new_A =>
        andThen ((zeros n n : Matrix Int).block_add (0, 0) sample) (fun new_B =>
        andThen (strassen_watched new_A new_B) (fun product =>
        product.subblock (0, 0) (sample.rows, sample.cols)))))
      else none) ∧
    ((zeros 256 256 : Matrix Int).rows = (zeros 256 256 : Matrix Int).cols ∧
      (zeros 256 256 : Matrix Int).cols = (zeros 256 256 : Matrix Int).rows ∧
      (zeros 256 256 : Matrix Int).rows = (zeros 256 256 : Matrix Int).cols) ∧
    (zeros 256 256 : Matrix Int).rows / 2 + (zeros 256 256 : Matrix Int).rows / 2 =
      (zeros 256 256 : Matrix Int).rows ∧
    squarePow2 (zeros 128 128 : Matrix Int) (zeros 128 128) = true :=
  ⟨⟨by decide, by decide, rfl, rfl⟩,
    (strassen_calls_square_pow2 sample sample (zeros 256 256) (zeros 256 256) (zeros 128 128)
      (zeros 128 128)).1,
    ((strassen_calls_square_pow2 sample sample (zeros 256 256) (zeros 256 256) (zeros 128 128)
      (zeros 128 128)).2 (by decide)).1,
    (((strassen_calls_square_pow2 sample sample (zeros 256 256) (zeros 256 256) (zeros 128 128)
      (zeros 128 128)).2 (by decide)).2 (by decide)).1,
    (((strassen_calls_square_pow2 sample sample (zeros 256 256) (zeros 256 256) (zeros 128 128)
      (zeros 128 128)).2 (by decide)).2 (by decide)).2 ⟨rfl, rfl, rfl, rfl⟩⟩


theorem ones201_WF : WF ones201 := WF_filled _ (by unfold Fits; decide)

theorem Polynomial.head_of_coeff [Zero α] (p : Polynomial α) (hp : p.a ≠ []) :
    p.a[0]? = some (p.coeff 0) := by
  cases hpa : p.a with
  | nil => exact absurd hpa hp
  | cons x xs => simp [Polynomial.coeff, hpa]

/-- C26: for well-formed matrices `A`, `B` of polynomials with every dimension above the
threshold (the recursive branch of `multiply_bini`, at any recursion level), with `epsilon`
the polynomial `[0, 1]`: the ten products are accumulated in a matrix `C`, the call
continues with `C /= epsilon`, and every entry of `C` has the constant coefficient zero, so
that the division drops a zero. -/
theorem bini_division_exact [CommRing α] [DecidableEq α] (A B : Matrix (Polynomial α))
    (hA : WF A) (hB : WF B) (hk : A.cols = B.rows) (hAB : Fits A.rows B.cols)
    (hr : bini_threshold < A.rows) (hc : bini_threshold < A.cols)
    (hq : bini_threshold < B.cols) :
    ∃ C, bini_accumulate
        (fun X Y => multiply_bini_fuel Polynomial.div A.cols X Y Polynomial.epsilon) A B
        Polynomial.epsilon = some C ∧
      multiply_bini Polynomial.div A B Polynomial.epsilon =
        andThen (divScalar Polynomial.div C Polynomial.epsilon)
          (fun C => dynamic_peeling A B C 2 2 3) ∧
      C.rows = A.rows ∧ C.cols = B.cols ∧ C.data.length = A.rows * B.cols ∧
      ∀ p ∈ C.data, p.a[0]? = some 0 := by
  obtain ⟨r, c, a, hFa, rfl⟩ := hA.cases
  obtain ⟨c', q, b, hFb, rfl⟩ := hB.cases
  simp only [ofFn_rows, ofFn_cols, bini_threshold] at hk hAB hr hc hq ⊢
  subst hk
  obtain ⟨S, hS⟩ := polySem_exists (α := α)
  have hE := polyEpsDiv S hS
  have hq3 : q / 3 ≤ q := Nat.div_le_self _ _
  have hr2 : r / 2 ≤ r := Nat.div_le_self _ _
  have hc2 : c / 2 ≤ c := Nat.div_le_self _ _
  obtain ⟨g, hg, hQ, hden⟩ := bini_accumulate_sem S _ _ _ _ _ hE
    (fun X Y => multiply_bini_fuel Polynomial.div c X Y Polynomial.epsilon)
    (biniSem_bilin PowerSeries.X c (r / 2) (c / 2) (q / 3))
    (biniSem_bilin PowerSeries.X c (q / 3) (c / 2) (r / 2)) a b hFa hFb hAB
    (fun a' b' X Y hX hY =>
      bini_fuel_sem S _ _ _ _ _ hE c (r / 2) (c / 2) (q / 3) a' b' X Y
        (by omega) (hFa.sub (Nat.div_le_self _ _) (Nat.div_le_self _ _))
        (hFb.sub (Nat.div_le_self _ _) (Nat.div_le_self _ _))
        (hAB.sub (Nat.div_le_self _ _) (Nat.div_le_self _ _)) hX hY)
    (fun a' b' X Y hX hY =>
      bini_fuel_sem S _ _ _ _ _ hE c (q / 3) (c / 2) (r / 2) a' b' X Y
        (by omega)
        ⟨by have := hFb.2.1; omega, by have := hFa.2.1; omega, by
          rw [Nat.mul_comm]; exact mul_le_of_le hc2 hq3 hFb.2.2⟩
        ⟨by have := hFa.2.1; omega, by have := hFa.1; omega, by
          rw [Nat.mul_comm]; exact mul_le_of_le hr2 hc2 hFa.2.2⟩
        ⟨by have := hAB.2.1; omega, by have := hAB.1; omega, by
          rw [Nat.mul_comm]; exact mul_le_of_le hr2 hq3 hAB.2.2⟩ hX hY)
  refine ⟨ofFn r q g, hg, ?_, rfl, rfl, ?_, ?_⟩
  · show bini_body Polynomial.div
      (fun X Y => multiply_bini_fuel Polynomial.div c X Y Polynomial.epsilon) (ofFn r c a)
      (ofFn c q b) Polynomial.epsilon = _
    unfold bini_body
    simp only [ofFn_rows, ofFn_cols, bini_threshold, if_true]
    rw [if_neg (by omega), if_neg (by omega), hg, andThen_some]
  · show (tab (r * q) _).length = _
    rw [tab_length]
  · intro p hp
    obtain ⟨i, j, _, _, rfl⟩ := mem_ofFn hp
    rw [Polynomial.head_of_coeff _ (hQ i j)]
    have h1 : (g i j).coeff 0 = PowerSeries.coeff α 0 (S.den (g i j)) := by
      rw [hS, PowerSeries.coeff_mk]
    rw [h1, hden i j, PowerSeries.coeff_zero_X_mul]

theorem bini_division_exact_witness :
    (WF ones201 ∧ ones201.cols = ones201.rows ∧ Fits ones201.rows ones201.cols ∧
      bini_threshold < ones201.rows ∧ bini_threshold < ones201.cols) ∧
    ∃ C, bini_accumulate
        (fun X Y => multiply_bini_fuel Polynomial.div ones201.cols X Y Polynomial.epsilon)
        ones201 ones201 Polynomial.epsilon = some C ∧
      multiply_bini Polynomial.div ones201 ones201 Polynomial.epsilon =
        andThen (divScalar Polynomial.div C Polynomial.epsilon)
          (fun C => dynamic_peeling ones201 ones201 C 2 2 3) ∧
      C.rows = ones201.rows ∧ C.cols = ones201.cols ∧
      C.data.length = ones201.rows * ones201.cols ∧
      ∀ p ∈ C.data, p.a[0]? = some 0 :=
  ⟨⟨ones201_WF, rfl, by unfold Fits; decide, by decide, by decide⟩,
    bini_division_exact ones201 ones201 ones201_WF ones201_WF rfl (by unfold Fits; decide)
      (by decide) (by decide) (by decide)⟩


section readings
variable {R R0 : Type} [CommRing R] [CommRing R0]

theorem smap_add (f : R →+* R0) (x y : Nat → Nat → R) :
    smap f (x + y) = smap f x + smap f y := by
  funext i j
  simp [smap]

theorem smap_smul (f : R →+* R0) (s : R) (x : Nat → Nat → R) :
    smap f (s • x) = f s • smap f x := by
  funext i j
  simp [smap]

theorem smap_sblk (f : R →+* R0) (sr sc : Nat) (x : Nat → Nat → R) :
    smap f (sblk sr sc x) = sblk sr sc (smap f x) := rfl

theorem smap_str (f : R →+* R0) (x : Nat → Nat → R) : smap f (str x) = str (smap f x) := rfl

theorem smap_place (f : R →+* R0) (sr sc br bc : Nat) (P : Nat → Nat → R) :
    smap f (place sr sc br bc P) = place sr sc br bc (smap f P) := by
  funext i j
  simp only [smap, place]
  split
  · rfl
  · exact map_zero f

theorem smap_sdot (f : R →+* R0) (c : Nat) (x y : Nat → Nat → R) :
    smap f (sdot c x y) = sdot c (smap f x) (smap f y) := by
  funext i j
  simp only [smap, sdot, map_sum, map_mul]

theorem smap_speel (f : R →+* R0) (n k m r c q : Nat) (x y : Nat → Nat → R) :
    smap f (speel n k m r c q x y) = speel n k m r c q (smap f x) (smap f y) := by
  funext i j
  simp only [smap, speel]
  split
  · simp only [map_sum, map_mul]
  · simp only [map_sum, map_mul]

theorem biniLevel_map (f : R →+* R0) (e : R)
    {F G : (Nat → Nat → R) → (Nat → Nat → R) → Nat → Nat → R}
    {F0 G0 : (Nat → Nat → R0) → (Nat → Nat → R0) → Nat → Nat → R0}
    (hF : ∀ x y, smap f (F x y) = F0 (smap f x) (smap f y))
    (hG : ∀ x y, smap f (G x y) = G0 (smap f x) (smap f y)) (r c q : Nat)
    (x y : Nat → Nat → R) :
    smap f (biniLevel e F G r c q x y) = biniLevel (f e) F0 G0 r c q (smap f x) (smap f y) := by
  unfold biniLevel biniBlocks
  simp only [smap_add, smap_place, smap_str, smap_smul, hF, hG, smap_sblk, smap_speel]

theorem biniSem_map (f : R →+* R0) (e : R) : ∀ (fuel r c q : Nat) (x y : Nat → Nat → R),
    smap f (biniSem e fuel r c q x y) = biniSem (f e) fuel r c q (smap f x) (smap f y)
  | 0, _, _, _, _, _ => by
    funext i j
    simp [smap, biniSem]
  | fuel + 1, r, c, q, x, y => by
    simp only [biniSem]
    split
    · exact smap_sdot f c x y
    · exact biniLevel_map f e (biniSem_map f e fuel (r / 2) (c / 2) (q / 3))
        (biniSem_map f e fuel (q / 3) (c / 2) (r / 2)) r c q x y

end readings

theorem fieldEpsDiv [Field α] (eps : α) (h : eps ≠ 0) :
    EpsDiv (Sem.self α) (fun _ => True) (fun x y => some (x / y)) eps eps
      (fun t => t / eps) where
  den_eps := rfl
  Q_zero := trivial
  Q_add := fun _ _ _ => trivial
  Q_sub := fun _ _ _ => trivial
  div_ok := fun p _ => ⟨p / eps, rfl, trivial, rfl⟩
  D_eps := fun t => mul_div_cancel_left₀ t h
  D_add := fun u v => add_div u v eps
  D_sub := fun u v => sub_div u v eps

theorem bini_approx_aux [Field α] {r c q : Nat} (a b : Nat → Nat → α) (hFa : Fits r c)
    (hFb : Fits c q) (hAB : Fits r q) :
    ∃ (deg : Nat → Nat → Nat) (coef : Nat → Nat → Nat → α), ∀ eps : α, eps ≠ 0 →
      ∃ p, multiply_bini (fun x y => some (x / y)) (ofFn r c a) (ofFn c q b) eps =
          some (ofFn r q p) ∧
        ∀ i j, i < r → j < q → p i j =
          Finset.sum (Finset.range c) (fun l => a i l * b l j) +
            eps * Finset.sum (Finset.range (deg i j)) (fun t => coef i j t * eps ^ t) := by
  let m := biniSem (Polynomial.X : _) (c + 1) r c q (smap Polynomial.C a) (smap Polynomial.C b)
  refine ⟨fun i j => (Polynomial.divX (m i j)).natDegree + 1,
    fun i j t => (Polynomial.divX (m i j)).coeff t, ?_⟩
  intro eps heps
  obtain ⟨p, hp, ep⟩ := bini_fuel_sem (Sem.self α) _ _ eps eps _ (fieldEpsDiv eps heps) (c + 1)
    r c q a b a b (Nat.lt_succ_self _) hFa hFb hAB (fun _ _ => rfl) (fun _ _ => rfl)
  refine ⟨p, hp, ?_⟩
  intro i j hi hj
  have h1 : p i j = biniSem eps (c + 1) r c q a b i j := (ep i j hi hj).2
  have h2 := congrFun (congrFun (biniSem_map (Polynomial.evalRingHom eps) Polynomial.X (c + 1)
    r c q (smap Polynomial.C a) (smap Polynomial.C b)) i) j
  have ea : smap (Polynomial.evalRingHom eps) (smap Polynomial.C a) = a := by
    funext i j
    simp [smap]
  have eb : smap (Polynomial.evalRingHom eps) (smap Polynomial.C b) = b := by
    funext i j
    simp [smap]
  rw [ea, eb] at h2
  have e3 : (Polynomial.evalRingHom eps) Polynomial.X = eps := by simp
  rw [e3] at h2
  rw [h1, ← h2]
  show Polynomial.eval eps (m i j) = _
  have h3 := biniSem_mod Polynomial.constantCoeff (Polynomial.X : _) (by simp)
    (c + 1) r c q (Nat.lt_succ_self _) (smap Polynomial.C a) (smap Polynomial.C b) i j hi hj
  have h4 : (m i j).coeff 0 = Finset.sum (Finset.range c) (fun l => a i l * b l j) := by
    rw [← Polynomial.constantCoeff_apply]
    rw [h3]
    apply Finset.sum_congr rfl
    intro l _
    simp [smap]
  conv_lhs => rw [← Polynomial.divX_mul_X_add (m i j)]
  rw [Polynomial.eval_add, Polynomial.eval_mul, Polynomial.eval_X, Polynomial.eval_C, h4,
    Polynomial.eval_eq_sum_range, add_comm, mul_comm]

/-- C24: approximate mode over a field. For well-formed `A` and `B` with `A.cols = B.rows`
whose product shape fits the size type, there are polynomials `R i j` in epsilon, given by
coefficients `coef i j t` for `t < deg i j` that depend on `A` and `B` only, such that for
every `eps != 0` the call `multiply_bini(A, B, eps)` with the division of the field returns
a matrix whose entry `(i, j)` is the entry of the classic product plus `eps * R i j (eps)`;
this holds at every size, so at every recursion depth. -/
theorem multiply_bini_converges [Field α] (A B : Matrix α) (hA : WF A) (hB : WF B)
    (hk : A.cols = B.rows) (hAB : Fits A.rows B.cols) :
    ∃ C0, multiply_classic A B = some C0 ∧
      ∃ (deg : Nat → Nat → Nat) (coef : Nat → Nat → Nat → α), ∀ eps : α, eps ≠ 0 →
        ∃ C, multiply_bini (fun x y => some (x / y)) A B eps = some C ∧
          C.rows = A.rows ∧ C.cols = B.cols ∧
          ∀ i j, i < A.rows → j < B.cols → entry C i j = entry C0 i j +
            eps * Finset.sum (Finset.range (deg i j)) (fun t => coef i j t * eps ^ t) := by
  obtain ⟨r, c, a, hFa, rfl⟩ := hA.cases
  obtain ⟨c', q, b, hFb, rfl⟩ := hB.cases
  simp only [ofFn_rows, ofFn_cols] at hk hAB ⊢
  subst hk
  refine ⟨_, multiply_classic_ofFn a b hFa hFb hAB, ?_⟩
  obtain ⟨deg, coef, h⟩ := bini_approx_aux a b hFa hFb hAB
  refine ⟨deg, coef, ?_⟩
  intro eps heps
  obtain ⟨p, hp, ep⟩ := h eps heps
  refine ⟨_, hp, rfl, rfl, ?_⟩
  intro i j hi hj
  rw [entry_ofFn _ hi hj, entry_ofFn _ hi hj, ep i j hi hj, dotAcc_eq_sum]

theorem sampleQ_WF : WF sampleQ := by
  refine ⟨⟨?_, ?_, ?_⟩, ?_⟩ <;> simp [sampleQ, ofData]

theorem multiply_bini_converges_witness :
    (WF sampleQ ∧ sampleQ.cols = sampleQ.rows ∧ Fits sampleQ.rows sampleQ.cols) ∧
    ∃ C0, multiply_classic sampleQ sampleQ = some C0 ∧
      ∃ (deg : Nat → Nat → Nat) (coef : Nat → Nat → Nat → ℚ), ∀ eps : ℚ, eps ≠ 0 →
        ∃ C, multiply_bini (fun x y => some (x / y)) sampleQ sampleQ eps = some C ∧
          C.rows = sampleQ.rows ∧ C.cols = sampleQ.cols ∧
          ∀ i j, i < sampleQ.rows → j < sampleQ.cols → entry C i j = entry C0 i j +
            eps * Finset.sum (Finset.range (deg i j)) (fun t => coef i j t * eps ^ t) :=
  ⟨⟨sampleQ_WF, rfl, by unfold Fits; decide⟩,
    multiply_bini_converges sampleQ sampleQ sampleQ_WF sampleQ_WF rfl (by unfold Fits; decide)⟩


theorem andThen_assoc {β γ δ : Type} (x : Option β) (f : β → Option γ) (g : γ → Option δ) :
    andThen (andThen x f) g = andThen x (fun a => andThen (f a) g) := by
  cases x with
  | none => rfl
  | some a => rfl

/-- The body of the loop over `j` in terms of the matrices `U`, `V` and `U + V - W`: `V` is
divided by `epsilon` and `U + V - W` by `epsilon2`. -/
theorem schonhage_step_eq [Zero α] [Add α] [Sub α] [Mul α] (sdiv : α → α → Option α)
    (recurse : Matrix α → Matrix α → Option (Matrix α)) (epsilon epsilon2 : α)
    (A B : Nat → Nat → Matrix α) (i : Nat) (W : Matrix α) (j : Nat)
    (C : Nat → Nat → Matrix α) :
    schonhage_step sdiv recurse epsilon epsilon2 A B i W j C =
      andThen (schonhage_U recurse epsilon epsilon2 A B i j) (fun U =>
      andThen (schonhage_V recurse epsilon epsilon2 A B i j) (fun V =>
      andThen (divScalar sdiv V epsilon) (fun Vd =>
      andThen (if j = i then
          forLoop (fun k C =>
            if k ≠ j then andThen ((C j k).sub Vd) (fun M => some (setGrid C j k M))
            else some C) 3 0 C
        else andThen ((C i j).add Vd) (fun M => some (setGrid C i j M))) (fun C =>
      andThen (schonhage_UVW U V W) (fun T =>
      andThen (divScalar sdiv T epsilon2) (fun Td =>
      andThen ((C j i).add Td) (fun M =>
      some (setGrid C j i M)))))))) := by
  unfold schonhage_step schonhage_U schonhage_V schonhage_UVW
  by_cases h : j = i
  · simp only [if_pos h, andThen_assoc, andThen_some]
  · simp only [if_neg h, andThen_assoc, andThen_some]

/-- The start of the loop over `i` in terms of the matrix `W`. -/
theorem schonhage_W_eq [Add α] {γ : Type} (recurse : Matrix α → Matrix α → Option (Matrix α))
    (A B : Nat → Nat → Matrix α) (i : Nat) (f : Matrix α → Option γ) :
    andThen ((B 1 i).add (B 2 i)) (fun Y => andThen (recurse (A i 0) Y) f) =
      andThen (schonhage_W recurse A B i) f := by
  unfold schonhage_W
  rw [andThen_assoc]

section sem
variable {R : Type} [Zero α] [Add α] [Sub α] [Mul α] [CommRing R] (S : Sem α R)

theorem schonhage_W_sem (Q : α → Prop)
    (recurse : Matrix α → Matrix α → Option (Matrix α))
    {F : (Nat → Nat → R) → (Nat → Nat → R) → Nat → Nat → R} {h k w : Nat}
    (hrF : ∀ (a' b' : Nat → Nat → α) (X Y : Nat → Nat → R),
      (∀ i l, S.den (a' i l) = X i l) → (∀ l j, S.den (b' l j) = Y l j) →
      ∃ p, recurse (ofFn h k a') (ofFn k w b') = some (ofFn h w p) ∧
        ∀ i j, i < h → j < w → Q (p i j) ∧ S.den (p i j) = F X Y i j)
    (A B : Nat → Nat → Matrix α) (ga gb : Nat → Nat → Nat → Nat → α)
    (hA : ∀ i j, i < 3 → j < 3 → A i j = ofFn h k (ga i j))
    (hB : ∀ i j, i < 3 → j < 3 → B i j = ofFn k w (gb i j)) (i : Nat) (hi : i < 3) :
    ∃ p, schonhage_W recurse A B i = some (ofFn h w p) ∧
      ∀ x y, x < h → y < w → Q (p x y) ∧ S.den (p x y) =
        F (fun x l => S.den (ga i 0 x l))
          ((fun l y => S.den (gb 1 i l y)) + (fun l y => S.den (gb 2 i l y))) x y := by
  unfold schonhage_W
  rw [hA i 0 hi (by omega), hB 1 i (by omega) hi, hB 2 i (by omega) hi, add_ofFn,
    andThen_some]
  exact hrF _ _ _ _ (fun _ _ => rfl) (fun l y => by
    rw [S.den_add]
    rfl)

theorem schonhage_U_sem (Q : α → Prop)
    (recurse : Matrix α → Matrix α → Option (Matrix α)) (eps : α) (e : R)
    (he : S.den eps = e)
    {F : (Nat → Nat → R) → (Nat → Nat → R) → Nat → Nat → R} {h k w : Nat}
    (hrF : ∀ (a' b' : Nat → Nat → α) (X Y : Nat → Nat → R),
      (∀ i l, S.den (a' i l) = X i l) → (∀ l j, S.den (b' l j) = Y l j) →
      ∃ p, recurse (ofFn h k a') (ofFn k w b') = some (ofFn h w p) ∧
        ∀ i j, i < h → j < w → Q (p i j) ∧ S.den (p i j) = F X Y i j)
    (A B : Nat → Nat → Matrix α) (ga gb : Nat → Nat → Nat → Nat → α)
    (hA : ∀ i j, i < 3 → j < 3 → A i j = ofFn h k (ga i j))
    (hB : ∀ i j, i < 3 → j < 3 → B i j = ofFn k w (gb i j)) (i j : Nat) (hi : i < 3)
    (hj : j < 3) :
    ∃ p, schonhage_U recurse eps (eps * eps) A B i j = some (ofFn h w p) ∧
      ∀ x y, x < h → y < w → Q (p x y) ∧ S.den (p x y) =
        (if j = i then
          F ((fun x l => S.den (ga i 0 x l)) + (e * e) • (fun x l => S.den (ga i 1 x l)))
            ((e * e) • (fun l y => S.den (gb 0 i l y)) + (fun l y => S.den (gb 1 i l y)))
        else
          F ((fun x l => S.den (ga i 0 x l)) + (e * e) • (fun x l => S.den (ga j 1 x l)))
            ((fun l y => S.den (gb 1 i l y)) - e • (fun l y => S.den (gb 0 j l y)))) x y := by
  unfold schonhage_U
  by_cases hji : j = i
  · simp only [if_pos hji]
    rw [hA i 0 hi (by omega), hA i 1 hi (by omega), hB 0 i (by omega) hi,
      hB 1 i (by omega) hi, smul_ofFn, smul_ofFn, add_ofFn, andThen_some, add_ofFn,
      andThen_some]
    exact hrF _ _ _ _
      (fun x l => by
        simp only [S.den_add, S.den_mul, he, Pi.add_apply, Pi.smul_apply, smul_eq_mul]
        ring)
      (fun l y => by
        simp only [S.den_add, S.den_mul, he, Pi.add_apply, Pi.smul_apply, smul_eq_mul]
        ring)
  · simp only [if_neg hji]
    rw [hA i 0 hi (by omega), hA j 1 hj (by omega), hB 0 j (by omega) hj,
      hB 1 i (by omega) hi, smul_ofFn, smul_ofFn, add_ofFn, andThen_some, sub_ofFn,
      andThen_some]
    exact hrF _ _ _ _
      (fun x l => by
        simp only [S.den_add, S.den_mul, he, Pi.add_apply, Pi.smul_apply, smul_eq_mul]
        ring)
      (fun l y => by
        simp only [S.den_sub, S.den_mul, he, Pi.sub_apply, Pi.smul_apply, smul_eq_mul]
        ring)

theorem schonhage_V_sem (Q : α → Prop)
    (recurse : Matrix α → Matrix α → Option (Matrix α)) (eps : α) (e : R)
    (he : S.den eps = e)
    {F : (Nat → Nat → R) → (Nat → Nat → R) → Nat → Nat → R} {h k w : Nat}
    (hrF : ∀ (a' b' : Nat → Nat → α) (X Y : Nat → Nat → R),
      (∀ i l, S.den (a' i l) = X i l) → (∀ l j, S.den (b' l j) = Y l j) →
      ∃ p, recurse (ofFn h k a') (ofFn k w b') = some (ofFn h w p) ∧
        ∀ i j, i < h → j < w → Q (p i j) ∧ S.den (p i j) = F X Y i j)
    (A B : Nat → Nat → Matrix α) (ga gb : Nat → Nat → Nat → Nat → α)
    (hA : ∀ i j, i < 3 → j < 3 → A i j = ofFn h k (ga i j))
    (hB : ∀ i j, i < 3 → j < 3 → B i j = ofFn k w (gb i j)) (i j : Nat) (hi : i < 3)
    (hj : j < 3) :
    ∃ p, schonhage_V recurse eps (eps * eps) A B i j = some (ofFn h w p) ∧
      ∀ x y, x < h → y < w → Q (p x y) ∧ S.den (p x y) =
        (if j = i then
          F ((fun x l => S.den (ga i 0 x l)) + (e * e) • (fun x l => S.den (ga i 2 x l)))
            (fun l y => S.den (gb 2 i l y))
        else
          F ((fun x l => S.den (ga i 0 x l)) + (e * e) • (fun x l => S.den (ga j 2 x l)))
            ((fun l y => S.den (gb 2 i l y)) + e • (fun l y => S.den (gb 0 j l y)))) x y := by
  unfold schonhage_V
  by_cases hji : j = i
  · simp only [if_pos hji]
    rw [hA i 0 hi (by omega), hA i 2 hi (by omega), hB 2 i (by omega) hi, smul_ofFn,
      add_ofFn, andThen_some]
    exact hrF _ _ _ _
      (fun x l => by
        simp only [S.den_add, S.den_mul, he, Pi.add_apply, Pi.smul_apply, smul_eq_mul]
        ring)
      (fun l y => rfl)
  · simp only [if_neg hji]
    rw [hA i 0 hi (by omega), hA j 2 hj (by omega), hB 0 j (by omega) hj,
      hB 2 i (by omega) hi, smul_ofFn, smul_ofFn, add_ofFn, andThen_some, add_ofFn,
      andThen_some]
    exact hrF _ _ _ _
      (fun x l => by
        simp only [S.den_add, S.den_mul, he, Pi.add_apply, Pi.smul_apply, smul_eq_mul]
        ring)
      (fun l y => by
        simp only [S.den_add, S.den_mul, he, Pi.add_apply, Pi.smul_apply, smul_eq_mul]
        ring)

/-- The matrices of one iteration `(i, j)` on readings: `U + V - W` is a multiple of
`e * e`, and `Vij` differs from `Vii` by a multiple of `e`. -/
theorem schonhage_iteration_sem (Q : α → Prop) (hQa : ∀ a b, Q a → Q (a + b))
    (hQs : ∀ a b, Q a → Q (a - b))
    (recurse : Matrix α → Matrix α → Option (Matrix α)) (eps : α) (e : R)
    (he : S.den eps = e)
    {F : (Nat → Nat → R) → (Nat → Nat → R) → Nat → Nat → R} (hF : Bilin F) {h k w : Nat}
    (hrF : ∀ (a' b' : Nat → Nat → α) (X Y : Nat → Nat → R),
      (∀ i l, S.den (a' i l) = X i l) → (∀ l j, S.den (b' l j) = Y l j) →
      ∃ p, recurse (ofFn h k a') (ofFn k w b') = some (ofFn h w p) ∧
        ∀ i j, i < h → j < w → Q (p i j) ∧ S.den (p i j) = F X Y i j)
    (A B : Nat → Nat → Matrix α) (ga gb : Nat → Nat → Nat → Nat → α)
    (hA : ∀ i j, i < 3 → j < 3 → A i j = ofFn h k (ga i j))
    (hB : ∀ i j, i < 3 → j < 3 → B i j = ofFn k w (gb i j)) (i j : Nat) (hi : i < 3)
    (hj : j < 3) :
    ∃ (pw pu pv pvi pt : Nat → Nat → α) (G G' : Nat → Nat → R),
      schonhage_W recurse A B i = some (ofFn h w pw) ∧
      schonhage_U recurse eps (eps * eps) A B i j = some (ofFn h w pu) ∧
      schonhage_V recurse eps (eps * eps) A B i j = some (ofFn h w pv) ∧
      schonhage_V recurse eps (eps * eps) A B i i = some (ofFn h w pvi) ∧
      schonhage_UVW (ofFn h w pu) (ofFn h w pv) (ofFn h w pw) = some (ofFn h w pt) ∧
      ∀ x y, x < h → y < w →
        Q (pt x y) ∧ S.den (pt x y) = e * (e * G x y) ∧
        Q (pv x y) ∧ Q (pvi x y) ∧ S.den (pv x y) = S.den (pvi x y) + e * G' x y := by
  obtain ⟨pw, hw, ew⟩ := schonhage_W_sem S Q recurse hrF A B ga gb hA hB i hi
  obtain ⟨pu, hu, eu⟩ := schonhage_U_sem S Q recurse eps e he hrF A B ga gb hA hB i j hi hj
  obtain ⟨pv, hv, ev⟩ := schonhage_V_sem S Q recurse eps e he hrF A B ga gb hA hB i j hi hj
  obtain ⟨pvi, hvi, evi⟩ := schonhage_V_sem S Q recurse eps e he hrF A B ga gb hA hB i i hi hi
  have hsub := Bilin.sub_right hF
  simp only [if_true] at evi
  by_cases hji : j = i
  · subst hji
    simp only [if_true] at eu ev
    refine ⟨pw, pu, pv, pvi, fun x y => pu x y + pv x y - pw x y,
      F (fun x l => S.den (ga j 0 x l)) (fun l y => S.den (gb 0 j l y)) +
        (e * e) • F (fun x l => S.den (ga j 1 x l)) (fun l y => S.den (gb 0 j l y)) +
        F (fun x l => S.den (ga j 1 x l)) (fun l y => S.den (gb 1 j l y)) +
        F (fun x l => S.den (ga j 2 x l)) (fun l y => S.den (gb 2 j l y)),
      fun _ _ => 0, hw, hu, hv, hvi, ?_, ?_⟩
    · unfold schonhage_UVW
      rw [add_ofFn, andThen_some, sub_ofFn]
    · intro x y hx hy
      refine ⟨hQs _ _ (hQa _ _ (eu x y hx hy).1), ?_, (ev x y hx hy).1, (evi x y hx hy).1, ?_⟩
      · rw [S.den_sub, S.den_add, (eu x y hx hy).2, (ev x y hx hy).2, (ew x y hx hy).2]
        simp only [hF.add_left, hF.add_right, hF.smul_left, hF.smul_right, Pi.add_apply,
          Pi.smul_apply, smul_eq_mul]
        ring
      · rw [(ev x y hx hy).2, (evi x y hx hy).2]
        ring
  · simp only [if_neg hji] at eu ev
    refine ⟨pw, pu, pv, pvi, fun x y => pu x y + pv x y - pw x y,
      F (fun x l => S.den (ga j 1 x l)) (fun l y => S.den (gb 1 i l y)) +
        F (fun x l => S.den (ga j 2 x l)) (fun l y => S.den (gb 2 i l y)) +
        e • (F (fun x l => S.den (ga j 2 x l)) (fun l y => S.den (gb 0 j l y)) -
          F (fun x l => S.den (ga j 1 x l)) (fun l y => S.den (gb 0 j l y))),
      F (fun x l => S.den (ga i 0 x l)) (fun l y => S.den (gb 0 j l y)) +
        e • F (fun x l => S.den (ga j 2 x l)) (fun l y => S.den (gb 2 i l y)) +
        (e * e) • F (fun x l => S.den (ga j 2 x l)) (fun l y => S.den (gb 0 j l y)) -
        e • F (fun x l => S.den (ga i 2 x l)) (fun l y => S.den (gb 2 i l y)),
      hw, hu, hv, hvi, ?_, ?_⟩
    · unfold schonhage_UVW
      rw [add_ofFn, andThen_some, sub_ofFn]
    · intro x y hx hy
      refine ⟨hQs _ _ (hQa _ _ (eu x y hx hy).1), ?_, (ev x y hx hy).1, (evi x y hx hy).1, ?_⟩
      · rw [S.den_sub, S.den_add, (eu x y hx hy).2, (ev x y hx hy).2, (ew x y hx hy).2]
        simp only [hF.add_left, hF.add_right, hF.smul_left, hF.smul_right, hsub,
          Pi.add_apply, Pi.sub_apply, Pi.smul_apply, smul_eq_mul]
        ring
      · rw [(ev x y hx hy).2, (evi x y hx hy).2]
        simp only [hF.add_left, hF.add_right, hF.smul_left, hF.smul_right,
          Pi.add_apply, Pi.sub_apply, Pi.smul_apply, smul_eq_mul]
        ring

end sem

theorem off3_le (h i : Nat) (hi : i < 3) : off3 h i + h ≤ 3 * h := by
  interval_cases i <;> simp [off3] <;> omega

theorem filled_eq {r c : Nat} (v : α) (h : Fits r c) : filled r c v = ofFn r c (fun _ _ => v) := by
  unfold filled ofFn
  rw [u32_of_lt h.2.2, replicate_eq_tab]

theorem grid_ofFn [Zero α] [Add α] {r c : Nat} (a : Nat → Nat → α) (hF : Fits r c)
    (A : Nat → Nat → Matrix α)
    (hg : ∀ i j, i < 3 → j < 3 →
      (ofFn r c a).subblock (off3 (r / 3) i, off3 (c / 3) j) (r / 3, c / 3) = some (A i j)) :
    ∀ i j, i < 3 → j < 3 → A i j =
      ofFn (r / 3) (c / 3) (fun x y => 0 + a (off3 (r / 3) i + x) (off3 (c / 3) j + y)) := by
  intro i j hi hj
  have h1 := off3_le (r / 3) i hi
  have h2 := off3_le (c / 3) j hj
  have h3 : r / 3 * 3 ≤ r := Nat.div_mul_le_self r 3
  have h4 : c / 3 * 3 ≤ c := Nat.div_mul_le_self c 3
  have := hg i j hi hj
  rw [subblock_ofFn a hF (show off3 (r / 3) i + r / 3 ≤ r by omega)
    (show off3 (c / 3) j + c / 3 ≤ c by omega)] at this
  exact (Option.some.inj this).symm

/-- C27 (as amended): for well-formed matrices `A_`, `B_` of polynomials with every
dimension above the threshold (the recursive branch of `multiply_schonhage`, at any
recursion level), with `epsilon` the polynomial `[0, 1]` and `A`, `B` the vectors of the
nine blocks: in every iteration `(i, j)` the products `W`, `U`, `V` are returned, every
entry of the matrix `U + V - W`, which is divided by `epsilon2`, has the coefficients zero
at the positions 0 and 1, and every entry of `V`, which is divided by `epsilon`, has the
constant coefficient of the same entry of `Vii`. -/
theorem schonhage_divisions [CommRing α] [DecidableEq α] (A_ B_ : Matrix (Polynomial α))
    (A B : Nat → Nat → Matrix (Polynomial α)) (i j : Nat) (hA : WF A_) (hB : WF B_)
    (hk : A_.cols = B_.rows) (hAB : Fits A_.rows B_.cols)
    (hr : schonhage_threshold < A_.rows) (hc : schonhage_threshold < A_.cols)
    (hq : schonhage_threshold < B_.cols)
    (hgA : ∀ s t, s < 3 → t < 3 →
      A_.subblock (off3 (A_.rows / 3) s, off3 (A_.cols / 3) t) (A_.rows / 3, A_.cols / 3) =
        some (A s t))
    (hgB : ∀ s t, s < 3 → t < 3 →
      B_.subblock (off3 (B_.rows / 3) s, off3 (B_.cols / 3) t) (B_.rows / 3, B_.cols / 3) =
        some (B s t))
    (hi : i < 3) (hj : j < 3) :
    ∃ W U V Vii T,
      schonhage_W
        (fun X Y => multiply_schonhage_fuel Polynomial.div A_.rows X Y Polynomial.epsilon)
        A B i = some W ∧
      schonhage_U
        (fun X Y => multiply_schonhage_fuel Polynomial.div A_.rows X Y Polynomial.epsilon)
        Polynomial.epsilon (Polynomial.epsilon * Polynomial.epsilon) A B i j = some U ∧
      schonhage_V
        (fun X Y => multiply_schonhage_fuel Polynomial.div A_.rows X Y Polynomial.epsilon)
        Polynomial.epsilon (Polynomial.epsilon * Polynomial.epsilon) A B i j = some V ∧
      schonhage_V
        (fun X Y => multiply_schonhage_fuel Polynomial.div A_.rows X Y Polynomial.epsilon)
        Polynomial.epsilon (Polynomial.epsilon * Polynomial.epsilon) A B i i = some Vii ∧
      schonhage_UVW U V W = some T ∧
      T.data.length = A_.rows / 3 * (B_.cols / 3) ∧
      (∀ p ∈ T.data, p.a ≠ [] ∧ p.coeff 0 = 0 ∧ p.coeff 1 = 0) ∧
      V.cols = B_.cols / 3 ∧ Vii.cols = B_.cols / 3 ∧
      ∀ x y, x < A_.rows / 3 → y < B_.cols / 3 →
        (entry V x y).a ≠ [] ∧ (entry V x y).coeff 0 = (entry Vii x y).coeff 0 := by
  obtain ⟨r, c, a, hFa, rfl⟩ := hA.cases
  obtain ⟨c', q, b, hFb, rfl⟩ := hB.cases
  simp only [ofFn_rows, ofFn_cols, schonhage_threshold] at hk hAB hr hc hq hgA hgB ⊢
  subst hk
  obtain ⟨S, hS⟩ := polySem_exists (α := α)
  have hE := polyEpsDiv S hS
  have hE2 := polyEps2Div S hS
  have hA' := grid_ofFn a hFa A hgA
  have hB' := grid_ofFn b hFb B hgB
  obtain ⟨pw, pu, pv, pvi, pt, G, G', hw, hu, hv, hvi, ht, e⟩ :=
    schonhage_iteration_sem S _ hE.Q_add hE.Q_sub
      (fun X Y => multiply_schonhage_fuel Polynomial.div r X Y Polynomial.epsilon)
      Polynomial.epsilon PowerSeries.X hE.den_eps
      (schonSem_bilin PowerSeries.X r (r / 3) (c / 3) (q / 3))
      (fun a' b' X Y hX hY =>
        schonhage_fuel_sem S _ _ _ _ _ _ hE hE2 r (r / 3) (c / 3) (q / 3) a' b' X Y
          (by omega) (hFa.sub (Nat.div_le_self _ _) (Nat.div_le_self _ _))
          (hFb.sub (Nat.div_le_self _ _) (Nat.div_le_self _ _))
          (hAB.sub (Nat.div_le_self _ _) (Nat.div_le_self _ _)) hX hY)
      A B _ _ hA' hB' i j hi hj
  refine ⟨_, _, _, _, _, hw, hu, hv, hvi, ht, tab_length _ _, ?_, rfl, rfl, ?_⟩
  · intro p hp
    obtain ⟨x, y, hx, hy, rfl⟩ := mem_ofFn hp
    obtain ⟨h1, h2, -⟩ := e x y hx hy
    have c0 : ∀ n, (pt x y).coeff n = PowerSeries.coeff α n (S.den (pt x y)) := by
      intro n
      rw [hS, PowerSeries.coeff_mk]
    refine ⟨h1, ?_, ?_⟩
    · rw [c0, h2, PowerSeries.coeff_zero_X_mul]
    · rw [c0, h2, PowerSeries.coeff_succ_X_mul, PowerSeries.coeff_zero_X_mul]
  · intro x y hx hy
    obtain ⟨-, -, h3, -, h5⟩ := e x y hx hy
    rw [entry_ofFn _ hx hy, entry_ofFn _ hx hy]
    refine ⟨h3, ?_⟩
    have c0 : ∀ p : Polynomial α, p.coeff 0 = PowerSeries.coeff α 0 (S.den p) := by
      intro p
      rw [hS, PowerSeries.coeff_mk]
    rw [c0, c0, h5, map_add, PowerSeries.coeff_zero_X_mul, add_zero]

theorem ones201_blocks (i j : Nat) (hi : i < 3) (hj : j < 3) :
    ones201.subblock (off3 67 i, off3 67 j) (67, 67) = some ones67 := by
  have hF : Fits 201 201 := by unfold Fits; decide
  have hF2 : Fits 67 67 := by unfold Fits; decide
  have h1 := off3_le 67 i hi
  have h2 := off3_le 67 j hj
  unfold ones201 ones67
  rw [filled_eq _ hF, filled_eq _ hF2,
    subblock_ofFn _ hF (show off3 67 i + 67 ≤ 201 by omega)
      (show off3 67 j + 67 ≤ 201 by omega)]
  rfl

theorem dotAcc_ones : ∀ n : Nat,
    dotAcc (fun _ => (⟨[1, 0, 1]⟩ : Polynomial Int)) (fun _ => ⟨[1]⟩) (n + 1) =
      ⟨[(n : Int) + 1, 0, (n : Int) + 1]⟩
  | 0 => by decide
  | n + 1 => by
    show dotAcc _ _ (n + 1) + (⟨[1, 0, 1]⟩ : Polynomial Int) * ⟨[1]⟩ = _
    rw [dotAcc_ones n]
    show Polynomial.add ⟨[(n : Int) + 1, 0, (n : Int) + 1]⟩
      (Polynomial.mul ⟨[1, 0, 1]⟩ ⟨[1]⟩) = _
    have e : Polynomial.mul (⟨[1, 0, 1]⟩ : Polynomial Int) ⟨[1]⟩ = ⟨[1, 0, 1]⟩ := by decide
    rw [e]
    simp [Polynomial.add, Polynomial.zipAssign, Polynomial.padTo, forPure]

/-- C27, the counterexample: on the 201 x 201 matrices of ones, whose nine blocks are the
67 x 67 matrices of ones, the product `V` of the iteration `i = j = 0`, which is divided by
`epsilon`, is the matrix with every entry `67 + 67 epsilon^2`: its constant coefficients
are `67`, not zero (the dimensions `201` are above the threshold). -/
theorem schonhage_division_counterexample :
    (WF ones201 ∧ schonhage_threshold < ones201.rows ∧ schonhage_threshold < ones201.cols) ∧
    (∀ i j, i < 3 → j < 3 →
      ones201.subblock (off3 (ones201.rows / 3) i, off3 (ones201.cols / 3) j)
        (ones201.rows / 3, ones201.cols / 3) = some ones67) ∧
    schonhage_V
      (fun X Y => multiply_schonhage_fuel Polynomial.div ones201.rows X Y Polynomial.epsilon)
      Polynomial.epsilon (Polynomial.epsilon * Polynomial.epsilon) (fun _ _ => ones67)
      (fun _ _ => ones67) 0 0 = some (filled 67 67 ⟨[67, 0, 67]⟩) ∧
    ∃ p ∈ (filled 67 67 (⟨[67, 0, 67]⟩ : Polynomial Int)).data, p.coeff 0 = 67 := by
  have hF2 : Fits 67 67 := by unfold Fits; decide
  refine ⟨⟨ones201_WF, by decide, by decide⟩, ones201_blocks, ?_, ⟨[67, 0, 67]⟩, ?_, rfl⟩
  · unfold schonhage_V
    rw [if_pos rfl]
    unfold ones67
    rw [filled_eq _ hF2, filled_eq _ hF2, smul_ofFn, add_ofFn, andThen_some]
    show schonhage_body Polynomial.div _ _ _ _ = _
    unfold schonhage_body
    simp only [ofFn_rows, ofFn_cols, if_true]
    rw [if_neg (by decide), if_pos (by decide), multiply_classic_ofFn _ _ hF2 hF2 hF2]
    refine congrArg some (ofFn_congr ?_)
    intro x y _ _
    have e1 : Polynomial.const (1 : Int) +
        Polynomial.const 1 * (Polynomial.epsilon * Polynomial.epsilon) = ⟨[1, 0, 1]⟩ := by
      decide
    rw [e1]
    exact dotAcc_ones 66
  · rw [filled_eq _ hF2]
    exact ofFn_mem _ (show 0 < 67 by decide) (show 0 < 67 by decide)

theorem schonhage_divisions_witness :
    (WF ones201 ∧ ones201.cols = ones201.rows ∧ Fits ones201.rows ones201.cols ∧
      schonhage_threshold < ones201.rows ∧ schonhage_threshold < ones201.cols ∧
      (∀ i j, i < 3 → j < 3 →
        ones201.subblock (off3 (ones201.rows / 3) i, off3 (ones201.cols / 3) j)
          (ones201.rows / 3, ones201.cols / 3) = some ones67) ∧ 1 < 3 ∧ 2 < 3) ∧
    ∃ W U V Vii T,
      schonhage_W
        (fun X Y => multiply_schonhage_fuel Polynomial.div ones201.rows X Y
          Polynomial.epsilon)
        (fun _ _ => ones67) (fun _ _ => ones67) 1 = some W ∧
      schonhage_U
        (fun X Y => multiply_schonhage_fuel Polynomial.div ones201.rows X Y
          Polynomial.epsilon)
        Polynomial.epsilon (Polynomial.epsilon * Polynomial.epsilon) (fun _ _ => ones67)
        (fun _ _ => ones67) 1 2 = some U ∧
      schonhage_V
        (fun X Y => multiply_schonhage_fuel Polynomial.div ones201.rows X Y
          Polynomial.epsilon)
        Polynomial.epsilon (Polynomial.epsilon * Polynomial.epsilon) (fun _ _ => ones67)
        (fun _ _ => ones67) 1 2 = some V ∧
      schonhage_V
        (fun X Y => multiply_schonhage_fuel Polynomial.div ones201.rows X Y
          Polynomial.epsilon)
        Polynomial.epsilon (Polynomial.epsilon * Polynomial.epsilon) (fun _ _ => ones67)
        (fun _ _ => ones67) 1 1 = some Vii ∧
      schonhage_UVW U V W = some T ∧
      T.data.length = ones201.rows / 3 * (ones201.cols / 3) ∧
      (∀ p ∈ T.data, p.a ≠ [] ∧ p.coeff 0 = 0 ∧ p.coeff 1 = 0) ∧
      V.cols = ones201.cols / 3 ∧ Vii.cols = ones201.cols / 3 ∧
      ∀ x y, x < ones201.rows / 3 → y < ones201.cols / 3 →
        (entry V x y).a ≠ [] ∧ (entry V x y).coeff 0 = (entry Vii x y).coeff 0 :=
  ⟨⟨ones201_WF, rfl, by unfold Fits; decide, by decide, by decide, ones201_blocks,
      by decide, by decide⟩,
    schonhage_divisions ones201 ones201 (fun _ _ => ones67) (fun _ _ => ones67) 1 2
      ones201_WF ones201_WF rfl (by unfold Fits; decide) (by decide) (by decide) (by decide)
      ones201_blocks ones201_blocks (by decide) (by decide)⟩

/-- C38: for well-formed `M` and `X` over a ring with `X` inside `M` at the offset
`(r0, c0)`, `block_add` followed by `block_subtract` of the same block at the same offset
returns `M`, and so does `block_subtract` followed by `block_add`. -/
theorem block_subtract_undoes_block_add [Ring α] (M X : Matrix α) (hM : WF M) (hX : WF X)
    (r0 c0 : Nat) (hr : r0 + X.rows ≤ M.rows) (hc : c0 + X.cols ≤ M.cols) :
    (∃ M1, M.block_add (r0, c0) X = some M1 ∧ M1.block_subtract (r0, c0) X = some M) ∧
    (∃ M1, M.block_subtract (r0, c0) X = some M1 ∧ M1.block_add (r0, c0) X = some M) := by
  obtain ⟨r, c, g, hF, rfl⟩ := hM.cases
  obtain ⟨br, bc, h, _, rfl⟩ := hX.cases
  simp only [ofFn_rows, ofFn_cols] at hr hc
  constructor
  · refine ⟨_, block_add_ofFn g hF h hr hc, ?_⟩
    rw [block_subtract_ofFn _ hF h hr hc]
    refine congrArg some (ofFn_congr ?_)
    intro i j _ _
    by_cases hin : r0 ≤ i ∧ i < r0 + br ∧ c0 ≤ j ∧ j < c0 + bc
    · simp only [if_pos hin]
      exact add_sub_cancel_right _ _
    · simp only [if_neg hin]
  · refine ⟨_, block_subtract_ofFn g hF h hr hc, ?_⟩
    rw [block_add_ofFn _ hF h hr hc]
    refine congrArg some (ofFn_congr ?_)
    intro i j _ _
    by_cases hin : r0 ≤ i ∧ i < r0 + br ∧ c0 ≤ j ∧ j < c0 + bc
    · simp only [if_pos hin]
      exact sub_add_cancel _ _
    · simp only [if_neg hin]

theorem block_subtract_undoes_block_add_witness :
    (WF sample ∧ WF unitOne ∧ 1 + unitOne.rows ≤ sample.rows ∧
      0 + unitOne.cols ≤ sample.cols) ∧
    (∃ M1, sample.block_add (1, 0) unitOne = some M1 ∧
      M1.block_subtract (1, 0) unitOne = some sample) ∧
    (∃ M1, sample.block_subtract (1, 0) unitOne = some M1 ∧
      M1.block_add (1, 0) unitOne = some sample) :=
  ⟨⟨sample_WF, unitOne_WF, by decide, by decide⟩,
    block_subtract_undoes_block_add sample unitOne sample_WF unitOne_WF 1 0 (by decide)
      (by decide)⟩

/-- C37: for well-formed `A` and `B` over a commutative ring with `A.cols = B.rows` whose
product shape fits the size type, the transposed classic product of `A` and `B` is the
classic product of the transposed `B` and the transposed `A`; the transposed `A` is the
`cols x rows` matrix with entry `(j, i)` equal to `A[i, j]`. -/
theorem transposed_product [CommRing α] (A B : Matrix α) (hA : WF A) (hB : WF B)
    (hk : A.cols = B.rows) (hAB : Fits A.rows B.cols) :
    ∃ C Ct At Bt, multiply_classic A B = some C ∧ C.transposed = some Ct ∧
      A.transposed = some At ∧ B.transposed = some Bt ∧ multiply_classic Bt At = some Ct ∧
      At.rows = A.cols ∧ At.cols = A.rows ∧
      ∀ i j, i < A.rows → j < A.cols → entry At j i = entry A i j := by
  obtain ⟨r, c, a, hFa, rfl⟩ := hA.cases
  obtain ⟨c', q, b, hFb, rfl⟩ := hB.cases
  simp only [ofFn_rows, ofFn_cols] at hk hAB ⊢
  subst hk
  refine ⟨_, _, _, _, multiply_classic_ofFn a b hFa hFb hAB, transposed_ofFn _ hAB,
    transposed_ofFn a hFa, transposed_ofFn b hFb, ?_, rfl, rfl, ?_⟩
  · rw [multiply_classic_ofFn _ _ hFb.symm hFa.symm hAB.symm]
    refine congrArg some (ofFn_congr ?_)
    intro i j _ _
    rw [dotAcc_eq_sum, dotAcc_eq_sum]
    apply Finset.sum_congr rfl
    intro l _
    exact mul_comm _ _
  · intro i j hi hj
    rw [entry_ofFn _ hj hi, entry_ofFn _ hi hj]

theorem transposed_product_witness :
    (WF sample ∧ sample.cols = sample.rows ∧ Fits sample.rows sample.cols) ∧
    ∃ C Ct At Bt, multiply_classic sample sample = some C ∧ C.transposed = some Ct ∧
      sample.transposed = some At ∧ sample.transposed = some Bt ∧
      multiply_classic Bt At = some Ct ∧
      At.rows = sample.cols ∧ At.cols = sample.rows ∧
      ∀ i j, i < sample.rows → j < sample.cols → entry At j i = entry sample i j :=
  ⟨⟨sample_WF, rfl, by unfold Fits; decide⟩,
    transposed_product sample sample sample_WF sample_WF rfl (by unfold Fits; decide)⟩

theorem Polynomial.mul_length [Semiring α] (p q : Polynomial α) :
    (p * q).a.length = p.a.length + q.a.length - 1 := by
  show (p.mul q).a.length = _
  rw [Polynomial.mul_a, tab_length]

theorem Polynomial.mul_epsilon_coeff [Semiring α] (p : Polynomial α) (n : Nat) :
    (p * ⟨[0, 1]⟩).coeff (n + 1) = p.coeff n := by
  show (p.mul ⟨[0, 1]⟩).coeff (n + 1) = _
  rw [Polynomial.mul_coeff, Finset.sum_eq_single (1, n)]
  · show p.coeff n * (1 : α) = _
    rw [mul_one]
  · rintro ⟨x, y⟩ hx hne
    have hxy : x + y = n + 1 := Finset.mem_antidiagonal.1 hx
    have hx1 : x ≠ 1 := by
      intro h
      apply hne
      subst h
      congr 1
      omega
    show p.coeff y * (⟨[0, 1]⟩ : Polynomial α).coeff x = 0
    have : (⟨[0, 1]⟩ : Polynomial α).coeff x = 0 := by
      rcases x with _ | _ | x
      · rfl
      · exact absurd rfl hx1
      · rfl
    rw [this, mul_zero]
  · intro h
    exact absurd (Finset.mem_antidiagonal.2 (by omega)) h

theorem Polynomial.mul_epsilon_sq_coeff [Semiring α] (p : Polynomial α) (n : Nat) :
    (p * ⟨[0, 0, 1]⟩).coeff (n + 2) = p.coeff n := by
  show (p.mul ⟨[0, 0, 1]⟩).coeff (n + 2) = _
  rw [Polynomial.mul_coeff, Finset.sum_eq_single (2, n)]
  · show p.coeff n * (1 : α) = _
    rw [mul_one]
  · rintro ⟨x, y⟩ hx hne
    have hxy : x + y = n + 2 := Finset.mem_antidiagonal.1 hx
    have hx1 : x ≠ 2 := by
      intro h
      apply hne
      subst h
      congr 1
      omega
    show p.coeff y * (⟨[0, 0, 1]⟩ : Polynomial α).coeff x = 0
    have : (⟨[0, 0, 1]⟩ : Polynomial α).coeff x = 0 := by
      rcases x with _ | _ | _ | x
      · rfl
      · rfl
      · exact absurd rfl hx1
      · rfl
    rw [this, mul_zero]
  · intro h
    exact absurd (Finset.mem_antidiagonal.2 (by omega)) h

theorem Polynomial.mul_epsilon_drop [Semiring α] (p : Polynomial α) :
    (p * ⟨[0, 1]⟩).a.drop 1 = p.a := by
  rw [drop_eq_tab, Polynomial.mul_length]
  conv_rhs => rw [eq_tab_of_length p.a]
  show tab (p.a.length + 2 - 1 - 1) _ = _
  rw [show p.a.length + 2 - 1 - 1 = p.a.length by omega]
  apply tab_congr
  intro t _
  exact Polynomial.mul_epsilon_coeff p t

theorem Polynomial.mul_epsilon_sq_drop [Semiring α] (p : Polynomial α) (hp : p.a ≠ []) :
    (p * ⟨[0, 0, 1]⟩).a.drop 2 = p.a := by
  have hl : 1 ≤ p.a.length := by
    cases hpa : p.a with
    | nil => exact absurd hpa hp
    | cons x xs => simp
  rw [drop_eq_tab, Polynomial.mul_length]
  conv_rhs => rw [eq_tab_of_length p.a]
  show tab (p.a.length + 3 - 1 - 2) _ = _
  rw [show p.a.length + 3 - 1 - 2 = p.a.length by omega]
  apply tab_congr
  intro t _
  exact Polynomial.mul_epsilon_sq_coeff p t

/-- C39: for every polynomial `p` over a ring with at least one coefficient, with
`epsilon = [0, 1]` and `epsilon * epsilon = [0, 0, 1]`, the division of `p * epsilon` by
`epsilon` returns `p`, coefficient list included, and the division of
`p * (epsilon * epsilon)` by `epsilon * epsilon` returns `p`. -/
theorem div_inverts_mul [CommRing α] [DecidableEq α] (p : Polynomial α) (hp : p.a ≠ []) :
    (Polynomial.epsilon : Polynomial α) = ⟨[0, 1]⟩ ∧
    (Polynomial.epsilon * Polynomial.epsilon : Polynomial α) = ⟨[0, 0, 1]⟩ ∧
    (p * Polynomial.epsilon).div Polynomial.epsilon = some p ∧
    (p * (Polynomial.epsilon * Polynomial.epsilon)).div
      (Polynomial.epsilon * Polynomial.epsilon) = some p := by
  have hl : 1 ≤ p.a.length := by
    cases hpa : p.a with
    | nil => exact absurd hpa hp
    | cons x xs => simp
  have he : (Polynomial.epsilon : Polynomial α) = ⟨[0, 1]⟩ := rfl
  refine ⟨he, Polynomial.epsilon_sq, ?_, ?_⟩
  · rw [he, Polynomial.div_epsilon, Polynomial.mul_length]
    show (if p.a.length + 2 - 1 = 1 then _ else if p.a.length + 2 - 1 = 0 then _ else _) = _
    rw [if_neg (show ¬ p.a.length + 2 - 1 = 1 by omega),
      if_neg (show ¬ p.a.length + 2 - 1 = 0 by omega), Polynomial.mul_epsilon_drop]
  · rw [Polynomial.epsilon_sq, Polynomial.div_epsilon_sq, Polynomial.mul_length]
    show (if p.a.length + 3 - 1 ≤ 2 then _ else _) = _
    rw [if_neg (show ¬ p.a.length + 3 - 1 ≤ 2 by omega), Polynomial.mul_epsilon_sq_drop p hp]

theorem div_inverts_mul_witness :
    (⟨[6, 4]⟩ : Polynomial Int).a ≠ [] ∧
    (Polynomial.epsilon : Polynomial Int) = ⟨[0, 1]⟩ ∧
    (Polynomial.epsilon * Polynomial.epsilon : Polynomial Int) = ⟨[0, 0, 1]⟩ ∧
    ((⟨[6, 4]⟩ : Polynomial Int) * Polynomial.epsilon).div Polynomial.epsilon =
      some ⟨[6, 4]⟩ ∧
    ((⟨[6, 4]⟩ : Polynomial Int) * (Polynomial.epsilon * Polynomial.epsilon)).div
      (Polynomial.epsilon * Polynomial.epsilon) = some ⟨[6, 4]⟩ :=
  ⟨by decide, div_inverts_mul ⟨[6, 4]⟩ (by decide)⟩

theorem next_power_of_2_loop_fuel (value : Nat) :
    ∀ (fuel fuel' t n : Nat), 1 ≤ t → t ≤ 31 → 31 - t < fuel → 31 - t < fuel' →
      next_power_of_2_loop value fuel t n = next_power_of_2_loop value fuel' t n
  | 0, _, _, _, _, _, h, _ => absurd h (Nat.not_lt_zero _)
  | _ + 1, 0, _, _, _, _, _, h => absurd h (Nat.not_lt_zero _)
  | fuel + 1, fuel' + 1, t, n, h1, h2, h3, h4 => by
    unfold next_power_of_2_loop
    have e1 : u32 (t + 1) = t + 1 := u32_of_lt (by omega)
    rw [e1]
    by_cases hlt : n < value
    · rw [if_pos hlt, if_pos hlt]
      by_cases ht : t + 1 < 32
      · rw [if_pos ht, if_pos ht]
        exact next_power_of_2_loop_fuel value fuel fuel' (t + 1) _ (by omega) (by omega)
          (by omega) (by omega)
      · rw [if_neg ht, if_neg ht]
    · rw [if_neg hlt, if_neg hlt]

/-- C32: when the peeling assertion holds, the dimensions are 32-bit values and the block
factors divide the dimensions (`n` the rows of `A`, `k` its columns, `m` the columns of
`B`), `dynamic_peeling` returns `C` itself: none of the three corrections is made. `A` and
`B` are passed by `const` reference: in the embedding the function returns the new `C`
only. -/
theorem dynamic_peeling_noop [Zero α] [Add α] [Mul α] (A B C : Matrix α) (n k m : Nat)
    (hdim : A.rows = C.rows ∧ A.cols = B.rows ∧ B.cols = C.cols) (hn : 1 ≤ n) (hk : 1 ≤ k)
    (hm : 1 ≤ m) (hr : A.rows < 2 ^ 32) (hc : A.cols < 2 ^ 32) (hq : B.cols < 2 ^ 32)
    (dn : n ∣ A.rows) (dk : k ∣ A.cols) (dm : m ∣ B.cols) :
    dynamic_peeling A B C n k m = some C := by
  have hr' : A.rows < 4294967296 := by norm_num at hr; exact hr
  have hc' : A.cols < 4294967296 := by norm_num at hc; exact hc
  have hq' : B.cols < 4294967296 := by norm_num at hq; exact hq
  have z : ∀ a, a < 4294967296 → usub a a = 0 := by
    intro a ha
    rw [usub_eq ha (le_refl _), Nat.sub_self]
  unfold dynamic_peeling
  rw [if_pos hdim, if_neg (by omega)]
  simp only [Nat.div_mul_cancel dn, Nat.div_mul_cancel dk, Nat.div_mul_cancel dm,
    u32_of_lt hr', u32_of_lt hc', u32_of_lt hq', z _ hr', z _ hc', z _ hq']
  rfl

theorem dynamic_peeling_noop_witness :
    ((sample.rows = sample.rows ∧ sample.cols = sample.rows ∧ sample.cols = sample.cols) ∧
      1 ≤ 2 ∧ 1 ≤ 1 ∧ sample.rows < 2 ^ 32 ∧ sample.cols < 2 ^ 32 ∧ 2 ∣ sample.rows ∧
      1 ∣ sample.cols) ∧
    dynamic_peeling sample sample sample 2 1 2 = some sample :=
  ⟨⟨⟨rfl, rfl, rfl⟩, by decide, by decide, by decide, by decide, by decide, by decide⟩,
    dynamic_peeling_noop sample sample sample 2 1 2 ⟨rfl, rfl, rfl⟩ (by decide) (by decide)
      (by decide) (by decide) (by decide) (by decide) (by decide) (by decide) (by decide)⟩

/-- C31, the counterexample: for `A = B =` the 1 x 1 matrix `[1]` and `N = 65536`, the
matrix `zeros(N, N)` has an empty buffer, because `N * N` wraps to `0`, and `block_add` of
`A` at `(0, 0)` has no result, while the classic product of `A` and `B` is returned. -/
theorem padding_counterexample :
    max unitOne.rows (max unitOne.cols unitOne.cols) ≤ 65536 ∧
    (zeros 65536 65536 : Matrix Int).data = [] ∧
    (zeros 65536 65536 : Matrix Int).block_add (0, 0) unitOne = none ∧
    multiply_classic unitOne unitOne = some unitOne := by
  have h2 : (zeros 65536 65536 : Matrix Int) = ⟨65536, 65536, []⟩ := by decide
  refine ⟨by decide, by rw [h2], ?_, by decide⟩
  rw [h2]
  exact blockUpdate_empty _ 65536 65536 unitOne (by decide) (by decide)

/-- C31 (as amended): for well-formed `A` (n x k) and `B` (k x m) over a ring and every
`N >= max(n, k, m)` with `N * N < 2 ^ 32`: `block_add` of `A` and of `B` at `(0, 0)` on the
`N x N` zero matrix returns `A'` and `B'`, the classic product of `A'` and `B'` is returned,
and its subblock at `(0, 0)` of size `n x m` is the classic product of `A` and `B`. -/
theorem padding_commutes [Ring α] (A B : Matrix α) (N : Nat) (hA : WF A) (hB : WF B)
    (hk : A.cols = B.rows) (hN : max A.rows (max A.cols B.cols) ≤ N) (hNN : Fits N N) :
    ∃ A' B' P C, (zeros N N : Matrix α).block_add (0, 0) A = some A' ∧
      (zeros N N : Matrix α).block_add (0, 0) B = some B' ∧
      multiply_classic A' B' = some P ∧ P.subblock (0, 0) (A.rows, B.cols) = some C ∧
      multiply_classic A B = some C := by
  obtain ⟨r, c, a, hFa, rfl⟩ := hA.cases
  obtain ⟨c', q, b, hFb, rfl⟩ := hB.cases
  simp only [ofFn_rows, ofFn_cols] at hk hN ⊢
  subst hk
  have hr : r ≤ N := le_trans (le_max_left _ _) hN
  have hc : c ≤ N := le_trans (le_trans (le_max_left _ _) (le_max_right _ _)) hN
  have hq : q ≤ N := le_trans (le_trans (le_max_right _ _) (le_max_right _ _)) hN
  have hFc : Fits r q := hNN.sub hr hq
  have eA := block_add_ofFn (fun _ _ => (0 : α)) hNN a (show 0 + r ≤ N by omega)
    (show 0 + c ≤ N by omega)
  have eB := block_add_ofFn (fun _ _ => (0 : α)) hNN b (show 0 + c ≤ N by omega)
    (show 0 + q ≤ N by omega)
  rw [← zeros_eq hNN] at eA eB
  refine ⟨_, _, _, _, eA, eB, multiply_classic_ofFn _ _ hNN hNN hNN,
    subblock_ofFn _ hNN (show 0 + r ≤ N by omega) (show 0 + q ≤ N by omega), ?_⟩
  rw [multiply_classic_ofFn a b hFa hFb hFc]
  refine congrArg some (ofFn_congr ?_)
  intro i j hi hj
  rw [dotAcc_eq_sum, dotAcc_eq_sum, zero_add, sum_split _ hc]
  have tail : Finset.sum (Finset.range (N - c)) (fun l =>
      (if 0 ≤ 0 + i ∧ 0 + i < 0 + r ∧ 0 ≤ c + l ∧ c + l < 0 + c
          then (0 : α) + a (0 + i - 0) (c + l - 0) else 0) *
        (if 0 ≤ c + l ∧ c + l < 0 + c ∧ 0 ≤ 0 + j ∧ 0 + j < 0 + q
          then (0 : α) + b (c + l - 0) (0 + j - 0) else 0)) = 0 := by
    apply Finset.sum_eq_zero
    intro l _
    rw [if_neg (by omega), if_neg (by omega), zero_mul]
  rw [tail, add_zero]
  apply Finset.sum_congr rfl
  intro l hl
  have hl' := Finset.mem_range.1 hl
  rw [if_pos (by omega), if_pos (by omega)]
  simp only [Nat.zero_add, Nat.sub_zero, zero_add]

theorem padding_commutes_witness :
    (WF sample ∧ sample.cols = sample.rows ∧
      max sample.rows (max sample.cols sample.cols) ≤ 4 ∧ Fits 4 4) ∧
    ∃ A' B' P C, (zeros 4 4 : Matrix Int).block_add (0, 0) sample = some A' ∧
      (zeros 4 4 : Matrix Int).block_add (0, 0) sample = some B' ∧
      multiply_classic A' B' = some P ∧ P.subblock (0, 0) (sample.rows, sample.cols) = some C ∧
      multiply_classic sample sample = some C :=
  ⟨⟨sample_WF, rfl, by decide, by unfold Fits; decide⟩,
    padding_commutes sample sample 4 sample_WF sample_WF rfl (by decide)
      (by unfold Fits; decide)⟩


theorem foldr_horner [CommSemiring α] (t : α) : ∀ l : List α,
    l.foldr (fun c acc => c + t * acc) 0 =
      Finset.sum (Finset.range l.length) (fun n => l.getD n 0 * t ^ n)
  | [] => by simp
  | c :: l => by
    rw [List.foldr_cons, foldr_horner t l, List.length_cons, Finset.sum_range_succ',
      Finset.mul_sum, add_comm]
    have e1 : (c :: l).getD 0 0 * t ^ 0 = c := by simp
    have e2 : ∀ n, (c :: l).getD (n + 1) 0 * t ^ (n + 1) = t * (l.getD n 0 * t ^ n) := by
      intro n
      rw [List.getD_cons_succ, pow_succ]
      ring
    rw [e1]
    simp only [e2]

theorem Polynomial.evalAt_eq_sum [CommSemiring α] (p : Polynomial α) (t : α) (N : Nat)
    (hN : p.a.length ≤ N) :
    p.evalAt t = Finset.sum (Finset.range N) (fun n => p.coeff n * t ^ n) := by
  unfold Polynomial.evalAt
  rw [foldr_horner]
  apply Finset.sum_subset
  · intro n hn
    exact Finset.mem_range.2 (lt_of_lt_of_le (Finset.mem_range.1 hn) hN)
  · intro n _ hn
    have : p.a.length ≤ n := by
      have := Finset.mem_range.not.1 hn
      omega
    show p.coeff n * t ^ n = 0
    rw [Polynomial.coeff_of_le p n this, zero_mul]

theorem bini_exact_approx_aux [Field α] [DecidableEq α] {r c q : Nat} (a b : Nat → Nat → α)
    (hFa : Fits r c) (hFb : Fits c q) (hAB : Fits r q) (t : α) (ht : t ≠ 0) :
    ∃ p g, multiply_bini Polynomial.div (ofFn r c (fun i j => Polynomial.const (a i j)))
        (ofFn c q (fun i j => Polynomial.const (b i j))) Polynomial.epsilon =
          some (ofFn r q p) ∧
      multiply_bini (fun x y => some (x / y)) (ofFn r c a) (ofFn c q b) t = some (ofFn r q g) ∧
      ∀ i j, i < r → j < q → (p i j).evalAt t = g i j := by
  obtain ⟨S, hS⟩ := polySem_exists (α := α)
  obtain ⟨p, hp, ep⟩ := bini_fuel_sem S _ _ _ _ _ (polyEpsDiv S hS) (c + 1) r c q
    (fun i j => Polynomial.const (a i j)) (fun i j => Polynomial.const (b i j)) _ _
    (Nat.lt_succ_self _) hFa hFb hAB (fun _ _ => rfl) (fun _ _ => rfl)
  obtain ⟨g, hg, eg⟩ := bini_fuel_sem (Sem.self α) _ _ t t _ (fieldEpsDiv t ht) (c + 1)
    r c q a b a b (Nat.lt_succ_self _) hFa hFb hAB (fun _ _ => rfl) (fun _ _ => rfl)
  refine ⟨p, g, hp, hg, ?_⟩
  intro i j hi hj
  let m := biniSem (Polynomial.X : _) (c + 1) r c q (smap Polynomial.C a) (smap Polynomial.C b)
  -- the approximate result is the value of `m` at `t`
  have h2 := congrFun (congrFun (biniSem_map (Polynomial.evalRingHom t) Polynomial.X (c + 1)
    r c q (smap Polynomial.C a) (smap Polynomial.C b)) i) j
  have ea : smap (Polynomial.evalRingHom t) (smap Polynomial.C a) = a := by
    funext i j
    simp [smap]
  have eb : smap (Polynomial.evalRingHom t) (smap Polynomial.C b) = b := by
    funext i j
    simp [smap]
  have e3 : (Polynomial.evalRingHom t) Polynomial.X = t := by simp
  rw [ea, eb, e3] at h2
  have hg2 : g i j = Polynomial.eval t (m i j) :=
    ((eg i j hi hj).2).trans h2.symm
  -- the exact result has the coefficients of `m`
  have h3 := congrFun (congrFun (biniSem_map (Polynomial.coeToPowerSeries.ringHom)
    Polynomial.X (c + 1) r c q (smap Polynomial.C a) (smap Polynomial.C b)) i) j
  have ea' : smap (Polynomial.coeToPowerSeries.ringHom) (smap Polynomial.C a) =
      fun i l => S.den (Polynomial.const (a i l)) := by
    funext i l
    simp only [smap, Polynomial.coeToPowerSeries.ringHom_apply, Polynomial.coe_C, hS]
    ext n
    rw [PowerSeries.coeff_C, PowerSeries.coeff_mk]
    rcases n with _ | n
    · rfl
    · rfl
  have eb' : smap (Polynomial.coeToPowerSeries.ringHom) (smap Polynomial.C b) =
      fun l j => S.den (Polynomial.const (b l j)) := by
    funext l j
    simp only [smap, Polynomial.coeToPowerSeries.ringHom_apply, Polynomial.coe_C, hS]
    ext n
    rw [PowerSeries.coeff_C, PowerSeries.coeff_mk]
    rcases n with _ | n
    · rfl
    · rfl
  have e3' : (Polynomial.coeToPowerSeries.ringHom) (Polynomial.X : _) =
      (PowerSeries.X : PowerSeries α) := by
    simp
  rw [ea', eb', e3'] at h3
  have hc : ∀ n, (p i j).coeff n = (m i j).coeff n := by
    intro n
    have h4 : S.den (p i j) = Polynomial.coeToPowerSeries.ringHom (m i j) := by
      rw [(ep i j hi hj).2]
      exact h3.symm
    have h5 := congrArg (PowerSeries.coeff α n) h4
    rw [hS, PowerSeries.coeff_mk, Polynomial.coeToPowerSeries.ringHom_apply,
      Polynomial.coeff_coe] at h5
    exact h5
  rw [hg2, Polynomial.evalAt_eq_sum (p i j) t (max (p i j).a.length ((m i j).natDegree + 1))
      (le_max_left _ _),
    Polynomial.eval_eq_sum_range' (lt_of_lt_of_le (Nat.lt_succ_self _) (le_max_right _ _))]
  apply Finset.sum_congr rfl
  intro n _
  rw [hc]

/-- C40: for well-formed `A` and `B` over a field with `A.cols = B.rows` whose product
shape fits the size type and every `t != 0`: `multiply_bini` on the lifted matrices with
`epsilon = [0, 1]` returns a matrix `P` of polynomials, `multiply_bini(A, B, t)` with the
division of the field returns a matrix `C`, and `C` is `P` with every entry evaluated at
`epsilon = t`. -/
theorem exact_evaluates_to_approx [Field α] [DecidableEq α] (A B : Matrix α) (t : α)
    (hA : WF A) (hB : WF B) (hk : A.cols = B.rows) (hAB : Fits A.rows B.cols) (ht : t ≠ 0) :
    ∃ P C, multiply_bini Polynomial.div (Matrix.cast Polynomial.const A)
        (Matrix.cast Polynomial.const B) Polynomial.epsilon = some P ∧
      multiply_bini (fun x y => some (x / y)) A B t = some C ∧
      P.rows = A.rows ∧ P.cols = B.cols ∧ P.data.length = A.rows * B.cols ∧
      C = Matrix.cast (fun p => p.evalAt t) P := by
  obtain ⟨r, c, a, hFa, rfl⟩ := hA.cases
  obtain ⟨c', q, b, hFb, rfl⟩ := hB.cases
  simp only [ofFn_rows, ofFn_cols] at hk hAB ⊢
  subst hk
  obtain ⟨p, g, hp, hg, e⟩ := bini_exact_approx_aux a b hFa hFb hAB t ht
  rw [cast_ofFn, cast_ofFn]
  refine ⟨_, _, hp, hg, rfl, rfl, tab_length _ _, ?_⟩
  rw [cast_ofFn]
  exact ofFn_congr (fun i j hi hj => (e i j hi hj).symm)

theorem exact_evaluates_to_approx_witness :
    (WF sampleQ ∧ sampleQ.cols = sampleQ.rows ∧ Fits sampleQ.rows sampleQ.cols ∧
      (2 : ℚ) ≠ 0) ∧
    ∃ P C, multiply_bini Polynomial.div (Matrix.cast Polynomial.const sampleQ)
        (Matrix.cast Polynomial.const sampleQ) Polynomial.epsilon = some P ∧
      multiply_bini (fun x y => some (x / y)) sampleQ sampleQ 2 = some C ∧
      P.rows = sampleQ.rows ∧ P.cols = sampleQ.cols ∧
      P.data.length = sampleQ.rows * sampleQ.cols ∧
      C = Matrix.cast (fun p => p.evalAt 2) P :=
  ⟨⟨sampleQ_WF, rfl, by unfold Fits; decide, by norm_num⟩,
    exact_evaluates_to_approx sampleQ sampleQ 2 sampleQ_WF sampleQ_WF rfl
      (by unfold Fits; decide) (by norm_num)⟩


theorem subblock_within [Zero α] [Add α] {M S : Matrix α} {tl : Nat × Nat} {r c : Nat}
    (e : M.subblock tl (r, c) = some S) : Within r c S := by
  have := subblock_shape e
  exact ⟨le_of_eq this.1, le_of_eq this.2⟩

theorem add_owithin [Add α] {A : Matrix α} (B : Matrix α) {r c : Nat} (hA : Within r c A) :
    OWithin r c (A.add B) := by
  intro M e
  have := elementwise_shape e
  exact ⟨this.1 ▸ hA.1, this.2 ▸ hA.2⟩

theorem sub_owithin [Sub α] {A : Matrix α} (B : Matrix α) {r c : Nat} (hA : Within r c A) :
    OWithin r c (A.sub B) := by
  intro M e
  have := elementwise_shape e
  exact ⟨this.1 ▸ hA.1, this.2 ▸ hA.2⟩

theorem addTo_owithin [Add α] {x : Option (Matrix α)} (B : Matrix α) {r c : Nat}
    (hx : OWithin r c x) : OWithin r c (Matrix.addTo x B) := by
  intro M e
  unfold Matrix.addTo at e
  obtain ⟨X, hX, e2⟩ := andThen_eq_some e
  exact add_owithin B (hx X hX) M e2

theorem subFrom_owithin [Sub α] {x : Option (Matrix α)} (B : Matrix α) {r c : Nat}
    (hx : OWithin r c x) : OWithin r c (Matrix.subFrom x B) := by
  intro M e
  unfold Matrix.subFrom at e
  obtain ⟨X, hX, e2⟩ := andThen_eq_some e
  exact sub_owithin B (hx X hX) M e2

theorem smul_within [Mul α] (s : α) {M : Matrix α} {r c : Nat} (h : Within r c M) :
    Within r c (smul s M) := h

theorem transposed_within [Zero α] {M S : Matrix α} {r c : Nat} (e : M.transposed = some S)
    (h : Within r c M) : Within c r S := by
  unfold Matrix.transposed at e
  simp only [Option.map_eq_some'] at e
  obtain ⟨nd, _, rfl⟩ := e
  exact ⟨h.2, h.1⟩

theorem andThen_rec_congr2 {γ : Type} {rec rec' : Matrix α → Matrix α → Option (Matrix α)}
    {P1 P2 : Matrix α → Prop}
    (hrec : ∀ X Y : Matrix α, P1 X → P2 Y → rec X Y = rec' X Y)
    {X Y : Matrix α} {f g : Matrix α → Option γ} (hX : P1 X) (hY : P2 Y)
    (hfg : ∀ P, rec' X Y = some P → f P = g P) :
    andThen (rec X Y) f = andThen (rec' X Y) g := by
  rw [hrec X Y hX hY]
  exact andThen_congr hfg

theorem strassen_dynamic_body_congr [Zero α] [Add α] [Sub α] [Mul α]
    (rec rec' : Matrix α → Matrix α → Option (Matrix α)) (A B : Matrix α)
    (hrec : A.cols = B.rows → ¬ min A.rows (min A.cols B.cols) ≤ strassen_threshold →
      ∀ X Y : Matrix α, Within (A.rows / 2) (A.cols / 2) X →
        Within (B.rows / 2) (B.cols / 2) Y → rec X Y = rec' X Y) :
    strassen_dynamic_body rec A B = strassen_dynamic_body rec' A B := by
  unfold strassen_dynamic_body
  split
  · rename_i hk
    dsimp only
    split
    · rfl
    · rename_i hbig
      have hr := hrec hk hbig
      repeat (first
        | (refine andThen_rec_congr2 hr (by assumption) (by assumption) (fun P hP => ?_))
        | (refine andThen_congr (fun M hM => ?_)
           first
            | have sM := subblock_within hM
            | have sM := add_owithin _ (by assumption) M hM
            | have sM := sub_owithin _ (by assumption) M hM
            | skip))
      rfl
  · rfl

set_option maxRecDepth 100000 in
set_option maxHeartbeats 4000000 in
theorem laderman_body_congr [Zero α] [Add α] [Sub α] [Mul α]
    (rec rec' : Matrix α → Matrix α → Option (Matrix α)) (A B : Matrix α)
    (hrec : A.cols = B.rows → ¬ min A.rows (min A.cols B.cols) ≤ laderman_threshold →
      ∀ X Y : Matrix α, Within (A.rows / 3) (A.cols / 3) X →
        Within (B.rows / 3) (B.cols / 3) Y → rec X Y = rec' X Y) :
    laderman_body rec A B = laderman_body rec' A B := by
  unfold laderman_body
  split
  · rename_i hk
    dsimp only
    split
    · rfl
    · rename_i hbig
      have hr := hrec hk hbig
      repeat (first
        | (refine andThen_rec_congr2 hr (by assumption) (by assumption) (fun P hP => ?_))
        | (refine andThen_congr (fun M hM => ?_)
           first
            | have sM := subblock_within hM
            | have sM : Within (A.rows / 3) (A.cols / 3) M := by
                refine (?_ : OWithin _ _ _) M hM
                repeat (first
                  | exact add_owithin _ (by assumption)
                  | exact sub_owithin _ (by assumption)
                  | refine addTo_owithin _ ?_
                  | refine subFrom_owithin _ ?_)
            | have sM : Within (B.rows / 3) (B.cols / 3) M := by
                refine (?_ : OWithin _ _ _) M hM
                repeat (first
                  | exact add_owithin _ (by assumption)
                  | exact sub_owithin _ (by assumption)
                  | refine addTo_owithin _ ?_
                  | refine subFrom_owithin _ ?_)
            | skip))
      rfl
  · rfl

theorem bini_accumulate_congr [Zero α] [Add α] [Sub α] [Mul α]
    (rec rec' : Matrix α → Matrix α → Option (Matrix α)) (A B : Matrix α) (eps : α)
    (hrF : ∀ X Y : Matrix α, Within (A.rows / 2) (A.cols / 2) X →
        Within (B.rows / 2) (B.cols / 3) Y → rec X Y = rec' X Y)
    (hrG : ∀ X Y : Matrix α, Within (B.cols / 3) (B.rows / 2) X →
        Within (A.cols / 2) (A.rows / 2) Y → rec X Y = rec' X Y) :
    bini_accumulate rec A B eps = bini_accumulate rec' A B eps := by
  unfold bini_accumulate
  dsimp only
  repeat (first
    | (refine andThen_rec_congr2 hrF (by assumption) (by assumption) (fun P hP => ?_))
    | (refine andThen_rec_congr2 hrG (by assumption) (by assumption) (fun P hP => ?_))
    | (refine andThen_congr (fun M hM => ?_)
       first
        | have sM := subblock_within hM
        | have sM := add_owithin _ (by assumption) M hM
        | have sM := transposed_within hM (by assumption)
        | skip))
  rfl

theorem bini_body_congr [Zero α] [Add α] [Sub α] [Mul α] (sdiv : α → α → Option α)
    (rec rec' : Matrix α → Matrix α → Option (Matrix α)) (A B : Matrix α) (eps : α)
    (hrF : A.cols = B.rows → ¬ (A.rows ≤ bini_threshold ∨ A.cols ≤ bini_threshold ∨
        B.cols ≤ bini_threshold) →
      ∀ X Y : Matrix α, Within (A.rows / 2) (A.cols / 2) X →
        Within (B.rows / 2) (B.cols / 3) Y → rec X Y = rec' X Y)
    (hrG : A.cols = B.rows → ¬ (A.rows ≤ bini_threshold ∨ A.cols ≤ bini_threshold ∨
        B.cols ≤ bini_threshold) →
      ∀ X Y : Matrix α, Within (B.cols / 3) (B.rows / 2) X →
        Within (A.cols / 2) (A.rows / 2) Y → rec X Y = rec' X Y) :
    bini_body sdiv rec A B eps = bini_body sdiv rec' A B eps := by
  unfold bini_body
  split
  · rename_i hk
    split
    · rfl
    · split
      · rfl
      · rename_i hbig
        rw [bini_accumulate_congr rec rec' A B eps (hrF hk hbig) (hrG hk hbig)]
  · rfl

theorem forLoop_congr_fun {σ : Type} {body body' : Nat → σ → Option σ}
    (h : ∀ i s, body i s = body' i s) (n i0 : Nat) (s : σ) :
    forLoop body n i0 s = forLoop body' n i0 s := by
  have e : body = body' := funext fun i => funext fun s => h i s
  rw [e]

theorem grid9_within {r c : Nat} {M11 M12 M13 M21 M22 M23 M31 M32 M33 : Matrix α}
    (h11 : Within r c M11) (h12 : Within r c M12) (h13 : Within r c M13)
    (h21 : Within r c M21) (h22 : Within r c M22) (h23 : Within r c M23)
    (h31 : Within r c M31) (h32 : Within r c M32) (h33 : Within r c M33) (i j : Nat) :
    Within r c (grid9 M11 M12 M13 M21 M22 M23 M31 M32 M33 i j) := by
  have h0 : Within r c (Matrix.empty : Matrix α) := ⟨Nat.zero_le _, Nat.zero_le _⟩
  unfold grid9
  split <;> assumption

theorem schonhage_step_congr2 [Zero α] [Add α] [Sub α] [Mul α] (sdiv : α → α → Option α)
    (rec rec' : Matrix α → Matrix α → Option (Matrix α)) (eps eps2 : α)
    (A B : Nat → Nat → Matrix α) {h k k' w : Nat} (hA : ∀ i j, Within h k (A i j))
    (hB : ∀ i j, Within k' w (B i j))
    (hr : ∀ X Y : Matrix α, Within h k X → Within k' w Y → rec X Y = rec' X Y)
    (i : Nat) (W : Matrix α) (j : Nat) (C : Nat → Nat → Matrix α) :
    schonhage_step sdiv rec eps eps2 A B i W j C =
      schonhage_step sdiv rec' eps eps2 A B i W j C := by
  unfold schonhage_step
  by_cases hji : j = i
  · simp only [if_pos hji]
    refine congrArg (fun x => andThen x _) ?_
    repeat (first
      | (refine andThen_rec_congr2 hr (by assumption) (by assumption) (fun P hP => ?_))
      | (refine andThen_rec_congr2 hr (by assumption) (hB _ _) (fun P hP => ?_))
      | (refine andThen_congr (fun M hM => ?_)
         first
          | have sM := add_owithin _ (hA _ _) M hM
          | have sM := add_owithin _ (smul_within _ (hB _ _)) M hM
          | have sM := add_owithin _ (hB _ _) M hM
          | have sM := sub_owithin _ (hB _ _) M hM
          | skip))
    rfl
  · simp only [if_neg hji]
    refine congrArg (fun x => andThen x _) ?_
    repeat (first
      | (refine andThen_rec_congr2 hr (by assumption) (by assumption) (fun P hP => ?_))
      | (refine andThen_rec_congr2 hr (by assumption) (hB _ _) (fun P hP => ?_))
      | (refine andThen_congr (fun M hM => ?_)
         first
          | have sM := add_owithin _ (hA _ _) M hM
          | have sM := add_owithin _ (smul_within _ (hB _ _)) M hM
          | have sM := add_owithin _ (hB _ _) M hM
          | have sM := sub_owithin _ (hB _ _) M hM
          | skip))
    rfl

theorem schonhage_products_congr [Zero α] [Add α] [Sub α] [Mul α] (sdiv : α → α → Option α)
    (rec rec' : Matrix α → Matrix α → Option (Matrix α)) (A B : Matrix α) (eps : α)
    (hr : ∀ X Y : Matrix α, Within (A.rows / 3) (A.cols / 3) X →
        Within (B.rows / 3) (B.cols / 3) Y → rec X Y = rec' X Y) :
    schonhage_products sdiv rec A B eps = schonhage_products sdiv rec' A B eps := by
  unfold schonhage_products
  dsimp only
  refine andThen_congr (fun A11 h11 => ?_)
  refine andThen_congr (fun A12 h12 => ?_)
  refine andThen_congr (fun A13 h13 => ?_)
  refine andThen_congr (fun A21 h21 => ?_)
  refine andThen_congr (fun A22 h22 => ?_)
  refine andThen_congr (fun A23 h23 => ?_)
  refine andThen_congr (fun A31 h31 => ?_)
  refine andThen_congr (fun A32 h32 => ?_)
  refine andThen_congr (fun A33 h33 => ?_)
  refine andThen_congr (fun B11 g11 => ?_)
  refine andThen_congr (fun B12 g12 => ?_)
  refine andThen_congr (fun B13 g13 => ?_)
  refine andThen_congr (fun B21 g21 => ?_)
  refine andThen_congr (fun B22 g22 => ?_)
  refine andThen_congr (fun B23 g23 => ?_)
  refine andThen_congr (fun B31 g31 => ?_)
  refine andThen_congr (fun B32 g32 => ?_)
  refine andThen_congr (fun B33 g33 => ?_)
  have hA := grid9_within (subblock_within h11) (subblock_within h12) (subblock_within h13)
    (subblock_within h21) (subblock_within h22) (subblock_within h23)
    (subblock_within h31) (subblock_within h32) (subblock_within h33)
  have hB := grid9_within (subblock_within g11) (subblock_within g12) (subblock_within g13)
    (subblock_within g21) (subblock_within g22) (subblock_within g23)
    (subblock_within g31) (subblock_within g32) (subblock_within g33)
  apply forLoop_congr_fun
  intro i C
  refine andThen_congr (fun Y hY => ?_)
  have sY := add_owithin _ (hB 1 i) Y hY
  refine andThen_rec_congr2 hr (hA i 0) sY (fun W hW => ?_)
  apply forLoop_congr_fun
  intro j C
  exact schonhage_step_congr2 sdiv rec rec' eps (eps * eps) _ _ hA hB hr i W j C

theorem schonhage_body_congr [Zero α] [Add α] [Sub α] [Mul α] (sdiv : α → α → Option α)
    (rec rec' : Matrix α → Matrix α → Option (Matrix α)) (A B : Matrix α) (eps : α)
    (hr : A.cols = B.rows → ¬ (A.rows ≤ schonhage_threshold ∨ A.cols ≤ schonhage_threshold ∨
        B.cols ≤ schonhage_threshold) →
      ∀ X Y : Matrix α, Within (A.rows / 3) (A.cols / 3) X →
        Within (B.rows / 3) (B.cols / 3) Y → rec X Y = rec' X Y) :
    schonhage_body sdiv rec A B eps = schonhage_body sdiv rec' A B eps := by
  unfold schonhage_body
  split
  · rename_i hk
    split
    · rfl
    · split
      · rfl
      · rename_i hbig
        rw [schonhage_products_congr sdiv rec rec' A B eps (hr hk hbig)]
  · rfl


theorem andThen_eq_none {β γ : Type} {x : Option β} {f : β → Option γ}
    (h : ∀ a, f a = none) : andThen x f = none := by
  cases x with
  | none => rfl
  | some a => exact h a

theorem fuel_enough_of_depth {β : Type} (F : Nat → β) (m0 b0 : Nat) (hb : 1 < b0)
    (h : ∀ d f f', m0 < 201 * b0 ^ d → d < f → d < f' → F f = F f')
    (d f n : Nat) (hn : m0 ≤ n) (hD : m0 < 201 * b0 ^ d) (hf : d < f) : F f = F (n + 1) := by
  by_cases hdn : d ≤ n
  · exact h d f (n + 1) hD hf (by omega)
  · have h1 : n < b0 ^ n := Nat.lt_pow_self hb n
    exact h n f (n + 1) (by omega) (by omega) (by omega)

theorem strassen_dynamic_fuel_depth [Zero α] [Add α] [Sub α] [Mul α] :
    ∀ (d f f' : Nat) (A B : Matrix α), min A.rows (min A.cols B.cols) < 201 * 2 ^ d →
      d < f → d < f' →
      multiply_strassen_dynamic_fuel f A B = multiply_strassen_dynamic_fuel f' A B := by
  intro d
  induction d with
  | zero =>
    intro f f' A B hD hf hf'
    obtain ⟨g, rfl⟩ := Nat.exists_eq_succ_of_ne_zero (show f ≠ 0 by omega)
    obtain ⟨g', rfl⟩ := Nat.exists_eq_succ_of_ne_zero (show f' ≠ 0 by omega)
    show strassen_dynamic_body (multiply_strassen_dynamic_fuel g) A B =
      strassen_dynamic_body (multiply_strassen_dynamic_fuel g') A B
    refine strassen_dynamic_body_congr _ _ A B (fun hk hbig => ?_)
    exfalso
    simp only [strassen_threshold] at hbig
    omega
  | succ d ih =>
    intro f f' A B hD hf hf'
    obtain ⟨g, rfl⟩ := Nat.exists_eq_succ_of_ne_zero (show f ≠ 0 by omega)
    obtain ⟨g', rfl⟩ := Nat.exists_eq_succ_of_ne_zero (show f' ≠ 0 by omega)
    show strassen_dynamic_body (multiply_strassen_dynamic_fuel g) A B =
      strassen_dynamic_body (multiply_strassen_dynamic_fuel g') A B
    refine strassen_dynamic_body_congr _ _ A B (fun hk hbig X Y hX hY => ?_)
    refine ih g g' X Y ?_ (by omega) (by omega)
    obtain ⟨hX1, hX2⟩ := hX
    obtain ⟨hY1, hY2⟩ := hY
    rw [pow_succ] at hD
    omega

theorem laderman_fuel_depth [Zero α] [Add α] [Sub α] [Mul α] :
    ∀ (d f f' : Nat) (A B : Matrix α), min A.rows (min A.cols B.cols) < 201 * 3 ^ d →
      d < f → d < f' →
      multiply_laderman_fuel f A B = multiply_laderman_fuel f' A B := by
  intro d
  induction d with
  | zero =>
    intro f f' A B hD hf hf'
    obtain ⟨g, rfl⟩ := Nat.exists_eq_succ_of_ne_zero (show f ≠ 0 by omega)
    obtain ⟨g', rfl⟩ := Nat.exists_eq_succ_of_ne_zero (show f' ≠ 0 by omega)
    show laderman_body (multiply_laderman_fuel g) A B =
      laderman_body (multiply_laderman_fuel g') A B
    refine laderman_body_congr _ _ A B (fun hk hbig => ?_)
    exfalso
    simp only [laderman_threshold] at hbig
    omega
  | succ d ih =>
    intro f f' A B hD hf hf'
    obtain ⟨g, rfl⟩ := Nat.exists_eq_succ_of_ne_zero (show f ≠ 0 by omega)
    obtain ⟨g', rfl⟩ := Nat.exists_eq_succ_of_ne_zero (show f' ≠ 0 by omega)
    show laderman_body (multiply_laderman_fuel g) A B =
      laderman_body (multiply_laderman_fuel g') A B
    refine laderman_body_congr _ _ A B (fun hk hbig X Y hX hY => ?_)
    refine ih g g' X Y ?_ (by omega) (by omega)
    obtain ⟨hX1, hX2⟩ := hX
    obtain ⟨hY1, hY2⟩ := hY
    rw [pow_succ] at hD
    omega

theorem strassen_fuel_depth [Zero α] [Add α] [Sub α] [Mul α] :
    ∀ (d f f' : Nat) (A B : Matrix α), A.rows < 201 * 2 ^ d → d < f → d < f' →
      strassen_fuel f A B = strassen_fuel f' A B := by
  intro d
  induction d with
  | zero =>
    intro f f' A B hD hf hf'
    obtain ⟨g, rfl⟩ := Nat.exists_eq_succ_of_ne_zero (show f ≠ 0 by omega)
    obtain ⟨g', rfl⟩ := Nat.exists_eq_succ_of_ne_zero (show f' ≠ 0 by omega)
    show strassen_body (strassen_fuel g) A B = strassen_body (strassen_fuel g') A B
    refine strassen_body_congr _ _ A B (fun hbig => ?_)
    exfalso
    simp only [strassen_threshold] at hbig
    omega
  | succ d ih =>
    intro f f' A B hD hf hf'
    obtain ⟨g, rfl⟩ := Nat.exists_eq_succ_of_ne_zero (show f ≠ 0 by omega)
    obtain ⟨g', rfl⟩ := Nat.exists_eq_succ_of_ne_zero (show f' ≠ 0 by omega)
    show strassen_body (strassen_fuel g) A B = strassen_body (strassen_fuel g') A B
    refine strassen_body_congr _ _ A B (fun hbig X Y hX hY => ?_)
    refine ih g g' X Y ?_ (by omega) (by omega)
    obtain ⟨hX1, hX2⟩ := hX
    rw [pow_succ] at hD
    omega

theorem bini_fuel_depth [Zero α] [Add α] [Sub α] [Mul α] (sdiv : α → α → Option α) (eps : α) :
    ∀ (d f f' : Nat) (A B : Matrix α), min A.rows (min A.cols B.cols) < 201 * 2 ^ d →
      d < f → d < f' →
      multiply_bini_fuel sdiv f A B eps = multiply_bini_fuel sdiv f' A B eps := by
  intro d
  induction d with
  | zero =>
    intro f f' A B hD hf hf'
    obtain ⟨g, rfl⟩ := Nat.exists_eq_succ_of_ne_zero (show f ≠ 0 by omega)
    obtain ⟨g', rfl⟩ := Nat.exists_eq_succ_of_ne_zero (show f' ≠ 0 by omega)
    show bini_body sdiv (fun X Y => multiply_bini_fuel sdiv g X Y eps) A B eps =
      bini_body sdiv (fun X Y => multiply_bini_fuel sdiv g' X Y eps) A B eps
    refine bini_body_congr sdiv _ _ A B eps (fun hk hbig => ?_) (fun hk hbig => ?_) <;>
    · exfalso
      simp only [bini_threshold] at hbig
      omega
  | succ d ih =>
    intro f f' A B hD hf hf'
    obtain ⟨g, rfl⟩ := Nat.exists_eq_succ_of_ne_zero (show f ≠ 0 by omega)
    obtain ⟨g', rfl⟩ := Nat.exists_eq_succ_of_ne_zero (show f' ≠ 0 by omega)
    show bini_body sdiv (fun X Y => multiply_bini_fuel sdiv g X Y eps) A B eps =
      bini_body sdiv (fun X Y => multiply_bini_fuel sdiv g' X Y eps) A B eps
    rw [pow_succ] at hD
    refine bini_body_congr sdiv _ _ A B eps (fun hk hbig X Y hX hY => ?_)
      (fun hk hbig X Y hX hY => ?_)
    · refine ih g g' X Y ?_ (by omega) (by omega)
      obtain ⟨hX1, hX2⟩ := hX
      obtain ⟨hY1, hY2⟩ := hY
      omega
    · refine ih g g' X Y ?_ (by omega) (by omega)
      obtain ⟨hX1, hX2⟩ := hX
      obtain ⟨hY1, hY2⟩ := hY
      omega

theorem schonhage_fuel_depth [Zero α] [Add α] [Sub α] [Mul α] (sdiv : α → α → Option α)
    (eps : α) :
    ∀ (d f f' : Nat) (A B : Matrix α), min A.rows (min A.cols B.cols) < 201 * 3 ^ d →
      d < f → d < f' →
      multiply_schonhage_fuel sdiv f A B eps = multiply_schonhage_fuel sdiv f' A B eps := by
  intro d
  induction d with
  | zero =>
    intro f f' A B hD hf hf'
    obtain ⟨g, rfl⟩ := Nat.exists_eq_succ_of_ne_zero (show f ≠ 0 by omega)
    obtain ⟨g', rfl⟩ := Nat.exists_eq_succ_of_ne_zero (show f' ≠ 0 by omega)
    show schonhage_body sdiv (fun X Y => multiply_schonhage_fuel sdiv g X Y eps) A B eps =
      schonhage_body sdiv (fun X Y => multiply_schonhage_fuel sdiv g' X Y eps) A B eps
    refine schonhage_body_congr sdiv _ _ A B eps (fun hk hbig => ?_)
    exfalso
    simp only [schonhage_threshold] at hbig
    omega
  | succ d ih =>
    intro f f' A B hD hf hf'
    obtain ⟨g, rfl⟩ := Nat.exists_eq_succ_of_ne_zero (show f ≠ 0 by omega)
    obtain ⟨g', rfl⟩ := Nat.exists_eq_succ_of_ne_zero (show f' ≠ 0 by omega)
    show schonhage_body sdiv (fun X Y => multiply_schonhage_fuel sdiv g X Y eps) A B eps =
      schonhage_body sdiv (fun X Y => multiply_schonhage_fuel sdiv g' X Y eps) A B eps
    rw [pow_succ] at hD
    refine schonhage_body_congr sdiv _ _ A B eps (fun hk hbig X Y hX hY => ?_)
    refine ih g g' X Y ?_ (by omega) (by omega)
    obtain ⟨hX1, hX2⟩ := hX
    obtain ⟨hY1, hY2⟩ := hY
    omega

theorem strassen_dynamic_body_no_calls [Zero α] [Add α] [Sub α] [Mul α] (A B : Matrix α)
    (hbig : ¬ min A.rows (min A.cols B.cols) ≤ strassen_threshold) :
    strassen_dynamic_body (fun _ _ => none) A B = none := by
  unfold strassen_dynamic_body
  by_cases hk : A.cols = B.rows
  · rw [if_pos hk, if_neg hbig]
    dsimp only
    repeat (first | rfl | refine andThen_eq_none (fun M => ?_))
  · rw [if_neg hk]

theorem smallerOnly_eq {A B X Y : Matrix α} (recurse : Matrix α → Matrix α → Option (Matrix α))
    (h : max X.rows (max X.cols Y.cols) < max A.rows (max A.cols B.cols)) :
    smallerOnly A B recurse X Y = recurse X Y := by
  unfold smallerOnly
  rw [if_pos h]

/-- C33, the counterexample: the largest dimension of the 201 x 201 matrix of ones is
`D = 201` and `log_2 (201 / 200) < 1` (`201 < 200 * 2`), so the claimed bound allows no
nested recursive call; but the run of `multiply_strassen_dynamic` in which no nested call is
allowed has no result, while the real run has one: the frame of size 201 calls itself on
blocks of size 100. -/
theorem recursion_depth_counterexample :
    max intOnes201.rows (max intOnes201.cols intOnes201.cols) = 201 ∧ 201 < 200 * 2 ^ 1 ∧
    multiply_strassen_dynamic_fuel 1 intOnes201 intOnes201 = none ∧
    ∃ C, multiply_strassen_dynamic intOnes201 intOnes201 = some C := by
  refine ⟨by decide, by decide, ?_, ?_⟩
  · exact strassen_dynamic_body_no_calls intOnes201 intOnes201 (by decide)
  · obtain ⟨C, hC, _⟩ := strassen_dynamic_returns intOnes201 intOnes201
      (WF_filled _ (by unfold Fits; decide)) (WF_filled _ (by unfold Fits; decide)) rfl
      (by unfold Fits; decide)
    exact ⟨C, hC⟩

/-- C33 (as amended): for each recursive family the depth of nested recursive calls is at
most `d` as soon as `m < 201 * b ^ d`, where `m` is the smallest of the three dimensions of
the input (for `strassen`, the size of its square operands, which is the padded size) and
`b` is 2 for Strassen and Bini, 3 for Laderman and Schonhage: every run that allows `d`
nested levels or more (`f > d`) is the unrestricted run. With the largest dimension `D` in
place of `m`, the bound is the least `d` with `D <= 200 * b ^ d`, the logarithm rounded
up. -/
theorem recursion_depth_bound [Zero α] [Add α] [Sub α] [Mul α] (sdiv : α → α → Option α)
    (A B : Matrix α) (eps : α) (d f : Nat) (hf : d < f) :
    (A.rows < 201 * 2 ^ d → strassen_fuel f A B = strassen A B) ∧
    (min A.rows (min A.cols B.cols) < 201 * 2 ^ d →
      multiply_strassen_dynamic_fuel f A B = multiply_strassen_dynamic A B) ∧
    (min A.rows (min A.cols B.cols) < 201 * 2 ^ d →
      multiply_bini_fuel sdiv f A B eps = multiply_bini sdiv A B eps) ∧
    (min A.rows (min A.cols B.cols) < 201 * 3 ^ d →
      multiply_laderman_fuel f A B = multiply_laderman A B) ∧
    (min A.rows (min A.cols B.cols) < 201 * 3 ^ d →
      multiply_schonhage_fuel sdiv f A B eps = multiply_schonhage sdiv A B eps) := by
  refine ⟨fun hD => ?_, fun hD => ?_, fun hD => ?_, fun hD => ?_, fun hD => ?_⟩
  · exact fuel_enough_of_depth (fun f => strassen_fuel f A B) A.rows 2 (by norm_num)
      (fun d f f' h1 h2 h3 => strassen_fuel_depth d f f' A B h1 h2 h3) d f A.rows
      (le_refl _) hD hf
  · exact fuel_enough_of_depth (fun f => multiply_strassen_dynamic_fuel f A B) _ 2
      (by norm_num) (fun d f f' h1 h2 h3 => strassen_dynamic_fuel_depth d f f' A B h1 h2 h3)
      d f A.rows (min_le_left _ _) hD hf
  · exact fuel_enough_of_depth (fun f => multiply_bini_fuel sdiv f A B eps) _ 2
      (by norm_num) (fun d f f' h1 h2 h3 => bini_fuel_depth sdiv eps d f f' A B h1 h2 h3)
      d f A.cols (le_trans (min_le_right _ _) (min_le_left _ _)) hD hf
  · exact fuel_enough_of_depth (fun f => multiply_laderman_fuel f A B) _ 3
      (by norm_num) (fun d f f' h1 h2 h3 => laderman_fuel_depth d f f' A B h1 h2 h3)
      d f A.rows (min_le_left _ _) hD hf
  · exact fuel_enough_of_depth (fun f => multiply_schonhage_fuel sdiv f A B eps) _ 3
      (by norm_num)
      (fun d f f' h1 h2 h3 => schonhage_fuel_depth sdiv eps d f f' A B h1 h2 h3)
      d f A.rows (min_le_left _ _) hD hf

theorem recursion_depth_bound_witness :
    1 < 2 ∧ intOnes201.rows < 201 * 2 ^ 1 ∧
    min intOnes201.rows (min intOnes201.cols intOnes201.cols) < 201 * 3 ^ 1 ∧
    strassen_fuel 2 intOnes201 intOnes201 = strassen intOnes201 intOnes201 ∧
    multiply_strassen_dynamic_fuel 2 intOnes201 intOnes201 =
      multiply_strassen_dynamic intOnes201 intOnes201 ∧
    multiply_bini_fuel (fun x y => some (x / y)) 2 intOnes201 intOnes201 2 =
      multiply_bini (fun x y => some (x / y)) intOnes201 intOnes201 2 ∧
    multiply_laderman_fuel 2 intOnes201 intOnes201 =
      multiply_laderman intOnes201 intOnes201 ∧
    multiply_schonhage_fuel (fun x y => some (x / y)) 2 intOnes201 intOnes201 2 =
      multiply_schonhage (fun x y => some (x / y)) intOnes201 intOnes201 2 :=
  ⟨by decide, by decide, by decide,
    (recursion_depth_bound (fun x y => some (x / y)) intOnes201 intOnes201 2 1 2
      (by decide)).1 (by decide),
    (recursion_depth_bound (fun x y => some (x / y)) intOnes201 intOnes201 2 1 2
      (by decide)).2.1 (by decide),
    (recursion_depth_bound (fun x y => some (x / y)) intOnes201 intOnes201 2 1 2
      (by decide)).2.2.1 (by decide),
    (recursion_depth_bound (fun x y => some (x / y)) intOnes201 intOnes201 2 1 2
      (by decide)).2.2.2.1 (by decide),
    (recursion_depth_bound (fun x y => some (x / y)) intOnes201 intOnes201 2 1 2
      (by decide)).2.2.2.2 (by decide)⟩

/-- C34: in every recursive family each recursive call is on operands whose largest
dimension (rows of the left operand, shared inner dimension, columns of the right operand)
is strictly smaller than that of the calling frame: the body of `strassen`,
`multiply_strassen_dynamic`, `multiply_laderman`, `multiply_bini` (both halves) and
`multiply_schonhage` runs the same with any callee `recurse` and with the callee that has
no result outside the strictly smaller operands. The recursion therefore ends: every run
that allows more nested levels than the number of rows of `A` (for `multiply_bini`, of
columns) is the run of the function. -/
theorem recursive_calls_shrink [Zero α] [Add α] [Sub α] [Mul α] (sdiv : α → α → Option α)
    (recurse : Matrix α → Matrix α → Option (Matrix α)) (A B : Matrix α) (eps : α) (f : Nat) :
    strassen_body (smallerOnly A B recurse) A B = strassen_body recurse A B ∧
    strassen_dynamic_body (smallerOnly A B recurse) A B = strassen_dynamic_body recurse A B ∧
    laderman_body (smallerOnly A B recurse) A B = laderman_body recurse A B ∧
    bini_body sdiv (smallerOnly A B recurse) A B eps = bini_body sdiv recurse A B eps ∧
    schonhage_body sdiv (smallerOnly A B recurse) A B eps =
      schonhage_body sdiv recurse A B eps ∧
    (A.rows < f → strassen_fuel f A B = strassen A B ∧
      multiply_strassen_dynamic_fuel f A B = multiply_strassen_dynamic A B ∧
      multiply_laderman_fuel f A B = multiply_laderman A B ∧
      multiply_schonhage_fuel sdiv f A B eps = multiply_schonhage sdiv A B eps) ∧
    (A.cols < f → multiply_bini_fuel sdiv f A B eps = multiply_bini sdiv A B eps) := by
  have p2 : ∀ n : Nat, n < 201 * 2 ^ n := fun n => by
    have := @Nat.lt_pow_self 2 (by norm_num) n
    omega
  have p3 : ∀ n : Nat, n < 201 * 3 ^ n := fun n => by
    have := @Nat.lt_pow_self 3 (by norm_num) n
    omega
  refine ⟨?_, ?_, ?_, ?_, ?_, fun hf => ⟨?_, ?_, ?_, ?_⟩, fun hf => ?_⟩
  · refine strassen_body_congr _ _ A B (fun hbig X Y hX hY => smallerOnly_eq recurse ?_)
    obtain ⟨hX1, hX2⟩ := hX
    obtain ⟨hY1, hY2⟩ := hY
    simp only [strassen_threshold] at hbig
    omega
  · refine strassen_dynamic_body_congr _ _ A B
      (fun hk hbig X Y hX hY => smallerOnly_eq recurse ?_)
    obtain ⟨hX1, hX2⟩ := hX
    obtain ⟨hY1, hY2⟩ := hY
    simp only [strassen_threshold] at hbig
    omega
  · refine laderman_body_congr _ _ A B (fun hk hbig X Y hX hY => smallerOnly_eq recurse ?_)
    obtain ⟨hX1, hX2⟩ := hX
    obtain ⟨hY1, hY2⟩ := hY
    simp only [laderman_threshold] at hbig
    omega
  · refine bini_body_congr sdiv _ _ A B eps
      (fun hk hbig X Y hX hY => smallerOnly_eq recurse ?_)
      (fun hk hbig X Y hX hY => smallerOnly_eq recurse ?_) <;>
    · obtain ⟨hX1, hX2⟩ := hX
      obtain ⟨hY1, hY2⟩ := hY
      simp only [bini_threshold] at hbig
      omega
  · refine schonhage_body_congr sdiv _ _ A B eps
      (fun hk hbig X Y hX hY => smallerOnly_eq recurse ?_)
    obtain ⟨hX1, hX2⟩ := hX
    obtain ⟨hY1, hY2⟩ := hY
    simp only [schonhage_threshold] at hbig
    omega
  · exact strassen_fuel_depth A.rows f (A.rows + 1) A B (p2 _) hf (Nat.lt_succ_self _)
  · exact strassen_dynamic_fuel_depth A.rows f (A.rows + 1) A B
      (lt_of_le_of_lt (min_le_left _ _) (p2 _)) hf (Nat.lt_succ_self _)
  · exact laderman_fuel_depth A.rows f (A.rows + 1) A B
      (lt_of_le_of_lt (min_le_left _ _) (p3 _)) hf (Nat.lt_succ_self _)
  · exact schonhage_fuel_depth sdiv eps A.rows f (A.rows + 1) A B
      (lt_of_le_of_lt (min_le_left _ _) (p3 _)) hf (Nat.lt_succ_self _)
  · exact bini_fuel_depth sdiv eps A.cols f (A.cols + 1) A B
      (lt_of_le_of_lt (le_trans (min_le_right _ _) (min_le_left _ _)) (p2 _)) hf
      (Nat.lt_succ_self _)

theorem recursive_calls_shrink_witness :
    intOnes201.rows < 300 ∧ intOnes201.cols < 300 ∧
    strassen_dynamic_body (smallerOnly intOnes201 intOnes201 multiply_classic)
        intOnes201 intOnes201 =
      strassen_dynamic_body multiply_classic intOnes201 intOnes201 ∧
    multiply_laderman_fuel 300 intOnes201 intOnes201 =
      multiply_laderman intOnes201 intOnes201 ∧
    multiply_bini_fuel (fun x y => some (x / y)) 300 intOnes201 intOnes201 2 =
      multiply_bini (fun x y => some (x / y)) intOnes201 intOnes201 2 :=
  ⟨by decide, by decide,
    (recursive_calls_shrink (fun x y => some (x / y)) multiply_classic intOnes201 intOnes201
      2 300).2.1,
    ((recursive_calls_shrink (fun x y => some (x / y)) multiply_classic intOnes201 intOnes201
      2 300).2.2.2.2.2.1 (by decide)).2.2.1,
    (recursive_calls_shrink (fun x y => some (x / y)) multiply_classic intOnes201 intOnes201
      2 300).2.2.2.2.2.2 (by decide)⟩


theorem intOnes201_block {sr sc : Nat} (hr : sr + 67 ≤ 201) (hc : sc + 67 ≤ 201) :
    intOnes201.subblock (sr, sc) (67, 67) = some (ofFn 67 67 (fun _ _ => 0 + 1)) := by
  have hF : Fits 201 201 := by unfold Fits; decide
  unfold intOnes201
  rw [filled_eq _ hF, subblock_ofFn _ hF hr hc]

theorem laderman_P1_operand_ofFn [Add α] [Sub α] {h k : Nat}
    (a11 a12 a13 a21 a22 a32 a33 : Nat → Nat → α) :
    laderman_P1_operand (ofFn h k a11) (ofFn h k a12) (ofFn h k a13) (ofFn h k a21)
        (ofFn h k a22) (ofFn h k a32) (ofFn h k a33) =
      some (ofFn h k (fun i j =>
        a11 i j + a12 i j + a13 i j - a21 i j - a22 i j - a32 i j - a33 i j)) := by
  unfold laderman_P1_operand Matrix.subFrom Matrix.addTo
  simp only [add_ofFn, sub_ofFn, andThen_some]

theorem laderman_P1_documented_ofFn [Add α] [Sub α] {h k : Nat}
    (a11 a12 a13 a21 a22 a32 : Nat → Nat → α) :
    laderman_P1_documented (ofFn h k a11) (ofFn h k a12) (ofFn h k a13) (ofFn h k a21)
        (ofFn h k a22) (ofFn h k a32) =
      some (ofFn h k (fun i j =>
        a11 i j + a12 i j + a13 i j - a21 i j - a22 i j - a32 i j)) := by
  unfold laderman_P1_documented Matrix.subFrom Matrix.addTo
  simp only [add_ofFn, sub_ofFn, andThen_some]

/-- C35, the counterexample: for the 201 x 201 matrix of integer ones, whose dimensions are
above the threshold, the blocks `A11, A12, A13, A21, A22, A32, A33` are the 67 x 67 matrices
of ones; the operand of the first recursive call, as executed, is the matrix with every
entry `-1`, while the documented operand `A11 + A12 + A13 - A21 - A22 - A32` is the zero
matrix. -/
theorem laderman_P1_counterexample :
    ¬ min intOnes201.rows (min intOnes201.cols intOnes201.cols) ≤ laderman_threshold ∧
    ∃ A11 A12 A13 A21 A22 A32 A33 : Matrix Int,
      intOnes201.subblock (0, 0) (201 / 3, 201 / 3) = some A11 ∧
      intOnes201.subblock (0, 201 / 3) (201 / 3, 201 / 3) = some A12 ∧
      intOnes201.subblock (0, 2 * (201 / 3)) (201 / 3, 201 / 3) = some A13 ∧
      intOnes201.subblock (201 / 3, 0) (201 / 3, 201 / 3) = some A21 ∧
      intOnes201.subblock (201 / 3, 201 / 3) (201 / 3, 201 / 3) = some A22 ∧
      intOnes201.subblock (2 * (201 / 3), 201 / 3) (201 / 3, 201 / 3) = some A32 ∧
      intOnes201.subblock (2 * (201 / 3), 2 * (201 / 3)) (201 / 3, 201 / 3) = some A33 ∧
      laderman_P1_operand A11 A12 A13 A21 A22 A32 A33 = some (ofFn 67 67 (fun _ _ => -1)) ∧
      laderman_P1_documented A11 A12 A13 A21 A22 A32 = some (ofFn 67 67 (fun _ _ => 0)) ∧
      entry (ofFn 67 67 (fun _ _ => (-1 : Int))) 0 0 = -1 ∧
      entry (ofFn 67 67 (fun _ _ => (0 : Int))) 0 0 = 0 := by
  refine ⟨by decide, _, _, _, _, _, _, _,
    intOnes201_block (by decide) (by decide), intOnes201_block (by decide) (by decide),
    intOnes201_block (by decide) (by decide), intOnes201_block (by decide) (by decide),
    intOnes201_block (by decide) (by decide), intOnes201_block (by decide) (by decide),
    intOnes201_block (by decide) (by decide), ?_, ?_, ?_, ?_⟩
  · rw [laderman_P1_operand_ofFn]
    rfl
  · rw [laderman_P1_documented_ofFn]
    rfl
  · rw [entry_ofFn _ (by decide) (by decide)]
  · rw [entry_ofFn _ (by decide) (by decide)]


theorem next_power_of_2_run_result (value : Nat) :
    ∀ (count power n : Nat),
      next_power_of_2_loop value (count + 1) power n =
        (next_power_of_2_run value count power n).result
  | 0, power, n => by
    unfold next_power_of_2_loop next_power_of_2_run
    by_cases hlt : n < value
    · rw [if_pos hlt, if_pos hlt]
      unfold next_power_of_2_loop
      split <;> rfl
    · rw [if_neg hlt, if_neg hlt]
      rfl
  | count + 1, power, n => by
    unfold next_power_of_2_loop next_power_of_2_run
    by_cases hlt : n < value
    · rw [if_pos hlt, if_pos hlt]
      by_cases ha : u32 (power + 1) < 32
      · rw [if_pos ha, if_pos ha]
        exact next_power_of_2_run_result value count _ _
      · rw [if_neg ha, if_neg ha]
        rfl
    · rw [if_neg hlt, if_neg hlt]
      rfl

theorem next_power_of_2_run_small (value : Nat) (hv : value ≤ 2147483648) :
    ∀ (count t : Nat), 1 ≤ t → t ≤ 31 → 31 - t ≤ count →
      ∃ t', t ≤ t' ∧ t' ≤ 31 ∧
        next_power_of_2_run value count t (2 ^ t) = LoopEnd.returned (2 ^ t') ∧
        value ≤ 2 ^ t'
  | 0, t, h1, h2, h3 => by
    have ht : t = 31 := by omega
    subst ht
    refine ⟨31, le_refl _, le_refl _, ?_, by norm_num; exact hv⟩
    unfold next_power_of_2_run
    rw [if_neg (by norm_num; exact hv)]
  | count + 1, t, h1, h2, h3 => by
    unfold next_power_of_2_run
    by_cases hlt : 2 ^ t < value
    · have ht : t < 31 := by
        rcases Nat.lt_or_ge t 31 with h | h
        · exact h
        · have e : t = 31 := by omega
          subst e
          norm_num at hlt
          omega
      have e1 : u32 (t + 1) = t + 1 := u32_of_lt (by omega)
      have hp : 2 ^ (t + 1) ≤ 2 ^ 31 := Nat.pow_le_pow_right (by norm_num) (by omega)
      have e2 : u32 (2 ^ t * 2) = 2 ^ (t + 1) := by
        rw [← pow_succ]
        exact u32_of_lt (by norm_num at hp; omega)
      rw [if_pos hlt, e1, if_pos (by omega), e2]
      obtain ⟨t', a1, a2, a3, a4⟩ :=
        next_power_of_2_run_small value hv count (t + 1) (by omega) (by omega) (by omega)
      exact ⟨t', by omega, a2, a3, a4⟩
    · rw [if_neg hlt]
      exact ⟨t, le_refl _, h2, rfl, by omega⟩

theorem next_power_of_2_run_large (value : Nat) (hv : 2147483648 < value) :
    ∀ (count t : Nat), 1 ≤ t → t ≤ 31 → 31 - t < count →
      next_power_of_2_run value count t (2 ^ t) = LoopEnd.assertion_failed
  | 0, _, _, _, h => absurd h (Nat.not_lt_zero _)
  | count + 1, t, h1, h2, h3 => by
    unfold next_power_of_2_run
    have hp : 2 ^ t ≤ 2 ^ 31 := Nat.pow_le_pow_right (by norm_num) h2
    have hlt : 2 ^ t < value := by
      norm_num at hp
      omega
    have e1 : u32 (t + 1) = t + 1 := u32_of_lt (by omega)
    rw [if_pos hlt, e1]
    by_cases ht : t + 1 < 32
    · have hp2 : 2 ^ (t + 1) ≤ 2 ^ 31 := Nat.pow_le_pow_right (by norm_num) (by omega)
      have e2 : u32 (2 ^ t * 2) = 2 ^ (t + 1) := by
        rw [← pow_succ]
        exact u32_of_lt (by norm_num at hp2; omega)
      rw [if_pos ht, e2]
      exact next_power_of_2_run_large value hv count (t + 1) (by omega) (by omega) (by omega)
    · rw [if_neg ht]

/-- C36: for every `value`, the 32-bit ones included, with `power` and `n` updated modulo
`2 ^ 32`: the loop of `next_power_of_2` ends within 31 iterations, so it is not still
running after `count >= 31` of them; for `value <= 2 ^ 31` it ends by returning a power of
two `2 ^ t >= value` with `t <= 31`, which is below `2 ^ 32`; for `value > 2 ^ 31` it ends
by the failure of the assertion `power < 32`. The result of `next_power_of_2` is the value
returned by that run, and there is none when the assertion fails. -/
theorem next_power_of_2_total (value count : Nat) (hc : 31 ≤ count) :
    next_power_of_2_run value count 1 2 ≠ LoopEnd.still_running ∧
    next_power_of_2 value = (next_power_of_2_run value count 1 2).result ∧
    (value ≤ 2 ^ 31 → ∃ t, t ≤ 31 ∧
      next_power_of_2_run value count 1 2 = LoopEnd.returned (2 ^ t) ∧
      next_power_of_2 value = some (2 ^ t) ∧ value ≤ 2 ^ t ∧ 2 ^ t < 2 ^ 32) ∧
    (2 ^ 31 < value →
      next_power_of_2_run value count 1 2 = LoopEnd.assertion_failed ∧
      next_power_of_2 value = none) := by
  have hres : next_power_of_2 value = (next_power_of_2_run value count 1 2).result := by
    rw [← next_power_of_2_run_result]
    exact next_power_of_2_loop_fuel value 32 (count + 1) 1 2 (le_refl _) (by norm_num)
      (by norm_num) (by omega)
  have hsmall : value ≤ 2 ^ 31 → ∃ t, t ≤ 31 ∧
      next_power_of_2_run value count 1 2 = LoopEnd.returned (2 ^ t) ∧
      next_power_of_2 value = some (2 ^ t) ∧ value ≤ 2 ^ t ∧ 2 ^ t < 2 ^ 32 := by
    intro h
    obtain ⟨t, _, a2, a3, a4⟩ := next_power_of_2_run_small value (by norm_num at h; exact h)
      count 1 (le_refl _) (by norm_num) (by omega)
    have a3 : next_power_of_2_run value count 1 2 = LoopEnd.returned (2 ^ t) := a3
    refine ⟨t, a2, a3, ?_, a4, Nat.pow_lt_pow_right (by norm_num) (by omega)⟩
    rw [hres, a3]
    rfl
  have hlarge : 2 ^ 31 < value →
      next_power_of_2_run value count 1 2 = LoopEnd.assertion_failed ∧
      next_power_of_2 value = none := by
    intro h
    have a : next_power_of_2_run value count 1 2 = LoopEnd.assertion_failed :=
      next_power_of_2_run_large value (by norm_num at h; exact h) count 1 (le_refl _)
        (by norm_num) (by omega)
    refine ⟨a, ?_⟩
    rw [hres, a]
    rfl
  refine ⟨?_, hres, hsmall, hlarge⟩
  rcases Nat.lt_or_ge (2 ^ 31) value with h | h
  · rw [(hlarge h).1]
    exact fun e => LoopEnd.noConfusion e
  · obtain ⟨t, _, a, _⟩ := hsmall h
    rw [a]
    exact fun e => LoopEnd.noConfusion e

theorem next_power_of_2_total_witness :
    (31 ≤ 31 ∧ 100 ≤ 2 ^ 31 ∧ 2 ^ 31 < 2 ^ 31 + 1) ∧
    next_power_of_2_run 100 31 1 2 ≠ LoopEnd.still_running ∧
    (∃ t, t ≤ 31 ∧ next_power_of_2_run 100 31 1 2 = LoopEnd.returned (2 ^ t) ∧
      next_power_of_2 100 = some (2 ^ t) ∧ 100 ≤ 2 ^ t ∧ 2 ^ t < 2 ^ 32) ∧
    next_power_of_2_run (2 ^ 31 + 1) 31 1 2 = LoopEnd.assertion_failed ∧
    next_power_of_2 (2 ^ 31 + 1) = none :=
  ⟨⟨by norm_num, by norm_num, by norm_num⟩,
    (next_power_of_2_total 100 31 (le_refl _)).1,
    (next_power_of_2_total 100 31 (le_refl _)).2.2.1 (by norm_num),
    (next_power_of_2_total (2 ^ 31 + 1) 31 (le_refl _)).2.2.2 (by norm_num)⟩

theorem bini_exact_returns [CommRing α] [DecidableEq α] (A B : Matrix α)
    (hA : WF A) (hB : WF B) (hk : A.cols = B.rows) (hAB : Fits A.rows B.cols) :
    ∃ C, multiply_bini_exact A B = some C := by
  obtain ⟨r, c, a, hFa, rfl⟩ := hA.cases
  obtain ⟨c', q, b, hFb, rfl⟩ := hB.cases
  simp only [ofFn_rows, ofFn_cols] at hk hAB
  subst hk
  obtain ⟨S, hS⟩ := polySem_exists (α := α)
  have hE := polyEpsDiv S hS
  unfold multiply_bini_exact multiply_bini
  rw [cast_ofFn, cast_ofFn]
  simp only [ofFn_cols]
  obtain ⟨p, hp, ep⟩ := bini_fuel_sem S _ _ _ _ _ hE (c + 1) r c q
    (fun i j => Polynomial.const (a i j)) (fun i j => Polynomial.const (b i j)) _ _
    (Nat.lt_succ_self _) hFa hFb hAB (fun _ _ => rfl) (fun _ _ => rfl)
  rw [hp, andThen_some, polynomial_to_scalar_ofFn p (fun i j hi hj => (ep i j hi hj).1)]
  exact ⟨_, rfl⟩

theorem schonhage_exact_returns [CommRing α] [DecidableEq α] (A B : Matrix α)
    (hA : WF A) (hB : WF B) (hk : A.cols = B.rows) (hAB : Fits A.rows B.cols) :
    ∃ C, multiply_schonhage_exact A B = some C := by
  obtain ⟨r, c, a, hFa, rfl⟩ := hA.cases
  obtain ⟨c', q, b, hFb, rfl⟩ := hB.cases
  simp only [ofFn_rows, ofFn_cols] at hk hAB
  subst hk
  obtain ⟨S, hS⟩ := polySem_exists (α := α)
  have hE := polyEpsDiv S hS
  have hE2 := polyEps2Div S hS
  unfold multiply_schonhage_exact multiply_schonhage
  rw [cast_ofFn, cast_ofFn]
  simp only [ofFn_rows]
  obtain ⟨p, hp, ep⟩ := schonhage_fuel_sem S _ _ _ _ _ _ hE hE2 (r + 1) r c q
    (fun i j => Polynomial.const (a i j)) (fun i j => Polynomial.const (b i j)) _ _
    (Nat.lt_succ_self _) hFa hFb hAB (fun _ _ => rfl) (fun _ _ => rfl)
  rw [hp, andThen_some, polynomial_to_scalar_ofFn p (fun i j hi hj => (ep i j hi hj).1)]
  exact ⟨_, rfl⟩

/-- C28: inside `multiply_bini_exact` every division of polynomials that is executed has
the divisor `[0, 1]`, and inside `multiply_schonhage_exact` the divisor `[0, 1]` or
`[0, 0, 1]`, at every recursion level: for all `A` and `B`, the run is the same with any
division `sdiv` that agrees with the division of polynomials on these divisors, whatever
`sdiv` does on the other divisors (it may return a result where the assertion would fail).
On these two divisors the assertion holds: the division fails on no polynomial with at
least one coefficient. For well-formed compatible `A` and `B` whose product shape fits the
size type both functions return a result, so that no assertion fails in the run. -/
theorem exact_divisors [CommRing α] [DecidableEq α] (A B : Matrix α)
    (sdiv : Polynomial α → Polynomial α → Option (Polynomial α)) (p : Polynomial α) :
    ((∀ q, sdiv q ⟨[0, 1]⟩ = q.div ⟨[0, 1]⟩) →
      andThen (multiply_bini sdiv (Matrix.cast Polynomial.const A)
        (Matrix.cast Polynomial.const B) Polynomial.epsilon) polynomial_to_scalar =
      multiply_bini_exact A B) ∧
    ((∀ q, sdiv q ⟨[0, 1]⟩ = q.div ⟨[0, 1]⟩) →
      (∀ q, sdiv q ⟨[0, 0, 1]⟩ = q.div ⟨[0, 0, 1]⟩) →
      andThen (multiply_schonhage sdiv (Matrix.cast Polynomial.const A)
        (Matrix.cast Polynomial.const B) Polynomial.epsilon) polynomial_to_scalar =
      multiply_schonhage_exact A B) ∧
    (p.a ≠ [] → (p.div ⟨[0, 1]⟩).isSome = true ∧ (p.div ⟨[0, 0, 1]⟩).isSome = true) ∧
    (WF A → WF B → A.cols = B.rows → Fits A.rows B.cols →
      (∃ C, multiply_bini_exact A B = some C) ∧
      ∃ C, multiply_schonhage_exact A B = some C) := by
  have he : (Polynomial.epsilon : Polynomial α) = ⟨[0, 1]⟩ := rfl
  have he2 : (Polynomial.epsilon * Polynomial.epsilon : Polynomial α) = ⟨[0, 0, 1]⟩ :=
    Polynomial.epsilon_sq
  refine ⟨fun h1 => ?_, fun h1 h2 => ?_, fun hp => ?_, fun hA hB hk hAB => ?_⟩
  · exact congrArg (fun x => andThen x polynomial_to_scalar)
      (multiply_bini_fuel_congr sdiv Polynomial.div Polynomial.epsilon
        (fun q => by rw [he]; exact h1 q) _ _ _)
  · exact congrArg (fun x => andThen x polynomial_to_scalar)
      (multiply_schonhage_fuel_congr sdiv Polynomial.div Polynomial.epsilon
        (fun q => by rw [he]; exact h1 q) (fun q => by rw [he2]; exact h2 q) _ _ _)
  · exact ⟨(Polynomial.div_isSome p _ hp).2 (Or.inl rfl),
      (Polynomial.div_isSome p _ hp).2 (Or.inr rfl)⟩
  · exact ⟨bini_exact_returns A B hA hB hk hAB, schonhage_exact_returns A B hA hB hk hAB⟩

theorem exact_divisors_witness :
    (WF intOnes201 ∧ intOnes201.cols = intOnes201.rows ∧
      Fits intOnes201.rows intOnes201.cols ∧ (⟨[6, 4]⟩ : Polynomial Int).a ≠ []) ∧
    andThen (multiply_bini (fun q d => if d = ⟨[0, 1]⟩ then q.div d else some q)
        (Matrix.cast Polynomial.const intOnes201) (Matrix.cast Polynomial.const intOnes201)
        Polynomial.epsilon) polynomial_to_scalar =
      multiply_bini_exact intOnes201 intOnes201 ∧
    andThen (multiply_schonhage
        (fun q d => if d = ⟨[0, 1]⟩ ∨ d = ⟨[0, 0, 1]⟩ then q.div d else some q)
        (Matrix.cast Polynomial.const intOnes201) (Matrix.cast Polynomial.const intOnes201)
        Polynomial.epsilon) polynomial_to_scalar =
      multiply_schonhage_exact intOnes201 intOnes201 ∧
    (((⟨[6, 4]⟩ : Polynomial Int).div ⟨[0, 1]⟩).isSome = true ∧
      ((⟨[6, 4]⟩ : Polynomial Int).div ⟨[0, 0, 1]⟩).isSome = true) ∧
    (∃ C, multiply_bini_exact intOnes201 intOnes201 = some C) ∧
    ∃ C, multiply_schonhage_exact intOnes201 intOnes201 = some C :=
  ⟨⟨WF_filled _ (by unfold Fits; decide), rfl, by unfold Fits; decide, by decide⟩,
    (exact_divisors intOnes201 intOnes201
      (fun q d => if d = ⟨[0, 1]⟩ then q.div d else some q) ⟨[6, 4]⟩).1
      (fun _ => if_pos rfl),
    (exact_divisors intOnes201 intOnes201
      (fun q d => if d = ⟨[0, 1]⟩ ∨ d = ⟨[0, 0, 1]⟩ then q.div d else some q) ⟨[6, 4]⟩).2.1
      (fun _ => if_pos (Or.inl rfl)) (fun _ => if_pos (Or.inr rfl)),
    (exact_divisors intOnes201 intOnes201 Polynomial.div ⟨[6, 4]⟩).2.2.1 (by decide),
    (exact_divisors intOnes201 intOnes201 Polynomial.div ⟨[6, 4]⟩).2.2.2
      (WF_filled _ (by unfold Fits; decide)) (WF_filled _ (by unfold Fits; decide)) rfl
      (by unfold Fits; decide)⟩


theorem laderman_calls_same [Zero α] [Add α] [Sub α] [Mul α]
    (f : Matrix α → Matrix α → Option (Matrix α)) (A B : Matrix α) :
    laderman_body f A B = laderman_calls (fun _ => f) A B := rfl

theorem block_add_of_WF [Zero α] [Add α] {r c : Nat} (g : Nat → Nat → α) (hF : Fits r c)
    {P : Matrix α} (hP : WF P) {sr sc : Nat} (hr : sr + P.rows ≤ r) (hc : sc + P.cols ≤ c) :
    (ofFn r c g).block_add (sr, sc) P =
      some (ofFn r c (fun i j =>
        if sr ≤ i ∧ i < sr + P.rows ∧ sc ≤ j ∧ j < sc + P.cols
        then g i j + entry P (i - sr) (j - sc) else g i j)) := by
  have h := block_add_ofFn g hF (entry P) hr hc
  rw [← hP.eq_ofFn] at h
  exact h

theorem subblock_exists [Zero α] [Add α] {M : Matrix α} (hM : WF M) {sr sc br bc : Nat}
    (hr : sr + br ≤ M.rows) (hc : sc + bc ≤ M.cols) :
    ∃ S, M.subblock (sr, sc) (br, bc) = some S := by
  obtain ⟨r, c, f, hF, rfl⟩ := hM.cases
  exact ⟨_, subblock_ofFn f hF hr hc⟩

theorem Shaped.as_ofFn [Zero α] {h k : Nat} {M : Matrix α} (s : Shaped h k M) :
    M = ofFn h k (entry M) := by
  have e := s.1.eq_ofFn
  rw [s.2.1, s.2.2] at e
  exact e

theorem subblock_shaped [Zero α] [Add α] {M S : Matrix α} {tl : Nat × Nat} {h k : Nat}
    (hF : Fits h k) (e : M.subblock tl (h, k) = some S) : Shaped h k S :=
  ⟨subblock_wf M tl (h, k) hF S e, (subblock_shape e).1, (subblock_shape e).2⟩

theorem add_oshaped [Add α] {A : Matrix α} (B : Matrix α) {h k : Nat} (hA : Shaped h k A) :
    OShaped h k (A.add B) := fun M e =>
  ⟨elementwise_wf _ A B hA.1 M e, (elementwise_shape e).1.trans hA.2.1,
    (elementwise_shape e).2.trans hA.2.2⟩

theorem sub_oshaped [Sub α] {A : Matrix α} (B : Matrix α) {h k : Nat} (hA : Shaped h k A) :
    OShaped h k (A.sub B) := fun M e =>
  ⟨elementwise_wf _ A B hA.1 M e, (elementwise_shape e).1.trans hA.2.1,
    (elementwise_shape e).2.trans hA.2.2⟩

theorem addTo_oshaped [Add α] {x : Option (Matrix α)} (B : Matrix α) {h k : Nat}
    (hx : OShaped h k x) : OShaped h k (Matrix.addTo x B) := by
  intro M e
  unfold Matrix.addTo at e
  obtain ⟨X, hX, e2⟩ := andThen_eq_some e
  exact add_oshaped B (hx X hX) M e2

theorem subFrom_oshaped [Sub α] {x : Option (Matrix α)} (B : Matrix α) {h k : Nat}
    (hx : OShaped h k x) : OShaped h k (Matrix.subFrom x B) := by
  intro M e
  unfold Matrix.subFrom at e
  obtain ⟨X, hX, e2⟩ := andThen_eq_some e
  exact sub_oshaped B (hx X hX) M e2

theorem call_shaped {recurse : Matrix α → Matrix α → Option (Matrix α)}
    (hshape : ∀ X Y M, WF X → WF Y → Fits X.rows Y.cols → recurse X Y = some M →
      WF M ∧ M.rows = X.rows ∧ M.cols = Y.cols)
    {X Y P : Matrix α} {h k k' w : Nat} (hF : Fits h w) (hX : Shaped h k X)
    (hY : Shaped k' w Y) (e : recurse X Y = some P) : Shaped h w P := by
  obtain ⟨h1, h2, h3⟩ := hshape X Y P hX.1 hY.1 (by rw [hX.2.1, hY.2.2]; exact hF) e
  exact ⟨h1, h2.trans hX.2.1, h3.trans hY.2.2⟩

theorem oshifted_same [Add α] {r c : Nat} {e : Nat → Nat → α} {β : Type} {x : Option β}
    {F F' : β → Option (Matrix α)} (h : ∀ M, x = some M → OShiftedBy r c e (F M) (F' M)) :
    OShiftedBy r c e (andThen x F) (andThen x F') := by
  cases x with
  | none => exact Or.inl ⟨rfl, rfl⟩
  | some M => exact h M rfl

theorem oshifted_known [Add α] {r c : Nat} {e : Nat → Nat → α} {β : Type} {x : Option β}
    {M : β} {F F' : β → Option (Matrix α)} (hx : x = some M)
    (h : OShiftedBy r c e (F M) (F' M)) :
    OShiftedBy r c e (andThen x F) (andThen x F') := by
  rw [hx]
  exact h

theorem oshifted_first [Add α] {r c : Nat} {e : Nat → Nat → α} {β : Type} {x x' : Option β}
    {P P' : β} {F F' : β → Option (Matrix α)} (hx : x = some P) (hx' : x' = some P')
    (h : OShiftedBy r c e (F P) (F' P')) :
    OShiftedBy r c e (andThen x F) (andThen x' F') := by
  rw [hx, hx']
  exact h

theorem oshifted_call [Add α] {r c : Nat} {e : Nat → Nat → α} {β : Type} {x x' : Option β}
    {F F' : β → Option (Matrix α)} (hx : x' = x)
    (h : ∀ M, x = some M → OShiftedBy r c e (F M) (F' M)) :
    OShiftedBy r c e (andThen x F) (andThen x' F') := by
  rw [hx]
  exact oshifted_same h

theorem shifted_block_add [Ring α] {r c : Nat} {e : Nat → Nat → α} (hF : Fits r c)
    {C C' P : Matrix α} {sr sc h w : Nat} {F F' : Matrix α → Option (Matrix α)}
    (hT : ShiftedBy r c e C C') (hP : Shaped h w P) (hr : sr + h ≤ r) (hc : sc + w ≤ c)
    (hrest : ∀ D D', ShiftedBy r c e D D' → OShiftedBy r c e (F D) (F' D')) :
    OShiftedBy r c e (andThen (C.block_add (sr, sc) P) F)
      (andThen (C'.block_add (sr, sc) P) F') := by
  obtain ⟨f, rfl, rfl⟩ := hT
  obtain ⟨hP1, hP2, hP3⟩ := hP
  rw [block_add_of_WF f hF hP1 (by omega) (by omega),
    block_add_of_WF _ hF hP1 (by omega) (by omega), andThen_some, andThen_some]
  refine hrest _ _ ⟨_, rfl, ofFn_congr (fun i j _ _ => ?_)⟩
  split
  · exact add_right_comm _ _ _
  · rfl

theorem shifted_start [Ring α] {r c h w sc : Nat} (hF : Fits r c) {P P' : Matrix α}
    (hP : Shaped h w P) (hP' : Shaped h w P') (hr : h ≤ r) (hc : sc + w ≤ c)
    {F F' : Matrix α → Option (Matrix α)}
    (hrest : ∀ D D', ShiftedBy r c (fun i j =>
        if i < h ∧ sc ≤ j ∧ j < sc + w then entry P' i (j - sc) - entry P i (j - sc) else 0)
        D D' →
      OShiftedBy r c (fun i j =>
        if i < h ∧ sc ≤ j ∧ j < sc + w then entry P' i (j - sc) - entry P i (j - sc) else 0)
        (F D) (F' D')) :
    OShiftedBy r c (fun i j =>
        if i < h ∧ sc ≤ j ∧ j < sc + w then entry P' i (j - sc) - entry P i (j - sc) else 0)
      (andThen ((zeros r c : Matrix α).block_add (0, sc) P) F)
      (andThen ((zeros r c : Matrix α).block_add (0, sc) P') F') := by
  obtain ⟨hP1, hPr, hPc⟩ := hP
  obtain ⟨hP1', hPr', hPc'⟩ := hP'
  rw [zeros_eq hF, block_add_of_WF _ hF hP1 (by omega) (by omega),
    block_add_of_WF _ hF hP1' (by omega) (by omega), andThen_some, andThen_some]
  refine hrest _ _ ⟨_, rfl, ofFn_congr (fun i j _ _ => ?_)⟩
  rw [hPr, hPc, hPr', hPc']
  dsimp only
  by_cases hreg : i < h ∧ sc ≤ j ∧ j < sc + w
  · have h2 : 0 ≤ i ∧ i < 0 + h ∧ sc ≤ j ∧ j < sc + w := by omega
    simp only [if_pos hreg, if_pos h2, Nat.sub_zero]
    abel
  · have h2 : ¬ (0 ≤ i ∧ i < 0 + h ∧ sc ≤ j ∧ j < sc + w) := by omega
    simp only [if_neg hreg, if_neg h2]
    abel

theorem shifted_peeling [Ring α] (A B : Matrix α) (e : Nat → Nat → α) (hA : WF A)
    (hB : WF B) (hk : A.cols = B.rows) (hAB : Fits A.rows B.cols) {n k m : Nat}
    (hn : 1 ≤ n) (hk1 : 1 ≤ k) (hm : 1 ≤ m) {C C' : Matrix α}
    (hT : ShiftedBy A.rows B.cols e C C') :
    OShiftedBy A.rows B.cols e (dynamic_peeling A B C n k m)
      (dynamic_peeling A B C' n k m) := by
  obtain ⟨r, c, a, hFa, rfl⟩ := hA.cases
  obtain ⟨c', q, b, hFb, rfl⟩ := hB.cases
  simp only [ofFn_rows, ofFn_cols] at hk hAB hT ⊢
  subst hk
  obtain ⟨f, rfl, rfl⟩ := hT
  obtain ⟨c1, h1, e1⟩ := dynamic_peeling_den (Sem.self α) a b f hFa hFb hAB hn hk1 hm
  obtain ⟨c2, h2, e2⟩ := dynamic_peeling_den (Sem.self α) a b (fun i j => f i j + e i j)
    hFa hFb hAB hn hk1 hm
  refine Or.inr ⟨_, _, h1, h2, c1, rfl, ofFn_congr (fun i j hi hj => ?_)⟩
  have e1' := e1 i j hi hj
  have e2' := e2 i j hi hj
  simp only [Sem.self] at e1' e2'
  rw [e2', e1']
  abel


set_option maxRecDepth 100000 in
set_option maxHeartbeats 4000000 in
theorem laderman_calls_shift [Ring α]
    (recurse recurse' : Nat → Matrix α → Matrix α → Option (Matrix α)) (A B : Matrix α)
    (hA : WF A) (hB : WF B) (hk : A.cols = B.rows) (hAB : Fits A.rows B.cols)
    (hbig : ¬ min A.rows (min A.cols B.cols) ≤ laderman_threshold)
    (hshape : ∀ k X Y M, WF X → WF Y → Fits X.rows Y.cols → recurse k X Y = some M →
      WF M ∧ M.rows = X.rows ∧ M.cols = Y.cols)
    (hshape' : ∀ X Y M, WF X → WF Y → Fits X.rows Y.cols → recurse' 1 X Y = some M →
      WF M ∧ M.rows = X.rows ∧ M.cols = Y.cols)
    (hsame : ∀ k, k ≠ 1 → recurse' k = recurse k)
    (A11 A12 A13 A21 A22 A23 A31 A32 A33 B11 B12 B13 B21 B22 B23 B31 B32 B33 : Matrix α)
    (hA11 : A.subblock (0, 0) (A.rows / 3, A.cols / 3) = some A11)
    (hA12 : A.subblock (0, A.cols / 3) (A.rows / 3, A.cols / 3) = some A12)
    (hA13 : A.subblock (0, 2 * (A.cols / 3)) (A.rows / 3, A.cols / 3) = some A13)
    (hA21 : A.subblock (A.rows / 3, 0) (A.rows / 3, A.cols / 3) = some A21)
    (hA22 : A.subblock (A.rows / 3, A.cols / 3) (A.rows / 3, A.cols / 3) = some A22)
    (hA23 : A.subblock (A.rows / 3, 2 * (A.cols / 3)) (A.rows / 3, A.cols / 3) = some A23)
    (hA31 : A.subblock (2 * (A.rows / 3), 0) (A.rows / 3, A.cols / 3) = some A31)
    (hA32 : A.subblock (2 * (A.rows / 3), A.cols / 3) (A.rows / 3, A.cols / 3) = some A32)
    (hA33 : A.subblock (2 * (A.rows / 3), 2 * (A.cols / 3)) (A.rows / 3, A.cols / 3) = some A33)
    (hB11 : B.subblock (0, 0) (B.rows / 3, B.cols / 3) = some B11)
    (hB12 : B.subblock (0, B.cols / 3) (B.rows / 3, B.cols / 3) = some B12)
    (hB13 : B.subblock (0, 2 * (B.cols / 3)) (B.rows / 3, B.cols / 3) = some B13)
    (hB21 : B.subblock (B.rows / 3, 0) (B.rows / 3, B.cols / 3) = some B21)
    (hB22 : B.subblock (B.rows / 3, B.cols / 3) (B.rows / 3, B.cols / 3) = some B22)
    (hB23 : B.subblock (B.rows / 3, 2 * (B.cols / 3)) (B.rows / 3, B.cols / 3) = some B23)
    (hB31 : B.subblock (2 * (B.rows / 3), 0) (B.rows / 3, B.cols / 3) = some B31)
    (hB32 : B.subblock (2 * (B.rows / 3), B.cols / 3) (B.rows / 3, B.cols / 3) = some B32)
    (hB33 : B.subblock (2 * (B.rows / 3), 2 * (B.cols / 3)) (B.rows / 3, B.cols / 3) = some B33)
    (X : Matrix α) (hX : laderman_P1_operand A11 A12 A13 A21 A22 A32 A33 = some X)
    (P P' : Matrix α) (hP : recurse 1 X B22 = some P) (hP' : recurse' 1 X B22 = some P') :
    OShiftedBy A.rows B.cols (fun i j =>
        if i < A.rows / 3 ∧ B.cols / 3 ≤ j ∧ j < B.cols / 3 + B.cols / 3 then
          entry P' i (j - B.cols / 3) - entry P i (j - B.cols / 3)
        else 0)
      (laderman_calls recurse A B) (laderman_calls recurse' A B) := by
  have hb : 200 < A.rows ∧ 200 < A.cols ∧ 200 < B.cols := by
    simp only [laderman_threshold] at hbig
    omega
  have hFA3 : Fits (A.rows / 3) (A.cols / 3) :=
    hA.1.sub (Nat.div_le_self _ _) (Nat.div_le_self _ _)
  have hFB3 : Fits (B.rows / 3) (B.cols / 3) :=
    hB.1.sub (Nat.div_le_self _ _) (Nat.div_le_self _ _)
  have sA11 := subblock_shaped hFA3 hA11
  have sA12 := subblock_shaped hFA3 hA12
  have sA13 := subblock_shaped hFA3 hA13
  have sA21 := subblock_shaped hFA3 hA21
  have sA22 := subblock_shaped hFA3 hA22
  have sA23 := subblock_shaped hFA3 hA23
  have sA31 := subblock_shaped hFA3 hA31
  have sA32 := subblock_shaped hFA3 hA32
  have sA33 := subblock_shaped hFA3 hA33
  have sB11 := subblock_shaped hFB3 hB11
  have sB12 := subblock_shaped hFB3 hB12
  have sB13 := subblock_shaped hFB3 hB13
  have sB21 := subblock_shaped hFB3 hB21
  have sB22 := subblock_shaped hFB3 hB22
  have sB23 := subblock_shaped hFB3 hB23
  have sB31 := subblock_shaped hFB3 hB31
  have sB32 := subblock_shaped hFB3 hB32
  have sB33 := subblock_shaped hFB3 hB33
  have hX' := hX
  unfold laderman_P1_operand at hX'
  have sX : Shaped (A.rows / 3) (A.cols / 3) X := by
    refine (?_ : OShaped _ _ _) X hX'
    repeat (first
          | exact add_oshaped _ (by assumption)
          | exact sub_oshaped _ (by assumption)
          | refine addTo_oshaped _ ?_
          | refine subFrom_oshaped _ ?_)
  have hFP3 : Fits (A.rows / 3) (B.cols / 3) :=
    hAB.sub (Nat.div_le_self _ _) (Nat.div_le_self _ _)
  have sP := call_shaped (hshape 1) hFP3 sX sB22 hP
  have sP' := call_shaped hshape' hFP3 sX sB22 hP'
  unfold laderman_calls
  rw [if_pos hk, if_neg hbig, if_pos hk, if_neg hbig]
  dsimp only
  refine oshifted_known hA11 ?_
  refine oshifted_known hA12 ?_
  refine oshifted_known hA13 ?_
  refine oshifted_known hA21 ?_
  refine oshifted_known hA22 ?_
  refine oshifted_known hA23 ?_
  refine oshifted_known hA31 ?_
  refine oshifted_known hA32 ?_
  refine oshifted_known hA33 ?_
  refine oshifted_known hB11 ?_
  refine oshifted_known hB12 ?_
  refine oshifted_known hB13 ?_
  refine oshifted_known hB21 ?_
  refine oshifted_known hB22 ?_
  refine oshifted_known hB23 ?_
  refine oshifted_known hB31 ?_
  refine oshifted_known hB32 ?_
  refine oshifted_known hB33 ?_
  refine oshifted_known hX' ?_
  refine oshifted_first hP hP' ?_
  refine shifted_start hAB sP sP' (show A.rows / 3 ≤ A.rows by omega)
    (show B.cols / 3 + B.cols / 3 ≤ B.cols by omega) (fun D D' hT => ?_)
  repeat (first
    | (refine shifted_block_add hAB (by assumption) (by assumption) ?_ ?_ (fun D D' hT => ?_)
       · omega
       · omega)
    | (refine oshifted_call (by rw [hsame]; decide) (fun P hP => ?_)
       have sP := call_shaped (hshape _) hFP3 (by assumption) (by assumption) hP)
    | (refine oshifted_same (fun M hM => ?_)
       first
        | have sM : Shaped (A.rows / 3) (A.cols / 3) M := by
            refine (?_ : OShaped _ _ _) M hM
            repeat (first
          | exact add_oshaped _ (by assumption)
          | exact sub_oshaped _ (by assumption)
          | refine addTo_oshaped _ ?_
          | refine subFrom_oshaped _ ?_)
        | have sM : Shaped (B.rows / 3) (B.cols / 3) M := by
            refine (?_ : OShaped _ _ _) M hM
            repeat (first
          | exact add_oshaped _ (by assumption)
          | exact sub_oshaped _ (by assumption)
          | refine addTo_oshaped _ ?_
          | refine subFrom_oshaped _ ?_)))
  exact shifted_peeling A B _ hA hB hk hAB (show 1 ≤ 3 by norm_num) (show 1 ≤ 3 by norm_num)
    (show 1 ≤ 3 by norm_num) (by assumption)


/-- C35 (as amended): for well-formed compatible `A` and `B` over a ring with every
dimension above the threshold and a product shape that fits the size type, and numbered
callees that return well-formed matrices of the product shape. The first recursive call
of `multiply_laderman` is on the operand `A11 + A12 + A13 - A21 - A22 - A32 - A33` (the
inline comment omits `- A33`) and the block `B22`: without its result the body has none.
Its product `P1` is added to the block `C12` only: when the callee of the first call is
replaced by one that returns `P'` in place of `P`, every other call being the same, the
body returns the same matrix with `P' - P` added at the rows `[0, A.rows / 3)` and the
columns `[B.cols / 3, 2 * (B.cols / 3))`, and nothing changed anywhere else. The numbered
body with one callee at every number is `laderman_body`. -/
theorem laderman_first_product [Ring α]
    (recurse recurse' : Nat → Matrix α → Matrix α → Option (Matrix α)) (A B : Matrix α)
    (hA : WF A) (hB : WF B) (hk : A.cols = B.rows) (hAB : Fits A.rows B.cols)
    (hbig : ¬ min A.rows (min A.cols B.cols) ≤ laderman_threshold)
    (hshape : ∀ k X Y M, WF X → WF Y → Fits X.rows Y.cols → recurse k X Y = some M →
      WF M ∧ M.rows = X.rows ∧ M.cols = Y.cols)
    (hshape' : ∀ X Y M, WF X → WF Y → Fits X.rows Y.cols → recurse' 1 X Y = some M →
      WF M ∧ M.rows = X.rows ∧ M.cols = Y.cols)
    (hsame : ∀ k, k ≠ 1 → recurse' k = recurse k) :
    (∀ f, laderman_body f A B = laderman_calls (fun _ => f) A B) ∧
    ∃ A11 A12 A13 A21 A22 A32 A33 B22 X : Matrix α,
      A.subblock (0, 0) (A.rows / 3, A.cols / 3) = some A11 ∧
      A.subblock (0, A.cols / 3) (A.rows / 3, A.cols / 3) = some A12 ∧
      A.subblock (0, 2 * (A.cols / 3)) (A.rows / 3, A.cols / 3) = some A13 ∧
      A.subblock (A.rows / 3, 0) (A.rows / 3, A.cols / 3) = some A21 ∧
      A.subblock (A.rows / 3, A.cols / 3) (A.rows / 3, A.cols / 3) = some A22 ∧
      A.subblock (2 * (A.rows / 3), A.cols / 3) (A.rows / 3, A.cols / 3) = some A32 ∧
      A.subblock (2 * (A.rows / 3), 2 * (A.cols / 3)) (A.rows / 3, A.cols / 3) =
        some A33 ∧
      B.subblock (B.rows / 3, B.cols / 3) (B.rows / 3, B.cols / 3) = some B22 ∧
      laderman_P1_operand A11 A12 A13 A21 A22 A32 A33 = some X ∧
      (recurse 1 X B22 = none → laderman_calls recurse A B = none) ∧
      ∀ P P' : Matrix α, recurse 1 X B22 = some P → recurse' 1 X B22 = some P' →
        (laderman_calls recurse A B = none → laderman_calls recurse' A B = none) ∧
        ∀ C, laderman_calls recurse A B = some C →
          ∃ f : Nat → Nat → α, C = ofFn A.rows B.cols f ∧
            laderman_calls recurse' A B = some (ofFn A.rows B.cols (fun i j => f i j +
              if i < A.rows / 3 ∧ B.cols / 3 ≤ j ∧ j < B.cols / 3 + B.cols / 3 then
                entry P' i (j - B.cols / 3) - entry P i (j - B.cols / 3)
              else 0)) := by
  refine ⟨fun f => laderman_calls_same f A B, ?_⟩
  have hb : 200 < A.rows ∧ 200 < A.cols ∧ 200 < B.cols := by
    simp only [laderman_threshold] at hbig
    omega
  have hb2 : 200 < B.rows := by omega
  have hFA3 : Fits (A.rows / 3) (A.cols / 3) :=
    hA.1.sub (Nat.div_le_self _ _) (Nat.div_le_self _ _)
  obtain ⟨A11, hA11⟩ := subblock_exists hA (show 0 + A.rows / 3 ≤ A.rows by omega)
    (show 0 + A.cols / 3 ≤ A.cols by omega)
  obtain ⟨A12, hA12⟩ := subblock_exists hA (show 0 + A.rows / 3 ≤ A.rows by omega)
    (show A.cols / 3 + A.cols / 3 ≤ A.cols by omega)
  obtain ⟨A13, hA13⟩ := subblock_exists hA (show 0 + A.rows / 3 ≤ A.rows by omega)
    (show 2 * (A.cols / 3) + A.cols / 3 ≤ A.cols by omega)
  obtain ⟨A21, hA21⟩ := subblock_exists hA (show A.rows / 3 + A.rows / 3 ≤ A.rows by omega)
    (show 0 + A.cols / 3 ≤ A.cols by omega)
  obtain ⟨A22, hA22⟩ := subblock_exists hA (show A.rows / 3 + A.rows / 3 ≤ A.rows by omega)
    (show A.cols / 3 + A.cols / 3 ≤ A.cols by omega)
  obtain ⟨A23, hA23⟩ := subblock_exists hA (show A.rows / 3 + A.rows / 3 ≤ A.rows by omega)
    (show 2 * (A.cols / 3) + A.cols / 3 ≤ A.cols by omega)
  obtain ⟨A31, hA31⟩ := subblock_exists hA (show 2 * (A.rows / 3) + A.rows / 3 ≤ A.rows by omega)
    (show 0 + A.cols / 3 ≤ A.cols by omega)
  obtain ⟨A32, hA32⟩ := subblock_exists hA (show 2 * (A.rows / 3) + A.rows / 3 ≤ A.rows by omega)
    (show A.cols / 3 + A.cols / 3 ≤ A.cols by omega)
  obtain ⟨A33, hA33⟩ := subblock_exists hA (show 2 * (A.rows / 3) + A.rows / 3 ≤ A.rows by omega)
    (show 2 * (A.cols / 3) + A.cols / 3 ≤ A.cols by omega)
  obtain ⟨B11, hB11⟩ := subblock_exists hB (show 0 + B.rows / 3 ≤ B.rows by omega)
    (show 0 + B.cols / 3 ≤ B.cols by omega)
  obtain ⟨B12, hB12⟩ := subblock_exists hB (show 0 + B.rows / 3 ≤ B.rows by omega)
    (show B.cols / 3 + B.cols / 3 ≤ B.cols by omega)
  obtain ⟨B13, hB13⟩ := subblock_exists hB (show 0 + B.rows / 3 ≤ B.rows by omega)
    (show 2 * (B.cols / 3) + B.cols / 3 ≤ B.cols by omega)
  obtain ⟨B21, hB21⟩ := subblock_exists hB (show B.rows / 3 + B.rows / 3 ≤ B.rows by omega)
    (show 0 + B.cols / 3 ≤ B.cols by omega)
  obtain ⟨B22, hB22⟩ := subblock_exists hB (show B.rows / 3 + B.rows / 3 ≤ B.rows by omega)
    (show B.cols / 3 + B.cols / 3 ≤ B.cols by omega)
  obtain ⟨B23, hB23⟩ := subblock_exists hB (show B.rows / 3 + B.rows / 3 ≤ B.rows by omega)
    (show 2 * (B.cols / 3) + B.cols / 3 ≤ B.cols by omega)
  obtain ⟨B31, hB31⟩ := subblock_exists hB (show 2 * (B.rows / 3) + B.rows / 3 ≤ B.rows by omega)
    (show 0 + B.cols / 3 ≤ B.cols by omega)
  obtain ⟨B32, hB32⟩ := subblock_exists hB (show 2 * (B.rows / 3) + B.rows / 3 ≤ B.rows by omega)
    (show B.cols / 3 + B.cols / 3 ≤ B.cols by omega)
  obtain ⟨B33, hB33⟩ := subblock_exists hB (show 2 * (B.rows / 3) + B.rows / 3 ≤ B.rows by omega)
    (show 2 * (B.cols / 3) + B.cols / 3 ≤ B.cols by omega)
  have sA11 := subblock_shaped hFA3 hA11
  have sA12 := subblock_shaped hFA3 hA12
  have sA13 := subblock_shaped hFA3 hA13
  have sA21 := subblock_shaped hFA3 hA21
  have sA22 := subblock_shaped hFA3 hA22
  have sA32 := subblock_shaped hFA3 hA32
  have sA33 := subblock_shaped hFA3 hA33
  obtain ⟨X, hX⟩ : ∃ X, laderman_P1_operand A11 A12 A13 A21 A22 A32 A33 = some X := by
    rw [sA11.as_ofFn, sA12.as_ofFn, sA13.as_ofFn, sA21.as_ofFn, sA22.as_ofFn, sA32.as_ofFn,
      sA33.as_ofFn]
    exact ⟨_, laderman_P1_operand_ofFn _ _ _ _ _ _ _⟩
  refine ⟨A11, A12, A13, A21, A22, A32, A33, B22, X, hA11, hA12, hA13, hA21, hA22, hA32,
    hA33, hB22, hX, ?_, ?_⟩
  · intro hnone
    have hX' := hX
    unfold laderman_P1_operand at hX'
    unfold laderman_calls
    rw [if_pos hk, if_neg hbig]
    dsimp only
    rw [hA11, andThen_some, hA12, andThen_some, hA13, andThen_some, hA21, andThen_some, hA22, andThen_some, hA23, andThen_some, hA31, andThen_some, hA32, andThen_some, hA33, andThen_some, hB11, andThen_some, hB12, andThen_some, hB13, andThen_some, hB21, andThen_some, hB22, andThen_some, hB23, andThen_some, hB31, andThen_some, hB32, andThen_some, hB33, andThen_some, hX', andThen_some, hnone]
    rfl
  · intro P P' hP hP'
    have hO := laderman_calls_shift recurse recurse' A B hA hB hk hAB hbig hshape hshape'
      hsame A11 A12 A13 A21 A22 A23 A31 A32 A33 B11 B12 B13 B21 B22 B23 B31 B32 B33
      hA11 hA12 hA13 hA21 hA22 hA23 hA31 hA32 hA33 hB11 hB12 hB13 hB21 hB22 hB23 hB31 hB32 hB33 X hX P P' hP hP'
    rcases hO with ⟨h1, h2⟩ | ⟨C, C', h1, h2, f, rfl, rfl⟩
    · exact ⟨fun _ => h2, fun C hC => by rw [h1] at hC; cases hC⟩
    · refine ⟨fun hn => (by rw [h1] at hn; cases hn), fun C hC => ?_⟩
      rw [h1] at hC
      exact ⟨f, (Option.some.inj hC).symm, h2⟩

theorem multiply_classic_shaped [Zero α] [Add α] [Mul α] (X Y M : Matrix α) (hX : WF X)
    (hY : WF Y) (hF : Fits X.rows Y.cols) (e : multiply_classic X Y = some M) :
    WF M ∧ M.rows = X.rows ∧ M.cols = Y.cols := by
  obtain ⟨hk, _⟩ := multiply_classic_some_fits hX hY e
  obtain ⟨C, hC, hwf, hr, hc⟩ := multiply_classic_wf X Y hX hY hk hF
  rw [hC] at e
  rw [← Option.some.inj e]
  exact ⟨hwf, hr, hc⟩

theorem classic_calls_returns :
    ∃ C, laderman_calls classic_calls intOnes201 intOnes201 = some C := by
  have hF : Fits 201 201 := by unfold Fits; decide
  have e : laderman_calls classic_calls intOnes201 intOnes201 =
      laderman_body (fun X Y => multiply_classic X Y) intOnes201 intOnes201 :=
    (laderman_calls_same _ _ _).symm
  rw [e]
  unfold intOnes201
  rw [filled_eq _ hF]
  obtain ⟨p, hp, _⟩ := laderman_body_den (Sem.self Int) (fun X Y => multiply_classic X Y)
    (fun _ _ => 1) (fun _ _ => 1) hF hF hF (fun _ a' b' => by
      obtain ⟨p, hp, ep⟩ := multiply_classic_den (Sem.self Int) a' b'
        (show Fits (201 / 3) (201 / 3) by unfold Fits; decide)
        (show Fits (201 / 3) (201 / 3) by unfold Fits; decide)
        (show Fits (201 / 3) (201 / 3) by unfold Fits; decide)
      exact ⟨p, hp, fun i j _ _ => ep i j⟩)
  exact ⟨_, hp⟩

theorem laderman_first_product_witness :
    (WF intOnes201 ∧ intOnes201.cols = intOnes201.rows ∧
      Fits intOnes201.rows intOnes201.cols ∧
      ¬ min intOnes201.rows (min intOnes201.cols intOnes201.cols) ≤ laderman_threshold ∧
      ∀ k, k ≠ 1 → classic_calls_doubled k = classic_calls k) ∧
    (∃ C, laderman_calls classic_calls intOnes201 intOnes201 = some C) ∧
    ∃ X B22 : Matrix Int, ∀ P P' : Matrix Int, classic_calls 1 X B22 = some P →
      classic_calls_doubled 1 X B22 = some P' →
      ∀ C, laderman_calls classic_calls intOnes201 intOnes201 = some C →
        ∃ f : Nat → Nat → Int, C = ofFn 201 201 f ∧
          laderman_calls classic_calls_doubled intOnes201 intOnes201 =
            some (ofFn 201 201 (fun i j => f i j +
              if i < 67 ∧ 67 ≤ j ∧ j < 67 + 67 then entry P' i (j - 67) - entry P i (j - 67)
              else 0)) := by
  have hW : WF intOnes201 := WF_filled _ (by unfold Fits; decide)
  have hF : Fits intOnes201.rows intOnes201.cols := by unfold Fits; decide
  have hsame : ∀ k, k ≠ 1 → classic_calls_doubled k = classic_calls k := by
    intro k hk
    funext X Y
    unfold classic_calls_doubled classic_calls
    rw [if_neg hk]
  obtain ⟨_, A11, A12, A13, A21, A22, A32, A33, B22, X, _, _, _, _, _, _, _, _, _, _, hmain⟩ :=
    laderman_first_product classic_calls classic_calls_doubled intOnes201 intOnes201 hW hW
      rfl hF (by decide)
      (fun _ X Y M hX hY hFXY e => multiply_classic_shaped X Y M hX hY hFXY e)
      (fun X Y M hX hY hFXY e => by
        unfold classic_calls_doubled at e
        rw [if_pos rfl] at e
        obtain ⟨M0, h0, h1⟩ := andThen_eq_some e
        obtain ⟨w1, w2, w3⟩ := multiply_classic_shaped X Y M0 hX hY hFXY h0
        rw [← Option.some.inj h1]
        exact ⟨smul_wf 2 M0 w1, w2, w3⟩)
      hsame
  exact ⟨⟨hW, rfl, hF, by decide, hsame⟩, classic_calls_returns, X, B22,
    fun P P' hP hP' C hC => (hmain P P' hP hP').2 C hC⟩

end FMM
